import Mathlib

/-!
# ACL link manager and HCI transmit flow control (`l2c_link.c`)

A shallow embedding of the quota allocator, the egress scheduler and the
completion accountant of `system/bt/stack/l2cap/l2c_link.c`, with the
properties of the design specification stated over it.

Conventions of the embedding

* `UINT16` objects are natural numbers; every store into one is written with an
  explicit `% 65536`.  Comparisons and arithmetic inside a C expression are done
  at `int` width, as the integer promotions prescribe, and are written in `Nat`
  or `Int` without reduction.
* the link pool `l2cb.lcb_pool[MAX_L2CAP_LINKS]` is a list of link control
  blocks, a pointer into the pool is an index into the list.
* a `while` loop whose number of iterations is not bounded by a list takes a
  fuel argument and returns `none` when the fuel is used up.
* constants, macros and functions of other compilation units are fields of
  `Env`.
-/

namespace L2c

/-- Modulus of the `UINT16` type. -/
def U16 : Nat := 65536

/-- Transport of a link, `tBT_TRANSPORT`; `BT_TRANSPORT_INVALID` stands for every
value that is neither of the two transports. -/
inductive tBT_TRANSPORT where
  | BT_TRANSPORT_INVALID
  | BT_TRANSPORT_BR_EDR
  | BT_TRANSPORT_LE
  deriving DecidableEq, Repr

/-- ACL priority of a link, `tL2CAP_PRIORITY`. -/
inductive tL2CAP_PRIORITY where
  | L2CAP_PRIORITY_NORMAL
  | L2CAP_PRIORITY_HIGH
  deriving DecidableEq, Repr

/-- Link states, `tL2C_LINK_STATE`. -/
inductive tL2C_LINK_STATE where
  | LST_DISCONNECTED
  | LST_CONNECT_HOLDING
  | LST_CONNECTING_WAIT_SWITCH
  | LST_CONNECTING
  | LST_CONNECTED
  | LST_DISCONNECTING
  deriving DecidableEq, Repr

/-- Timeout values with which `l2c_lcb_timer` is armed in `l2c_link.c`. -/
inductive tL2C_TIMEOUT where
  | L2CAP_LINK_FLOW_CONTROL_TIMEOUT_MS
  | L2CAP_LINK_CONNECT_TIMEOUT_MS
  | L2CAP_LINK_CONNECT_EXT_TIMEOUT_MS
  | L2CAP_ECHO_RSP_TIMEOUT_MS
  | L2CAP_LINK_STARTUP_TOUT
  | L2CAP_LINK_DISCONNECT_TIMEOUT_MS
  | L2CAP_BONDING_TIMEOUT
  | L2CAP_LINK_ONE_SECOND
  | BT_1SEC_TIMEOUT_MS
  deriving DecidableEq, Repr

/-- Role of the local device on a link, the values `HCI_ROLE_MASTER` and
`HCI_ROLE_SLAVE` of the field `link_role`. -/
inductive tHCI_ROLE where
  | HCI_ROLE_MASTER
  | HCI_ROLE_SLAVE
  deriving DecidableEq, Repr

/-- HCI status and reason codes that `l2c_link.c` names; `HCI_ERR_OTHER` stands
for every other code. -/
inductive tHCI_STATUS where
  | HCI_SUCCESS
  | HCI_ERR_MAX_NUM_OF_CONNECTIONS
  | HCI_ERR_CONNECTION_EXISTS
  | HCI_ERR_HOST_REJECT_RESOURCES
  | HCI_ERR_HOST_REJECT_SECURITY
  | HCI_ERR_HOST_REJECT_DEVICE
  | HCI_ERR_OTHER (code : Nat)
  deriving DecidableEq, Repr

/-- Status values of the security manager that `l2c_link.c` names; `BTM_OTHER`
stands for every other value. -/
inductive tBTM_STATUS where
  | BTM_SUCCESS
  | BTM_SUCCESS_NO_SECURITY
  | BTM_DELAY_CHECK
  | BTM_CMD_STARTED
  | BTM_BUSY
  | BTM_CMD_STORED
  | BTM_OTHER (code : Nat)
  deriving DecidableEq, Repr

/-- Events that `l2c_link.c` sends to the channel state machine. -/
inductive tL2C_EVT where
  | L2CEVT_LP_CONNECT_CFM
  | L2CEVT_LP_CONNECT_CFM_NEG
  | L2CEVT_LP_DISCONNECT_IND
  | L2CEVT_LP_QOS_VIOLATION_IND
  | L2CEVT_SEC_COMP
  | L2CEVT_SEC_COMP_NEG
  | L2CEVT_L2CAP_INFO_RSP
  deriving DecidableEq, Repr

/-- Timeout values with which `l2c_ccb_timer` is armed in `l2c_link.c`. -/
inductive tCCB_TIMEOUT where
  | L2CAP_DELAY_CHECK_SM4_TIMEOUT_MS
  deriving DecidableEq, Repr

/-- Channel states that `l2c_link.c` names, of `tL2C_CHNL_STATE`; `CST_OTHER`
stands for every other state. -/
inductive tL2C_CHNL_STATE where
  | CST_ORIG_W4_SEC_COMP
  | CST_TERM_W4_SEC_COMP
  | CST_OTHER (code : Nat)
  deriving DecidableEq, Repr

/-- Buffer header `BT_HDR`; `data` stands for the payload that follows it. -/
structure BT_HDR where
  event : Nat := 0
  len : Nat := 0
  offset : Nat := 0
  layer_specific : Nat := 0
  data : Nat := 0
  deriving DecidableEq, Repr

/-- Channel control block `tL2C_CCB`, as far as the link manager reads it.
`ccb_id` stands for the address of the block: two pointers to channel control
blocks are equal when the `ccb_id` are.  `pL2CA_QoSViolationInd_Cb` says
whether `p_rcb->api.pL2CA_QoSViolationInd_Cb` is set. -/
structure tL2C_CCB where
  local_cid : Nat := 0
  xmit_hold_q : List BT_HDR := []
  ccb_id : Nat := 0
  l2c_ccb_timer : Option tCCB_TIMEOUT := none
  chnl_state : tL2C_CHNL_STATE := .CST_OTHER 0
  pL2CA_QoSViolationInd_Cb : Bool := false
  deriving DecidableEq, Repr

/-- Link control block `tL2C_LCB`; `info_resp_timer` says whether that timer is
armed, which it is with `L2CAP_WAIT_INFO_RSP_TIMEOUT_MS` only. -/
structure tL2C_LCB where
  in_use : Bool := false
  transport : tBT_TRANSPORT := .BT_TRANSPORT_BR_EDR
  acl_priority : tL2CAP_PRIORITY := .L2CAP_PRIORITY_NORMAL
  link_state : tL2C_LINK_STATE := .LST_DISCONNECTED
  remote_bd_addr : Nat := 0
  handle : Nat := 0
  link_xmit_quota : Nat := 0
  sent_not_acked : Nat := 0
  partial_segment_being_sent : Bool := false
  link_xmit_data_q : List BT_HDR := []
  ccb_queue : List tL2C_CCB := []
  l2c_lcb_timer : Option tL2C_TIMEOUT := none
  p_nocp_cb : Bool := false
  link_role : tHCI_ROLE := .HCI_ROLE_MASTER
  is_bonding : Bool := false
  p_echo_rsp_cb : Bool := false
  disc_reason : tHCI_STATUS := .HCI_SUCCESS
  p_pending_ccb : Option Nat := none
  p_fixed_ccbs : List (Option Nat) := []
  link_flush_tout : Nat := 0
  idle_timeout : Nat := 0
  w4_info_rsp : Bool := false
  info_resp_timer : Bool := false
  deriving DecidableEq, Repr

/-- A buffer handed to `bte_main_hci_send`, with the handle of the link. -/
structure tHCI_SEND where
  handle : Nat
  buf : BT_HDR
  ble : Bool
  deriving DecidableEq, Repr

/-- A call that the connection handlers of `l2c_link.c` make into another
compilation unit, with the arguments that matter here: a link control block is
given by its pool index, a channel control block by its `ccb_id`. -/
inductive tEXT_CALL where
  | btsnd_hcic_accept_conn (bd_addr : Nat) (role : tHCI_ROLE)
  | btsnd_hcic_reject_conn (bd_addr : Nat) (reason : tHCI_STATUS)
  | btm_acl_update_busy_level
  | l2cu_send_peer_info_req (lcb : Nat)
  | btm_acl_created (bd_addr : Nat) (handle : Nat) (role : tHCI_ROLE)
  | BTM_SetLinkSuperTout (bd_addr : Nat)
  | l2cu_start_post_bond_timer (handle : Nat)
  | l2c_process_held_packets
  | l2c_csm_execute (ccb : Nat) (event : tL2C_EVT)
  | l2cu_send_peer_echo_req (lcb : Nat)
  | l2cu_release_lcb (lcb : Nat)
  | l2cu_create_conn (lcb : Nat) (transport : tBT_TRANSPORT)
  | btm_ble_update_link_topology_mask (role : tHCI_ROLE)
  | btm_sco_acl_removed (bd_addr : Nat)
  | btm_acl_removed (bd_addr : Nat) (transport : tBT_TRANSPORT)
  | pL2CA_FixedConn_Cb (cid : Nat) (bd_addr : Nat) (reason : tHCI_STATUS)
      (transport : tBT_TRANSPORT)
  | l2cu_release_ccb (ccb : Nat)
  | L2CA_CancelBleConnectReq
  | p_echo_rsp_cb (lcb : Nat)
  | btm_sec_disconnect (handle : Nat)
  | btsnd_hcic_disconnect (handle : Nat)
  | l2cu_process_fixed_disc_cback (lcb : Nat)
  | l2cu_set_acl_priority (bd_addr : Nat) (priority : tL2CAP_PRIORITY)
  | l2cu_create_conn_after_switch (lcb : Nat)
  deriving DecidableEq, Repr

/-- The control block `l2cb`, together with the trace of the calls made to the
lower layer, the trace `calls` of the calls that the connection handlers make
into other compilation units, and `btm_cb.acl_disc_reason`. -/
structure tL2C_CB where
  lcb_pool : List tL2C_LCB := []
  num_links_active : Nat := 0
  num_lm_acl_bufs : Nat := 0
  controller_xmit_window : Nat := 0
  round_robin_quota : Nat := 0
  round_robin_unacked : Nat := 0
  check_round_robin : Bool := false
  controller_le_xmit_window : Nat := 0
  ble_round_robin_quota : Nat := 0
  ble_round_robin_unacked : Nat := 0
  ble_check_round_robin : Bool := false
  is_cong_cback_context : Bool := false
  hci_sent : List tHCI_SEND := []
  fixed_tx_complete : List Nat := []
  nocp_calls : List Nat := []
  num_lm_ble_bufs : Nat := 0
  idle_timeout : Nat := 0
  is_ble_connecting : Bool := false
  acl_disc_reason : tHCI_STATUS := .HCI_SUCCESS
  calls : List tEXT_CALL := []
  deriving DecidableEq, Repr

/-! ## Quota allocator: `l2c_link_adjust_allocation` -/

/-- Guard of both pool loops of `l2c_link_adjust_allocation`:
`p_lcb->in_use && p_lcb->transport == BT_TRANSPORT_BR_EDR`. -/
def tL2C_LCB.br_edr_in_use (p : tL2C_LCB) : Bool :=
  p.in_use && decide (p.transport = .BT_TRANSPORT_BR_EDR)

/-- The links counted in `num_hipri_links`. -/
def tL2C_LCB.is_hipri (p : tL2C_LCB) : Bool :=
  p.br_edr_in_use && decide (p.acl_priority = .L2CAP_PRIORITY_HIGH)

/-- The links counted in `num_lowpri_links`. -/
def tL2C_LCB.is_lowpri (p : tL2C_LCB) : Bool :=
  p.br_edr_in_use && !decide (p.acl_priority = .L2CAP_PRIORITY_HIGH)

/-- First loop of `l2c_link_adjust_allocation` (lines 843-852): the pair
`(num_hipri_links, num_lowpri_links)`, both `UINT16`. -/
def count_links : List tL2C_LCB → Nat → Nat → Nat × Nat
  | [], hi, lo => (hi, lo)
  | p :: ps, hi, lo =>
    if p.br_edr_in_use then
      if p.acl_priority = .L2CAP_PRIORITY_HIGH then count_links ps ((hi + 1) % U16) lo
      else count_links ps hi ((lo + 1) % U16)
    else count_links ps hi lo

/-- The loop `while ((num_hipri_links * high_pri_link_quota + low_quota) >
controller_xmit_quota) high_pri_link_quota--;` (lines 856-857).  The decrement
is a `UINT16` decrement, so `0` is followed by `65535`. -/
def adjust_high_pri_link_quota (num_hipri_links low_quota controller_xmit_quota : Nat) :
    Nat → Nat → Option Nat
  | 0, _ => none
  | fuel + 1, high_pri_link_quota =>
    if num_hipri_links * high_pri_link_quota + low_quota > controller_xmit_quota then
      adjust_high_pri_link_quota num_hipri_links low_quota controller_xmit_quota fuel
        ((high_pri_link_quota + (U16 - 1)) % U16)
    else some high_pri_link_quota

/-- Body of the second pool loop for one normal-priority link (lines 902-914):
returns the link, `qq_remainder` and `l2cb.round_robin_unacked`. -/
def assign_lowpri (qq : Nat) (p : tL2C_LCB) (qq_remainder rr_unacked : Nat) :
    tL2C_LCB × Nat × Nat :=
  let rr_unacked1 :=
    if p.link_xmit_quota > 0 ∧ qq = 0 then (rr_unacked + p.sent_not_acked) % U16
    else rr_unacked
  let p1 := { p with link_xmit_quota := qq }
  if qq_remainder > 0 then
    ({ p1 with link_xmit_quota := (p1.link_xmit_quota + 1) % U16 },
      (qq_remainder + (U16 - 1)) % U16, rr_unacked1)
  else (p1, qq_remainder, rr_unacked1)

/-- The timer of lines 925-932, armed for a connected link with queued data and
spare quota. -/
def kick_timer (p : tL2C_LCB) : tL2C_LCB :=
  if p.link_state = .LST_CONNECTED ∧ p.link_xmit_data_q ≠ [] ∧
      p.sent_not_acked < p.link_xmit_quota then
    { p with l2c_lcb_timer := some .L2CAP_LINK_FLOW_CONTROL_TIMEOUT_MS }
  else p

/-- Second loop of `l2c_link_adjust_allocation` (lines 892-934): the new pool
and the final `l2cb.round_robin_unacked`. -/
def assign_quotas (high_pri_link_quota qq : Nat) :
    List tL2C_LCB → Nat → Nat → List tL2C_LCB × Nat
  | [], _, rr_unacked => ([], rr_unacked)
  | p :: ps, qq_remainder, rr_unacked =>
    if p.br_edr_in_use then
      if p.acl_priority = .L2CAP_PRIORITY_HIGH then
        let p1 := kick_timer { p with link_xmit_quota := high_pri_link_quota }
        let r := assign_quotas high_pri_link_quota qq ps qq_remainder rr_unacked
        (p1 :: r.1, r.2)
      else
        let a := assign_lowpri qq p qq_remainder rr_unacked
        let r := assign_quotas high_pri_link_quota qq ps a.2.1 a.2.2
        (kick_timer a.1 :: r.1, r.2)
    else
      let r := assign_quotas high_pri_link_quota qq ps qq_remainder rr_unacked
      (p :: r.1, r.2)

/-- The value of `low_quota` after line 861. -/
def low_quota_of (hi_quota controller_xmit_quota : Nat) : Nat :=
  if hi_quota < controller_xmit_quota then controller_xmit_quota - hi_quota else 1

/-- The function `l2c_link_adjust_allocation` (lines 824-935).  `HQ` is the
constant `L2CAP_HIGH_PRI_MIN_XMIT_QUOTA_A`, defined outside `l2c_link.c`. -/
def l2c_link_adjust_allocation (HQ fuel : Nat) (cb : tL2C_CB) : Option tL2C_CB :=
  let controller_xmit_quota := cb.num_lm_acl_bufs
  if cb.num_links_active = 0 then
    some { cb with controller_xmit_window := cb.num_lm_acl_bufs,
                   round_robin_quota := 0, round_robin_unacked := 0 }
  else
    let c := count_links cb.lcb_pool 0 0
    let num_hipri_links := c.1
    let num_lowpri_links := c.2
    let low_quota0 := if num_lowpri_links ≠ 0 then 1 else 0
    match adjust_high_pri_link_quota num_hipri_links low_quota0 controller_xmit_quota
        fuel HQ with
    | none => none
    | some high_pri_link_quota =>
      let hi_quota := (num_hipri_links * high_pri_link_quota) % U16
      let low_quota := low_quota_of hi_quota controller_xmit_quota
      if num_lowpri_links > low_quota then
        let r := assign_quotas high_pri_link_quota 0 cb.lcb_pool 0 cb.round_robin_unacked
        some { cb with round_robin_quota := low_quota, lcb_pool := r.1,
                       round_robin_unacked := r.2 }
      else if num_lowpri_links > 0 then
        let r := assign_quotas high_pri_link_quota (low_quota / num_lowpri_links)
          cb.lcb_pool (low_quota % num_lowpri_links) 0
        some { cb with round_robin_quota := 0, lcb_pool := r.1, round_robin_unacked := r.2 }
      else
        let r := assign_quotas high_pri_link_quota 0 cb.lcb_pool 0 0
        some { cb with round_robin_quota := 0, lcb_pool := r.1, round_robin_unacked := r.2 }

/-! ## Egress scheduler: `l2c_link_send_to_lower`, `l2c_link_check_send_pkts` -/

/-- Power mode status written by `BTM_ReadPowerMode`. -/
inductive tBTM_PM_MODE where
  | BTM_PM_STS_ACTIVE
  | BTM_PM_STS_HOLD
  | BTM_PM_STS_SNIFF
  | BTM_PM_STS_PARK
  | BTM_PM_STS_SSR
  | BTM_PM_STS_PENDING
  | BTM_PM_STS_ERROR
  deriving DecidableEq, Repr

/-- What `l2c_link.c` takes from other compilation units: build switches,
constants, the controller interface and the functions of `l2c_utils.c` and of
the BTM layer that the scheduler calls.

* `BTM_ReadPowerMode addr` is `some mode` when the call returns `BTM_SUCCESS`.
* `l2cu_get_next_buffer_to_send p fixd_cid` returns the buffer (if any), the new
  value of the local `fixd_cid` and the channel records of the link after the
  call.
* `fixed_tx_complete_cb cid` says whether a `pL2CA_FixedTxComplete_Cb` is
  registered for the fixed channel `cid`.
* `oob_transport` is what the field `transport` reads as when `p_lcb` points one
  slot past the end of the pool.
* the fields from `MTK_STACK_CONFIG_BL` on serve the connection handlers:
  `l2cu_allocate_lcb cb bd_addr is_bonding transport` is the pool index of the
  new link control block and the control block after the allocation, `none`
  for `NULL`; `interop_mtk_match_addr_name bd_addr` is the match against
  `INTEROP_MTK_HID_NOT_SET_SLAVE`; `btm_dev_support_switch`,
  `l2cu_get_conn_role`, `l2cu_start_post_bond_timer`, `l2cu_lcb_disconnecting`
  and `l2cu_create_conn` give the values that these functions return;
  `csm_detaches ccb event` says whether the channel takes itself off the
  channel list of its link while `l2c_csm_execute` handles the event;
  `btm_sec_disconnect handle` and `btsnd_hcic_disconnect handle` give the
  values that these functions return in `l2c_link_timeout`. -/
structure Env where
  BLE_INCLUDED : Bool
  MTK_COMMON : Bool
  L2CAP_WAKE_PARKED_LINK : Bool
  HCI_DATA_PREAMBLE_SIZE : Nat
  acl_packet_size_classic : Nat
  acl_data_size_classic : Nat
  acl_packet_size_ble : Nat
  acl_data_size_ble : Nat
  BTM_ReadPowerMode : Nat → Option tBTM_PM_MODE
  l2cu_get_next_buffer_to_send : tL2C_LCB → Nat → Option BT_HDR × Nat × List tL2C_CCB
  fixed_tx_complete_cb : Nat → Bool
  oob_transport : tBT_TRANSPORT
  MTK_STACK_CONFIG_BL : Bool := true
  BTM_SCO_INCLUDED : Bool := true
  L2CAP_NUM_FIXED_CHNLS : Nat := 32
  L2CAP_FIRST_FIXED_CHNL : Nat := 3
  HCI_INVALID_HANDLE : Nat := 65535
  l2cu_allocate_lcb : tL2C_CB → Nat → Bool → tBT_TRANSPORT → Option (Nat × tL2C_CB) :=
    fun _ _ _ _ => none
  btm_dev_support_switch : Nat → Bool := fun _ => true
  l2cu_get_conn_role : tL2C_LCB → tHCI_ROLE := fun _ => .HCI_ROLE_MASTER
  interop_mtk_match_addr_name : Nat → Bool := fun _ => false
  l2cu_start_post_bond_timer : Nat → Bool := fun _ => false
  l2cu_lcb_disconnecting : tL2C_CB → Bool := fun _ => false
  l2cu_create_conn : tL2C_CB → Nat → tBT_TRANSPORT → Bool := fun _ _ _ => true
  csm_detaches : Nat → tL2C_EVT → Bool := fun _ _ => false
  btm_sec_disconnect : Nat → tBTM_STATUS := fun _ => .BTM_CMD_STARTED
  btsnd_hcic_disconnect : Nat → Bool := fun _ => true

/-- `UINT16` addition. -/
def u16_add (a b : Nat) : Nat := (a + b) % U16

/-- `UINT16` subtraction. -/
def u16_sub (a b : Nat) : Nat := (a + (U16 - b % U16)) % U16

/-- Conversion of an `int` value to `UINT16`. -/
def to_u16 (z : Int) : Nat := (z % 65536).toNat

/-- The link is an LE link and the LE code is compiled in. -/
def is_le (env : Env) (p : tL2C_LCB) : Bool :=
  env.BLE_INCLUDED && decide (p.transport = .BT_TRANSPORT_LE)

/-- Condition of the first branch of `l2c_link_send_to_lower` (lines 1379-1386):
the buffer fits one ACL packet of the link's transport. -/
def fits_acl_packet (env : Env) (p : tL2C_LCB) (p_buf : BT_HDR) : Bool :=
  if env.BLE_INCLUDED then
    (decide (p_buf.len ≤ env.acl_packet_size_classic)
        && decide (p.transport = .BT_TRANSPORT_BR_EDR))
      || (decide (p.transport = .BT_TRANSPORT_LE)
        && decide (p_buf.len ≤ env.acl_packet_size_ble))
  else decide (p_buf.len ≤ env.acl_packet_size_classic)

/-- Line 1428: `(p_buf->len - HCI_DATA_PREAMBLE_SIZE + acl_data_size - 1) /
acl_data_size`, computed in `int` and stored in the `UINT16 num_segs`.  (A zero
`acl_data_size` is a division by zero in C; here the quotient is then 0.) -/
def num_segs_of (env : Env) (len acl_data_size : Nat) : Nat :=
  to_u16 (Int.tdiv ((len : Int) - (env.HCI_DATA_PREAMBLE_SIZE : Int)
    + (acl_data_size : Int) - 1) (acl_data_size : Int))

/-- Lines 1431-1451: the number of segments released in this call and whether
`partial_segment_being_sent` is set. -/
def clamp_segs (num_segs xmit_window link_xmit_quota sent_not_acked : Nat) : Nat × Bool :=
  if link_xmit_quota = 0 then (1, true)
  else
    let a : Nat × Bool := if num_segs > xmit_window then (xmit_window, true) else (num_segs, false)
    if (a.1 : Int) > (link_xmit_quota : Int) - (sent_not_acked : Int) then
      (to_u16 ((link_xmit_quota : Int) - (sent_not_acked : Int)), true)
    else a

/-- The function `l2c_link_send_to_lower` (lines 1373-1505) for the link at
index `i` of the pool.  It always returns `TRUE`, so only the state is
returned.  Each call of `bte_main_hci_send` is appended to `hci_sent`. -/
def l2c_link_send_to_lower (env : Env) (cb : tL2C_CB) (i : Nat) (p_buf : BT_HDR) : tL2C_CB :=
  match cb.lcb_pool[i]? with
  | none => cb
  | some p =>
    if fits_acl_packet env p p_buf then
      let cb1 :=
        if p.link_xmit_quota = 0 then
          if is_le env p then
            { cb with ble_round_robin_unacked := u16_add cb.ble_round_robin_unacked 1 }
          else { cb with round_robin_unacked := u16_add cb.round_robin_unacked 1 }
        else cb
      let p1 := { p with sent_not_acked := u16_add p.sent_not_acked 1 }
      let buf1 := { p_buf with layer_specific := 0 }
      let cb2 :=
        if is_le env p then
          { cb1 with controller_le_xmit_window := u16_sub cb1.controller_le_xmit_window 1 }
        else { cb1 with controller_xmit_window := u16_sub cb1.controller_xmit_window 1 }
      { cb2 with lcb_pool := cb.lcb_pool.set i p1,
                 hci_sent := cb.hci_sent ++ [⟨p.handle, buf1, is_le env p⟩] }
    else
      let acl_data_size :=
        if is_le env p then env.acl_data_size_ble else env.acl_data_size_classic
      let xmit_window :=
        if is_le env p then cb.controller_le_xmit_window else cb.controller_xmit_window
      let c := clamp_segs (num_segs_of env p_buf.len acl_data_size) xmit_window
        p.link_xmit_quota p.sent_not_acked
      let num_segs := c.1
      let buf1 := { p_buf with layer_specific := num_segs }
      let cb1 :=
        if is_le env p then
          { cb with
              controller_le_xmit_window := u16_sub cb.controller_le_xmit_window num_segs,
              ble_round_robin_unacked :=
                if p.link_xmit_quota = 0 then u16_add cb.ble_round_robin_unacked num_segs
                else cb.ble_round_robin_unacked }
        else
          { cb with
              controller_xmit_window := u16_sub cb.controller_xmit_window num_segs,
              round_robin_unacked :=
                if p.link_xmit_quota = 0 then u16_add cb.round_robin_unacked num_segs
                else cb.round_robin_unacked }
      let p1 := { p with
        partial_segment_being_sent := p.partial_segment_being_sent || c.2,
        sent_not_acked := u16_add p.sent_not_acked num_segs }
      { cb1 with lcb_pool := cb.lcb_pool.set i p1,
                 hci_sent := cb.hci_sent ++ [⟨p.handle, buf1, is_le env p⟩] }

/-- The function `l2c_link_check_power_mode` (lines 1093-1131). -/
def l2c_link_check_power_mode (env : Env) (p : tL2C_LCB) : Bool :=
  let need_to_active :=
    if p.link_xmit_data_q = [] then p.ccb_queue.any (fun c => decide (c.xmit_hold_q ≠ []))
    else true
  need_to_active &&
    decide (env.BTM_ReadPowerMode p.remote_bd_addr = some .BTM_PM_STS_PENDING)

/-- The expression `L2C_LINK_CHECK_POWER_MODE (p_lcb)`: the function above when
`L2CAP_WAKE_PARKED_LINK` is `TRUE`, and `FALSE` otherwise. -/
def L2C_LINK_CHECK_POWER_MODE (env : Env) (p : tL2C_LCB) : Bool :=
  env.L2CAP_WAKE_PARKED_LINK && l2c_link_check_power_mode env p

/-- The field `transport` read through a pool pointer that may stand one slot
past the end of the pool. -/
def transport_at (env : Env) (cb : tL2C_CB) (i : Nat) : tBT_TRANSPORT :=
  match cb.lcb_pool[i]? with
  | some p => p.transport
  | none => env.oob_transport

/-- Lines 1256-1264 and 1339-1347: the tx-complete callback of a fixed channel. -/
def fixed_tx_complete (env : Env) (cb : tL2C_CB) (fixd_cid : Nat) : tL2C_CB :=
  if env.MTK_COMMON ∧ fixd_cid ≠ 0 ∧ env.fixed_tx_complete_cb fixd_cid = true then
    { cb with fixed_tx_complete := cb.fixed_tx_complete ++ [fixd_cid] }
  else cb

/-- The condition of lines 1206-1216 under which the round-robin loop does not
serve the slot. -/
def rr_window_full (env : Env) (cb : tL2C_CB) (i : Nat) : Bool :=
  let classic_full :=
    decide (cb.controller_xmit_window = 0)
      || decide (cb.round_robin_unacked ≥ cb.round_robin_quota)
  if env.BLE_INCLUDED then
    (classic_full && decide (transport_at env cb i = .BT_TRANSPORT_BR_EDR))
      || (decide (transport_at env cb i = .BT_TRANSPORT_LE)
        && (decide (cb.ble_round_robin_unacked ≥ cb.ble_round_robin_quota)
          || decide (cb.controller_le_xmit_window = 0)))
  else classic_full

/-- State of the round-robin loop: the control block, the pool pointer `p_lcb`
and the local `fixd_cid`. -/
structure tRR_STATE where
  cb : tL2C_CB
  p_lcb : Nat
  fixd_cid : Nat

/-- The wrap-around check of lines 1197-1203, compiled with `MTK_COMMON`. -/
def rr_wrap_mtk (env : Env) (cb : tL2C_CB) (p_lcb : Nat) : Nat :=
  if env.MTK_COMMON = true ∧ p_lcb = cb.lcb_pool.length then 0 else p_lcb

/-- The wrap-around check of lines 1223-1228, compiled without `MTK_COMMON`. -/
def rr_wrap_aosp (env : Env) (cb : tL2C_CB) (p_lcb : Nat) : Nat :=
  if env.MTK_COMMON = false ∧ p_lcb = cb.lcb_pool.length then 0 else p_lcb

/-- Lines 1229-1266 of the round-robin loop for the link `p` in slot `i`: the
eligibility test and the service of an eligible link.  The Boolean is `true`
when the loop is left by `break`. -/
def rr_serve (env : Env) (single_write : Bool) (s : tRR_STATE) (i : Nat) (p : tL2C_LCB) :
    tRR_STATE × Bool :=
  if !p.in_use || p.partial_segment_being_sent
      || decide (p.link_state ≠ .LST_CONNECTED) || decide (p.link_xmit_quota ≠ 0)
      || L2C_LINK_CHECK_POWER_MODE env p then
    ({ s with p_lcb := i }, false)
  else
    match p.link_xmit_data_q with
    | p_buf :: rest =>
      let p1 := { p with link_xmit_data_q := rest }
      let cb1 := { s.cb with lcb_pool := s.cb.lcb_pool.set i p1 }
      ({ s with cb := l2c_link_send_to_lower env cb1 i p_buf, p_lcb := i }, false)
    | [] =>
      if single_write then ({ s with p_lcb := i }, true)
      else
        let r := env.l2cu_get_next_buffer_to_send p s.fixd_cid
        let p1 := { p with ccb_queue := r.2.2 }
        let cb1 := { s.cb with lcb_pool := s.cb.lcb_pool.set i p1 }
        match r.1 with
        | some p_buf =>
          ({ cb := fixed_tx_complete env (l2c_link_send_to_lower env cb1 i p_buf) r.2.1,
             p_lcb := i, fixd_cid := r.2.1 }, false)
        | none => ({ cb := cb1, p_lcb := i, fixd_cid := r.2.1 }, false)

/-- One pass through the body of the round-robin loop (lines 1196-1266).  The
Boolean is `true` when the body is left by `break`; the increment `p_lcb++` of
the loop header is not part of the body.  The result is `none` when the body
reads a link control block through a pointer that is not in the pool, which
only the build without `MTK_COMMON` can do. -/
def rr_body (env : Env) (single_write : Bool) (s : tRR_STATE) : Option (tRR_STATE × Bool) :=
  if rr_window_full env s.cb (rr_wrap_mtk env s.cb s.p_lcb) then
    some ({ s with p_lcb := rr_wrap_mtk env s.cb s.p_lcb }, !env.BLE_INCLUDED)
  else
    match s.cb.lcb_pool[rr_wrap_aosp env s.cb (rr_wrap_mtk env s.cb s.p_lcb)]? with
    | none => none
    | some p =>
      some (rr_serve env single_write s (rr_wrap_aosp env s.cb (rr_wrap_mtk env s.cb s.p_lcb)) p)

/-- The round-robin loop `for (xx = 0; xx < MAX_L2CAP_LINKS; xx++, p_lcb++)`
(lines 1195-1267); the first argument is the number of passes left. -/
def rr_loop (env : Env) (single_write : Bool) : Nat → tRR_STATE → Option tRR_STATE
  | 0, s => some s
  | n + 1, s =>
    match rr_body env single_write s with
    | none => none
    | some r =>
      if r.2 then some r.1 else rr_loop env single_write n { r.1 with p_lcb := r.1.p_lcb + 1 }

/-- Lines 1269-1283: the round-robin check flags are cleared when the shared
pool of the transport that `p_lcb` points to has headroom. -/
def rr_clear_flags (env : Env) (s : tRR_STATE) : tL2C_CB :=
  let cb := s.cb
  let cb1 :=
    if cb.controller_xmit_window > 0 ∧ cb.round_robin_unacked < cb.round_robin_quota
        ∧ (env.BLE_INCLUDED = true → transport_at env cb s.p_lcb = .BT_TRANSPORT_BR_EDR) then
      { cb with check_round_robin := false }
    else cb
  if env.BLE_INCLUDED = true ∧ cb1.controller_le_xmit_window > 0
      ∧ cb1.ble_round_robin_unacked < cb1.ble_round_robin_quota
      ∧ transport_at env cb1 s.p_lcb = .BT_TRANSPORT_LE then
    { cb1 with ble_check_round_robin := false }
  else cb1

/-- Condition of the two `while` loops of the private-quota branch
(lines 1297-1303 and 1318-1323). -/
def private_may_send (env : Env) (cb : tL2C_CB) (p : tL2C_LCB) : Bool :=
  (if env.BLE_INCLUDED then
      (decide (cb.controller_xmit_window ≠ 0)
          && decide (p.transport = .BT_TRANSPORT_BR_EDR))
        || (decide (cb.controller_le_xmit_window ≠ 0)
          && decide (p.transport = .BT_TRANSPORT_LE))
    else decide (cb.controller_xmit_window ≠ 0))
  && decide (p.sent_not_acked < p.link_xmit_quota)

/-- First `while` loop of the private-quota branch (lines 1297-1312), by
recursion on the content of `link_xmit_data_q`; every pass removes the front
buffer and sends it. -/
def drain_link_q (env : Env) (i : Nat) : List BT_HDR → tL2C_CB → tL2C_CB
  | [], cb => cb
  | p_buf :: rest, cb =>
    match cb.lcb_pool[i]? with
    | none => cb
    | some p =>
      if private_may_send env cb p then
        let p1 := { p with link_xmit_data_q := rest }
        let cb1 := { cb with lcb_pool := cb.lcb_pool.set i p1 }
        drain_link_q env i rest (l2c_link_send_to_lower env cb1 i p_buf)
      else cb

/-- Second `while` loop of the private-quota branch (lines 1318-1349); it ends
when the condition fails or `l2cu_get_next_buffer_to_send` returns `NULL`. -/
def drain_channels (env : Env) (i : Nat) : Nat → tL2C_CB → Nat → Option tL2C_CB
  | 0, _, _ => none
  | fuel + 1, cb, fixd_cid =>
    match cb.lcb_pool[i]? with
    | none => some cb
    | some p =>
      if private_may_send env cb p then
        let r := env.l2cu_get_next_buffer_to_send p fixd_cid
        let p1 := { p with ccb_queue := r.2.2 }
        let cb1 := { cb with lcb_pool := cb.lcb_pool.set i p1 }
        match r.1 with
        | none => some cb1
        | some p_buf =>
          drain_channels env i fuel
            (fixed_tx_complete env (l2c_link_send_to_lower env cb1 i p_buf) r.2.1) r.2.1
      else some cb

/-- Lines 1352-1360: the flow-control timer of a private-quota link. -/
def private_timer (cb : tL2C_CB) (i : Nat) : tL2C_CB :=
  match cb.lcb_pool[i]? with
  | none => cb
  | some p =>
    if p.link_xmit_data_q ≠ [] ∧ p.sent_not_acked < p.link_xmit_quota then
      let p1 := { p with l2c_lcb_timer := some .L2CAP_LINK_FLOW_CONTROL_TIMEOUT_MS }
      { cb with lcb_pool := cb.lcb_pool.set i p1 }
    else cb

/-- Lines 1153-1176: a passed buffer is tagged and appended to the link queue,
and the round-robin check flag of the transport is set for a quota-0 link. -/
def enqueue_buf (env : Env) (cb : tL2C_CB) (i : Nat) (p : tL2C_LCB)
    (p_ccb : Option tL2C_CCB) (p_buf : BT_HDR) : tL2C_CB :=
  let event := match p_ccb with
    | some c => c.local_cid
    | none => 0
  let buf1 := { p_buf with event := event, layer_specific := 0 }
  let p1 := { p with link_xmit_data_q := p.link_xmit_data_q ++ [buf1] }
  let cb1 := { cb with lcb_pool := cb.lcb_pool.set i p1 }
  if p.link_xmit_quota = 0 then
    if is_le env p then { cb1 with ble_check_round_robin := true }
    else { cb1 with check_round_robin := true }
  else cb1

/-- The round-robin service of `l2c_link_check_send_pkts` (lines 1187-1284),
with the loop starting at the pool pointer `start`. -/
def sched_round_robin (env : Env) (single_write : Bool) (cb : tL2C_CB) (start : Nat) :
    Option tL2C_CB :=
  (rr_loop env single_write cb.lcb_pool.length
    { cb := cb, p_lcb := start, fixd_cid := 0 }).map (rr_clear_flags env)

/-- The private-quota service of `l2c_link_check_send_pkts` (lines 1285-1361)
for the link `p` in slot `i`. -/
def sched_private (env : Env) (fuel : Nat) (single_write : Bool) (cb : tL2C_CB) (i : Nat)
    (p : tL2C_LCB) : Option tL2C_CB :=
  if p.partial_segment_being_sent || decide (p.link_state ≠ .LST_CONNECTED)
      || L2C_LINK_CHECK_POWER_MODE env p then
    some cb
  else
    let cb2 := drain_link_q env i p.link_xmit_data_q cb
    let cb3 := if single_write then some cb2 else drain_channels env i fuel cb2 0
    cb3.map (fun c => private_timer c i)

/-- Lines 1178-1361 of `l2c_link_check_send_pkts` for a non-null `p_lcb`
pointing to slot `i`, whose quota is `link_xmit_quota`: the return in
congestion-callback context and the choice between round-robin and
private-quota service. -/
def sched_link (env : Env) (fuel : Nat) (single_write : Bool) (cb : tL2C_CB) (i : Nat)
    (link_xmit_quota : Nat) : Option tL2C_CB :=
  if cb.is_cong_cback_context then some cb
  else if link_xmit_quota = 0 then
    sched_round_robin env single_write cb (if single_write then i else i + 1)
  else
    match cb.lcb_pool[i]? with
    | none => none
    | some p => sched_private env fuel single_write cb i p

/-- The function `l2c_link_check_send_pkts` (lines 1145-1362).  `p_lcb` is
`none` for `NULL` and the index of a pool slot otherwise.  The result is `none`
when the fuel of the channel loop is used up, and when the C function
dereferences a null `p_lcb` or one that is not in the pool. -/
def l2c_link_check_send_pkts (env : Env) (fuel : Nat) (cb : tL2C_CB) (p_lcb : Option Nat)
    (p_ccb : Option tL2C_CCB) (p_buf : Option BT_HDR) : Option tL2C_CB :=
  match p_lcb, p_buf with
  | none, some _ => none
  | none, none =>
    if cb.is_cong_cback_context then some cb
    else sched_round_robin env false cb 0
  | some i, none =>
    match cb.lcb_pool[i]? with
    | none => none
    | some p => sched_link env fuel false cb i p.link_xmit_quota
  | some i, some p_buf =>
    match cb.lcb_pool[i]? with
    | none => none
    | some p =>
      sched_link env fuel p_ccb.isSome (enqueue_buf env cb i p p_ccb p_buf) i p.link_xmit_quota

/-! ## Completion accountant: `l2c_link_process_num_completed_pkts` -/

/-- Modelled from the spec: `l2cu_find_lcb_by_handle` of `l2c_utils.c`, which is
not part of the sources at hand, locates the link by its hardware handle; here
it is the index of the first in-use slot of the pool with that handle, and
`none` for an unknown handle. -/
def l2cu_find_lcb_by_handle (cb : tL2C_CB) (handle : Nat) : Option Nat :=
  let i := cb.lcb_pool.findIdx (fun p => p.in_use && decide (p.handle = handle))
  if i < cb.lcb_pool.length then some i else none

/-- The "don't go negative" update of lines 1560-1563, 1569-1572 and 1577-1580. -/
def floor_sub (counter num_sent : Nat) : Nat :=
  if counter > num_sent then counter - num_sent else 0

/-- The accounting step for one entry of a number-of-completed-packets event
(lines 1542-1580), for the link `p` found at index `i`. -/
def nocp_account (env : Env) (cb : tL2C_CB) (i : Nat) (p : tL2C_LCB) (num_sent : Nat) :
    tL2C_CB :=
  let cb1 :=
    if is_le env p then
      { cb with controller_le_xmit_window := u16_add cb.controller_le_xmit_window num_sent }
    else { cb with controller_xmit_window := u16_add cb.controller_xmit_window num_sent }
  let cb2 :=
    if p.link_xmit_quota = 0 then
      if is_le env p then
        { cb1 with ble_round_robin_unacked := floor_sub cb1.ble_round_robin_unacked num_sent }
      else { cb1 with round_robin_unacked := floor_sub cb1.round_robin_unacked num_sent }
    else cb1
  let p1 := { p with sent_not_acked := floor_sub p.sent_not_acked num_sent }
  { cb2 with lcb_pool := cb.lcb_pool.set i p1 }

/-- The scheduler calls that follow the accounting step (lines 1582-1599). -/
def nocp_reschedule (env : Env) (fuel : Nat) (cb : tL2C_CB) (i : Nat) : Option tL2C_CB :=
  match l2c_link_check_send_pkts env fuel cb (some i) none none with
  | none => none
  | some cb1 =>
    match cb1.lcb_pool[i]? with
    | none => none
    | some p =>
      let r2 :=
        if p.acl_priority = .L2CAP_PRIORITY_HIGH ∧ cb1.check_round_robin = true
            ∧ cb1.round_robin_unacked < cb1.round_robin_quota then
          l2c_link_check_send_pkts env fuel cb1 none none none
        else some cb1
      match r2 with
      | none => none
      | some cb2 =>
        match cb2.lcb_pool[i]? with
        | none => none
        | some p2 =>
          if env.BLE_INCLUDED = true ∧ p2.transport = .BT_TRANSPORT_LE
              ∧ p2.acl_priority = .L2CAP_PRIORITY_HIGH ∧ cb2.ble_check_round_robin = true
              ∧ cb2.ble_round_robin_unacked < cb2.ble_round_robin_quota then
            l2c_link_check_send_pkts env fuel cb2 none none none
          else some cb2

/-- One pass through the loop of `l2c_link_process_num_completed_pkts`
(lines 1529-1600) for the entry `(handle, num_sent)`. -/
def nocp_entry (env : Env) (fuel : Nat) (cb : tL2C_CB) (e : Nat × Nat) : Option tL2C_CB :=
  match l2cu_find_lcb_by_handle cb e.1 with
  | none => some cb
  | some i =>
    match cb.lcb_pool[i]? with
    | none => some cb
    | some p =>
      let cb0 :=
        if p.p_nocp_cb then { cb with nocp_calls := cb.nocp_calls ++ [p.remote_bd_addr] }
        else cb
      nocp_reschedule env fuel (nocp_account env cb0 i p e.2) i

/-- The function `l2c_link_process_num_completed_pkts` (lines 1518-1645); the
event is given as the list of its `(handle, num_sent)` entries. -/
def l2c_link_process_num_completed_pkts (env : Env) (fuel : Nat) :
    tL2C_CB → List (Nat × Nat) → Option tL2C_CB
  | cb, [] => some cb
  | cb, e :: es =>
    match nocp_entry env fuel cb e with
    | none => none
    | some cb1 => l2c_link_process_num_completed_pkts env fuel cb1 es

/-- Sum of `link_xmit_quota` over the in-use BR/EDR links of a pool. -/
def quota_sum (pool : List tL2C_LCB) : Nat :=
  ((pool.filter tL2C_LCB.br_edr_in_use).map tL2C_LCB.link_xmit_quota).sum

/-- Machine ranges of the inputs of `l2c_link_adjust_allocation`: the `UINT16`
objects hold 16-bit values, the pool index `yy` is a `UINT16`, and the product
of the loop condition fits an `int`. -/
def adjust_in_range (HQ : Nat) (cb : tL2C_CB) : Prop :=
  HQ < U16 ∧ cb.num_lm_acl_bufs < U16 ∧ cb.lcb_pool.length < U16 ∧
    cb.lcb_pool.length * HQ < 2 ^ 31

instance (HQ : Nat) (cb : tL2C_CB) : Decidable (adjust_in_range HQ cb) := by
  unfold adjust_in_range; infer_instance

/-- A pool with one high-priority and one normal-priority link. -/
def pool_hi_lo : List tL2C_LCB :=
  [ { in_use := true, acl_priority := .L2CAP_PRIORITY_HIGH, link_state := .LST_CONNECTED,
      handle := 1 },
    { in_use := true, acl_priority := .L2CAP_PRIORITY_NORMAL, link_state := .LST_CONNECTED,
      handle := 2 } ]

/-- Control block of the scenario with four controller buffers. -/
def cb_hi_lo : tL2C_CB :=
  { lcb_pool := pool_hi_lo, num_links_active := 2, num_lm_acl_bufs := 4,
    controller_xmit_window := 4 }

/-- Quota of the `i`-th normal-priority link in pool order when the second
loop starts with `qq` and `qq_remainder`: the increment of line 911 is applied
while the remainder lasts. -/
def quota_at (qq qq_remainder i : Nat) : Nat :=
  if i < qq_remainder then (qq + 1) % U16 else qq

/-- The three outcomes of lines 866-885 and of the second loop, for a final
high-priority quota `hq`: what `l2c_link_adjust_allocation` returns once the
quota-lowering loop has ended. -/
def allocation_with (hq : Nat) (cb : tL2C_CB) : tL2C_CB :=
  let nh := cb.lcb_pool.countP tL2C_LCB.is_hipri
  let nl := cb.lcb_pool.countP tL2C_LCB.is_lowpri
  let low_quota := low_quota_of (nh * hq) cb.num_lm_acl_bufs
  if nl > low_quota then
    let r := assign_quotas hq 0 cb.lcb_pool 0 cb.round_robin_unacked
    { cb with round_robin_quota := low_quota, lcb_pool := r.1, round_robin_unacked := r.2 }
  else if nl > 0 then
    let r := assign_quotas hq (low_quota / nl) cb.lcb_pool (low_quota % nl) 0
    { cb with round_robin_quota := 0, lcb_pool := r.1, round_robin_unacked := r.2 }
  else
    let r := assign_quotas hq 0 cb.lcb_pool 0 0
    { cb with round_robin_quota := 0, lcb_pool := r.1, round_robin_unacked := r.2 }

/-- The value `low_quota` has while the high-priority quota is lowered
(line 855): one buffer is reserved when a normal-priority link exists. -/
def low_reserve (cb : tL2C_CB) : Nat :=
  if cb.lcb_pool.countP tL2C_LCB.is_lowpri ≠ 0 then 1 else 0

/-- Control block with three normal-priority links and two controller
buffers. -/
def cb_three_lo : tL2C_CB :=
  { lcb_pool :=
      [ { in_use := true, link_state := .LST_CONNECTED, handle := 1 },
        { in_use := true, link_state := .LST_CONNECTED, handle := 2 },
        { in_use := true, link_state := .LST_CONNECTED, handle := 3 } ],
    num_links_active := 3, num_lm_acl_bufs := 2, controller_xmit_window := 2 }

/-- Control block with three normal-priority links and eight controller
buffers. -/
def cb_three_lo_eight : tL2C_CB :=
  { cb_three_lo with num_lm_acl_bufs := 8, controller_xmit_window := 8 }

/-- Control block with no active link: every slot of the pool is free. -/
def cb_idle : tL2C_CB :=
  { lcb_pool := [ {}, {} ], num_links_active := 0, num_lm_acl_bufs := 4,
    controller_xmit_window := 1, round_robin_quota := 2, round_robin_unacked := 1 }

/-- Sum of `sent_not_acked` over the in-use BR/EDR links whose quota is 0: the
outstanding buffers that `round_robin_unacked` is meant to count. -/
def rr_outstanding (pool : List tL2C_LCB) : Nat :=
  ((pool.filter (fun p => p.br_edr_in_use && decide (p.link_xmit_quota = 0))).map
    tL2C_LCB.sent_not_acked).sum

/-- Three links served round-robin from two buffers, the first with one buffer
outstanding, after the first link has been given high priority and before the
allocation is recomputed. -/
def cb_prio_change : tL2C_CB :=
  { lcb_pool :=
      [ { in_use := true, acl_priority := .L2CAP_PRIORITY_HIGH, link_state := .LST_CONNECTED,
          handle := 1, link_xmit_quota := 0, sent_not_acked := 1 },
        { in_use := true, link_state := .LST_CONNECTED, handle := 2 },
        { in_use := true, link_state := .LST_CONNECTED, handle := 3 } ],
    num_links_active := 3, num_lm_acl_bufs := 2, controller_xmit_window := 1,
    round_robin_quota := 2, round_robin_unacked := 1 }

/-- Two high-priority links with one buffer outstanding each and a new
normal-priority link, with two controller buffers. -/
def cb_hipri_starved : tL2C_CB :=
  { lcb_pool :=
      [ { in_use := true, acl_priority := .L2CAP_PRIORITY_HIGH, link_state := .LST_CONNECTED,
          handle := 1, link_xmit_quota := 1, sent_not_acked := 1 },
        { in_use := true, acl_priority := .L2CAP_PRIORITY_HIGH, link_state := .LST_CONNECTED,
          handle := 2, link_xmit_quota := 1, sent_not_acked := 1 },
        { in_use := true, link_state := .LST_CONNECTING, handle := 3 } ],
    num_links_active := 3, num_lm_acl_bufs := 2, controller_xmit_window := 0 }

/-- The bound of the link control block invariant for one link: an in-use link
with a private quota has at most that many buffers outstanding. -/
def quota_ok (p : tL2C_LCB) : Prop :=
  p.in_use = true → 0 < p.link_xmit_quota → p.sent_not_acked ≤ p.link_xmit_quota

instance (p : tL2C_LCB) : Decidable (quota_ok p) := by
  unfold quota_ok; infer_instance

/-- The bound holds for every link of the pool. -/
def pool_ok (pool : List tL2C_LCB) : Prop := ∀ p ∈ pool, quota_ok p

instance (pool : List tL2C_LCB) : Decidable (pool_ok pool) := by
  unfold pool_ok; infer_instance

/-- The accounting steps of a list of acknowledgement entries, without the
scheduler calls between them. -/
def nocp_account_all (env : Env) : tL2C_CB → List (Nat × Nat) → tL2C_CB
  | cb, [] => cb
  | cb, e :: es =>
    match l2cu_find_lcb_by_handle cb e.1 with
    | none => nocp_account_all env cb es
    | some i =>
      match cb.lcb_pool[i]? with
      | none => nocp_account_all env cb es
      | some p => nocp_account_all env (nocp_account env cb i p e.2) es

/-- An environment for the examples: BR/EDR packets of 1021 bytes of data, no
channel data ready, no link in a pending power mode. -/
def env0 : Env :=
  { BLE_INCLUDED := true, MTK_COMMON := true, L2CAP_WAKE_PARKED_LINK := true,
    HCI_DATA_PREAMBLE_SIZE := 4,
    acl_packet_size_classic := 1025, acl_data_size_classic := 1021,
    acl_packet_size_ble := 31, acl_data_size_ble := 27,
    BTM_ReadPowerMode := fun _ => some .BTM_PM_STS_ACTIVE,
    l2cu_get_next_buffer_to_send := fun p c => (none, c, p.ccb_queue),
    fixed_tx_complete_cb := fun _ => false,
    oob_transport := .BT_TRANSPORT_INVALID }

/-- One normal-priority link that owns all four controller buffers and has
them all outstanding, and a second link that has just been created. -/
def cb_new_link : tL2C_CB :=
  { lcb_pool :=
      [ { in_use := true, link_state := .LST_CONNECTED, handle := 1, link_xmit_quota := 4,
          sent_not_acked := 4 },
        { in_use := true, link_state := .LST_CONNECTING, handle := 2 } ],
    num_links_active := 2, num_lm_acl_bufs := 4, controller_xmit_window := 0 }

/-- A connected private-quota link with quota 2, both buffers outstanding, and
one frame of 100 bytes on its queue. -/
def cb_quota2 : tL2C_CB :=
  { lcb_pool :=
      [ { in_use := true, link_state := .LST_CONNECTED, handle := 7, link_xmit_quota := 2,
          sent_not_acked := 2, link_xmit_data_q := [ { len := 100, data := 1 } ] } ],
    num_links_active := 1, num_lm_acl_bufs := 2, controller_xmit_window := 0 }

/-- The same link while the remainder of a segmented frame is still to be
sent: `partial_segment_being_sent` is set. -/
def cb_quota2_partial : tL2C_CB :=
  { lcb_pool :=
      [ { in_use := true, link_state := .LST_CONNECTED, handle := 7, link_xmit_quota := 2,
          sent_not_acked := 2, partial_segment_being_sent := true,
          link_xmit_data_q := [ { len := 100, data := 1 } ] } ],
    num_links_active := 1, num_lm_acl_bufs := 2, controller_xmit_window := 0 }

/-- The number of controller buffers that `l2c_link_send_to_lower` takes for the
buffer `p_buf` on the link `p`, and whether it sets
`partial_segment_being_sent`: one buffer for a frame that fits an ACL packet,
the clamped segment count of lines 1428-1451 otherwise. -/
def send_segs (env : Env) (cb : tL2C_CB) (p : tL2C_LCB) (p_buf : BT_HDR) : Nat × Bool :=
  if fits_acl_packet env p p_buf then (1, false)
  else
    clamp_segs
      (num_segs_of env p_buf.len
        (if is_le env p then env.acl_data_size_ble else env.acl_data_size_classic))
      (if is_le env p then cb.controller_le_xmit_window else cb.controller_xmit_window)
      p.link_xmit_quota p.sent_not_acked

/-- The fields of a link control block that neither the scheduler nor the
completion accountant writes. -/
def link_step (p p1 : tL2C_LCB) : Prop :=
  p1.in_use = p.in_use ∧ p1.transport = p.transport ∧ p1.acl_priority = p.acl_priority ∧
  p1.link_state = p.link_state ∧ p1.handle = p.handle ∧
  p1.remote_bd_addr = p.remote_bd_addr ∧ p1.link_xmit_quota = p.link_xmit_quota ∧
  p1.p_nocp_cb = p.p_nocp_cb

/-- Slot by slot, the pool `pool1` differs from `pool` only in fields that the
scheduler and the completion accountant may write. -/
def pool_step (pool pool1 : List tL2C_LCB) : Prop :=
  pool1.length = pool.length ∧
  ∀ (j : Nat) (p p1 : tL2C_LCB), pool[j]? = some p → pool1[j]? = some p1 → link_step p p1

/-- What the scheduler and the completion accountant leave alone in the control
block: the pool slot by slot as in `pool_step`, the configuration fields, and
the buffers already handed to the lower layer. -/
def cb_step (cb cb1 : tL2C_CB) : Prop :=
  pool_step cb.lcb_pool cb1.lcb_pool ∧
  (∃ more, cb1.hci_sent = cb.hci_sent ++ more) ∧
  cb1.num_lm_acl_bufs = cb.num_lm_acl_bufs ∧ cb1.num_links_active = cb.num_links_active ∧
  cb1.round_robin_quota = cb.round_robin_quota ∧
  cb1.ble_round_robin_quota = cb.ble_round_robin_quota ∧
  cb1.is_cong_cback_context = cb.is_cong_cback_context

/-- What the scheduler needs from the environment to make progress: non-zero
ACL data sizes, ACL packet sizes that hold at least the HCI preamble, and 16-bit
lengths in the buffers that `l2cu_get_next_buffer_to_send` returns. -/
def sizes_ok (env : Env) : Prop :=
  0 < env.acl_data_size_classic ∧ 0 < env.acl_data_size_ble ∧
  env.HCI_DATA_PREAMBLE_SIZE ≤ env.acl_packet_size_classic ∧
  env.HCI_DATA_PREAMBLE_SIZE ≤ env.acl_packet_size_ble ∧
  ∀ p c b, (env.l2cu_get_next_buffer_to_send p c).1 = some b → b.len < U16

/-- Every quota of the pool is a 16-bit value. -/
def quotas_u16 (pool : List tL2C_LCB) : Prop := ∀ p ∈ pool, p.link_xmit_quota < U16

instance (pool : List tL2C_LCB) : Decidable (quotas_u16 pool) := by
  unfold quotas_u16; infer_instance

/-- Slot by slot, no link of `pool1` has more buffers outstanding than the link
of `pool` in the same slot. -/
def sna_le (pool pool1 : List tL2C_LCB) : Prop :=
  pool1.length = pool.length ∧
  ∀ (j : Nat) (p p1 : tL2C_LCB), pool[j]? = some p → pool1[j]? = some p1 →
    p1.sent_not_acked ≤ p.sent_not_acked

/-- A round-robin link with one buffer outstanding and a private-quota link
with two. -/
def cb_two_links : tL2C_CB :=
  { lcb_pool :=
      [ { in_use := true, link_state := .LST_CONNECTED, handle := 1, link_xmit_quota := 0,
          sent_not_acked := 1 },
        { in_use := true, acl_priority := .L2CAP_PRIORITY_HIGH, link_state := .LST_CONNECTED,
          handle := 2, link_xmit_quota := 2, sent_not_acked := 2 } ],
    num_links_active := 2, num_lm_acl_bufs := 3, controller_xmit_window := 0,
    round_robin_quota := 1, round_robin_unacked := 1 }

/-- How the scheduler may change the outstanding count of a link: the quota
stays, and on a link with a 16-bit private quota that is within its quota
`sent_not_acked` only grows, and not above the quota. -/
def link_mono (p p1 : tL2C_LCB) : Prop :=
  p1.link_xmit_quota = p.link_xmit_quota ∧
  (p.link_xmit_quota ≠ 0 → p.link_xmit_quota < U16 → p.sent_not_acked ≤ p.link_xmit_quota →
    p.sent_not_acked ≤ p1.sent_not_acked ∧ p1.sent_not_acked ≤ p.link_xmit_quota)

/-- The relation `link_mono` slot by slot. -/
def pool_mono (pool pool1 : List tL2C_LCB) : Prop :=
  pool1.length = pool.length ∧
  ∀ (j : Nat) (p p1 : tL2C_LCB), pool[j]? = some p → pool1[j]? = some p1 → link_mono p p1

/-! ## Segments, the segment-transmitted notification and connection requests -/

/-- The controller window that `l2c_link_send_to_lower` charges for a buffer of
the link `p`: `controller_le_xmit_window` for an LE link, and
`controller_xmit_window` otherwise. -/
def xmit_window_of (env : Env) (cb : tL2C_CB) (p : tL2C_LCB) : Nat :=
  if is_le env p then cb.controller_le_xmit_window else cb.controller_xmit_window

/-- The round-robin counter that `l2c_link_send_to_lower` charges for a buffer
of the quota-0 link `p`: `ble_round_robin_unacked` for an LE link, and
`round_robin_unacked` otherwise. -/
def rr_unacked_of (env : Env) (cb : tL2C_CB) (p : tL2C_LCB) : Nat :=
  if is_le env p then cb.ble_round_robin_unacked else cb.round_robin_unacked

/-- The ACL data size of the transport of the link `p` (lines 1419-1425). -/
def acl_data_size_of (env : Env) (p : tL2C_LCB) : Nat :=
  if is_le env p then env.acl_data_size_ble else env.acl_data_size_classic

/-- The quotient `a / b` rounded up. -/
def ceil_div (a b : Nat) : Nat := (a + b - 1) / b

/-- The test of lines 1229-1233 under which the round-robin loop passes over the
link: it is not in use, has a partial segment in flight, is not connected, has a
private quota, or is held by the power-mode check. -/
def rr_skip (env : Env) (p : tL2C_LCB) : Bool :=
  !p.in_use || p.partial_segment_being_sent
    || decide (p.link_state ≠ .LST_CONNECTED) || decide (p.link_xmit_quota ≠ 0)
    || L2C_LINK_CHECK_POWER_MODE env p

/-- The function `l2c_link_segments_xmitted` (lines 1657-1687).  `handle` is the
connection handle that the function reads from the first two bytes of the
payload of `p_msg` with `HCID_GET_HANDLE`.  A buffer that the function frees is
on no queue of the result. -/
def l2c_link_segments_xmitted (env : Env) (fuel : Nat) (cb : tL2C_CB) (handle : Nat)
    (p_msg : BT_HDR) : Option tL2C_CB :=
  match l2cu_find_lcb_by_handle cb handle with
  | none => some cb
  | some i =>
    match cb.lcb_pool[i]? with
    | none => none
    | some p =>
      if p.link_state = .LST_CONNECTED then
        let p1 := { p with
          link_xmit_data_q := p_msg :: p.link_xmit_data_q,
          partial_segment_being_sent := false }
        l2c_link_check_send_pkts env fuel { cb with lcb_pool := cb.lcb_pool.set i p1 }
          (some i) none none
      else some cb

/-- Lines 1157-1162: the buffer passed to `l2c_link_check_send_pkts` as it is
put on the link queue, with `event` set to the local CID of the channel (0
without a channel) and `layer_specific` set to 0. -/
def tagged_buf (p_ccb : Option tL2C_CCB) (p_buf : BT_HDR) : BT_HDR :=
  { p_buf with
    event := (match p_ccb with
      | some c => c.local_cid
      | none => 0),
    layer_specific := 0 }

/-- Modelled from the spec: the lower layer (the HCI packet fragmenter, which is
not part of the sources at hand) transmits the segments that
`l2c_link_send_to_lower` released, `layer_specific` of them with `acl_data_size`
bytes of payload each, and hands the buffer back to `l2c_link_segments_xmitted`
holding the remainder of the frame: `len` is smaller and `offset` larger by the
bytes transmitted. -/
def remainder_buf (acl_data_size num_segs : Nat) (b : BT_HDR) : BT_HDR :=
  { b with
    len := b.len - num_segs * acl_data_size,
    offset := b.offset + num_segs * acl_data_size }

/-- What the scheduler has established when it calls `l2c_link_send_to_lower`
for the link in slot `i`, a link of transport `t`: no partial segment is in
flight, the link is served round-robin or has room in its 16-bit quota, and the
controller window of the transport is a non-zero 16-bit value. -/
def send_call_ok (env : Env) (i : Nat) (t : tBT_TRANSPORT) (cb : tL2C_CB) : Bool :=
  match cb.lcb_pool[i]? with
  | none => false
  | some p =>
    decide (p.transport = t) && !p.partial_segment_being_sent
      && (decide (p.link_xmit_quota = 0) || decide (p.sent_not_acked < p.link_xmit_quota))
      && decide (p.link_xmit_quota < U16)
      && decide (0 < xmit_window_of env cb p) && decide (xmit_window_of env cb p < U16)

/-- The calls of `l2c_link_send_to_lower` that release one frame on the link in
slot `i`.  The list gives the control block at the time of each call.  For each
call the result has the decrement of the controller window of the transport and
the `layer_specific` value with which the buffer was handed to the lower layer.
When the call has set `partial_segment_being_sent`, the next call is made with
the remainder of the frame (`remainder_buf`); otherwise the frame is complete.
The Boolean says whether the frame is complete at the end of the list. -/
def frame_calls (env : Env) (i : Nat) : List tL2C_CB → BT_HDR → List (Nat × Nat) × Bool
  | [], _ => ([], false)
  | cb :: rest, b =>
    match cb.lcb_pool[i]?, (l2c_link_send_to_lower env cb i b).lcb_pool[i]?,
      (l2c_link_send_to_lower env cb i b).hci_sent.getLast? with
    | some p, some p1, some s =>
      let dec := xmit_window_of env cb p
        - xmit_window_of env (l2c_link_send_to_lower env cb i b) p
      if p1.partial_segment_being_sent then
        let t := frame_calls env i rest
          (remainder_buf (acl_data_size_of env p) s.buf.layer_specific b)
        ((dec, s.buf.layer_specific) :: t.1, t.2)
      else ([(dec, s.buf.layer_specific)], true)
    | _, _, _ => ([], false)

/-- A round-robin link with a frame of 1026 bytes (1022 bytes of payload, one
more than the ACL data size of `env0`) to send; the window has three buffers. -/
def cb_rr_frame : tL2C_CB :=
  { lcb_pool :=
      [ { in_use := true, link_state := .LST_CONNECTED, handle := 5, link_xmit_quota := 0 } ],
    num_links_active := 1, num_lm_acl_bufs := 3, controller_xmit_window := 3,
    round_robin_quota := 3 }

/-- A private-quota link (quota 3, nothing outstanding) with a window of two
buffers. -/
def cb_private_frame : tL2C_CB :=
  { lcb_pool :=
      [ { in_use := true, link_state := .LST_CONNECTED, handle := 6, link_xmit_quota := 3 } ],
    num_links_active := 1, num_lm_acl_bufs := 3, controller_xmit_window := 2 }

/-- A buffer with `layer_specific` cleared, to compare a buffer handed to the
lower layer with the buffer taken from a queue. -/
def clear_layer_specific (b : BT_HDR) : BT_HDR := { b with layer_specific := 0 }

/-- A private-quota link (quota 3, nothing outstanding, window 3) with one
frame of 10 bytes waiting on its link queue. -/
def cb_private_queued : tL2C_CB :=
  { lcb_pool :=
      [ { in_use := true, link_state := .LST_CONNECTED, handle := 6, link_xmit_quota := 3,
          link_xmit_data_q := [ { len := 10, data := 1 } ] } ],
    num_links_active := 1, num_lm_acl_bufs := 3, controller_xmit_window := 3 }

/-- The control block `cb_rr_frame` in congestion-callback context. -/
def cb_rr_cong : tL2C_CB := { cb_rr_frame with is_cong_cback_context := true }

/-- The buffer that the round-robin loop takes from the link `p` that it serves
(lines 1236-1255): the front of the link queue, and with an empty link queue,
unless the call is for a single write, the buffer that
`l2cu_get_next_buffer_to_send` returns for the local `fixd_cid`. -/
def rr_pick (env : Env) (single_write : Bool) (p : tL2C_LCB) (fixd_cid : Nat) :
    Option BT_HDR :=
  match p.link_xmit_data_q with
  | b :: _ => some b
  | [] => if single_write then none else (env.l2cu_get_next_buffer_to_send p fixd_cid).1

/-- What the round-robin loop hands to the lower layer when it serves the
quota-0 link `p`: the buffer of `rr_pick`, whole (`layer_specific = 0`) or as
one segment (`layer_specific = 1`). -/
def rr_sent (env : Env) (single_write : Bool) (p : tL2C_LCB) (fixd_cid : Nat) :
    Option tHCI_SEND :=
  (rr_pick env single_write p fixd_cid).map
    (fun b => ⟨p.handle, { b with layer_specific := if fits_acl_packet env p b then 0 else 1 },
      is_le env p⟩)

/-- The quota-0 link `p` after the round-robin loop has served it once: the
buffer of `rr_pick` is taken off its queue, or the channel records are as
`l2cu_get_next_buffer_to_send` leaves them; with a buffer, `sent_not_acked` is
one more and `partial_segment_being_sent` is set when the buffer does not fit
one ACL packet. -/
def rr_slot_after (env : Env) (single_write : Bool) (p : tL2C_LCB) (fixd_cid : Nat) :
    tL2C_LCB :=
  match p.link_xmit_data_q with
  | b :: rest =>
    { p with
      link_xmit_data_q := rest,
      sent_not_acked := u16_add p.sent_not_acked 1,
      partial_segment_being_sent := p.partial_segment_being_sent || !fits_acl_packet env p b }
  | [] =>
    if single_write then p
    else
      match (env.l2cu_get_next_buffer_to_send p fixd_cid).1 with
      | some b =>
        { p with
          ccb_queue := (env.l2cu_get_next_buffer_to_send p fixd_cid).2.2,
          sent_not_acked := u16_add p.sent_not_acked 1,
          partial_segment_being_sent :=
            p.partial_segment_being_sent || !fits_acl_packet env p b }
      | none => { p with ccb_queue := (env.l2cu_get_next_buffer_to_send p fixd_cid).2.2 }

/-- The slots `j` that `n` passes of the round-robin loop visit when they start
at the pool pointer `x`, in a pool of `m` slots: the slots from `x` on, and
after the wrap-around the slots from 0 on. -/
def rr_visits (m x n j : Nat) : Prop :=
  (x ≤ j ∧ j < x + n) ∨ (x ≤ j + m ∧ j + m < x + n)

/-- Three round-robin links sharing two controller buffers: the first and the
third are connected and have frames queued, the second is still connecting. -/
def cb_rr_three : tL2C_CB :=
  { lcb_pool :=
      [ { in_use := true, link_state := .LST_CONNECTED, handle := 1,
          link_xmit_data_q := [ { len := 10, data := 1 } ] },
        { in_use := true, link_state := .LST_CONNECTING, handle := 2,
          link_xmit_data_q := [ { len := 20, data := 2 } ] },
        { in_use := true, link_state := .LST_CONNECTED, handle := 3,
          link_xmit_data_q := [ { len := 30, data := 3 }, { len := 40, data := 4 } ] } ],
    num_links_active := 3, num_lm_acl_bufs := 2, controller_xmit_window := 2,
    round_robin_quota := 2 }

/-- The control block `cb_rr_three` after a round-robin pass that starts at the
first slot: the first and the third link have sent their front frame. -/
def cb_rr_three_after : tL2C_CB :=
  { lcb_pool :=
      [ { in_use := true, link_state := .LST_CONNECTED, handle := 1, sent_not_acked := 1 },
        { in_use := true, link_state := .LST_CONNECTING, handle := 2,
          link_xmit_data_q := [ { len := 20, data := 2 } ] },
        { in_use := true, link_state := .LST_CONNECTED, handle := 3, sent_not_acked := 1,
          link_xmit_data_q := [ { len := 40, data := 4 } ] } ],
    num_links_active := 3, num_lm_acl_bufs := 2, controller_xmit_window := 0,
    round_robin_quota := 2, round_robin_unacked := 2,
    hci_sent := [ ⟨1, { len := 10, data := 1 }, false⟩, ⟨3, { len := 30, data := 3 }, false⟩ ] }

/-- The number of buffers handed to the lower layer for links that are charged
to `controller_xmit_window`, that is all links but the LE links. -/
def classic_sent (cb : tL2C_CB) : Nat := (cb.hci_sent.filter (fun s => !s.ble)).length

/-- Every link of the pool that the round-robin loop may serve (the test of
lines 1229-1233 does not pass over it) is a BR/EDR link or an LE link.  Nothing
is asked of the slots that the loop passes over, such as the slots that are not
in use, whatever their field `transport` holds. -/
def transports_valid (env : Env) (pool : List tL2C_LCB) : Prop :=
  ∀ p ∈ pool, rr_skip env p = false →
    p.transport = .BT_TRANSPORT_BR_EDR ∨ p.transport = .BT_TRANSPORT_LE

instance (env : Env) (pool : List tL2C_LCB) : Decidable (transports_valid env pool) := by
  unfold transports_valid; infer_instance

/-- How the round-robin service uses the shared BR/EDR budget between two
states: `k` buffers were handed over for BR/EDR links, the controller window is
`k` smaller, `round_robin_unacked` is `k` larger and, if anything was sent, not
above `round_robin_quota`, which stays. -/
def rr_budget_step (cb cb1 : tL2C_CB) : Prop :=
  ∃ k, classic_sent cb1 = classic_sent cb + k ∧
    cb1.controller_xmit_window + k = cb.controller_xmit_window ∧
    cb1.round_robin_unacked = cb.round_robin_unacked + k ∧
    (k = 0 ∨ cb1.round_robin_unacked ≤ cb.round_robin_quota) ∧
    cb1.round_robin_quota = cb.round_robin_quota

/-- Five normal-priority links and four controller buffers, as
`l2c_link_adjust_allocation` leaves them: every link is served round-robin and
`round_robin_quota` is 4.  The first two links are connected and have two
frames queued each; the other three are still connecting. -/
def cb_rr_five : tL2C_CB :=
  { lcb_pool :=
      [ { in_use := true, link_state := .LST_CONNECTED, handle := 1,
          link_xmit_data_q := [ { len := 10, data := 1 }, { len := 11, data := 2 } ] },
        { in_use := true, link_state := .LST_CONNECTED, handle := 2,
          link_xmit_data_q := [ { len := 20, data := 3 }, { len := 21, data := 4 } ] },
        { in_use := true, link_state := .LST_CONNECTING, handle := 3 },
        { in_use := true, link_state := .LST_CONNECTING, handle := 4 },
        { in_use := true, link_state := .LST_CONNECTING, handle := 5 } ],
    num_links_active := 5, num_lm_acl_bufs := 4, controller_xmit_window := 4,
    round_robin_quota := 4 }

/-- The slot `j` of the list holds an entry that satisfies `f`. -/
def slot_sat {α : Type} (f : α → Bool) (l : List α) (j : Nat) : Bool :=
  match l[j]? with
  | some a => f a
  | none => false

/-- The slot `j` of the pool holds a link that the round-robin loop may serve
(the test of line 1230 does not pass over it). -/
def rr_eligible_at (env : Env) (pool : List tL2C_LCB) (j : Nat) : Bool :=
  slot_sat (fun p => !rr_skip env p) pool j

/-- Modelled from the spec: `l2cu_find_lcb_by_bd_addr` of `l2c_utils.c`, which is
not part of the sources at hand, finds the link control block of a remote
device on a transport, of which there is at most one; here it is the index of
the first in-use slot of the pool with that address and transport, and `none`
when there is none. -/
def l2cu_find_lcb_by_bd_addr (cb : tL2C_CB) (bd_addr : Nat) (transport : tBT_TRANSPORT) :
    Option Nat :=
  let i := cb.lcb_pool.findIdx
    (fun p => p.in_use && decide (p.remote_bd_addr = bd_addr) && decide (p.transport = transport))
  if i < cb.lcb_pool.length then some i else none

/-- Modelled from the spec: `l2cu_find_lcb_by_state` of `l2c_utils.c`, which is
not part of the sources at hand, finds a link control block in the given state;
here it is the index of the first in-use slot of the pool in that state, and
`none` when there is none. -/
def l2cu_find_lcb_by_state (cb : tL2C_CB) (state : tL2C_LINK_STATE) : Option Nat :=
  let i := cb.lcb_pool.findIdx (fun p => p.in_use && decide (p.link_state = state))
  if i < cb.lcb_pool.length then some i else none

/-- A call into another compilation unit is recorded at the end of the trace. -/
def ext_call (cb : tL2C_CB) (c : tEXT_CALL) : tL2C_CB :=
  { cb with calls := cb.calls ++ [c] }

/-- The link control block `p` is stored in slot `i` of the pool. -/
def set_lcb (cb : tL2C_CB) (i : Nat) (p : tL2C_LCB) : tL2C_CB :=
  { cb with lcb_pool := cb.lcb_pool.set i p }

/-- Modelled from the spec: `l2c_csm_execute` of `l2c_csm.c`, which is not part
of the sources at hand, hands an event to the state machine of a channel, and
the channel layer owns detaching itself.  Here the call is recorded, and when
`csm_detaches` says so the channel `c` is taken off the channel list of the
link in slot `i`; nothing else of the control block changes. -/
def l2c_csm_execute (env : Env) (cb : tL2C_CB) (i : Nat) (c : tL2C_CCB) (event : tL2C_EVT) :
    tL2C_CB :=
  let cb1 := ext_call cb (.l2c_csm_execute c.ccb_id event)
  if env.csm_detaches c.ccb_id event then
    match cb1.lcb_pool[i]? with
    | none => cb1
    | some p =>
      set_lcb cb1 i { p with ccb_queue := p.ccb_queue.filter (fun d => d.ccb_id ≠ c.ccb_id) }
  else cb1

/-- Modelled from the spec: `l2cu_release_lcb` of `l2c_utils.c`, which is not part
of the sources at hand, releases a link control block.  Here the call is
recorded and the slot is marked as not in use. -/
def l2cu_release_lcb (cb : tL2C_CB) (i : Nat) : tL2C_CB :=
  let cb1 := ext_call cb (.l2cu_release_lcb i)
  match cb1.lcb_pool[i]? with
  | none => cb1
  | some p => set_lcb cb1 i { p with in_use := false }

/-- Modelled from the spec: `l2cu_create_conn` of `l2c_utils.c`, which is not part
of the sources at hand, issues a connect attempt for a link.  Here the call is
recorded and the value it returns is `env.l2cu_create_conn`; what the attempt
does to the control block is not part of the model. -/
def l2cu_create_conn (env : Env) (cb : tL2C_CB) (i : Nat) (transport : tBT_TRANSPORT) :
    Bool × tL2C_CB :=
  (env.l2cu_create_conn cb i transport, ext_call cb (.l2cu_create_conn i transport))

/-- Lines 89-101 of `l2c_link_hci_conn_req`: `no_links` stays `TRUE` when no
slot of the pool other than slot `i` is in use. -/
def conn_req_no_links (cb : tL2C_CB) (i : Nat) : Bool :=
  !(cb.lcb_pool.enum.any (fun jp => decide (jp.1 ≠ i) && jp.2.in_use))

/-- Lines 105-108 and 128-131: the role by the role-switch policy. -/
def conn_req_switch_role (env : Env) (bd_addr : Nat) (p : tL2C_LCB) : tHCI_ROLE :=
  if !env.btm_dev_support_switch bd_addr then .HCI_ROLE_SLAVE else env.l2cu_get_conn_role p

/-- Lines 87-111: the role of a link control block that was just allocated in
slot `i`. -/
def conn_req_new_role (env : Env) (cb : tL2C_CB) (i : Nat) (bd_addr : Nat) (p : tL2C_LCB) :
    tHCI_ROLE :=
  if conn_req_no_links cb i then
    if env.MTK_STACK_CONFIG_BL && env.interop_mtk_match_addr_name bd_addr then .HCI_ROLE_MASTER
    else conn_req_switch_role env bd_addr p
  else .HCI_ROLE_MASTER

/-- The function `l2c_link_hci_conn_req` (lines 63-153): the value it returns and
the control block after the call.  The result is `none` when
`l2cu_allocate_lcb` returns a pointer that is not in the pool. -/
def l2c_link_hci_conn_req (env : Env) (cb : tL2C_CB) (bd_addr : Nat) :
    Option (Bool × tL2C_CB) :=
  match l2cu_find_lcb_by_bd_addr cb bd_addr .BT_TRANSPORT_BR_EDR with
  | none =>
    match env.l2cu_allocate_lcb cb bd_addr false .BT_TRANSPORT_BR_EDR with
    | none =>
      some (false, ext_call cb (.btsnd_hcic_reject_conn bd_addr .HCI_ERR_HOST_REJECT_RESOURCES))
    | some (i, cb1) =>
      match cb1.lcb_pool[i]? with
      | none => none
      | some p =>
        let role := conn_req_new_role env cb1 i bd_addr p
        let cb2 := ext_call cb1 (.btsnd_hcic_accept_conn bd_addr role)
        some (true, set_lcb cb2 i
          { p with link_role := role, link_state := .LST_CONNECTING,
                   l2c_lcb_timer := some .L2CAP_LINK_CONNECT_TIMEOUT_MS })
  | some i =>
    match cb.lcb_pool[i]? with
    | none => none
    | some p =>
      if p.link_state = .LST_CONNECTING ∨ p.link_state = .LST_CONNECT_HOLDING then
        let role := conn_req_switch_role env bd_addr p
        let cb2 := ext_call cb (.btsnd_hcic_accept_conn bd_addr role)
        some (true, set_lcb cb2 i { p with link_role := role, link_state := .LST_CONNECTING })
      else if p.link_state = .LST_DISCONNECTING then
        some (false, ext_call cb (.btsnd_hcic_reject_conn bd_addr .HCI_ERR_HOST_REJECT_DEVICE))
      else
        some (false, ext_call cb (.btsnd_hcic_reject_conn bd_addr .HCI_ERR_CONNECTION_EXISTS))

/-- An allocator for the examples: the new link control block goes into slot 0. -/
def alloc_slot0 (cb : tL2C_CB) (bd_addr : Nat) (is_bonding : Bool) (transport : tBT_TRANSPORT) :
    Option (Nat × tL2C_CB) :=
  some (0, set_lcb cb 0
    { in_use := true, remote_bd_addr := bd_addr, is_bonding := is_bonding,
      transport := transport })

/-- The environment `env0` with the allocator `alloc_slot0` and a remote device
that does not support the role switch. -/
def env_alloc : Env :=
  { env0 with l2cu_allocate_lcb := alloc_slot0, btm_dev_support_switch := fun _ => false,
              MTK_STACK_CONFIG_BL := false }

/-- The environment `env_alloc` compiled with `MTK_STACK_CONFIG_BL`, where the
remote device is on the list `INTEROP_MTK_HID_NOT_SET_SLAVE`. -/
def env_interop : Env :=
  { env_alloc with MTK_STACK_CONFIG_BL := true, interop_mtk_match_addr_name := fun _ => true }

/-- A pool of two slots, none in use. -/
def cb_unused : tL2C_CB := { lcb_pool := [ {}, {} ] }

/-- A pool with one link control block in use, for the address 7, still
connecting. -/
def cb_connecting : tL2C_CB :=
  { lcb_pool :=
      [ { in_use := true, remote_bd_addr := 7, link_state := .LST_CONNECTING, handle := 9,
          l2c_lcb_timer := some .L2CAP_LINK_CONNECT_TIMEOUT_MS,
          ccb_queue := [ { local_cid := 64, ccb_id := 1 }, { local_cid := 65, ccb_id := 2 } ] },
        {} ],
    num_links_active := 1 }

/-- The same pool with the link connected, with a slave role. -/
def cb_connected : tL2C_CB :=
  { lcb_pool :=
      [ { in_use := true, remote_bd_addr := 7, link_state := .LST_CONNECTED, handle := 9,
          link_role := .HCI_ROLE_SLAVE,
          ccb_queue := [ { local_cid := 64, ccb_id := 1 }, { local_cid := 65, ccb_id := 2 } ] },
        {} ],
    num_links_active := 1 }

/-- The loops of lines 267-274, 411-426: an event is sent to every channel on the
list `q`, the channel list of the link in slot `i` as it is when the loop
starts, but for the channel `skip`.  The pointer to the next channel is read
before the call, so a channel that takes itself off the list does not end the
loop. -/
def csm_dispatch_saved (env : Env) (i : Nat) (event : tL2C_EVT) (skip : Option Nat) :
    List tL2C_CCB → tL2C_CB → tL2C_CB
  | [], cb => cb
  | c :: rest, cb =>
    csm_dispatch_saved env i event skip rest
      (if some c.ccb_id = skip then cb else l2c_csm_execute env cb i c event)

/-- The loop of lines 232-235: `L2CEVT_LP_CONNECT_CFM` is sent to every channel
on the list.  The pointer to the next channel is read after the call, from the
channel just served; the result is `none` when that channel has taken itself
off the list during the call, because what the pointer then holds is decided
in `l2c_utils.c`. -/
def csm_dispatch_live (env : Env) (i : Nat) (event : tL2C_EVT) :
    List tL2C_CCB → tL2C_CB → Option tL2C_CB
  | [], cb => some cb
  | c :: rest, cb =>
    if env.csm_detaches c.ccb_id event then none
    else csm_dispatch_live env i event rest (l2c_csm_execute env cb i c event)

/-- Lines 463-495 of `l2c_link_hci_disc_comp`: every fixed channel of the link
other than the pending channel is reported as disconnected and released;
`xx` is the index of the first entry of the list. -/
def release_fixed_ccbs (env : Env) (p : tL2C_LCB) (transport : tBT_TRANSPORT) :
    Nat → List (Option Nat) → tL2C_CB → List (Option Nat) × tL2C_CB
  | _, [], cb => ([], cb)
  | xx, f :: rest, cb =>
    match f with
    | some c =>
      if some c ≠ p.p_pending_ccb then
        let cb1 := ext_call cb
          (.pL2CA_FixedConn_Cb (xx + env.L2CAP_FIRST_FIXED_CHNL) p.remote_bd_addr p.disc_reason
            transport)
        let r := release_fixed_ccbs env p transport (xx + 1) rest
          (ext_call cb1 (.l2cu_release_ccb c))
        (none :: r.1, r.2)
      else
        let r := release_fixed_ccbs env p transport (xx + 1) rest cb
        (f :: r.1, r.2)
    | none =>
      let r := release_fixed_ccbs env p transport (xx + 1) rest cb
      (f :: r.1, r.2)

/-- Lines 515-567, compiled with `MTK_COMMON`: the buffers that the link `p` in
slot `i` has outstanding are given back to the controller window of its
transport, which is cut to the number of controller buffers, a quota-0 link
takes them off the round-robin counter of its transport, and `sent_not_acked`
of the link is cleared. -/
def disc_restore_window (env : Env) (cb : tL2C_CB) (i : Nat) (p : tL2C_LCB) : tL2C_CB :=
  if p.sent_not_acked > 0 then
    let cb1 :=
      if is_le env p then
        let w := u16_add cb.controller_le_xmit_window p.sent_not_acked
        { cb with
          controller_le_xmit_window := if w > cb.num_lm_ble_bufs then cb.num_lm_ble_bufs else w,
          ble_round_robin_unacked :=
            if p.link_xmit_quota = 0 then floor_sub cb.ble_round_robin_unacked p.sent_not_acked
            else cb.ble_round_robin_unacked }
      else
        let w := u16_add cb.controller_xmit_window p.sent_not_acked
        { cb with
          controller_xmit_window := if w > cb.num_lm_acl_bufs then cb.num_lm_acl_bufs else w,
          round_robin_unacked :=
            if p.link_xmit_quota = 0 then floor_sub cb.round_robin_unacked p.sent_not_acked
            else cb.round_robin_unacked }
    set_lcb cb1 i { p with sent_not_acked := 0 }
  else cb

/-- Lines 440-573 of `l2c_link_hci_disc_comp`, the restart of the connection for
the link `p` in slot `i` that still has a channel or a pending channel: the
result says whether `l2cu_create_conn` has succeeded. -/
def disc_comp_reconnect (env : Env) (cb : tL2C_CB) (i : Nat) (p : tL2C_LCB) : Bool × tL2C_CB :=
  let le := is_le env p
  -- lines 446-458
  let cb1 := if le then ext_call { cb with is_ble_connecting := false }
      (.btm_acl_removed p.remote_bd_addr p.transport)
    else cb
  let p1 := if le then { p with link_xmit_data_q := [] } else p
  let cb2 := set_lcb cb1 i p1
  -- lines 463-569
  let cb4 :=
    if env.L2CAP_NUM_FIXED_CHNLS > 0 then
      let r := release_fixed_ccbs env p1
        (if env.BLE_INCLUDED then p1.transport else .BT_TRANSPORT_BR_EDR) 0 p1.p_fixed_ccbs cb2
      let p2 := { p1 with p_fixed_ccbs := r.1 }
      let cb3 := set_lcb r.2 i p2
      if env.MTK_COMMON then
        let p3 := { p2 with link_flush_tout := 65535, idle_timeout := cb3.idle_timeout,
                            l2c_lcb_timer := none }
        disc_restore_window env (set_lcb cb3 i p3) i p3
      else cb3
    else cb2
  -- line 571
  l2cu_create_conn env cb4 i p.transport

/-- Lines 394-434 of `l2c_link_hci_disc_comp` for the link `p` found in slot `i`:
the reason is stored, the link goes to `LST_DISCONNECTING`, and every channel
of the link but the pending one gets `L2CEVT_LP_DISCONNECT_IND`. -/
def disc_comp_dispatch (env : Env) (cb : tL2C_CB) (i : Nat) (p : tL2C_LCB)
    (reason : tHCI_STATUS) : tL2C_CB :=
  let cb1 :=
    if cb.acl_disc_reason ≠ .HCI_ERR_HOST_REJECT_SECURITY then { cb with acl_disc_reason := reason }
    else cb
  let p1 := { p with disc_reason := cb1.acl_disc_reason, link_state := .LST_DISCONNECTING }
  let cb2 := set_lcb cb1 i p1
  let cb3 :=
    if is_le env p then ext_call cb2 (.btm_ble_update_link_topology_mask p.link_role) else cb2
  let cb4 := csm_dispatch_saved env i .L2CEVT_LP_DISCONNECT_IND p.p_pending_ccb p.ccb_queue cb3
  if env.BTM_SCO_INCLUDED ∧ (env.BLE_INCLUDED = true → p.transport = .BT_TRANSPORT_BR_EDR) then
    ext_call cb4 (.btm_sco_acl_removed p.remote_bd_addr)
  else cb4

/-- Lines 436-580 of `l2c_link_hci_disc_comp` for the link in slot `i`: the
connection is restarted when a channel is left or one is pending, the pending
channel is cleared, and the link is released when `lcb_is_free` is still
`TRUE`.  The result is the value of `lcb_is_free` and the control block. -/
def disc_comp_finish (env : Env) (cb5 : tL2C_CB) (i : Nat) : Bool × tL2C_CB :=
  match cb5.lcb_pool[i]? with
  | none => (true, cb5)
  | some p5 =>
    let r : Bool × tL2C_CB :=
      if p5.ccb_queue ≠ [] ∨ p5.p_pending_ccb.isSome then
        let c := disc_comp_reconnect env cb5 i p5
        (!c.1, c.2)
      else (true, cb5)
    match r.2.lcb_pool[i]? with
    | none => r
    | some p6 =>
      let cb6 := set_lcb r.2 i { p6 with p_pending_ccb := none }
      (r.1, if r.1 then l2cu_release_lcb cb6 i else cb6)

/-- Lines 394-580 of `l2c_link_hci_disc_comp` for the link `p` found in slot `i`:
the value of `lcb_is_free` and the control block. -/
def disc_comp_known (env : Env) (cb : tL2C_CB) (i : Nat) (p : tL2C_LCB) (reason : tHCI_STATUS) :
    Bool × tL2C_CB :=
  disc_comp_finish env (disc_comp_dispatch env cb i p reason) i

/-- The function `l2c_link_hci_disc_comp` (lines 376-590): the value it returns
and the control block after the call. -/
def l2c_link_hci_disc_comp (env : Env) (cb : tL2C_CB) (handle : Nat) (reason : tHCI_STATUS) :
    Bool × tL2C_CB :=
  let r : Bool × Bool × tL2C_CB :=
    match l2cu_find_lcb_by_handle cb handle with
    | none => (false, true, cb)
    | some i =>
      match cb.lcb_pool[i]? with
      | none => (false, true, cb)
      | some p => (true, disc_comp_known env cb i p reason)
  let cb1 :=
    if r.2.1 then
      match l2cu_find_lcb_by_state r.2.2 .LST_CONNECT_HOLDING with
      | some j => (l2cu_create_conn env r.2.2 j .BT_TRANSPORT_BR_EDR).2
      | none => r.2.2
    else r.2.2
  (r.1, cb1)

/-- Lines 201-251 of `l2c_link_hci_conn_comp`, the successful connection of the
link `p` in slot `i`, whose handle has been stored. -/
def conn_comp_success (env : Env) (cb : tL2C_CB) (i : Nat) (p : tL2C_LCB) (handle : Nat)
    (p_bda : Nat) : Option tL2C_CB :=
  let p1 := { p with link_state := .LST_CONNECTED }
  let cb1 := ext_call (ext_call (ext_call (set_lcb cb i p1) (.l2cu_send_peer_info_req i))
    (.btm_acl_created p_bda handle p.link_role)) (.BTM_SetLinkSuperTout p_bda)
  let cb2 := if p.is_bonding then ext_call cb1 (.l2cu_start_post_bond_timer handle) else cb1
  if p.is_bonding && env.l2cu_start_post_bond_timer handle then some cb2
  else
    let p2 := { p1 with l2c_lcb_timer := none }
    let cb3 := set_lcb (ext_call cb2 .l2c_process_held_packets) i p2
    match csm_dispatch_live env i .L2CEVT_LP_CONNECT_CFM p.ccb_queue cb3 with
    | none => none
    | some cb4 =>
      match cb4.lcb_pool[i]? with
      | none => none
      | some p4 =>
        if p4.p_echo_rsp_cb then
          some (set_lcb (ext_call cb4 (.l2cu_send_peer_echo_req i)) i
            { p4 with l2c_lcb_timer := some .L2CAP_ECHO_RSP_TIMEOUT_MS })
        else if p4.ccb_queue = [] then
          some (set_lcb cb4 i { p4 with l2c_lcb_timer := some .L2CAP_LINK_STARTUP_TOUT })
        else some cb4

/-- Lines 260-292 of `l2c_link_hci_conn_comp`, the failed connection of the link
`p` in slot `i`, whose handle has been stored. -/
def conn_comp_failed (env : Env) (cb : tL2C_CB) (i : Nat) (p : tL2C_LCB)
    (status : tHCI_STATUS) : tL2C_CB :=
  let cb1 := set_lcb cb i { p with link_state := .LST_DISCONNECTING }
  let cb2 := csm_dispatch_saved env i .L2CEVT_LP_CONNECT_CFM_NEG none p.ccb_queue cb1
  match cb2.lcb_pool[i]? with
  | none => cb2
  | some p2 =>
    let p3 := { p2 with disc_reason := status }
    let cb3 := set_lcb cb2 i p3
    if p3.ccb_queue = [] then l2cu_release_lcb cb3 i
    else if status = .HCI_ERR_CONNECTION_EXISTS then
      set_lcb cb3 i { p3 with link_state := .LST_CONNECTING }
    else (l2cu_create_conn env cb3 i .BT_TRANSPORT_BR_EDR).2

/-- The function `l2c_link_hci_conn_comp` (lines 165-294): the value it returns
and the control block after the call.  The result is `none` where
`csm_dispatch_live` is. -/
def l2c_link_hci_conn_comp (env : Env) (cb : tL2C_CB) (status : tHCI_STATUS) (handle : Nat)
    (p_bda : Nat) : Option (Bool × tL2C_CB) :=
  let cb0 := ext_call cb .btm_acl_update_busy_level
  match l2cu_find_lcb_by_bd_addr cb0 p_bda .BT_TRANSPORT_BR_EDR with
  | none => some (false, cb0)
  | some i =>
    match cb0.lcb_pool[i]? with
    | none => none
    | some p =>
      if p.link_state ≠ .LST_CONNECTING then
        if status ≠ .HCI_SUCCESS then
          some (false, (l2c_link_hci_disc_comp env cb0 p.handle status).2)
        else some (false, cb0)
      else
        let p1 := { p with handle := handle }
        let cb1 := set_lcb cb0 i p1
        if status = .HCI_SUCCESS then
          (conn_comp_success env cb1 i p1 handle p_bda).map (fun c => (true, c))
        else if status = .HCI_ERR_MAX_NUM_OF_CONNECTIONS ∧ env.l2cu_lcb_disconnecting cb1 = true then
          some (true, set_lcb cb1 i
            { p1 with link_state := .LST_CONNECT_HOLDING, handle := env.HCI_INVALID_HANDLE })
        else some (true, conn_comp_failed env cb1 i p1 status)

/-- Line 350: the timer of the first channel of the list whose address is
`p_ref_data` is armed. -/
def ccb_arm_timer (p_ref_data : Nat) : List tL2C_CCB → List tL2C_CCB
  | [] => []
  | c :: rest =>
    if c.ccb_id = p_ref_data then
      { c with l2c_ccb_timer := some .L2CAP_DELAY_CHECK_SM4_TIMEOUT_MS } :: rest
    else c :: ccb_arm_timer p_ref_data rest

/-- The function `l2c_link_sec_comp` (lines 307-363); `p_ref_data` is the
address that the security manager hands back. -/
def l2c_link_sec_comp (env : Env) (cb : tL2C_CB) (p_bda : Nat) (transport : tBT_TRANSPORT)
    (p_ref_data : Nat) (status : tBTM_STATUS) : tL2C_CB :=
  let status1 := if status = .BTM_SUCCESS_NO_SECURITY then .BTM_SUCCESS else status
  match l2cu_find_lcb_by_bd_addr cb p_bda transport with
  | none => cb
  | some i =>
    match cb.lcb_pool[i]? with
    | none => cb
    | some p =>
      match p.ccb_queue.find? (fun c => decide (c.ccb_id = p_ref_data)) with
      | none => cb
      | some c =>
        match status1 with
        | .BTM_SUCCESS => l2c_csm_execute env cb i c .L2CEVT_SEC_COMP
        | .BTM_DELAY_CHECK =>
          set_lcb cb i { p with ccb_queue := ccb_arm_timer p_ref_data p.ccb_queue }
        | _ => l2c_csm_execute env cb i c .L2CEVT_SEC_COMP_NEG

/-- The channel `d` is still on the channel list after the loop
`csm_dispatch_saved` over the list `l`: no channel of `l` with the address of
`d` got the event and took itself off the list. -/
def csm_stays (env : Env) (event : tL2C_EVT) (skip : Option Nat) (l : List tL2C_CCB)
    (d : tL2C_CCB) : Bool :=
  !(l.any (fun c => decide (c.ccb_id = d.ccb_id) && decide (some c.ccb_id ≠ skip)
      && env.csm_detaches c.ccb_id event))

/-- The events handed to the channel state machines, in the order of the trace:
the channel and the event of every `l2c_csm_execute`. -/
def csm_events (calls : List tEXT_CALL) : List (Nat × tL2C_EVT) :=
  calls.filterMap (fun c =>
    match c with
    | .l2c_csm_execute ccb event => some (ccb, event)
    | _ => none)

/-- The connect attempts of the trace: the link of every `l2cu_create_conn` and
`l2cu_create_conn_after_switch`. -/
def conn_attempts (calls : List tEXT_CALL) : List Nat :=
  calls.filterMap (fun c =>
    match c with
    | .l2cu_create_conn lcb _ => some lcb
    | .l2cu_create_conn_after_switch lcb => some lcb
    | _ => none)

/-- The links released in the trace: the link of every `l2cu_release_lcb`. -/
def lcb_releases (calls : List tEXT_CALL) : List Nat :=
  calls.filterMap (fun c =>
    match c with
    | .l2cu_release_lcb lcb => some lcb
    | _ => none)

/-- The environment `env0` where `l2cu_lcb_disconnecting` finds a link that is
disconnecting. -/
def env_disconnecting : Env := { env0 with l2cu_lcb_disconnecting := fun _ => true }

/-- The channel `c` with its timer armed as in line 350. -/
def ccb_timer_armed (c : tL2C_CCB) : tL2C_CCB :=
  { c with l2c_ccb_timer := some .L2CAP_DELAY_CHECK_SM4_TIMEOUT_MS }

/-- A call of the trace that is neither an event for a channel, nor a connect
attempt, nor the release of a link. -/
def quiet_call (c : tEXT_CALL) : Bool :=
  match c with
  | .l2c_csm_execute _ _ => false
  | .l2cu_create_conn _ _ => false
  | .l2cu_create_conn_after_switch _ => false
  | .l2cu_release_lcb _ => false
  | _ => true

/-- What the restart of a connection keeps of the link control block: all but
the queue of buffers, the fixed channels, the flush and idle timeouts, the
timer and `sent_not_acked`. -/
def lcb_kept (p p1 : tL2C_LCB) : Prop :=
  p1.in_use = p.in_use ∧ p1.transport = p.transport ∧ p1.link_state = p.link_state ∧
  p1.remote_bd_addr = p.remote_bd_addr ∧ p1.handle = p.handle ∧
  p1.link_xmit_quota = p.link_xmit_quota ∧ p1.ccb_queue = p.ccb_queue ∧
  p1.p_pending_ccb = p.p_pending_ccb ∧ p1.disc_reason = p.disc_reason ∧
  p1.link_role = p.link_role ∧ p1.acl_priority = p.acl_priority

/-- The control block `cb1` comes from `cb` by storing in slot `i` a link control
block that keeps what `lcb_kept` lists of `p`, and by calls that are quiet. -/
def quiet_step (i : Nat) (cb : tL2C_CB) (p : tL2C_LCB) (cb1 : tL2C_CB) : Prop :=
  (∃ p1, cb1.lcb_pool = cb.lcb_pool.set i p1 ∧ lcb_kept p p1) ∧
  ∃ extra, cb1.calls = cb.calls ++ extra ∧ extra.all quiet_call = true

/-- The channels of the link `p` that are still on its channel list after the
loop of lines 411-426: the pending channel, and every channel that did not take
itself off the list when it got `L2CEVT_LP_DISCONNECT_IND`. -/
def disc_comp_left (env : Env) (p : tL2C_LCB) : List tL2C_CCB :=
  p.ccb_queue.filter (fun d =>
    !(decide (some d.ccb_id ≠ p.p_pending_ccb)
      && env.csm_detaches d.ccb_id .L2CEVT_LP_DISCONNECT_IND))

/-- The channels of the link `p` that get `L2CEVT_LP_DISCONNECT_IND` in the loop
of lines 411-426: all but the pending channel. -/
def disc_comp_served (p : tL2C_LCB) : List tL2C_CCB :=
  p.ccb_queue.filter (fun c => decide (some c.ccb_id ≠ p.p_pending_ccb))

/-- The pool of `cb_connected` with the channel 2 of the link pending and two
buffers of the link not acknowledged. -/
def cb_pending : tL2C_CB :=
  { lcb_pool :=
      [ { in_use := true, remote_bd_addr := 7, link_state := .LST_CONNECTED, handle := 9,
          sent_not_acked := 2, p_pending_ccb := some 2,
          ccb_queue := [ { local_cid := 64, ccb_id := 1 }, { local_cid := 65, ccb_id := 2 } ] },
        {} ],
    num_links_active := 1, num_lm_acl_bufs := 4, controller_xmit_window := 1,
    round_robin_unacked := 3 }

/-- The environment `env0` where every channel that gets an event takes itself
off the channel list of its link. -/
def env_detach : Env := { env0 with csm_detaches := fun _ _ => true }

/-- What lines 515-567 write for a BR/EDR link in slot `i`: the controller
window, the round-robin counter and `sent_not_acked` of the link. -/
def window_view (cb : tL2C_CB) (i : Nat) : Nat × Nat × Option Nat :=
  (cb.controller_xmit_window, cb.round_robin_unacked,
    (cb.lcb_pool[i]?).map (fun p => p.sent_not_acked))

/-- The loop of lines 616-620: `L2CEVT_LP_QOS_VIOLATION_IND` is sent to every
channel of the list that has a `pL2CA_QoSViolationInd_Cb`.  The pointer to the
next channel is read after the call, as in `csm_dispatch_live`. -/
def qos_violation_loop (env : Env) (i : Nat) : List tL2C_CCB → tL2C_CB → Option tL2C_CB
  | [], cb => some cb
  | c :: rest, cb =>
    if c.pL2CA_QoSViolationInd_Cb then
      if env.csm_detaches c.ccb_id .L2CEVT_LP_QOS_VIOLATION_IND then none
      else qos_violation_loop env i rest (l2c_csm_execute env cb i c .L2CEVT_LP_QOS_VIOLATION_IND)
    else qos_violation_loop env i rest cb

/-- The function `l2c_link_hci_qos_violation` (lines 603-623): the value it
returns and the control block after the call. -/
def l2c_link_hci_qos_violation (env : Env) (cb : tL2C_CB) (handle : Nat) :
    Option (Bool × tL2C_CB) :=
  match l2cu_find_lcb_by_handle cb handle with
  | none => some (false, cb)
  | some i =>
    match cb.lcb_pool[i]? with
    | none => none
    | some p => (qos_violation_loop env i p.ccb_queue cb).map (fun c => (true, c))

/-- Lines 650-670 of `l2c_link_timeout`, for the link `p` in slot `i` that was
connecting or disconnecting: the pending channel is cleared, every channel gets
`L2CEVT_LP_DISCONNECT_IND`, and the link is released. -/
def timeout_drop (env : Env) (cb : tL2C_CB) (i : Nat) (p : tL2C_LCB) : tL2C_CB :=
  let cb1 := set_lcb cb i { p with p_pending_ccb := none }
  let cb2 := csm_dispatch_saved env i .L2CEVT_LP_DISCONNECT_IND none p.ccb_queue cb1
  let cb3 :=
    match cb2.lcb_pool[i]? with
    | none => cb2
    | some p2 =>
      if env.BLE_INCLUDED = true ∧ p2.link_state = .LST_CONNECTING ∧ cb2.is_ble_connecting = true
      then ext_call cb2 .L2CA_CancelBleConnectReq
      else cb2
  l2cu_release_lcb cb3 i

/-- Lines 703-747 of `l2c_link_timeout`, for the connected link `p` in slot `i`
without a channel: the result of `btm_sec_disconnect` decides the state of the
link and whether its timer is armed. -/
def timeout_no_channels (env : Env) (cb : tL2C_CB) (i : Nat) (p : tL2C_LCB) : tL2C_CB :=
  let cb1 := ext_call cb (.btm_sec_disconnect p.handle)
  match env.btm_sec_disconnect p.handle with
  | .BTM_CMD_STORED => cb1
  | .BTM_CMD_STARTED =>
    set_lcb cb1 i { p with link_state := .LST_DISCONNECTING,
                           l2c_lcb_timer := some .L2CAP_LINK_DISCONNECT_TIMEOUT_MS }
  | .BTM_SUCCESS =>
    set_lcb (ext_call cb1 (.l2cu_process_fixed_disc_cback i)) i
      { p with link_state := .LST_DISCONNECTING }
  | .BTM_BUSY => cb1
  | _ =>
    if p.is_bonding then
      let cb2 := ext_call cb1 (.btsnd_hcic_disconnect p.handle)
      if env.btsnd_hcic_disconnect p.handle then
        set_lcb (ext_call cb2 (.l2cu_process_fixed_disc_cback i)) i
          { p with link_state := .LST_DISCONNECTING,
                   l2c_lcb_timer := some .L2CAP_LINK_DISCONNECT_TIMEOUT_MS }
      else set_lcb cb2 i { p with l2c_lcb_timer := some .BT_1SEC_TIMEOUT_MS }
    else set_lcb cb1 i { p with l2c_lcb_timer := some .BT_1SEC_TIMEOUT_MS }

/-- The function `l2c_link_timeout` (lines 636-755) for the link in slot `i`;
the result is `none` when `i` is no slot of the pool and where
`l2c_link_check_send_pkts` is. -/
def l2c_link_timeout (env : Env) (fuel : Nat) (cb : tL2C_CB) (i : Nat) : Option tL2C_CB :=
  match cb.lcb_pool[i]? with
  | none => none
  | some p =>
    let cb1 :=
      if p.link_state = .LST_CONNECTING_WAIT_SWITCH ∨ p.link_state = .LST_CONNECTING ∨
          p.link_state = .LST_CONNECT_HOLDING ∨ p.link_state = .LST_DISCONNECTING then
        timeout_drop env cb i p
      else cb
    match cb1.lcb_pool[i]? with
    | none => none
    | some p1 =>
      if p1.link_state = .LST_CONNECTED then
        let cb2 :=
          if p1.p_echo_rsp_cb then
            csm_dispatch_saved env i .L2CEVT_LP_DISCONNECT_IND none p1.ccb_queue
              (ext_call (set_lcb cb1 i { p1 with p_echo_rsp_cb := false }) (.p_echo_rsp_cb i))
          else cb1
        match cb2.lcb_pool[i]? with
        | none => none
        | some p2 =>
          if p2.ccb_queue = [] then some (timeout_no_channels env cb2 i p2)
          else l2c_link_check_send_pkts env fuel cb2 (some i) none none
      else some cb1

/-- The function `l2c_info_resp_timer_timeout` (lines 766-807) for the link in
slot `i`; the result is `none` when `i` is no slot of the pool and where
`csm_dispatch_live` is. -/
def l2c_info_resp_timer_timeout (env : Env) (cb : tL2C_CB) (i : Nat) : Option tL2C_CB :=
  match cb.lcb_pool[i]? with
  | none => none
  | some p =>
    if p.w4_info_rsp then
      if p.ccb_queue.any (fun c => decide (c.chnl_state = .CST_ORIG_W4_SEC_COMP) ||
          decide (c.chnl_state = .CST_TERM_W4_SEC_COMP)) then
        some (set_lcb cb i { p with info_resp_timer := true })
      else
        let cb1 := set_lcb cb i { p with w4_info_rsp := false }
        if p.link_state ≠ .LST_DISCONNECTED ∧ p.link_state ≠ .LST_DISCONNECTING then
          csm_dispatch_live env i .L2CEVT_L2CAP_INFO_RSP p.ccb_queue cb1
        else some cb1
    else some cb

/-- Modelled from the spec: `l2cu_set_acl_priority` of `l2c_utils.c`, which is
not part of the sources at hand, re-applies the priority policy of a link.
Here the call is recorded; what it does to the control block is not part of
the model. -/
def l2cu_set_acl_priority (cb : tL2C_CB) (bd_addr : Nat) (priority : tL2CAP_PRIORITY) :
    tL2C_CB :=
  ext_call cb (.l2cu_set_acl_priority bd_addr priority)

/-- Modelled from the spec: `l2cu_create_conn_after_switch` of `l2c_utils.c`,
which is not part of the sources at hand, resumes the connection of a link that
waited for a role switch.  Here the call is recorded; what it does to the
control block is not part of the model. -/
def l2cu_create_conn_after_switch (cb : tL2C_CB) (i : Nat) : tL2C_CB :=
  ext_call cb (.l2cu_create_conn_after_switch i)

/-- The loop of lines 1047-1053 over the slots `xs` of the pool: every link in
use that is in `LST_CONNECTING_WAIT_SWITCH` is resumed. -/
def role_changed_loop : List Nat → tL2C_CB → tL2C_CB
  | [], cb => cb
  | xx :: rest, cb =>
    match cb.lcb_pool[xx]? with
    | none => role_changed_loop rest cb
    | some p =>
      if p.in_use = true ∧ p.link_state = .LST_CONNECTING_WAIT_SWITCH then
        role_changed_loop rest (l2cu_create_conn_after_switch cb xx)
      else role_changed_loop rest cb

/-- The function `l2c_link_role_changed` (lines 1026-1054); `bd_addr` is `none`
for a null pointer. -/
def l2c_link_role_changed (cb : tL2C_CB) (bd_addr : Option Nat) (new_role : tHCI_ROLE)
    (hci_status : tHCI_STATUS) : tL2C_CB :=
  let cb1 :=
    match bd_addr with
    | none => cb
    | some a =>
      match l2cu_find_lcb_by_bd_addr cb a .BT_TRANSPORT_BR_EDR with
      | none => cb
      | some i =>
        match cb.lcb_pool[i]? with
        | none => cb
        | some p =>
          let cb2 := set_lcb cb i { p with link_role := new_role }
          if hci_status = .HCI_SUCCESS then l2cu_set_acl_priority cb2 a p.acl_priority else cb2
  role_changed_loop (List.range cb1.lcb_pool.length) cb1

/-- The function `l2c_pin_code_request` (lines 1069-1080). -/
def l2c_pin_code_request (cb : tL2C_CB) (bd_addr : Nat) : tL2C_CB :=
  match l2cu_find_lcb_by_bd_addr cb bd_addr .BT_TRANSPORT_BR_EDR with
  | none => cb
  | some i =>
    match cb.lcb_pool[i]? with
    | none => cb
    | some p =>
      if p.ccb_queue = [] then
        set_lcb cb i { p with l2c_lcb_timer := some .L2CAP_LINK_CONNECT_EXT_TIMEOUT_MS }
      else cb

/-- The function `l2c_link_processs_num_bufs` (lines 988-992). -/
def l2c_link_processs_num_bufs (cb : tL2C_CB) (num_lm_acl_bufs : Nat) : tL2C_CB :=
  { cb with num_lm_acl_bufs := num_lm_acl_bufs, controller_xmit_window := num_lm_acl_bufs }

/-- An event that `l2c_link.c` handles, with the arguments of the function that
handles it: the HCI events, the expiry of the two timers of a link, given by
its slot, and the requests to send. -/
inductive tLINK_EVENT where
  | hci_conn_req (bd_addr : Nat)
  | hci_conn_comp (status : tHCI_STATUS) (handle : Nat) (p_bda : Nat)
  | sec_comp (p_bda : Nat) (transport : tBT_TRANSPORT) (p_ref_data : Nat) (status : tBTM_STATUS)
  | hci_disc_comp (handle : Nat) (reason : tHCI_STATUS)
  | hci_qos_violation (handle : Nat)
  | timeout (lcb : Nat)
  | info_resp_timer_timeout (lcb : Nat)
  | role_changed (bd_addr : Option Nat) (new_role : tHCI_ROLE) (hci_status : tHCI_STATUS)
  | pin_code_request (bd_addr : Nat)
  | processs_num_bufs (num_lm_acl_bufs : Nat)
  | process_num_completed_pkts (entries : List (Nat × Nat))
  | segments_xmitted (handle : Nat) (p_msg : BT_HDR)
  | check_send_pkts (p_lcb : Option Nat) (p_ccb : Option tL2C_CCB) (p_buf : Option BT_HDR)

/-- The control block after `l2c_link.c` has handled one event; `none` where the
function that handles the event is. -/
def l2c_link_event (env : Env) (fuel : Nat) (cb : tL2C_CB) : tLINK_EVENT → Option tL2C_CB
  | .hci_conn_req bd_addr => (l2c_link_hci_conn_req env cb bd_addr).map (fun r => r.2)
  | .hci_conn_comp status handle p_bda =>
    (l2c_link_hci_conn_comp env cb status handle p_bda).map (fun r => r.2)
  | .sec_comp p_bda transport p_ref_data status =>
    some (l2c_link_sec_comp env cb p_bda transport p_ref_data status)
  | .hci_disc_comp handle reason => some (l2c_link_hci_disc_comp env cb handle reason).2
  | .hci_qos_violation handle => (l2c_link_hci_qos_violation env cb handle).map (fun r => r.2)
  | .timeout lcb => l2c_link_timeout env fuel cb lcb
  | .info_resp_timer_timeout lcb => l2c_info_resp_timer_timeout env cb lcb
  | .role_changed bd_addr new_role hci_status =>
    some (l2c_link_role_changed cb bd_addr new_role hci_status)
  | .pin_code_request bd_addr => some (l2c_pin_code_request cb bd_addr)
  | .processs_num_bufs n => some (l2c_link_processs_num_bufs cb n)
  | .process_num_completed_pkts entries => l2c_link_process_num_completed_pkts env fuel cb entries
  | .segments_xmitted handle p_msg => l2c_link_segments_xmitted env fuel cb handle p_msg
  | .check_send_pkts p_lcb p_ccb p_buf => l2c_link_check_send_pkts env fuel cb p_lcb p_ccb p_buf

/-- The trace of `cb1` is the trace of `cb` with calls after it, none of which
is a connect attempt. -/
def calls_ext (cb cb1 : tL2C_CB) : Prop :=
  ∃ new, cb1.calls = cb.calls ++ new ∧ conn_attempts new = []

/-- The trace of `cb1` is the trace of `cb` with calls after it, and no connect
attempt among them is for a link that is in `LST_CONNECTED` in `cb`. -/
def no_retry (cb cb1 : tL2C_CB) : Prop :=
  ∃ new, cb1.calls = cb.calls ++ new ∧
    ∀ j ∈ conn_attempts new, ∀ pj, cb.lcb_pool[j]? = some pj → pj.link_state ≠ .LST_CONNECTED

/-- The event makes `l2c_link_hci_disc_comp` run: it is a disconnect-complete,
or a connect-complete with a failure status for an address whose link control
block is not in `LST_CONNECTING`, which line 193 hands on. -/
def runs_disc_comp (cb : tL2C_CB) : tLINK_EVENT → Bool
  | .hci_disc_comp _ _ => true
  | .hci_conn_comp status _ p_bda =>
    decide (status ≠ .HCI_SUCCESS) &&
      (match l2cu_find_lcb_by_bd_addr cb p_bda .BT_TRANSPORT_BR_EDR with
       | none => false
       | some i =>
         match cb.lcb_pool[i]? with
         | none => false
         | some p => decide (p.link_state ≠ .LST_CONNECTING))
  | _ => false

/-- The function `l2cu_allocate_lcb` makes no call of the trace. -/
def allocate_quiet (env : Env) : Prop :=
  ∀ (cb cb1 : tL2C_CB) (bd_addr i : Nat) (is_bonding : Bool) (transport : tBT_TRANSPORT),
    env.l2cu_allocate_lcb cb bd_addr is_bonding transport = some (i, cb1) → cb1.calls = cb.calls

/-- A pool whose first link is connected, with the handle 9 and one channel, and
whose second link is held in `LST_CONNECT_HOLDING`. -/
def cb_holding : tL2C_CB :=
  { lcb_pool :=
      [ { in_use := true, remote_bd_addr := 7, link_state := .LST_CONNECTED, handle := 9,
          ccb_queue := [ { local_cid := 64, ccb_id := 1 } ] },
        { in_use := true, remote_bd_addr := 8, link_state := .LST_CONNECT_HOLDING,
          handle := 65535 } ],
    num_links_active := 2 }

/-- State and timer of a connected link without channels after
`l2c_link_timeout`, by the result `rc` of `btm_sec_disconnect`; `timer` is the
timer of the link before, `sent` says whether the link is bonding and
`btsnd_hcic_disconnect` has sent the command. -/
def timeout_outcome (rc : tBTM_STATUS) (timer : Option tL2C_TIMEOUT) (sent : Bool) :
    tL2C_LINK_STATE × Option tL2C_TIMEOUT :=
  match rc with
  | .BTM_CMD_STORED => (.LST_CONNECTED, timer)
  | .BTM_BUSY => (.LST_CONNECTED, timer)
  | .BTM_CMD_STARTED => (.LST_DISCONNECTING, some .L2CAP_LINK_DISCONNECT_TIMEOUT_MS)
  | .BTM_SUCCESS => (.LST_DISCONNECTING, timer)
  | _ =>
    if sent then (.LST_DISCONNECTING, some .L2CAP_LINK_DISCONNECT_TIMEOUT_MS)
    else (.LST_CONNECTED, some .BT_1SEC_TIMEOUT_MS)

/-- A pool with one connected link, with the handle 9, that has no channel. -/
def cb_idle_link : tL2C_CB :=
  { lcb_pool :=
      [ { in_use := true, remote_bd_addr := 7, link_state := .LST_CONNECTED, handle := 9 } ],
    num_links_active := 1 }

/-- The environment `env0` where `btm_sec_disconnect` returns a value that
`l2c_link_timeout` does not name. -/
def env_sec_fails : Env := { env0 with btm_sec_disconnect := fun _ => .BTM_OTHER 7 }

/-- One connected link with the handle 1 that owns all four controller buffers,
has none outstanding and has one frame of 10 bytes on its link queue. -/
def cb_one_private : tL2C_CB :=
  { lcb_pool :=
      [ { in_use := true, link_state := .LST_CONNECTED, handle := 1, link_xmit_quota := 4,
          link_xmit_data_q := [ { len := 10 } ] } ],
    num_links_active := 1, num_lm_acl_bufs := 4, controller_xmit_window := 4 }

/-- Sum of `sent_not_acked` over the in-use BR/EDR links of the pool: the
controller buffers that the BR/EDR links have outstanding. -/
def acl_outstanding (pool : List tL2C_LCB) : Nat :=
  ((pool.filter tL2C_LCB.br_edr_in_use).map tL2C_LCB.sent_not_acked).sum

/-- Buffer conservation on the BR/EDR transport: the free controller buffers
and the outstanding ones add up to `num_lm_acl_bufs`. -/
def acl_conserved (cb : tL2C_CB) : Prop :=
  cb.controller_xmit_window + acl_outstanding cb.lcb_pool = cb.num_lm_acl_bufs

instance (cb : tL2C_CB) : Decidable (acl_conserved cb) := by
  unfold acl_conserved; infer_instance

/-- The link `p` as `l2c_link_segments_xmitted` hands it to the scheduler (lines
1678-1682): the buffer is at the head of the transmit queue and
`partial_segment_being_sent` is clear. -/
def requeued (p : tL2C_LCB) (p_msg : BT_HDR) : tL2C_LCB :=
  { p with
    link_xmit_data_q := p_msg :: p.link_xmit_data_q
    partial_segment_being_sent := false }

/-- Slot by slot, the links of `cb1` are in the state that the links of `cb`
are in. -/
def keeps_states (cb cb1 : tL2C_CB) : Prop :=
  cb1.lcb_pool.length = cb.lcb_pool.length ∧
  ∀ (j : Nat) (p p1 : tL2C_LCB), cb.lcb_pool[j]? = some p → cb1.lcb_pool[j]? = some p1 →
    p1.link_state = p.link_state

/-- Between `cb` and `cb1` no slot of the pool but slot `i` has a new link
state, and the old and the new state of slot `i` are related by `W`. -/
def writes_at (i : Nat) (W : tL2C_LINK_STATE → tL2C_LINK_STATE → Prop) (cb cb1 : tL2C_CB) :
    Prop :=
  cb1.lcb_pool.length = cb.lcb_pool.length ∧
  ∀ (j : Nat) (p p1 : tL2C_LCB), cb.lcb_pool[j]? = some p → cb1.lcb_pool[j]? = some p1 →
    p1.link_state = p.link_state ∨ (j = i ∧ W p.link_state p1.link_state)

/-- The event is a connect-complete with the status `HCI_SUCCESS`. -/
def is_conn_comp_success : tLINK_EVENT → Bool
  | .hci_conn_comp .HCI_SUCCESS _ _ => true
  | _ => false

/-- The event is an inbound connect request. -/
def is_conn_req : tLINK_EVENT → Bool
  | .hci_conn_req _ => true
  | _ => false

/-- The event is a QoS violation, a security-complete, an acknowledgement
report or a segment-transmitted notification. -/
def is_notification : tLINK_EVENT → Bool
  | .hci_qos_violation _ => true
  | .sec_comp _ _ _ _ => true
  | .process_num_completed_pkts _ => true
  | .segments_xmitted _ _ => true
  | _ => false

/-- The state of a link before and after the event `ev` follows the enumerated
transitions: `LST_CONNECTED` is entered only from `LST_CONNECTING` and by a
successful connect-complete, `LST_CONNECT_HOLDING` is entered only from
`LST_CONNECTING`, a connect request writes no state but `LST_CONNECTING`, and
a notification writes no state. -/
def transition_ok (ev : tLINK_EVENT) (s s1 : tL2C_LINK_STATE) : Prop :=
  (s1 = .LST_CONNECTED → s ≠ .LST_CONNECTED →
    s = .LST_CONNECTING ∧ is_conn_comp_success ev = true) ∧
  (s1 = .LST_CONNECT_HOLDING → s ≠ .LST_CONNECT_HOLDING → s = .LST_CONNECTING) ∧
  (is_conn_req ev = true → s1 ≠ s → s1 = .LST_CONNECTING) ∧
  (is_notification ev = true → s1 = s)

instance (ev : tLINK_EVENT) (s s1 : tL2C_LINK_STATE) : Decidable (transition_ok ev s s1) := by
  unfold transition_ok; infer_instance

/-- The pool keeps its length over the event `ev`, and every slot makes a
transition that `transition_ok` admits. -/
def step_ok (ev : tLINK_EVENT) (cb cb1 : tL2C_CB) : Prop :=
  cb1.lcb_pool.length = cb.lcb_pool.length ∧
  ∀ (j : Nat) (p p1 : tL2C_LCB), cb.lcb_pool[j]? = some p → cb1.lcb_pool[j]? = some p1 →
    transition_ok ev p.link_state p1.link_state

/-- What the connection handlers need of `l2cu_allocate_lcb`, which is not part
of the sources at hand: it writes no slot of the pool but the one it returns. -/
def allocate_frame (env : Env) : Prop :=
  ∀ (cb cb1 : tL2C_CB) (bd_addr i : Nat) (is_bonding : Bool) (transport : tBT_TRANSPORT),
    env.l2cu_allocate_lcb cb bd_addr is_bonding transport = some (i, cb1) →
    cb1.lcb_pool.length = cb.lcb_pool.length ∧
    ∀ j, j ≠ i → cb1.lcb_pool[j]? = cb.lcb_pool[j]?

/-- The control block after `l2c_link.c` has handled a sequence of events, one
after the other; `none` where `l2c_link_event` is for one of them. -/
def link_run (env : Env) (fuel : Nat) : tL2C_CB → List tLINK_EVENT → Option tL2C_CB
  | cb, [] => some cb
  | cb, ev :: rest =>
    match l2c_link_event env fuel cb ev with
    | none => none
    | some cb1 => link_run env fuel cb1 rest

/-- What a connect-complete with the status `status` may write to the state of
the link it is for: `LST_DISCONNECTING`, and from `LST_CONNECTING` also
`LST_CONNECTED` when the status is `HCI_SUCCESS`, `LST_CONNECT_HOLDING` and
`LST_CONNECTING`. -/
def conn_comp_writes (status : tHCI_STATUS) (s s1 : tL2C_LINK_STATE) : Prop :=
  s1 = .LST_DISCONNECTING ∨
    (s = .LST_CONNECTING ∧
      ((status = .HCI_SUCCESS ∧ s1 = .LST_CONNECTED) ∨ s1 = .LST_CONNECT_HOLDING
        ∨ s1 = .LST_CONNECTING))

/-- What the event `ev` may write to the state of a link. -/
def event_writes : tLINK_EVENT → tL2C_LINK_STATE → tL2C_LINK_STATE → Prop
  | .hci_conn_req _, _, s1 => s1 = .LST_CONNECTING
  | .hci_conn_comp status _ _, s, s1 => conn_comp_writes status s s1
  | .hci_disc_comp _ _, _, s1 => s1 = .LST_DISCONNECTING
  | .timeout _, _, s1 => s1 = .LST_DISCONNECTING
  | _, _, _ => False

/-- The environment `env0` in which `l2cu_get_next_buffer_to_send` finds a frame
of 12 bytes on a channel of the link with handle 2, and nothing on the other
links. -/
def env_chan : Env :=
  { env0 with
    l2cu_get_next_buffer_to_send := fun p c =>
      (if p.handle = 2 then some { len := 12, data := 9 } else none, c, p.ccb_queue) }

/-- A pool of four slots and three controller buffers: a slot that was never
used, whose `transport` is neither BR/EDR nor LE; a connected BR/EDR link served
round-robin with a frame on its link queue; a connected LE link with a private
quota; and a connected BR/EDR link served round-robin with an empty link
queue. -/
def cb_rr_spare : tL2C_CB :=
  { lcb_pool :=
      [ { transport := .BT_TRANSPORT_INVALID },
        { in_use := true, link_state := .LST_CONNECTED, handle := 1,
          link_xmit_data_q := [ { len := 10, data := 1 } ] },
        { in_use := true, transport := .BT_TRANSPORT_LE, link_state := .LST_CONNECTED,
          handle := 3, link_xmit_quota := 2 },
        { in_use := true, link_state := .LST_CONNECTED, handle := 2 } ],
    num_links_active := 3, num_lm_acl_bufs := 3, controller_xmit_window := 3,
    round_robin_quota := 3 }

/-- The control block `cb_rr_spare` after a round-robin pass in `env_chan` that
starts at the first slot: the two BR/EDR links have sent one frame each. -/
def cb_rr_spare_after : tL2C_CB :=
  { lcb_pool :=
      [ { transport := .BT_TRANSPORT_INVALID },
        { in_use := true, link_state := .LST_CONNECTED, handle := 1, sent_not_acked := 1 },
        { in_use := true, transport := .BT_TRANSPORT_LE, link_state := .LST_CONNECTED,
          handle := 3, link_xmit_quota := 2 },
        { in_use := true, link_state := .LST_CONNECTED, handle := 2, sent_not_acked := 1 } ],
    num_links_active := 3, num_lm_acl_bufs := 3, controller_xmit_window := 1,
    round_robin_quota := 3, round_robin_unacked := 2,
    hci_sent := [ ⟨1, { len := 10, data := 1 }, false⟩, ⟨2, { len := 12, data := 9 }, false⟩ ] }

/-- The cases in which `l2c_link_check_send_pkts` returns before the loops of the
private-quota branch: the call is made in congestion-callback context (lines
1181-1182), or the link `p` has a partial segment in flight, is not connected,
or is held by the power-mode check (lines 1288-1291). -/
def private_held (env : Env) (cb : tL2C_CB) (p : tL2C_LCB) : Bool :=
  cb.is_cong_cback_context || p.partial_segment_being_sent
    || decide (p.link_state ≠ .LST_CONNECTED) || L2C_LINK_CHECK_POWER_MODE env p

/-- The function `l2c_link_hci_disc_comp` (lines 376-590) with the helper
`l2cu_find_lcb_by_state` of `l2c_utils.c`, which is not part of the sources at
hand, as the parameter `find`: the value the function returns and the control
block after the call. -/
def l2c_link_hci_disc_comp_by (find : tL2C_CB → tL2C_LINK_STATE → Option Nat) (env : Env)
    (cb : tL2C_CB) (handle : Nat) (reason : tHCI_STATUS) : Bool × tL2C_CB :=
  let r : Bool × Bool × tL2C_CB :=
    match l2cu_find_lcb_by_handle cb handle with
    | none => (false, true, cb)
    | some i =>
      match cb.lcb_pool[i]? with
      | none => (false, true, cb)
      | some p => (true, disc_comp_known env cb i p reason)
  let cb1 :=
    if r.2.1 then
      match find r.2.2 .LST_CONNECT_HOLDING with
      | some j => (l2cu_create_conn env r.2.2 j .BT_TRANSPORT_BR_EDR).2
      | none => r.2.2
    else r.2.2
  (r.1, cb1)

theorem kick_timer_quota (p : tL2C_LCB) : (kick_timer p).link_xmit_quota = p.link_xmit_quota := by
  unfold kick_timer; split <;> rfl

theorem kick_timer_sna (p : tL2C_LCB) : (kick_timer p).sent_not_acked = p.sent_not_acked := by
  unfold kick_timer; split <;> rfl

theorem kick_timer_br_edr (p : tL2C_LCB) : (kick_timer p).br_edr_in_use = p.br_edr_in_use := by
  unfold kick_timer; split <;> rfl

theorem kick_timer_hipri (p : tL2C_LCB) : (kick_timer p).is_hipri = p.is_hipri := by
  unfold kick_timer; split <;> rfl

theorem kick_timer_lowpri (p : tL2C_LCB) : (kick_timer p).is_lowpri = p.is_lowpri := by
  unfold kick_timer; split <;> rfl

theorem assign_lowpri_br_edr (qq : Nat) (p : tL2C_LCB) (r u : Nat) :
    (assign_lowpri qq p r u).1.br_edr_in_use = p.br_edr_in_use := by
  unfold assign_lowpri; dsimp only; split <;> rfl

theorem assign_lowpri_hipri (qq : Nat) (p : tL2C_LCB) (r u : Nat) :
    (assign_lowpri qq p r u).1.is_hipri = p.is_hipri := by
  unfold assign_lowpri; dsimp only; split <;> rfl

theorem assign_lowpri_lowpri (qq : Nat) (p : tL2C_LCB) (r u : Nat) :
    (assign_lowpri qq p r u).1.is_lowpri = p.is_lowpri := by
  unfold assign_lowpri; dsimp only; split <;> rfl

theorem assign_lowpri_sna (qq : Nat) (p : tL2C_LCB) (r u : Nat) :
    (assign_lowpri qq p r u).1.sent_not_acked = p.sent_not_acked := by
  unfold assign_lowpri; dsimp only; split <;> rfl

theorem assign_lowpri_quota (qq : Nat) (p : tL2C_LCB) (r u : Nat) :
    (assign_lowpri qq p r u).1.link_xmit_quota
      = if r > 0 then (qq + 1) % U16 else qq := by
  unfold assign_lowpri; dsimp only; split <;> rfl

theorem assign_lowpri_rem (qq : Nat) (p : tL2C_LCB) (r u : Nat) :
    (assign_lowpri qq p r u).2.1 = if r > 0 then (r + (U16 - 1)) % U16 else r := by
  unfold assign_lowpri; dsimp only; split <;> rfl

theorem assign_lowpri_rru (qq : Nat) (p : tL2C_LCB) (r u : Nat) :
    (assign_lowpri qq p r u).2.2
      = if p.link_xmit_quota > 0 ∧ qq = 0 then (u + p.sent_not_acked) % U16 else u := by
  unfold assign_lowpri; dsimp only; split <;> rfl

theorem u16_pred (r : Nat) (h0 : 0 < r) (h : r < U16) : (r + (U16 - 1)) % U16 = r - 1 := by
  unfold U16 at *; omega

theorem lowpri_of_not_high (p : tL2C_LCB) (h : p.br_edr_in_use = true)
    (hp : ¬ p.acl_priority = .L2CAP_PRIORITY_HIGH) : p.is_lowpri = true ∧ p.is_hipri = false := by
  simp [tL2C_LCB.is_lowpri, tL2C_LCB.is_hipri, h, hp]

theorem hipri_of_high (p : tL2C_LCB) (h : p.br_edr_in_use = true)
    (hp : p.acl_priority = .L2CAP_PRIORITY_HIGH) : p.is_hipri = true ∧ p.is_lowpri = false := by
  simp [tL2C_LCB.is_lowpri, tL2C_LCB.is_hipri, h, hp]

theorem not_pri_of_not_br_edr (p : tL2C_LCB) (h : ¬ p.br_edr_in_use = true) :
    p.is_hipri = false ∧ p.is_lowpri = false := by
  simp [tL2C_LCB.is_lowpri, tL2C_LCB.is_hipri, h]

/-- Without wrap-around the first loop counts the two classes of links. -/
theorem count_links_eq (pool : List tL2C_LCB) (hi lo : Nat)
    (h : hi + lo + pool.length < U16) :
    count_links pool hi lo
      = (hi + pool.countP tL2C_LCB.is_hipri, lo + pool.countP tL2C_LCB.is_lowpri) := by
  induction pool generalizing hi lo with
  | nil => simp [count_links]
  | cons p ps ih =>
    simp only [List.length_cons] at h
    unfold count_links
    by_cases hb : p.br_edr_in_use = true
    · by_cases hp : p.acl_priority = .L2CAP_PRIORITY_HIGH
      · obtain ⟨h1, h2⟩ := hipri_of_high p hb hp
        have hm : (hi + 1) % U16 = hi + 1 := Nat.mod_eq_of_lt (by omega)
        rw [if_pos hb, if_pos hp, hm, ih _ _ (by omega)]
        simp [List.countP_cons, h1, h2]; omega
      · obtain ⟨h1, h2⟩ := lowpri_of_not_high p hb hp
        have hm : (lo + 1) % U16 = lo + 1 := Nat.mod_eq_of_lt (by omega)
        rw [if_pos hb, if_neg hp, hm, ih _ _ (by omega)]
        simp [List.countP_cons, h1, h2]; omega
    · obtain ⟨h1, h2⟩ := not_pri_of_not_br_edr p hb
      rw [if_neg hb, ih _ _ (by omega)]
      simp [List.countP_cons, h1, h2]

theorem countP_hi_lo_le (pool : List tL2C_LCB) :
    pool.countP tL2C_LCB.is_hipri + pool.countP tL2C_LCB.is_lowpri ≤ pool.length := by
  induction pool with
  | nil => simp
  | cons p ps ih =>
    simp only [List.countP_cons, List.length_cons]
    by_cases hb : p.br_edr_in_use = true
    · by_cases hp : p.acl_priority = .L2CAP_PRIORITY_HIGH
      · obtain ⟨h1, h2⟩ := hipri_of_high p hb hp
        simp [h1, h2]; omega
      · obtain ⟨h1, h2⟩ := lowpri_of_not_high p hb hp
        simp [h1, h2]; omega
    · obtain ⟨h1, h2⟩ := not_pri_of_not_br_edr p hb
      simp [h1, h2]; omega

/-- A result of the quota-lowering loop satisfies the exit condition. -/
theorem adjust_high_some_le (n l b : Nat) (fuel hq h : Nat)
    (hr : adjust_high_pri_link_quota n l b fuel hq = some h) : n * h + l ≤ b := by
  induction fuel generalizing hq with
  | zero => simp [adjust_high_pri_link_quota] at hr
  | succ f ih =>
    unfold adjust_high_pri_link_quota at hr
    split at hr
    · exact ih _ hr
    · simp only [Option.some.injEq] at hr; subst hr; omega

/-- When the low-priority reserve alone exceeds the buffer count the loop
condition holds for every quota, and no amount of fuel is enough. -/
theorem adjust_high_none (n l b : Nat) (hlb : b < l) (fuel hq : Nat) :
    adjust_high_pri_link_quota n l b fuel hq = none := by
  induction fuel generalizing hq with
  | zero => rfl
  | succ f ih =>
    unfold adjust_high_pri_link_quota
    rw [if_pos (by omega)]; exact ih _

/-- The result of the quota-lowering loop is the largest quota not above the
start value that meets the exit condition. -/
theorem adjust_high_spec (n l b : Nat) (hlb : l ≤ b) (fuel hq h : Nat) (hq16 : hq < U16)
    (hr : adjust_high_pri_link_quota n l b fuel hq = some h) :
    h ≤ hq ∧ n * h + l ≤ b ∧ ∀ k, h < k → k ≤ hq → b < n * k + l := by
  induction fuel generalizing hq with
  | zero => simp [adjust_high_pri_link_quota] at hr
  | succ f ih =>
    unfold adjust_high_pri_link_quota at hr
    split at hr
    · rename_i hc
      have h0 : 0 < hq := by
        rcases Nat.eq_zero_or_pos hq with h0 | h0
        · subst h0; simp at hc; omega
        · exact h0
      rw [u16_pred hq h0 hq16] at hr
      obtain ⟨h1, h2, h3⟩ := ih (hq - 1) (by omega) hr
      refine ⟨by omega, h2, ?_⟩
      intro k hk1 hk2
      by_cases hk : k = hq
      · subst hk; omega
      · exact h3 k hk1 (by omega)
    · rename_i hc
      simp only [Option.some.injEq] at hr; subst hr
      exact ⟨le_refl _, by omega, fun k hk1 hk2 => by omega⟩

/-- With more fuel than the start value the quota-lowering loop returns. -/
theorem adjust_high_total (n l b : Nat) (hlb : l ≤ b) (fuel hq : Nat) (hq16 : hq < U16)
    (hf : hq < fuel) : ∃ h, adjust_high_pri_link_quota n l b fuel hq = some h := by
  induction fuel generalizing hq with
  | zero => omega
  | succ f ih =>
    unfold adjust_high_pri_link_quota
    split
    · rename_i hc
      have h0 : 0 < hq := by
        rcases Nat.eq_zero_or_pos hq with h0 | h0
        · subst h0; simp at hc; omega
        · exact h0
      rw [u16_pred hq h0 hq16]
      exact ih (hq - 1) (by omega) (by omega)
    · exact ⟨hq, rfl⟩

theorem assign_quotas_length (hq qq : Nat) (pool : List tL2C_LCB) (r u : Nat) :
    (assign_quotas hq qq pool r u).1.length = pool.length := by
  induction pool generalizing r u with
  | nil => rfl
  | cons p ps ih =>
    unfold assign_quotas
    split
    · split <;> simp [ih]
    · simp [ih]

/-- Every high-priority link leaves the second loop with the high-priority
quota. -/
theorem assign_quotas_hipri (hq qq : Nat) (pool : List tL2C_LCB) (r u : Nat) :
    ∀ p ∈ (assign_quotas hq qq pool r u).1, p.is_hipri = true → p.link_xmit_quota = hq := by
  induction pool generalizing r u with
  | nil => intro p hp; simp [assign_quotas] at hp
  | cons p ps ih =>
    intro p' hp' hhi
    unfold assign_quotas at hp'
    by_cases hb : p.br_edr_in_use = true
    · by_cases hp : p.acl_priority = .L2CAP_PRIORITY_HIGH
      · simp only [if_pos hb, if_pos hp, List.mem_cons] at hp'
        rcases hp' with h | h
        · subst h; rw [kick_timer_quota]
        · exact ih _ _ _ h hhi
      · simp only [if_pos hb, if_neg hp, List.mem_cons] at hp'
        rcases hp' with h | h
        · subst h
          rw [kick_timer_hipri, assign_lowpri_hipri, (lowpri_of_not_high p hb hp).2] at hhi
          exact absurd hhi (by simp)
        · exact ih _ _ _ h hhi
    · simp only [if_neg hb, List.mem_cons] at hp'
      rcases hp' with h | h
      · subst h; rw [(not_pri_of_not_br_edr _ hb).1] at hhi; exact absurd hhi (by simp)
      · exact ih _ _ _ h hhi

/-- The classification of the links is not changed by the second loop. -/
theorem assign_quotas_countP_lowpri (hq qq : Nat) (pool : List tL2C_LCB) (r u : Nat) :
    (assign_quotas hq qq pool r u).1.countP tL2C_LCB.is_lowpri
      = pool.countP tL2C_LCB.is_lowpri := by
  induction pool generalizing r u with
  | nil => rfl
  | cons p ps ih =>
    unfold assign_quotas
    split
    · split
      · simp only [List.countP_cons, ih, kick_timer_lowpri]; rfl
      · simp only [List.countP_cons, ih, kick_timer_lowpri, assign_lowpri_lowpri]
    · simp only [List.countP_cons, ih]

theorem assign_quotas_countP_hipri (hq qq : Nat) (pool : List tL2C_LCB) (r u : Nat) :
    (assign_quotas hq qq pool r u).1.countP tL2C_LCB.is_hipri
      = pool.countP tL2C_LCB.is_hipri := by
  induction pool generalizing r u with
  | nil => rfl
  | cons p ps ih =>
    unfold assign_quotas
    split
    · split
      · simp only [List.countP_cons, ih, kick_timer_hipri]; rfl
      · simp only [List.countP_cons, ih, kick_timer_hipri, assign_lowpri_hipri]
    · simp only [List.countP_cons, ih]

theorem quota_at_succ (qq r i : Nat) (h0 : 0 < r) : quota_at qq (r - 1) i = quota_at qq r (i + 1) := by
  unfold quota_at
  by_cases h : i + 1 < r
  · rw [if_pos h, if_pos (by omega)]
  · rw [if_neg h, if_neg (by omega)]

theorem quota_at_zero_rem (qq i : Nat) : quota_at qq 0 i = qq := by
  simp [quota_at]

/-- Quotas of the normal-priority links after the second loop, in pool order. -/
theorem assign_quotas_lowpri (hq qq : Nat) (pool : List tL2C_LCB) (r u : Nat) (hr : r < U16) :
    ((assign_quotas hq qq pool r u).1.filter tL2C_LCB.is_lowpri).map tL2C_LCB.link_xmit_quota
      = (List.range (pool.countP tL2C_LCB.is_lowpri)).map (quota_at qq r) := by
  induction pool generalizing r u with
  | nil => simp [assign_quotas]
  | cons p ps ih =>
    unfold assign_quotas
    by_cases hb : p.br_edr_in_use = true
    · by_cases hp : p.acl_priority = .L2CAP_PRIORITY_HIGH
      · obtain ⟨h1, h2⟩ := hipri_of_high p hb hp
        have hk : (kick_timer { p with link_xmit_quota := hq }).is_lowpri = false := by
          rw [kick_timer_lowpri]; exact h2
        simp only [if_pos hb, if_pos hp, List.filter_cons, hk, List.countP_cons, h2]
        simpa using ih r u hr
      · obtain ⟨h1, h2⟩ := lowpri_of_not_high p hb hp
        have hk : (kick_timer (assign_lowpri qq p r u).1).is_lowpri = true := by
          rw [kick_timer_lowpri, assign_lowpri_lowpri]; exact h1
        simp only [if_pos hb, if_neg hp, List.filter_cons, hk, List.countP_cons, h1, if_true,
          List.map_cons, kick_timer_quota, assign_lowpri_quota, assign_lowpri_rem]
        rw [List.range_succ_eq_map, List.map_cons, List.map_map]
        by_cases h0 : 0 < r
        · rw [if_pos h0, if_pos h0, u16_pred r h0 hr, ih (r - 1) _ (by omega)]
          congr 1
          · simp [quota_at, h0]
          · apply List.map_congr_left
            intro i _
            simp only [Function.comp]
            exact quota_at_succ qq r i h0
        · have hr0 : r = 0 := by omega
          subst hr0
          rw [if_neg h0, if_neg h0, ih 0 _ hr]
          congr 1
    · obtain ⟨h1, h2⟩ := not_pri_of_not_br_edr p hb
      simp only [if_neg hb, List.filter_cons, h2, List.countP_cons]
      simpa using ih r u hr

theorem sum_quota_at (qq r n : Nat) (h : qq + 1 < U16 ∨ r = 0) :
    ((List.range n).map (quota_at qq r)).sum = n * qq + min r n := by
  induction n with
  | zero => simp
  | succ n ih =>
    rw [List.range_succ, List.map_append, List.sum_append, ih]
    simp only [List.map_cons, List.map_nil, List.sum_cons, List.sum_nil, quota_at]
    by_cases hn : n < r
    · have hq : (qq + 1) % U16 = qq + 1 := by
        rcases h with h | h
        · exact Nat.mod_eq_of_lt h
        · omega
      rw [if_pos hn, hq, Nat.min_eq_right (by omega), Nat.min_eq_right (by omega)]
      ring
    · rw [if_neg hn, Nat.min_eq_left (by omega), Nat.min_eq_left (by omega)]
      ring

/-- Sum of the quotas of the in-use BR/EDR links after the second loop. -/
theorem quota_sum_assign (hq qq : Nat) (pool : List tL2C_LCB) (r u : Nat) (hr : r < U16) :
    quota_sum (assign_quotas hq qq pool r u).1
      = pool.countP tL2C_LCB.is_hipri * hq
        + ((List.range (pool.countP tL2C_LCB.is_lowpri)).map (quota_at qq r)).sum := by
  induction pool generalizing r u with
  | nil => simp [assign_quotas, quota_sum]
  | cons p ps ih =>
    unfold assign_quotas
    by_cases hb : p.br_edr_in_use = true
    · by_cases hp : p.acl_priority = .L2CAP_PRIORITY_HIGH
      · obtain ⟨h1, h2⟩ := hipri_of_high p hb hp
        have hk : (kick_timer { p with link_xmit_quota := hq }).br_edr_in_use = true := by
          rw [kick_timer_br_edr]; exact hb
        have ih1 := ih r u hr
        unfold quota_sum at ih1 ⊢
        simp only [if_pos hb, if_pos hp, List.filter_cons, hk, List.countP_cons, h1, h2,
          if_true, List.map_cons, List.sum_cons, kick_timer_quota, ih1]
        simp; ring
      · obtain ⟨h1, h2⟩ := lowpri_of_not_high p hb hp
        have hk : (kick_timer (assign_lowpri qq p r u).1).br_edr_in_use = true := by
          rw [kick_timer_br_edr, assign_lowpri_br_edr]; exact hb
        simp only [if_pos hb, if_neg hp, List.countP_cons, h1, h2, if_true]
        rw [List.range_succ_eq_map, List.map_cons, List.map_map, List.sum_cons]
        unfold quota_sum
        simp only [List.filter_cons, hk, if_true, List.map_cons, List.sum_cons,
          kick_timer_quota, assign_lowpri_quota, assign_lowpri_rem]
        by_cases h0 : 0 < r
        · have ih1 := ih (r - 1) (assign_lowpri qq p r u).2.2 (by omega)
          unfold quota_sum at ih1
          rw [if_pos h0, if_pos h0, u16_pred r h0 hr, ih1]
          have e : List.map (quota_at qq r ∘ Nat.succ)
              (List.range (List.countP tL2C_LCB.is_lowpri ps))
              = List.map (quota_at qq (r - 1))
              (List.range (List.countP tL2C_LCB.is_lowpri ps)) := by
            apply List.map_congr_left
            intro i _
            simp only [Function.comp]
            exact (quota_at_succ qq r i h0).symm
          rw [e]
          simp [quota_at, h0]; ring
        · have hr0 : r = 0 := by omega
          subst hr0
          have ih1 := ih 0 (assign_lowpri qq p 0 u).2.2 hr
          unfold quota_sum at ih1
          rw [if_neg h0, if_neg h0, ih1]
          have e : List.map (quota_at qq 0 ∘ Nat.succ)
              (List.range (List.countP tL2C_LCB.is_lowpri ps))
              = List.map (quota_at qq 0)
              (List.range (List.countP tL2C_LCB.is_lowpri ps)) := by
            apply List.map_congr_left
            intro i _
            simp [Function.comp, quota_at]
          rw [e]
          simp [quota_at]; ring
    · obtain ⟨h1, h2⟩ := not_pri_of_not_br_edr p hb
      have ih1 := ih r u hr
      unfold quota_sum at ih1 ⊢
      simp only [if_neg hb, List.filter_cons, List.countP_cons, h1, h2, ih1]
      simp [hb]

/-- With a non-zero `qq` the second loop leaves `round_robin_unacked` alone. -/
theorem assign_quotas_rru (hq qq : Nat) (hqq : qq ≠ 0) (pool : List tL2C_LCB) (r u : Nat) :
    (assign_quotas hq qq pool r u).2 = u := by
  induction pool generalizing r u with
  | nil => rfl
  | cons p ps ih =>
    unfold assign_quotas
    split
    · split
      · simp only [ih]
      · simp only [ih, assign_lowpri_rru]
        rw [if_neg (by intro h; exact hqq h.2)]
    · simp only [ih]

/-- Once the quota-lowering loop has ended with `hq`, the allocator returns
`allocation_with hq`. -/
theorem adjust_allocation_eq (HQ fuel : Nat) (cb cb1 : tL2C_CB) (hr : adjust_in_range HQ cb)
    (hact : cb.num_links_active ≠ 0)
    (h : l2c_link_adjust_allocation HQ fuel cb = some cb1) :
    ∃ hq, adjust_high_pri_link_quota (cb.lcb_pool.countP tL2C_LCB.is_hipri) (low_reserve cb)
        cb.num_lm_acl_bufs fuel HQ = some hq ∧
      hq ≤ HQ ∧
      cb.lcb_pool.countP tL2C_LCB.is_hipri * hq + low_reserve cb ≤ cb.num_lm_acl_bufs ∧
      (∀ k, hq < k → k ≤ HQ →
        cb.num_lm_acl_bufs < cb.lcb_pool.countP tL2C_LCB.is_hipri * k + low_reserve cb) ∧
      cb1 = allocation_with hq cb := by
  obtain ⟨h1, h2, h3, h4⟩ := hr
  have hc := count_links_eq cb.lcb_pool 0 0 (by simpa using h3)
  simp only [Nat.zero_add] at hc
  unfold l2c_link_adjust_allocation at h
  simp only [if_neg hact, hc] at h
  split at h
  · exact absurd h (by simp)
  · rename_i hq hq_eq
    have hle := adjust_high_some_le _ _ _ _ _ _ hq_eq
    have hsp := adjust_high_spec _ _ _ (by omega) _ _ _ h1 hq_eq
    have hm : (cb.lcb_pool.countP tL2C_LCB.is_hipri * hq) % U16
        = cb.lcb_pool.countP tL2C_LCB.is_hipri * hq :=
      Nat.mod_eq_of_lt (by omega)
    refine ⟨hq, hq_eq, hsp.1, hle, hsp.2.2, ?_⟩
    rw [hm] at h
    unfold allocation_with
    dsimp only
    split at h
    · rename_i hc1
      rw [if_pos hc1]; exact (Option.some.inj h).symm
    · rename_i hc1
      rw [if_neg hc1]
      split at h
      · rename_i hc2
        rw [if_pos hc2]; exact (Option.some.inj h).symm
      · rename_i hc2
        rw [if_neg hc2]; exact (Option.some.inj h).symm

/-- The allocator returns whenever a controller buffer exists or no
normal-priority link is in use, given more fuel than the start quota. -/
theorem adjust_allocation_returns (HQ fuel : Nat) (cb : tL2C_CB) (hr : adjust_in_range HQ cb)
    (hb : 0 < cb.num_lm_acl_bufs ∨ cb.lcb_pool.countP tL2C_LCB.is_lowpri = 0)
    (hf : HQ < fuel) : ∃ cb1, l2c_link_adjust_allocation HQ fuel cb = some cb1 := by
  obtain ⟨h1, h2, h3, h4⟩ := hr
  have hc := count_links_eq cb.lcb_pool 0 0 (by simpa using h3)
  simp only [Nat.zero_add] at hc
  unfold l2c_link_adjust_allocation
  by_cases hact : cb.num_links_active = 0
  · simp only [if_pos hact]; exact ⟨_, rfl⟩
  · simp only [if_neg hact, hc]
    have hl : (if cb.lcb_pool.countP tL2C_LCB.is_lowpri ≠ 0 then 1 else 0)
        ≤ cb.num_lm_acl_bufs := by
      split
      · rename_i hne; rcases hb with hb | hb
        · omega
        · exact absurd hb hne
      · omega
    obtain ⟨hq, hq_eq⟩ := adjust_high_total (cb.lcb_pool.countP tL2C_LCB.is_hipri) _ _ hl
      fuel HQ h1 hf
    rw [hq_eq]
    dsimp only
    split
    · exact ⟨_, rfl⟩
    · split <;> exact ⟨_, rfl⟩

theorem low_reserve_le_one (cb : tL2C_CB) : low_reserve cb ≤ 1 := by
  unfold low_reserve; split <;> omega

theorem low_reserve_pos (cb : tL2C_CB) (h : 0 < cb.lcb_pool.countP tL2C_LCB.is_lowpri) :
    low_reserve cb = 1 := by
  unfold low_reserve; rw [if_pos (by omega)]

theorem low_quota_of_eq_max (hi b : Nat) : low_quota_of hi b = max (b - hi) 1 := by
  unfold low_quota_of
  split
  · rw [Nat.max_eq_left (by omega)]
  · rw [Nat.max_eq_right (by omega)]

/-- In the private-quota branch either the incremented quota still fits a
`UINT16` or there is no remainder to hand out. -/
theorem private_no_wrap (lq nl : Nat) (hlq : lq < U16) (hnl : 0 < nl) :
    lq / nl + 1 < U16 ∨ lq % nl = 0 := by
  by_cases h1 : nl = 1
  · right; subst h1; exact Nat.mod_one _
  · left
    have h2 : 2 ≤ nl := by omega
    have h3 : lq / nl ≤ lq / 2 := Nat.div_le_div_left h2 (by omega)
    have h4 : lq / 2 < U16 - 1 := by unfold U16 at *; omega
    omega

/-- Sum of the private quotas and the round-robin quota after the allocation. -/
theorem allocation_with_sum (hq : Nat) (cb : tL2C_CB)
    (hb : cb.num_lm_acl_bufs < U16) (hlen : cb.lcb_pool.length < U16)
    (hle : cb.lcb_pool.countP tL2C_LCB.is_hipri * hq + low_reserve cb ≤ cb.num_lm_acl_bufs) :
    quota_sum (allocation_with hq cb).lcb_pool + (allocation_with hq cb).round_robin_quota
      ≤ cb.num_lm_acl_bufs := by
  have hcnt := countP_hi_lo_le cb.lcb_pool
  unfold allocation_with
  dsimp only
  split
  · rename_i h1
    have hpos : 0 < cb.lcb_pool.countP tL2C_LCB.is_lowpri := by omega
    have hl := low_reserve_pos cb hpos
    dsimp only
    rw [quota_sum_assign _ _ _ _ _ (by unfold U16; omega), sum_quota_at _ _ _ (Or.inr rfl)]
    unfold low_quota_of
    rw [if_pos (by omega)]
    simp only [Nat.mul_zero, Nat.zero_min, Nat.add_zero]
    omega
  · rename_i h1
    split
    · rename_i h2
      have hl := low_reserve_pos cb h2
      have hlq : low_quota_of (cb.lcb_pool.countP tL2C_LCB.is_hipri * hq) cb.num_lm_acl_bufs
          = cb.num_lm_acl_bufs - cb.lcb_pool.countP tL2C_LCB.is_hipri * hq := by
        unfold low_quota_of; rw [if_pos (by omega)]
      have hmod := Nat.mod_lt (low_quota_of (cb.lcb_pool.countP tL2C_LCB.is_hipri * hq)
        cb.num_lm_acl_bufs) h2
      dsimp only
      rw [quota_sum_assign _ _ _ _ _ (by omega),
        sum_quota_at _ _ _ (private_no_wrap _ _ (by rw [hlq]; omega) h2),
        Nat.min_eq_left (by omega), Nat.div_add_mod, hlq]
      omega
    · rename_i h2
      have h0 : cb.lcb_pool.countP tL2C_LCB.is_lowpri = 0 := by omega
      dsimp only
      rw [quota_sum_assign _ _ _ _ _ (by unfold U16; omega), h0]
      simp only [List.range_zero, List.map_nil, List.sum_nil, Nat.add_zero]
      omega

theorem allocation_with_bufs (hq : Nat) (cb : tL2C_CB) :
    (allocation_with hq cb).num_lm_acl_bufs = cb.num_lm_acl_bufs := by
  unfold allocation_with; dsimp only; split
  · rfl
  · split <;> rfl

/-! ## Properties of the quota allocator -/

/-- C1: with at least one active link, whenever `l2c_link_adjust_allocation`
returns, the sum of `link_xmit_quota` over the in-use BR/EDR links plus
`round_robin_quota` is at most `num_lm_acl_bufs`, for every mix of priorities;
and it does return when a controller buffer exists or no normal-priority link is
in use. -/
theorem adjust_allocation_quota_sum_le (HQ fuel : Nat) (cb : tL2C_CB)
    (hr : adjust_in_range HQ cb) (hact : cb.num_links_active ≠ 0) :
    (∀ cb1, l2c_link_adjust_allocation HQ fuel cb = some cb1 →
        quota_sum cb1.lcb_pool + cb1.round_robin_quota ≤ cb1.num_lm_acl_bufs) ∧
    ((0 < cb.num_lm_acl_bufs ∨ cb.lcb_pool.countP tL2C_LCB.is_lowpri = 0) → HQ < fuel →
        ∃ cb1, l2c_link_adjust_allocation HQ fuel cb = some cb1) := by
  refine ⟨?_, fun hb hf => adjust_allocation_returns HQ fuel cb hr hb hf⟩
  intro cb1 h
  obtain ⟨hq, _, _, hle, _, rfl⟩ := adjust_allocation_eq HQ fuel cb cb1 hr hact h
  rw [allocation_with_bufs]
  exact allocation_with_sum hq cb hr.2.1 hr.2.2.1 hle

/-- Witness of C1 on the pool with one high-priority and one normal-priority
link and four controller buffers. -/
theorem adjust_allocation_quota_sum_le_witness :
    (∀ cb1, l2c_link_adjust_allocation 2 3 cb_hi_lo = some cb1 →
        quota_sum cb1.lcb_pool + cb1.round_robin_quota ≤ cb1.num_lm_acl_bufs) ∧
    ((0 < cb_hi_lo.num_lm_acl_bufs ∨ cb_hi_lo.lcb_pool.countP tL2C_LCB.is_lowpri = 0) → 2 < 3 →
        ∃ cb1, l2c_link_adjust_allocation 2 3 cb_hi_lo = some cb1) :=
  adjust_allocation_quota_sum_le 2 3 cb_hi_lo (by decide) (by decide)

theorem allocation_with_hipri (hq : Nat) (cb : tL2C_CB) :
    ∀ p ∈ (allocation_with hq cb).lcb_pool, p.is_hipri = true → p.link_xmit_quota = hq := by
  unfold allocation_with; dsimp only; split
  · exact assign_quotas_hipri _ _ _ _ _
  · split <;> exact assign_quotas_hipri _ _ _ _ _

/-- C2: with at least one active link, after `l2c_link_adjust_allocation` every
in-use high-priority BR/EDR link has as `link_xmit_quota` the largest `h` not
above `L2CAP_HIGH_PRI_MIN_XMIT_QUOTA_A` with `num_hipri_links * h + (1 if a
normal-priority link exists, else 0) <= num_lm_acl_bufs`; the call returns when
a controller buffer exists or no normal-priority link is in use. -/
theorem adjust_allocation_hipri_quota (HQ fuel : Nat) (cb : tL2C_CB)
    (hr : adjust_in_range HQ cb) (hact : cb.num_links_active ≠ 0) :
    (∀ cb1, l2c_link_adjust_allocation HQ fuel cb = some cb1 →
      ∀ p ∈ cb1.lcb_pool, p.is_hipri = true →
        p.link_xmit_quota ≤ HQ ∧
        cb.lcb_pool.countP tL2C_LCB.is_hipri * p.link_xmit_quota
          + (if cb.lcb_pool.countP tL2C_LCB.is_lowpri ≠ 0 then 1 else 0) ≤ cb.num_lm_acl_bufs ∧
        ∀ h, h ≤ HQ →
          cb.lcb_pool.countP tL2C_LCB.is_hipri * h
            + (if cb.lcb_pool.countP tL2C_LCB.is_lowpri ≠ 0 then 1 else 0) ≤ cb.num_lm_acl_bufs →
          h ≤ p.link_xmit_quota) ∧
    ((0 < cb.num_lm_acl_bufs ∨ cb.lcb_pool.countP tL2C_LCB.is_lowpri = 0) → HQ < fuel →
        ∃ cb1, l2c_link_adjust_allocation HQ fuel cb = some cb1) := by
  refine ⟨?_, fun hb hf => adjust_allocation_returns HQ fuel cb hr hb hf⟩
  intro cb1 h p hp hhi
  obtain ⟨hq, _, h1, h2, h3, rfl⟩ := adjust_allocation_eq HQ fuel cb cb1 hr hact h
  rw [allocation_with_hipri hq cb p hp hhi]
  unfold low_reserve at h2 h3
  refine ⟨h1, h2, ?_⟩
  intro k hk1 hk2
  by_contra hlt
  have := h3 k (by omega) hk1
  omega

/-- Witness of C2 on the pool with one high-priority and one normal-priority
link and four controller buffers. -/
theorem adjust_allocation_hipri_quota_witness :
    (∀ cb1, l2c_link_adjust_allocation 2 3 cb_hi_lo = some cb1 →
      ∀ p ∈ cb1.lcb_pool, p.is_hipri = true →
        p.link_xmit_quota ≤ 2 ∧
        cb_hi_lo.lcb_pool.countP tL2C_LCB.is_hipri * p.link_xmit_quota
          + (if cb_hi_lo.lcb_pool.countP tL2C_LCB.is_lowpri ≠ 0 then 1 else 0)
            ≤ cb_hi_lo.num_lm_acl_bufs ∧
        ∀ h, h ≤ 2 →
          cb_hi_lo.lcb_pool.countP tL2C_LCB.is_hipri * h
            + (if cb_hi_lo.lcb_pool.countP tL2C_LCB.is_lowpri ≠ 0 then 1 else 0)
              ≤ cb_hi_lo.num_lm_acl_bufs →
          h ≤ p.link_xmit_quota) ∧
    ((0 < cb_hi_lo.num_lm_acl_bufs ∨ cb_hi_lo.lcb_pool.countP tL2C_LCB.is_lowpri = 0) → 2 < 3 →
        ∃ cb1, l2c_link_adjust_allocation 2 3 cb_hi_lo = some cb1) :=
  adjust_allocation_hipri_quota 2 3 cb_hi_lo (by decide) (by decide)

/-- Membership in the filtered pool gives membership of the quota in the list of
quotas. -/
theorem lowpri_quota_mem (pool : List tL2C_LCB) (p : tL2C_LCB) (hp : p ∈ pool)
    (hl : p.is_lowpri = true) :
    p.link_xmit_quota ∈ (pool.filter tL2C_LCB.is_lowpri).map tL2C_LCB.link_xmit_quota :=
  List.mem_map.mpr ⟨p, List.mem_filter.mpr ⟨hp, hl⟩, rfl⟩

/-- The allocator returns `allocation_with hq` when its loop ends with `hq`. -/
theorem adjust_allocation_of_loop (HQ fuel hq : Nat) (cb : tL2C_CB) (hr : adjust_in_range HQ cb)
    (hact : cb.num_links_active ≠ 0)
    (hloop : adjust_high_pri_link_quota (cb.lcb_pool.countP tL2C_LCB.is_hipri)
      (if cb.lcb_pool.countP tL2C_LCB.is_lowpri ≠ 0 then 1 else 0)
      cb.num_lm_acl_bufs fuel HQ = some hq) :
    l2c_link_adjust_allocation HQ fuel cb = some (allocation_with hq cb) := by
  have hle := adjust_high_some_le _ _ _ _ _ _ hloop
  obtain ⟨h1, h2, h3, h4⟩ := hr
  have hc := count_links_eq cb.lcb_pool 0 0 (by simpa using h3)
  simp only [Nat.zero_add] at hc
  have hm : (cb.lcb_pool.countP tL2C_LCB.is_hipri * hq) % U16
      = cb.lcb_pool.countP tL2C_LCB.is_hipri * hq :=
    Nat.mod_eq_of_lt (by omega)
  unfold l2c_link_adjust_allocation allocation_with
  simp only [if_neg hact, hc, hloop, hm]
  split
  · rfl
  · split <;> rfl

/-- C3: when the loop of `l2c_link_adjust_allocation` has ended with the
high-priority quota `hq` and the number of in-use normal-priority BR/EDR links
exceeds the normal pool `num_lm_acl_bufs - num_hipri_links * hq` floored at 1,
the call returns, every normal-priority link has `link_xmit_quota = 0` and
`round_robin_quota` is the normal pool. -/
theorem adjust_allocation_round_robin (HQ fuel hq : Nat) (cb : tL2C_CB)
    (hr : adjust_in_range HQ cb) (hact : cb.num_links_active ≠ 0)
    (hloop : adjust_high_pri_link_quota (cb.lcb_pool.countP tL2C_LCB.is_hipri)
      (if cb.lcb_pool.countP tL2C_LCB.is_lowpri ≠ 0 then 1 else 0)
      cb.num_lm_acl_bufs fuel HQ = some hq)
    (hgt : cb.lcb_pool.countP tL2C_LCB.is_lowpri
      > max (cb.num_lm_acl_bufs - cb.lcb_pool.countP tL2C_LCB.is_hipri * hq) 1) :
    ∃ cb1, l2c_link_adjust_allocation HQ fuel cb = some cb1 ∧
      (∀ p ∈ cb1.lcb_pool, p.is_lowpri = true → p.link_xmit_quota = 0) ∧
      cb1.round_robin_quota
        = max (cb.num_lm_acl_bufs - cb.lcb_pool.countP tL2C_LCB.is_hipri * hq) 1 := by
  refine ⟨_, adjust_allocation_of_loop HQ fuel hq cb hr hact hloop, ?_, ?_⟩
  · intro p hp hl
    rw [← low_quota_of_eq_max] at hgt
    unfold allocation_with at hp
    simp only [if_pos hgt] at hp
    have hm := lowpri_quota_mem _ p hp hl
    rw [assign_quotas_lowpri _ _ _ _ _ (by unfold U16; omega)] at hm
    simp only [List.mem_map, List.mem_range, quota_at_zero_rem] at hm
    obtain ⟨_, _, h⟩ := hm
    exact h.symm
  · rw [← low_quota_of_eq_max] at hgt ⊢
    unfold allocation_with
    simp only [if_pos hgt]

/-- Witness of C3: three normal-priority links and two controller buffers. -/
theorem adjust_allocation_round_robin_witness :
    ∃ cb1, l2c_link_adjust_allocation 5 6 cb_three_lo = some cb1 ∧
      (∀ p ∈ cb1.lcb_pool, p.is_lowpri = true → p.link_xmit_quota = 0) ∧
      cb1.round_robin_quota
        = max (cb_three_lo.num_lm_acl_bufs
            - cb_three_lo.lcb_pool.countP tL2C_LCB.is_hipri * 5) 1 :=
  adjust_allocation_round_robin 5 6 5 cb_three_lo (by decide) (by decide) (by decide)
    (by decide)

/-- C4: when the loop of `l2c_link_adjust_allocation` has ended with `hq`,
there are `n >= 1` normal-priority BR/EDR links and `n` is at most the normal
pool, the `i`-th normal link in pool order gets `pool / n + 1` if
`i < pool mod n` and `pool / n` otherwise; these quotas sum to the pool and
differ pairwise by at most 1; `round_robin_quota` and `round_robin_unacked`
are 0. -/
theorem adjust_allocation_private (HQ fuel hq : Nat) (cb : tL2C_CB)
    (hr : adjust_in_range HQ cb) (hact : cb.num_links_active ≠ 0)
    (hloop : adjust_high_pri_link_quota (cb.lcb_pool.countP tL2C_LCB.is_hipri)
      (if cb.lcb_pool.countP tL2C_LCB.is_lowpri ≠ 0 then 1 else 0)
      cb.num_lm_acl_bufs fuel HQ = some hq)
    (hn : 1 ≤ cb.lcb_pool.countP tL2C_LCB.is_lowpri)
    (hle : cb.lcb_pool.countP tL2C_LCB.is_lowpri
      ≤ max (cb.num_lm_acl_bufs - cb.lcb_pool.countP tL2C_LCB.is_hipri * hq) 1) :
    ∃ cb1, l2c_link_adjust_allocation HQ fuel cb = some cb1 ∧
      (cb1.lcb_pool.filter tL2C_LCB.is_lowpri).map tL2C_LCB.link_xmit_quota
        = (List.range (cb.lcb_pool.countP tL2C_LCB.is_lowpri)).map (fun i =>
            if i < max (cb.num_lm_acl_bufs - cb.lcb_pool.countP tL2C_LCB.is_hipri * hq) 1
                % cb.lcb_pool.countP tL2C_LCB.is_lowpri
            then max (cb.num_lm_acl_bufs - cb.lcb_pool.countP tL2C_LCB.is_hipri * hq) 1
                / cb.lcb_pool.countP tL2C_LCB.is_lowpri + 1
            else max (cb.num_lm_acl_bufs - cb.lcb_pool.countP tL2C_LCB.is_hipri * hq) 1
                / cb.lcb_pool.countP tL2C_LCB.is_lowpri) ∧
      ((cb1.lcb_pool.filter tL2C_LCB.is_lowpri).map tL2C_LCB.link_xmit_quota).sum
        = max (cb.num_lm_acl_bufs - cb.lcb_pool.countP tL2C_LCB.is_hipri * hq) 1 ∧
      (∀ a ∈ (cb1.lcb_pool.filter tL2C_LCB.is_lowpri).map tL2C_LCB.link_xmit_quota,
        ∀ b ∈ (cb1.lcb_pool.filter tL2C_LCB.is_lowpri).map tL2C_LCB.link_xmit_quota,
          a ≤ b + 1) ∧
      cb1.round_robin_quota = 0 ∧ cb1.round_robin_unacked = 0 := by
  have hpool := adjust_allocation_of_loop HQ fuel hq cb hr hact hloop
  obtain ⟨h1, h2, h3, h4⟩ := hr
  have hcnt := countP_hi_lo_le cb.lcb_pool
  rw [← low_quota_of_eq_max] at hle ⊢
  generalize hP : low_quota_of (cb.lcb_pool.countP tL2C_LCB.is_hipri * hq) cb.num_lm_acl_bufs
    = P at hle ⊢
  generalize hN : cb.lcb_pool.countP tL2C_LCB.is_lowpri = n at hn hle hcnt ⊢
  have hP16 : P < U16 := by
    rw [← hP]; unfold low_quota_of; split
    · omega
    · unfold U16; omega
  have hwrap := private_no_wrap P n hP16 (by omega)
  have hmod : P % n < n := Nat.mod_lt _ (by omega)
  have hqq : P / n ≠ 0 := by
    have : 1 ≤ P / n := (Nat.one_le_div_iff (by omega)).mpr hle
    omega
  have hlist : ((allocation_with hq cb).lcb_pool.filter tL2C_LCB.is_lowpri).map
      tL2C_LCB.link_xmit_quota = (List.range n).map (quota_at (P / n) (P % n)) := by
    unfold allocation_with
    simp only [hP, hN, if_neg (Nat.not_lt.mpr hle), if_pos (show n > 0 by omega)]
    rw [assign_quotas_lowpri _ _ _ _ _ (by omega), hN]
  have hquota : ∀ i, quota_at (P / n) (P % n) i
      = if i < P % n then P / n + 1 else P / n := by
    intro i
    unfold quota_at
    by_cases hi : i < P % n
    · rw [if_pos hi, if_pos hi]
      rcases hwrap with hw | hw
      · exact Nat.mod_eq_of_lt hw
      · omega
    · rw [if_neg hi, if_neg hi]
  refine ⟨_, hpool, ?_, ?_, ?_, ?_, ?_⟩
  · rw [hlist]
    exact List.map_congr_left (fun i _ => hquota i)
  · rw [hlist, sum_quota_at _ _ _ hwrap, Nat.min_eq_left (by omega), Nat.div_add_mod]
  · rw [hlist]
    intro a ha b hb
    simp only [List.mem_map, List.mem_range] at ha hb
    obtain ⟨i, _, rfl⟩ := ha
    obtain ⟨j, _, rfl⟩ := hb
    rw [hquota i, hquota j]
    split <;> split <;> omega
  · unfold allocation_with
    simp only [hP, hN, if_neg (Nat.not_lt.mpr hle), if_pos (show n > 0 by omega)]
  · unfold allocation_with
    simp only [hP, hN, if_neg (Nat.not_lt.mpr hle), if_pos (show n > 0 by omega)]
    exact assign_quotas_rru _ _ hqq _ _ _

/-- Witness of C4: three normal-priority links share eight buffers as 3, 3, 2. -/
theorem adjust_allocation_private_witness :
    ∃ cb1, l2c_link_adjust_allocation 5 6 cb_three_lo_eight = some cb1 ∧
      (cb1.lcb_pool.filter tL2C_LCB.is_lowpri).map tL2C_LCB.link_xmit_quota
        = (List.range (cb_three_lo_eight.lcb_pool.countP tL2C_LCB.is_lowpri)).map (fun i =>
            if i < max (cb_three_lo_eight.num_lm_acl_bufs
                  - cb_three_lo_eight.lcb_pool.countP tL2C_LCB.is_hipri * 5) 1
                % cb_three_lo_eight.lcb_pool.countP tL2C_LCB.is_lowpri
            then max (cb_three_lo_eight.num_lm_acl_bufs
                  - cb_three_lo_eight.lcb_pool.countP tL2C_LCB.is_hipri * 5) 1
                / cb_three_lo_eight.lcb_pool.countP tL2C_LCB.is_lowpri + 1
            else max (cb_three_lo_eight.num_lm_acl_bufs
                  - cb_three_lo_eight.lcb_pool.countP tL2C_LCB.is_hipri * 5) 1
                / cb_three_lo_eight.lcb_pool.countP tL2C_LCB.is_lowpri) ∧
      ((cb1.lcb_pool.filter tL2C_LCB.is_lowpri).map tL2C_LCB.link_xmit_quota).sum
        = max (cb_three_lo_eight.num_lm_acl_bufs
            - cb_three_lo_eight.lcb_pool.countP tL2C_LCB.is_hipri * 5) 1 ∧
      (∀ a ∈ (cb1.lcb_pool.filter tL2C_LCB.is_lowpri).map tL2C_LCB.link_xmit_quota,
        ∀ b ∈ (cb1.lcb_pool.filter tL2C_LCB.is_lowpri).map tL2C_LCB.link_xmit_quota,
          a ≤ b + 1) ∧
      cb1.round_robin_quota = 0 ∧ cb1.round_robin_unacked = 0 :=
  adjust_allocation_private 5 6 5 cb_three_lo_eight (by decide) (by decide) (by decide)
    (by decide) (by decide)

/-- C5: with exactly one high-priority and one normal-priority in-use BR/EDR
link, `num_lm_acl_bufs = 4` and a high-priority start quota of 2,
`l2c_link_adjust_allocation` returns, gives the high-priority link quota 2 and
the normal link quota 2, and sets `round_robin_quota` to 0. -/
theorem adjust_allocation_scenario (fuel : Nat) (cb : tL2C_CB)
    (hlen : cb.lcb_pool.length < U16) (hact : cb.num_links_active ≠ 0)
    (hhi : cb.lcb_pool.countP tL2C_LCB.is_hipri = 1)
    (hlo : cb.lcb_pool.countP tL2C_LCB.is_lowpri = 1)
    (hbufs : cb.num_lm_acl_bufs = 4) (hf : 2 < fuel) :
    ∃ cb1, l2c_link_adjust_allocation 2 fuel cb = some cb1 ∧
      cb1.lcb_pool.countP tL2C_LCB.is_hipri = 1 ∧
      cb1.lcb_pool.countP tL2C_LCB.is_lowpri = 1 ∧
      (∀ p ∈ cb1.lcb_pool, p.is_hipri = true → p.link_xmit_quota = 2) ∧
      (∀ p ∈ cb1.lcb_pool, p.is_lowpri = true → p.link_xmit_quota = 2) ∧
      cb1.round_robin_quota = 0 := by
  have hr : adjust_in_range 2 cb := by
    refine ⟨by unfold U16; omega, by rw [hbufs]; unfold U16; omega, hlen, ?_⟩
    unfold U16 at hlen; omega
  obtain ⟨cb1, hcb1⟩ := adjust_allocation_returns 2 fuel cb hr (Or.inl (by omega)) hf
  obtain ⟨hq, _, h1, _, h3, rfl⟩ := adjust_allocation_eq 2 fuel cb cb1 hr hact hcb1
  have hq2 : hq = 2 := by
    by_contra hne
    have := h3 2 (by omega) (le_refl _)
    rw [hhi, hbufs] at this
    have := low_reserve_le_one cb
    omega
  subst hq2
  have hpool : allocation_with 2 cb
      = { cb with round_robin_quota := 0,
                  lcb_pool := (assign_quotas 2 2 cb.lcb_pool 0 0).1,
                  round_robin_unacked := (assign_quotas 2 2 cb.lcb_pool 0 0).2 } := by
    unfold allocation_with low_quota_of
    simp [hhi, hlo, hbufs]
  refine ⟨_, hcb1, ?_, ?_, allocation_with_hipri 2 cb, ?_, ?_⟩
  · rw [hpool]; simp only [assign_quotas_countP_hipri, hhi]
  · rw [hpool]; simp only [assign_quotas_countP_lowpri, hlo]
  · intro p hp hl
    rw [hpool] at hp
    have hm := lowpri_quota_mem _ p hp hl
    rw [assign_quotas_lowpri _ _ _ _ _ (by unfold U16; omega)] at hm
    simp only [List.mem_map, List.mem_range, quota_at_zero_rem] at hm
    obtain ⟨_, _, h⟩ := hm
    exact h.symm
  · rw [hpool]

/-- Witness of C5 on the two-link pool of the scenario. -/
theorem adjust_allocation_scenario_witness :
    ∃ cb1, l2c_link_adjust_allocation 2 3 cb_hi_lo = some cb1 ∧
      cb1.lcb_pool.countP tL2C_LCB.is_hipri = 1 ∧
      cb1.lcb_pool.countP tL2C_LCB.is_lowpri = 1 ∧
      (∀ p ∈ cb1.lcb_pool, p.is_hipri = true → p.link_xmit_quota = 2) ∧
      (∀ p ∈ cb1.lcb_pool, p.is_lowpri = true → p.link_xmit_quota = 2) ∧
      cb1.round_robin_quota = 0 :=
  adjust_allocation_scenario 3 cb_hi_lo (by decide) (by decide) (by decide) (by decide)
    (by decide) (by decide)

/-- C7: when `l2cb.num_links_active` is 0, `l2c_link_adjust_allocation` returns
with `controller_xmit_window` set to `num_lm_acl_bufs` and with
`round_robin_quota` and `round_robin_unacked` set to 0; the link pool and every
other field are unchanged. -/
theorem adjust_allocation_no_links (HQ fuel : Nat) (cb : tL2C_CB)
    (h0 : cb.num_links_active = 0) :
    l2c_link_adjust_allocation HQ fuel cb
      = some { cb with controller_xmit_window := cb.num_lm_acl_bufs,
                       round_robin_quota := 0, round_robin_unacked := 0 } ∧
    ∀ cb1, l2c_link_adjust_allocation HQ fuel cb = some cb1 →
      cb1.controller_xmit_window = cb.num_lm_acl_bufs ∧ cb1.round_robin_quota = 0 ∧
      cb1.round_robin_unacked = 0 ∧ cb1.lcb_pool = cb.lcb_pool := by
  have h : l2c_link_adjust_allocation HQ fuel cb
      = some { cb with controller_xmit_window := cb.num_lm_acl_bufs,
                       round_robin_quota := 0, round_robin_unacked := 0 } := by
    unfold l2c_link_adjust_allocation
    simp only [if_pos h0]
  refine ⟨h, ?_⟩
  intro cb1 h1
  rw [h] at h1
  cases h1
  exact ⟨rfl, rfl, rfl, rfl⟩

/-- Witness of C7 on a control block whose pool has only free slots. -/
theorem adjust_allocation_no_links_witness :
    l2c_link_adjust_allocation 5 0 cb_idle
      = some { cb_idle with controller_xmit_window := cb_idle.num_lm_acl_bufs,
                            round_robin_quota := 0, round_robin_unacked := 0 } ∧
    ∀ cb1, l2c_link_adjust_allocation 5 0 cb_idle = some cb1 →
      cb1.controller_xmit_window = cb_idle.num_lm_acl_bufs ∧ cb1.round_robin_quota = 0 ∧
      cb1.round_robin_unacked = 0 ∧ cb1.lcb_pool = cb_idle.lcb_pool :=
  adjust_allocation_no_links 5 0 cb_idle (by decide)

/-- C6, evaluated: a link served round-robin with one buffer outstanding is
given high priority; before the call `round_robin_unacked` equals the sum of
`sent_not_acked` over the quota-0 links, after it the link has a private quota
of 1 but its buffer is still counted, so `round_robin_unacked = 1 =
round_robin_quota` while no quota-0 link has anything outstanding.  In the
second pool two high-priority links drop to quota 0 with a buffer outstanding
each and `round_robin_unacked` stays 0. -/
theorem stale_round_robin_unacked_after_adjust :
    cb_prio_change.round_robin_unacked = rr_outstanding cb_prio_change.lcb_pool ∧
    (l2c_link_adjust_allocation 5 6 cb_prio_change).map
        (fun c => (c.lcb_pool.map tL2C_LCB.link_xmit_quota, c.round_robin_quota,
          c.round_robin_unacked, rr_outstanding c.lcb_pool))
      = some ([1, 0, 0], 1, 1, 0) ∧
    cb_hipri_starved.round_robin_unacked = rr_outstanding cb_hipri_starved.lcb_pool ∧
    (l2c_link_adjust_allocation 5 6 cb_hipri_starved).map
        (fun c => (c.lcb_pool.map tL2C_LCB.link_xmit_quota, c.round_robin_quota,
          c.round_robin_unacked, rr_outstanding c.lcb_pool))
      = some ([0, 0, 2], 0, 0, 2) := by
  refine ⟨by decide, by decide, by decide, by decide⟩

/-! ### The fold into `round_robin_unacked`, where the allocator does it -/

theorem assign_quotas_class (hq qq : Nat) (pool : List tL2C_LCB) (r u : Nat) :
    (assign_quotas hq qq pool r u).1.map
        (fun p => (p.is_hipri, p.is_lowpri, p.sent_not_acked))
      = pool.map (fun p => (p.is_hipri, p.is_lowpri, p.sent_not_acked)) := by
  induction pool generalizing r u with
  | nil => rfl
  | cons p ps ih =>
    unfold assign_quotas
    split
    · split
      · simp only [List.map_cons, ih, kick_timer_sna, kick_timer_hipri, kick_timer_lowpri]
        rfl
      · simp only [List.map_cons, ih, kick_timer_sna, kick_timer_hipri, kick_timer_lowpri,
          assign_lowpri_sna, assign_lowpri_hipri, assign_lowpri_lowpri]
    · simp only [List.map_cons, ih]

theorem br_edr_cases (p : tL2C_LCB) (h : p.br_edr_in_use = true) :
    p.is_hipri = true ∨ p.is_lowpri = true := by
  by_cases hp : p.acl_priority = .L2CAP_PRIORITY_HIGH
  · exact Or.inl (hipri_of_high p h hp).1
  · exact Or.inr (lowpri_of_not_high p h hp).1

/-- In the round-robin branch the second loop adds to `round_robin_unacked` the
outstanding buffers of the normal-priority links that had a private quota. -/
theorem assign_quotas_rru_fold (hq : Nat) (pool : List tL2C_LCB) (u : Nat) (hu : u < U16) :
    (assign_quotas hq 0 pool 0 u).2
      = (u + ((pool.filter (fun p => p.is_lowpri && decide (0 < p.link_xmit_quota))).map
          tL2C_LCB.sent_not_acked).sum) % U16 := by
  induction pool generalizing u with
  | nil => simp [assign_quotas]; exact (Nat.mod_eq_of_lt hu).symm
  | cons p ps ih =>
    unfold assign_quotas
    by_cases hb : p.br_edr_in_use = true
    · by_cases hp : p.acl_priority = .L2CAP_PRIORITY_HIGH
      · obtain ⟨h1, h2⟩ := hipri_of_high p hb hp
        simp only [if_pos hb, if_pos hp, List.filter_cons, h2, Bool.false_and]
        exact ih u hu
      · obtain ⟨h1, h2⟩ := lowpri_of_not_high p hb hp
        simp only [if_pos hb, if_neg hp, assign_lowpri_rem, assign_lowpri_rru,
          List.filter_cons, h1, Bool.true_and, Nat.lt_irrefl, if_false, gt_iff_lt]
        by_cases h0 : 0 < p.link_xmit_quota
        · simp only [h0, and_self, if_true, decide_True, List.map_cons, List.sum_cons]
          rw [ih _ (Nat.mod_lt _ (by unfold U16; omega))]
          unfold U16
          omega
        · simp only [h0, false_and, if_false, decide_False, Bool.false_eq_true]
          exact ih u hu
    · obtain ⟨h1, h2⟩ := not_pri_of_not_br_edr p hb
      simp only [if_neg hb, List.filter_cons, h2, Bool.false_and]
      exact ih u hu

/-- In the round-robin branch every normal-priority link ends at quota 0, so
the quota-0 links are the normal-priority links and, when the high-priority
quota is 0, the high-priority links. -/
theorem rr_outstanding_assign_rr (hq : Nat) (pool : List tL2C_LCB) (u : Nat) :
    rr_outstanding (assign_quotas hq 0 pool 0 u).1
      = ((pool.filter tL2C_LCB.is_lowpri).map tL2C_LCB.sent_not_acked).sum
        + (if hq = 0 then ((pool.filter tL2C_LCB.is_hipri).map tL2C_LCB.sent_not_acked).sum
            else 0) := by
  induction pool generalizing u with
  | nil => simp [assign_quotas, rr_outstanding]
  | cons p ps ih =>
    unfold assign_quotas
    by_cases hb : p.br_edr_in_use = true
    · by_cases hp : p.acl_priority = .L2CAP_PRIORITY_HIGH
      · obtain ⟨h1, h2⟩ := hipri_of_high p hb hp
        have ih1 := ih u
        unfold rr_outstanding at ih1 ⊢
        simp only [if_pos hb, if_pos hp, List.filter_cons, h1, h2, kick_timer_br_edr,
          kick_timer_quota, kick_timer_sna]
        have hb1 : ({ p with link_xmit_quota := hq } : tL2C_LCB).br_edr_in_use = true := hb
        simp only [hb1, Bool.true_and, if_true, Bool.false_eq_true, if_false]
        by_cases h0 : hq = 0
        · simp only [h0, decide_True, if_true, List.map_cons, List.sum_cons, kick_timer_sna]
          simp only [h0, if_true] at ih1
          rw [ih1]
          omega
        · simp only [h0, decide_False, Bool.false_eq_true, if_false]
          simp only [h0, if_false] at ih1
          exact ih1
      · obtain ⟨h1, h2⟩ := lowpri_of_not_high p hb hp
        have ih1 := ih (assign_lowpri 0 p 0 u).2.2
        unfold rr_outstanding at ih1 ⊢
        simp only [if_pos hb, if_neg hp, List.filter_cons, h1, h2, kick_timer_br_edr,
          kick_timer_quota, kick_timer_sna, assign_lowpri_br_edr, assign_lowpri_quota,
          assign_lowpri_sna, assign_lowpri_rem, hb, Nat.lt_irrefl, if_false, gt_iff_lt,
          decide_True, Bool.and_self, if_true, List.map_cons, List.sum_cons,
          Bool.false_eq_true]
        rw [ih1]
        omega
    · obtain ⟨h1, h2⟩ := not_pri_of_not_br_edr p hb
      have ih1 := ih u
      unfold rr_outstanding at ih1 ⊢
      simp only [if_neg hb, List.filter_cons, h1, h2, hb, Bool.false_and, Bool.false_eq_true,
        if_false]
      exact ih1

theorem sum_sna_zero (l : List tL2C_LCB) (h : ∀ p ∈ l, p.sent_not_acked = 0) :
    (l.map tL2C_LCB.sent_not_acked).sum = 0 := by
  induction l with
  | nil => rfl
  | cons p ps ih =>
    simp only [List.map_cons, List.sum_cons]
    rw [h p (List.mem_cons_self _ _), ih (fun q hq => h q (List.mem_cons_of_mem _ hq))]

/-- Where the allocator does keep the count of C6: when no in-use
high-priority BR/EDR link has buffers outstanding and the outstanding buffers
of the normal-priority links fit 16 bits, `round_robin_unacked` equals the sum
of `sent_not_acked` over the quota-0 links after the round-robin branch if it
did before. -/
theorem adjust_round_robin_fold_normal (hq : Nat) (pool : List tL2C_LCB) (u : Nat)
    (hpre : u = rr_outstanding pool)
    (hhi : ∀ p ∈ pool, p.is_hipri = true → p.sent_not_acked = 0)
    (hsum : ((pool.filter tL2C_LCB.is_lowpri).map tL2C_LCB.sent_not_acked).sum < U16) :
    (assign_quotas hq 0 pool 0 u).2 = rr_outstanding (assign_quotas hq 0 pool 0 u).1 := by
  have hhisum : ((pool.filter tL2C_LCB.is_hipri).map tL2C_LCB.sent_not_acked).sum = 0 :=
    sum_sna_zero _ (fun p hp => hhi p (List.mem_filter.mp hp).1 (List.mem_filter.mp hp).2)
  have hsplit : ∀ l : List tL2C_LCB, (∀ p ∈ l, p.is_hipri = true → p.sent_not_acked = 0) →
      rr_outstanding l
        + ((l.filter (fun p => p.is_lowpri && decide (0 < p.link_xmit_quota))).map
            tL2C_LCB.sent_not_acked).sum
        = ((l.filter tL2C_LCB.is_lowpri).map tL2C_LCB.sent_not_acked).sum := by
    intro l
    induction l with
    | nil => intro _; simp [rr_outstanding]
    | cons p ps ih =>
      intro hl
      have ih1 := ih (fun q hq => hl q (List.mem_cons_of_mem _ hq))
      unfold rr_outstanding at ih1 ⊢
      by_cases hb : p.br_edr_in_use = true
      · by_cases hp : p.acl_priority = .L2CAP_PRIORITY_HIGH
        · obtain ⟨h1, h2⟩ := hipri_of_high p hb hp
          have h0 := hl p (List.mem_cons_self _ _) h1
          by_cases hq0 : p.link_xmit_quota = 0
          · simp only [List.filter_cons, hb, h2, hq0, decide_True, Bool.and_self, if_true,
              List.map_cons, List.sum_cons, h0, Bool.false_and, Bool.false_eq_true, if_false]
            omega
          · simp only [List.filter_cons, hb, h2, hq0, decide_False, Bool.and_false,
              Bool.false_and, Bool.false_eq_true, if_false]
            exact ih1
        · obtain ⟨h1, h2⟩ := lowpri_of_not_high p hb hp
          by_cases hq0 : p.link_xmit_quota = 0
          · simp only [List.filter_cons, hb, h1, hq0, decide_True, Bool.and_self, if_true,
              List.map_cons, List.sum_cons, Nat.lt_irrefl, decide_False, Bool.and_false,
              Bool.false_eq_true, if_false]
            omega
          · have hpos : 0 < p.link_xmit_quota := by omega
            simp only [List.filter_cons, hb, h1, hq0, hpos, decide_True, decide_False,
              Bool.and_false, Bool.and_self, Bool.false_eq_true, if_false, if_true,
              List.map_cons, List.sum_cons]
            omega
      · obtain ⟨h1, h2⟩ := not_pri_of_not_br_edr p hb
        simp only [List.filter_cons, hb, h2, Bool.false_and, Bool.false_eq_true, if_false]
        exact ih1
  have hs := hsplit pool hhi
  have hu : u < U16 := by rw [hpre]; omega
  rw [assign_quotas_rru_fold hq pool u hu, rr_outstanding_assign_rr, hhisum]
  have : (if hq = 0 then 0 else 0) = 0 := by split <;> rfl
  rw [this, hpre, Nat.add_zero, hs]
  exact Nat.mod_eq_of_lt hsum

/-! ## Lemmas on the scheduler and the completion accountant -/

theorem u16_add_le (a b : Nat) : u16_add a b ≤ a + b := Nat.mod_le _ _

theorem floor_sub_le (a n : Nat) : floor_sub a n ≤ a := by
  unfold floor_sub; split <;> omega

theorem floor_sub_eq (a n : Nat) : floor_sub a n = a - n := by
  unfold floor_sub; split <;> omega

theorem to_u16_le (a b : Nat) (h : b < a) : to_u16 ((a : Int) - (b : Int)) ≤ a - b := by
  unfold to_u16
  omega

/-- A private-quota link with spare quota never gets more segments released
than its spare quota. -/
theorem clamp_segs_le (ns w q sna : Nat) (hq : q ≠ 0) (h : sna < q) :
    (clamp_segs ns w q sna).1 ≤ q - sna := by
  have hu := to_u16_le q sna h
  unfold clamp_segs
  rw [if_neg hq]
  dsimp only
  by_cases h1 : ns > w
  · rw [if_pos h1]
    dsimp only
    split
    · exact hu
    · rename_i hc
      dsimp only
      omega
  · rw [if_neg h1]
    dsimp only
    split
    · exact hu
    · rename_i hc
      dsimp only
      omega

theorem pool_ok_set (pool : List tL2C_LCB) (i : Nat) (p1 : tL2C_LCB) (h : pool_ok pool)
    (h1 : quota_ok p1) : pool_ok (pool.set i p1) := by
  intro p hp
  rcases List.mem_or_eq_of_mem_set hp with hm | he
  · exact h p hm
  · subst he; exact h1

theorem pool_ok_get (pool : List tL2C_LCB) (i : Nat) (p : tL2C_LCB) (h : pool_ok pool)
    (hp : pool[i]? = some p) : quota_ok p :=
  h p (List.mem_iff_getElem?.mpr ⟨i, hp⟩)

/-- Sending on a link that is served round-robin or has spare quota keeps the
bound. -/
theorem send_to_lower_pool_ok (env : Env) (cb : tL2C_CB) (i : Nat) (b : BT_HDR)
    (h : pool_ok cb.lcb_pool)
    (hpre : ∀ p, cb.lcb_pool[i]? = some p →
      p.link_xmit_quota = 0 ∨ p.sent_not_acked < p.link_xmit_quota) :
    pool_ok (l2c_link_send_to_lower env cb i b).lcb_pool := by
  unfold l2c_link_send_to_lower
  split
  · exact h
  · rename_i p hp
    have hq := hpre p hp
    split
    · apply pool_ok_set _ _ _ h
      intro _ h0
      dsimp only at h0 ⊢
      have := u16_add_le p.sent_not_acked 1
      omega
    · apply pool_ok_set _ _ _ h
      intro _ h0
      dsimp only at h0 ⊢
      have h1 : p.sent_not_acked < p.link_xmit_quota := by omega
      have h2 := clamp_segs_le (num_segs_of env b.len
        (if is_le env p = true then env.acl_data_size_ble else env.acl_data_size_classic))
        (if is_le env p = true then cb.controller_le_xmit_window else cb.controller_xmit_window)
        p.link_xmit_quota p.sent_not_acked (by omega) h1
      have h3 := u16_add_le p.sent_not_acked (clamp_segs (num_segs_of env b.len
        (if is_le env p = true then env.acl_data_size_ble else env.acl_data_size_classic))
        (if is_le env p = true then cb.controller_le_xmit_window else cb.controller_xmit_window)
        p.link_xmit_quota p.sent_not_acked).1
      omega

theorem fixed_tx_complete_pool (env : Env) (cb : tL2C_CB) (c : Nat) :
    (fixed_tx_complete env cb c).lcb_pool = cb.lcb_pool := by
  unfold fixed_tx_complete; split <;> rfl

theorem private_may_send_lt (env : Env) (cb : tL2C_CB) (p : tL2C_LCB)
    (h : private_may_send env cb p = true) : p.sent_not_acked < p.link_xmit_quota := by
  unfold private_may_send at h
  simp only [Bool.and_eq_true, decide_eq_true_eq] at h
  exact h.2

theorem getElem?_set_some {α : Type} (l : List α) (i : Nat) (a b : α)
    (h : (l.set i a)[i]? = some b) : b = a := by
  rw [List.getElem?_set] at h
  simp only [if_true] at h
  split at h
  · exact (Option.some.inj h).symm
  · exact absurd h (by simp)

/-- Writing a link back into its slot and then sending on it keeps the bound
when the written link is served round-robin or has spare quota. -/
theorem send_after_set_pool_ok (env : Env) (cb : tL2C_CB) (i : Nat) (p1 : tL2C_LCB)
    (b : BT_HDR) (h : pool_ok cb.lcb_pool) (hp1 : quota_ok p1)
    (hq : p1.link_xmit_quota = 0 ∨ p1.sent_not_acked < p1.link_xmit_quota) :
    pool_ok (l2c_link_send_to_lower env { cb with lcb_pool := cb.lcb_pool.set i p1 } i
      b).lcb_pool := by
  apply send_to_lower_pool_ok
  · exact pool_ok_set _ _ _ h hp1
  · intro q hq1
    have := getElem?_set_some _ _ _ _ hq1
    subst this
    exact hq

/-- The service of one slot in the round-robin loop keeps the bound. -/
theorem rr_serve_pool_ok (env : Env) (sw : Bool) (s : tRR_STATE) (i : Nat) (p : tL2C_LCB)
    (hp : s.cb.lcb_pool[i]? = some p) (h : pool_ok s.cb.lcb_pool) :
    pool_ok (rr_serve env sw s i p).1.cb.lcb_pool := by
  have hpok := pool_ok_get _ _ _ h hp
  unfold rr_serve
  split
  · exact h
  · rename_i hel
    simp only [Bool.or_eq_true, Bool.not_eq_true', decide_eq_true_eq, not_or,
      Bool.not_eq_true, ne_eq, not_not] at hel
    have hq0 : p.link_xmit_quota = 0 := hel.1.2
    split
    · rename_i b rest hqueue
      exact send_after_set_pool_ok env s.cb _ _ b h
        (fun hu h0 => by dsimp only at h0; omega) (Or.inl hq0)
    · split
      · exact h
      · dsimp only
        split
        · rename_i b hb
          dsimp only
          rw [fixed_tx_complete_pool]
          exact send_after_set_pool_ok env s.cb _ _ b h
            (fun hu h0 => by dsimp only at h0; omega) (Or.inl hq0)
        · exact pool_ok_set _ _ _ h (fun hu h0 => by dsimp only at h0; omega)

/-- One pass of the round-robin loop keeps the bound. -/
theorem rr_body_pool_ok (env : Env) (sw : Bool) (s : tRR_STATE) (r : tRR_STATE × Bool)
    (hr : rr_body env sw s = some r) (h : pool_ok s.cb.lcb_pool) :
    pool_ok r.1.cb.lcb_pool := by
  unfold rr_body at hr
  split at hr
  · cases hr; exact h
  · split at hr
    · exact absurd hr (by simp)
    · rename_i p hp
      cases hr
      exact rr_serve_pool_ok env sw s _ p hp h

/-- The round-robin loop keeps the bound. -/
theorem rr_loop_pool_ok (env : Env) (sw : Bool) (n : Nat) (s s1 : tRR_STATE)
    (hr : rr_loop env sw n s = some s1) (h : pool_ok s.cb.lcb_pool) :
    pool_ok s1.cb.lcb_pool := by
  induction n generalizing s with
  | zero =>
    unfold rr_loop at hr
    cases hr; exact h
  | succ n ih =>
    unfold rr_loop at hr
    split at hr
    · exact absurd hr (by simp)
    · rename_i r hbody
      have h1 := rr_body_pool_ok env sw s r hbody h
      split at hr
      · cases hr; exact h1
      · exact ih _ hr h1

theorem rr_clear_flags_pool (env : Env) (s : tRR_STATE) :
    (rr_clear_flags env s).lcb_pool = s.cb.lcb_pool := by
  unfold rr_clear_flags
  dsimp only
  split <;> split <;> rfl

/-- The link-queue loop of the private-quota branch keeps the bound. -/
theorem drain_link_q_pool_ok (env : Env) (i : Nat) (q : List BT_HDR) (cb : tL2C_CB)
    (h : pool_ok cb.lcb_pool) : pool_ok (drain_link_q env i q cb).lcb_pool := by
  induction q generalizing cb with
  | nil => exact h
  | cons b rest ih =>
    unfold drain_link_q
    split
    · exact h
    · rename_i p hp
      have hpok := pool_ok_get _ _ _ h hp
      split
      · rename_i hm
        have hlt := private_may_send_lt env cb p hm
        exact ih _ (send_after_set_pool_ok env cb _ _ b h (fun hu h0 => hpok hu h0)
          (Or.inr hlt))
      · exact h

/-- The channel loop of the private-quota branch keeps the bound. -/
theorem drain_channels_pool_ok (env : Env) (i : Nat) (fuel : Nat) (cb cb1 : tL2C_CB) (c : Nat)
    (hr : drain_channels env i fuel cb c = some cb1) (h : pool_ok cb.lcb_pool) :
    pool_ok cb1.lcb_pool := by
  induction fuel generalizing cb c with
  | zero => unfold drain_channels at hr; exact absurd hr (by simp)
  | succ f ih =>
    unfold drain_channels at hr
    split at hr
    · cases hr; exact h
    · rename_i p hp
      have hpok := pool_ok_get _ _ _ h hp
      split at hr
      · rename_i hm
        have hlt := private_may_send_lt env cb p hm
        dsimp only at hr
        split at hr
        · cases hr
          exact pool_ok_set _ _ _ h (fun hu h0 => hpok hu h0)
        · rename_i b hb
          apply ih _ _ hr
          rw [fixed_tx_complete_pool]
          exact send_after_set_pool_ok env cb _ _ b h (fun hu h0 => hpok hu h0) (Or.inr hlt)
      · cases hr; exact h

theorem private_timer_pool_ok (cb : tL2C_CB) (i : Nat) (h : pool_ok cb.lcb_pool) :
    pool_ok (private_timer cb i).lcb_pool := by
  unfold private_timer
  split
  · exact h
  · rename_i p hp
    have hpok := pool_ok_get _ _ _ h hp
    split
    · exact pool_ok_set _ _ _ h (fun hu h0 => hpok hu h0)
    · exact h

theorem enqueue_buf_pool_ok (env : Env) (cb : tL2C_CB) (i : Nat) (p : tL2C_LCB)
    (c : Option tL2C_CCB) (b : BT_HDR) (h : pool_ok cb.lcb_pool) (hp : quota_ok p) :
    pool_ok (enqueue_buf env cb i p c b).lcb_pool := by
  unfold enqueue_buf
  dsimp only
  split
  · split <;> exact pool_ok_set _ _ _ h (fun hu h0 => hp hu h0)
  · exact pool_ok_set _ _ _ h (fun hu h0 => hp hu h0)

theorem sched_round_robin_pool_ok (env : Env) (sw : Bool) (cb cb1 : tL2C_CB) (start : Nat)
    (hr : sched_round_robin env sw cb start = some cb1) (h : pool_ok cb.lcb_pool) :
    pool_ok cb1.lcb_pool := by
  unfold sched_round_robin at hr
  simp only [Option.map_eq_some'] at hr
  obtain ⟨s1, hs1, rfl⟩ := hr
  rw [rr_clear_flags_pool]
  exact rr_loop_pool_ok env _ _ _ s1 hs1 h

theorem sched_private_pool_ok (env : Env) (fuel : Nat) (sw : Bool) (cb cb1 : tL2C_CB)
    (i : Nat) (p : tL2C_LCB)
    (hr : sched_private env fuel sw cb i p = some cb1) (h : pool_ok cb.lcb_pool) :
    pool_ok cb1.lcb_pool := by
  unfold sched_private at hr
  split at hr
  · cases hr; exact h
  · simp only [Option.map_eq_some'] at hr
    obtain ⟨c, hc, rfl⟩ := hr
    apply private_timer_pool_ok
    have hd := drain_link_q_pool_ok env i p.link_xmit_data_q cb h
    split at hc
    · cases hc; exact hd
    · exact drain_channels_pool_ok env i fuel _ c 0 hc hd

theorem sched_link_pool_ok (env : Env) (fuel : Nat) (sw : Bool) (cb cb1 : tL2C_CB)
    (i q : Nat) (hr : sched_link env fuel sw cb i q = some cb1) (h : pool_ok cb.lcb_pool) :
    pool_ok cb1.lcb_pool := by
  unfold sched_link at hr
  split at hr
  · cases hr; exact h
  · split at hr
    · exact sched_round_robin_pool_ok env _ _ cb1 _ hr h
    · split at hr
      · exact absurd hr (by simp)
      · rename_i p1 hp1
        exact sched_private_pool_ok env fuel _ _ cb1 i p1 hr h

/-- The scheduler keeps the bound `sent_not_acked <= link_xmit_quota` of the
private-quota links. -/
theorem check_send_pkts_pool_ok (env : Env) (fuel : Nat) (cb cb1 : tL2C_CB)
    (p_lcb : Option Nat) (p_ccb : Option tL2C_CCB) (p_buf : Option BT_HDR)
    (hr : l2c_link_check_send_pkts env fuel cb p_lcb p_ccb p_buf = some cb1)
    (h : pool_ok cb.lcb_pool) : pool_ok cb1.lcb_pool := by
  unfold l2c_link_check_send_pkts at hr
  split at hr
  · exact absurd hr (by simp)
  · split at hr
    · cases hr; exact h
    · exact sched_round_robin_pool_ok env _ cb cb1 0 hr h
  · split at hr
    · exact absurd hr (by simp)
    · exact sched_link_pool_ok env fuel _ _ cb1 _ _ hr h
  · split at hr
    · exact absurd hr (by simp)
    · rename_i p hp
      exact sched_link_pool_ok env fuel _ _ cb1 _ _ hr
        (enqueue_buf_pool_ok env cb _ p p_ccb _ h (pool_ok_get _ _ _ h hp))

/-- The accounting step keeps the bound. -/
theorem nocp_account_pool_ok (env : Env) (cb : tL2C_CB) (i : Nat) (p : tL2C_LCB) (n : Nat)
    (hp : cb.lcb_pool[i]? = some p) (h : pool_ok cb.lcb_pool) :
    pool_ok (nocp_account env cb i p n).lcb_pool := by
  have hpok := pool_ok_get _ _ _ h hp
  unfold nocp_account
  dsimp only
  apply pool_ok_set _ _ _ h
  intro hu h0
  have := floor_sub_le p.sent_not_acked n
  have := hpok hu h0
  dsimp only at h0 ⊢
  omega

theorem nocp_reschedule_pool_ok (env : Env) (fuel : Nat) (cb cb1 : tL2C_CB) (i : Nat)
    (hr : nocp_reschedule env fuel cb i = some cb1) (h : pool_ok cb.lcb_pool) :
    pool_ok cb1.lcb_pool := by
  unfold nocp_reschedule at hr
  split at hr
  · exact absurd hr (by simp)
  · rename_i c1 hc1
    have h1 := check_send_pkts_pool_ok env fuel cb c1 _ _ _ hc1 h
    split at hr
    · exact absurd hr (by simp)
    · rename_i p hp
      dsimp only at hr
      split at hr
      · exact absurd hr (by simp)
      · rename_i c2 hc2
        have h2 : pool_ok c2.lcb_pool := by
          split at hc2
          · exact check_send_pkts_pool_ok env fuel c1 c2 _ _ _ hc2 h1
          · cases hc2; exact h1
        split at hr
        · exact absurd hr (by simp)
        · split at hr
          · exact check_send_pkts_pool_ok env fuel c2 cb1 _ _ _ hr h2
          · cases hr; exact h2

theorem nocp_entry_pool_ok (env : Env) (fuel : Nat) (cb cb1 : tL2C_CB) (e : Nat × Nat)
    (hr : nocp_entry env fuel cb e = some cb1) (h : pool_ok cb.lcb_pool) :
    pool_ok cb1.lcb_pool := by
  unfold nocp_entry at hr
  split at hr
  · cases hr; exact h
  · rename_i i hi
    split at hr
    · cases hr; exact h
    · rename_i p hp
      dsimp only at hr
      apply nocp_reschedule_pool_ok env fuel _ cb1 i hr
      split
      · exact nocp_account_pool_ok env _ i p e.2 hp h
      · exact nocp_account_pool_ok env _ i p e.2 hp h

/-- Acknowledgement processing keeps the bound. -/
theorem process_num_completed_pkts_pool_ok (env : Env) (fuel : Nat) (es : List (Nat × Nat))
    (cb cb1 : tL2C_CB) (hr : l2c_link_process_num_completed_pkts env fuel cb es = some cb1)
    (h : pool_ok cb.lcb_pool) : pool_ok cb1.lcb_pool := by
  induction es generalizing cb with
  | nil => unfold l2c_link_process_num_completed_pkts at hr; cases hr; exact h
  | cons e es ih =>
    unfold l2c_link_process_num_completed_pkts at hr
    split at hr
    · exact absurd hr (by simp)
    · rename_i c1 hc1
      exact ih c1 hr (nocp_entry_pool_ok env fuel cb c1 e hc1 h)

/-- The second loop of the allocator does not touch `sent_not_acked`. -/
theorem assign_quotas_sna (hq qq : Nat) (pool : List tL2C_LCB) (r u : Nat) :
    (assign_quotas hq qq pool r u).1.map tL2C_LCB.sent_not_acked
      = pool.map tL2C_LCB.sent_not_acked := by
  induction pool generalizing r u with
  | nil => rfl
  | cons p ps ih =>
    unfold assign_quotas
    split
    · split
      · simp only [List.map_cons, ih, kick_timer_sna]
      · simp only [List.map_cons, ih, kick_timer_sna, assign_lowpri_sna]
    · simp only [List.map_cons, ih]

/-- The allocator does not touch `sent_not_acked`. -/
theorem adjust_allocation_sna (HQ fuel : Nat) (cb cb1 : tL2C_CB)
    (h : l2c_link_adjust_allocation HQ fuel cb = some cb1) :
    cb1.lcb_pool.map tL2C_LCB.sent_not_acked = cb.lcb_pool.map tL2C_LCB.sent_not_acked := by
  unfold l2c_link_adjust_allocation at h
  dsimp only at h
  split at h
  · cases h; rfl
  · split at h
    · exact absurd h (by simp)
    · split at h
      · cases h; exact assign_quotas_sna _ _ _ _ _
      · split at h
        · cases h; exact assign_quotas_sna _ _ _ _ _
        · cases h; exact assign_quotas_sna _ _ _ _ _

/-! ### What the scheduler leaves alone -/

theorem link_step_refl (p : tL2C_LCB) : link_step p p :=
  ⟨rfl, rfl, rfl, rfl, rfl, rfl, rfl, rfl⟩

theorem link_step_trans (p q r : tL2C_LCB) (h1 : link_step p q) (h2 : link_step q r) :
    link_step p r := by
  obtain ⟨a1, a2, a3, a4, a5, a6, a7, a8⟩ := h1
  obtain ⟨b1, b2, b3, b4, b5, b6, b7, b8⟩ := h2
  exact ⟨b1.trans a1, b2.trans a2, b3.trans a3, b4.trans a4, b5.trans a5, b6.trans a6,
    b7.trans a7, b8.trans a8⟩

theorem pool_step_refl (pool : List tL2C_LCB) : pool_step pool pool := by
  refine ⟨rfl, ?_⟩
  intro j p p1 h h1
  rw [h] at h1
  cases h1
  exact link_step_refl p

theorem pool_step_trans (a b c : List tL2C_LCB) (h1 : pool_step a b) (h2 : pool_step b c) :
    pool_step a c := by
  refine ⟨h2.1.trans h1.1, ?_⟩
  intro j p r hp hr
  have hj : j < a.length := (List.getElem?_eq_some.mp hp).1
  have hjb : j < b.length := by rw [h1.1]; exact hj
  have hq : b[j]? = some b[j] := List.getElem?_eq_getElem hjb
  exact link_step_trans p _ r (h1.2 j p _ hp hq) (h2.2 j _ r hq hr)

theorem pool_step_set (pool : List tL2C_LCB) (i : Nat) (p p1 : tL2C_LCB)
    (hp : pool[i]? = some p) (h : link_step p p1) : pool_step pool (pool.set i p1) := by
  refine ⟨List.length_set _ _ _, ?_⟩
  intro j q q1 hq hq1
  rw [List.getElem?_set] at hq1
  by_cases hij : i = j
  · subst hij
    rw [hp] at hq
    cases hq
    simp only [if_true] at hq1
    split at hq1
    · cases hq1; exact h
    · exact absurd hq1 (by simp)
  · rw [if_neg hij, hq] at hq1
    cases hq1
    exact link_step_refl q

theorem cb_step_refl (cb : tL2C_CB) : cb_step cb cb :=
  ⟨pool_step_refl _, ⟨[], by simp⟩, rfl, rfl, rfl, rfl, rfl⟩

theorem cb_step_trans (a b c : tL2C_CB) (h1 : cb_step a b) (h2 : cb_step b c) :
    cb_step a c := by
  obtain ⟨a1, ⟨m1, a2⟩, a3, a4, a5, a6, a7⟩ := h1
  obtain ⟨b1, ⟨m2, b2⟩, b3, b4, b5, b6, b7⟩ := h2
  refine ⟨pool_step_trans _ _ _ a1 b1, ⟨m1 ++ m2, ?_⟩, b3.trans a3, b4.trans a4, b5.trans a5,
    b6.trans a6, b7.trans a7⟩
  rw [b2, a2, List.append_assoc]

/-- The state after `l2c_link_send_to_lower`, field by field: the link in slot
`i` has `send_segs` more buffers outstanding, the window of its transport has
as many fewer, a round-robin link adds them to the shared counter of its
transport, and the buffer is handed to the lower layer. -/
theorem send_to_lower_eq (env : Env) (cb : tL2C_CB) (i : Nat) (p : tL2C_LCB) (b : BT_HDR)
    (hp : cb.lcb_pool[i]? = some p) :
    l2c_link_send_to_lower env cb i b =
      { cb with
        lcb_pool := cb.lcb_pool.set i
          { p with
            sent_not_acked := u16_add p.sent_not_acked (send_segs env cb p b).1,
            partial_segment_being_sent :=
              p.partial_segment_being_sent || (send_segs env cb p b).2 },
        controller_xmit_window :=
          if is_le env p then cb.controller_xmit_window
          else u16_sub cb.controller_xmit_window (send_segs env cb p b).1,
        controller_le_xmit_window :=
          if is_le env p then u16_sub cb.controller_le_xmit_window (send_segs env cb p b).1
          else cb.controller_le_xmit_window,
        round_robin_unacked :=
          if p.link_xmit_quota = 0 ∧ is_le env p = false then
            u16_add cb.round_robin_unacked (send_segs env cb p b).1
          else cb.round_robin_unacked,
        ble_round_robin_unacked :=
          if p.link_xmit_quota = 0 ∧ is_le env p = true then
            u16_add cb.ble_round_robin_unacked (send_segs env cb p b).1
          else cb.ble_round_robin_unacked,
        hci_sent := cb.hci_sent ++
          [⟨p.handle,
            { b with layer_specific :=
                if fits_acl_packet env p b then 0 else (send_segs env cb p b).1 },
            is_le env p⟩] } := by
  unfold l2c_link_send_to_lower send_segs
  rw [hp]
  dsimp only
  by_cases hf : fits_acl_packet env p b = true
  · simp only [hf, if_true]
    by_cases hq : p.link_xmit_quota = 0 <;> by_cases hl : is_le env p = true <;>
      simp [hq, hl]
  · simp only [hf]
    by_cases hq : p.link_xmit_quota = 0 <;> by_cases hl : is_le env p = true <;>
      simp [hq, hl]

theorem cb_step_set (cb : tL2C_CB) (i : Nat) (p p1 : tL2C_LCB)
    (hp : cb.lcb_pool[i]? = some p) (h : link_step p p1) :
    cb_step cb { cb with lcb_pool := cb.lcb_pool.set i p1 } :=
  ⟨pool_step_set _ _ _ _ hp h, ⟨[], by simp⟩, rfl, rfl, rfl, rfl, rfl⟩

theorem send_to_lower_step (env : Env) (cb : tL2C_CB) (i : Nat) (b : BT_HDR) :
    cb_step cb (l2c_link_send_to_lower env cb i b) := by
  cases hp : cb.lcb_pool[i]? with
  | none =>
    unfold l2c_link_send_to_lower
    rw [hp]
    exact cb_step_refl cb
  | some p =>
    rw [send_to_lower_eq env cb i p b hp]
    exact ⟨pool_step_set _ _ _ _ hp ⟨rfl, rfl, rfl, rfl, rfl, rfl, rfl, rfl⟩, ⟨_, rfl⟩,
      rfl, rfl, rfl, rfl, rfl⟩

theorem fixed_tx_complete_step (env : Env) (cb : tL2C_CB) (c : Nat) :
    cb_step cb (fixed_tx_complete env cb c) := by
  unfold fixed_tx_complete
  split
  · exact ⟨pool_step_refl _, ⟨[], by simp⟩, rfl, rfl, rfl, rfl, rfl⟩
  · exact cb_step_refl cb

/-- Writing a link back with another queue or other channel records, and then
sending on it, is a scheduler step. -/
theorem send_after_set_step (env : Env) (cb : tL2C_CB) (i : Nat) (p p1 : tL2C_LCB)
    (b : BT_HDR) (hp : cb.lcb_pool[i]? = some p) (h : link_step p p1) :
    cb_step cb (l2c_link_send_to_lower env { cb with lcb_pool := cb.lcb_pool.set i p1 } i b) :=
  cb_step_trans _ _ _ (cb_step_set cb i p p1 hp h) (send_to_lower_step env _ i b)

theorem rr_serve_step (env : Env) (sw : Bool) (s : tRR_STATE) (i : Nat) (p : tL2C_LCB)
    (hp : s.cb.lcb_pool[i]? = some p) : cb_step s.cb (rr_serve env sw s i p).1.cb := by
  unfold rr_serve
  split
  · exact cb_step_refl _
  · split
    · rename_i b rest hqueue
      exact send_after_set_step env s.cb i p _ b hp ⟨rfl, rfl, rfl, rfl, rfl, rfl, rfl, rfl⟩
    · split
      · exact cb_step_refl _
      · dsimp only
        split
        · rename_i b hb
          dsimp only
          refine cb_step_trans _ _ _ ?_ (fixed_tx_complete_step env _ _)
          exact send_after_set_step env s.cb i p _ b hp ⟨rfl, rfl, rfl, rfl, rfl, rfl, rfl, rfl⟩
        · exact cb_step_set s.cb i p _ hp ⟨rfl, rfl, rfl, rfl, rfl, rfl, rfl, rfl⟩

theorem rr_body_step (env : Env) (sw : Bool) (s : tRR_STATE) (r : tRR_STATE × Bool)
    (hr : rr_body env sw s = some r) : cb_step s.cb r.1.cb := by
  unfold rr_body at hr
  split at hr
  · cases hr; exact cb_step_refl _
  · split at hr
    · exact absurd hr (by simp)
    · rename_i p hp
      cases hr
      exact rr_serve_step env sw s _ p hp

theorem rr_loop_step (env : Env) (sw : Bool) (n : Nat) (s s1 : tRR_STATE)
    (hr : rr_loop env sw n s = some s1) : cb_step s.cb s1.cb := by
  induction n generalizing s with
  | zero =>
    unfold rr_loop at hr
    cases hr; exact cb_step_refl _
  | succ n ih =>
    unfold rr_loop at hr
    split at hr
    · exact absurd hr (by simp)
    · rename_i r hbody
      have h1 := rr_body_step env sw s r hbody
      split at hr
      · cases hr; exact h1
      · have h2 := ih _ hr
        exact cb_step_trans _ _ _ h1 h2

theorem rr_clear_flags_step (env : Env) (s : tRR_STATE) :
    cb_step s.cb (rr_clear_flags env s) := by
  unfold rr_clear_flags
  dsimp only
  split <;> split <;> exact ⟨pool_step_refl _, ⟨[], by simp⟩, rfl, rfl, rfl, rfl, rfl⟩

theorem drain_link_q_step (env : Env) (i : Nat) (q : List BT_HDR) (cb : tL2C_CB) :
    cb_step cb (drain_link_q env i q cb) := by
  induction q generalizing cb with
  | nil => exact cb_step_refl _
  | cons b rest ih =>
    unfold drain_link_q
    split
    · exact cb_step_refl _
    · rename_i p hp
      split
      · refine cb_step_trans _ _ _ ?_ (ih _)
        exact send_after_set_step env _ i p _ b hp ⟨rfl, rfl, rfl, rfl, rfl, rfl, rfl, rfl⟩
      · exact cb_step_refl _

theorem drain_channels_step (env : Env) (i : Nat) (fuel : Nat) (cb cb1 : tL2C_CB) (c : Nat)
    (hr : drain_channels env i fuel cb c = some cb1) : cb_step cb cb1 := by
  induction fuel generalizing cb c with
  | zero => unfold drain_channels at hr; exact absurd hr (by simp)
  | succ f ih =>
    unfold drain_channels at hr
    split at hr
    · cases hr; exact cb_step_refl _
    · rename_i p hp
      split at hr
      · dsimp only at hr
        split at hr
        · cases hr
          exact cb_step_set _ i p _ hp ⟨rfl, rfl, rfl, rfl, rfl, rfl, rfl, rfl⟩
        · rename_i b hb
          refine cb_step_trans _ _ _ ?_ (ih _ _ hr)
          refine cb_step_trans _ _ _ ?_ (fixed_tx_complete_step env _ _)
          exact send_after_set_step env _ i p _ b hp ⟨rfl, rfl, rfl, rfl, rfl, rfl, rfl, rfl⟩
      · cases hr; exact cb_step_refl _

theorem private_timer_step (cb : tL2C_CB) (i : Nat) : cb_step cb (private_timer cb i) := by
  unfold private_timer
  split
  · exact cb_step_refl cb
  · rename_i p hp
    split
    · exact cb_step_set cb i p _ hp ⟨rfl, rfl, rfl, rfl, rfl, rfl, rfl, rfl⟩
    · exact cb_step_refl cb

theorem enqueue_buf_step (env : Env) (cb : tL2C_CB) (i : Nat) (p : tL2C_LCB)
    (c : Option tL2C_CCB) (b : BT_HDR) (hp : cb.lcb_pool[i]? = some p) :
    cb_step cb (enqueue_buf env cb i p c b) := by
  unfold enqueue_buf
  dsimp only
  split
  · split <;>
      exact ⟨pool_step_set _ _ _ _ hp ⟨rfl, rfl, rfl, rfl, rfl, rfl, rfl, rfl⟩, ⟨[], by simp⟩,
        rfl, rfl, rfl, rfl, rfl⟩
  · exact cb_step_set cb i p _ hp ⟨rfl, rfl, rfl, rfl, rfl, rfl, rfl, rfl⟩

theorem sched_round_robin_step (env : Env) (sw : Bool) (cb cb1 : tL2C_CB) (start : Nat)
    (hr : sched_round_robin env sw cb start = some cb1) : cb_step cb cb1 := by
  unfold sched_round_robin at hr
  simp only [Option.map_eq_some'] at hr
  obtain ⟨s1, hs1, rfl⟩ := hr
  exact cb_step_trans _ _ _ (rr_loop_step env _ _ _ s1 hs1) (rr_clear_flags_step env s1)

theorem sched_private_step (env : Env) (fuel : Nat) (sw : Bool) (cb cb1 : tL2C_CB)
    (i : Nat) (p : tL2C_LCB) (hr : sched_private env fuel sw cb i p = some cb1) :
    cb_step cb cb1 := by
  unfold sched_private at hr
  split at hr
  · cases hr; exact cb_step_refl cb
  · simp only [Option.map_eq_some'] at hr
    obtain ⟨c, hc, rfl⟩ := hr
    refine cb_step_trans _ _ _ ?_ (private_timer_step c i)
    have hd := drain_link_q_step env i p.link_xmit_data_q cb
    split at hc
    · cases hc; exact hd
    · exact cb_step_trans _ _ _ hd (drain_channels_step env i fuel _ c 0 hc)

theorem sched_link_step (env : Env) (fuel : Nat) (sw : Bool) (cb cb1 : tL2C_CB)
    (i q : Nat) (hr : sched_link env fuel sw cb i q = some cb1) : cb_step cb cb1 := by
  unfold sched_link at hr
  split at hr
  · cases hr; exact cb_step_refl _
  · split at hr
    · exact sched_round_robin_step env _ _ cb1 _ hr
    · split at hr
      · exact absurd hr (by simp)
      · rename_i p1 hp1
        exact sched_private_step env fuel _ _ cb1 i p1 hr

/-- The scheduler writes no field of `link_step` and `cb_step`: it changes no
`link_state`, quota or priority, and only appends to the buffers handed to the
lower layer. -/
theorem check_send_pkts_step (env : Env) (fuel : Nat) (cb cb1 : tL2C_CB)
    (p_lcb : Option Nat) (p_ccb : Option tL2C_CCB) (p_buf : Option BT_HDR)
    (hr : l2c_link_check_send_pkts env fuel cb p_lcb p_ccb p_buf = some cb1) :
    cb_step cb cb1 := by
  unfold l2c_link_check_send_pkts at hr
  split at hr
  · exact absurd hr (by simp)
  · split at hr
    · cases hr; exact cb_step_refl _
    · exact sched_round_robin_step env _ cb cb1 0 hr
  · split at hr
    · exact absurd hr (by simp)
    · exact sched_link_step env fuel _ _ cb1 _ _ hr
  · split at hr
    · exact absurd hr (by simp)
    · rename_i p hp
      exact cb_step_trans _ _ _ (enqueue_buf_step env cb _ p p_ccb _ hp)
        (sched_link_step env fuel _ _ cb1 _ _ hr)

theorem nocp_account_step (env : Env) (cb : tL2C_CB) (i : Nat) (p : tL2C_LCB) (n : Nat)
    (hp : cb.lcb_pool[i]? = some p) : cb_step cb (nocp_account env cb i p n) := by
  unfold nocp_account
  dsimp only
  refine ⟨pool_step_set _ _ _ _ hp ⟨rfl, rfl, rfl, rfl, rfl, rfl, rfl, rfl⟩, ⟨[], ?_⟩, ?_, ?_,
    ?_, ?_, ?_⟩ <;> (split <;> split) <;> simp

theorem nocp_reschedule_step (env : Env) (fuel : Nat) (cb cb1 : tL2C_CB) (i : Nat)
    (hr : nocp_reschedule env fuel cb i = some cb1) : cb_step cb cb1 := by
  unfold nocp_reschedule at hr
  split at hr
  · exact absurd hr (by simp)
  · rename_i c1 hc1
    have h1 := check_send_pkts_step env fuel cb c1 _ _ _ hc1
    split at hr
    · exact absurd hr (by simp)
    · rename_i p hp
      dsimp only at hr
      split at hr
      · exact absurd hr (by simp)
      · rename_i c2 hc2
        have h2 : cb_step cb c2 := by
          split at hc2
          · exact cb_step_trans _ _ _ h1 (check_send_pkts_step env fuel c1 c2 _ _ _ hc2)
          · cases hc2; exact h1
        split at hr
        · exact absurd hr (by simp)
        · split at hr
          · exact cb_step_trans _ _ _ h2 (check_send_pkts_step env fuel c2 cb1 _ _ _ hr)
          · cases hr; exact h2

theorem nocp_entry_step (env : Env) (fuel : Nat) (cb cb1 : tL2C_CB) (e : Nat × Nat)
    (hr : nocp_entry env fuel cb e = some cb1) : cb_step cb cb1 := by
  unfold nocp_entry at hr
  split at hr
  · cases hr; exact cb_step_refl _
  · rename_i i hi
    split at hr
    · cases hr; exact cb_step_refl _
    · rename_i p hp
      dsimp only at hr
      refine cb_step_trans _ _ _ ?_ (nocp_reschedule_step env fuel _ cb1 i hr)
      split
      · refine cb_step_trans cb { cb with nocp_calls := cb.nocp_calls ++ [p.remote_bd_addr] } _
          ⟨pool_step_refl _, ⟨[], by simp⟩, rfl, rfl, rfl, rfl, rfl⟩ ?_
        exact nocp_account_step env _ i p e.2 hp
      · exact nocp_account_step env _ i p e.2 hp

/-- Acknowledgement processing writes no field of `link_step` and `cb_step`. -/
theorem process_num_completed_pkts_step (env : Env) (fuel : Nat) (es : List (Nat × Nat))
    (cb cb1 : tL2C_CB) (hr : l2c_link_process_num_completed_pkts env fuel cb es = some cb1) :
    cb_step cb cb1 := by
  induction es generalizing cb with
  | nil => unfold l2c_link_process_num_completed_pkts at hr; cases hr; exact cb_step_refl _
  | cons e es ih =>
    unfold l2c_link_process_num_completed_pkts at hr
    split at hr
    · exact absurd hr (by simp)
    · rename_i c1 hc1
      exact cb_step_trans _ _ _ (nocp_entry_step env fuel _ c1 e hc1) (ih c1 hr)

/-! ### Termination of the scheduler -/

theorem num_segs_of_pos (env : Env) (len ads : Nat) (h1 : env.HCI_DATA_PREAMBLE_SIZE < len)
    (h2 : 0 < ads) (h3 : len < U16) : 1 ≤ num_segs_of env len ads := by
  unfold num_segs_of
  have e : (len : Int) - (env.HCI_DATA_PREAMBLE_SIZE : Int) + (ads : Int) - 1
      = ((len - env.HCI_DATA_PREAMBLE_SIZE - 1 + ads : Nat) : Int) := by omega
  rw [e, ← Int.ofNat_tdiv, Nat.add_div_right _ h2]
  have hk := Nat.div_le_self (len - env.HCI_DATA_PREAMBLE_SIZE - 1) ads
  generalize (len - env.HCI_DATA_PREAMBLE_SIZE - 1) / ads = k at hk ⊢
  unfold to_u16
  unfold U16 at h3
  push_cast
  omega

theorem clamp_segs_pos (ns w q sna : Nat) (hq : q ≠ 0) (hns : 1 ≤ ns) (hw : 1 ≤ w)
    (h : sna < q) (hq16 : q < U16) : 1 ≤ (clamp_segs ns w q sna).1 := by
  have hu : to_u16 ((q : Int) - (sna : Int)) = q - sna := by
    unfold to_u16; unfold U16 at hq16; omega
  unfold clamp_segs
  rw [if_neg hq]
  dsimp only
  by_cases h1 : ns > w
  · rw [if_pos h1]
    dsimp only
    split
    · dsimp only; omega
    · dsimp only; omega
  · rw [if_neg h1]
    dsimp only
    split
    · dsimp only; omega
    · dsimp only; omega

/-- A send on a private-quota link that the loop condition admits takes at
least one buffer and stays within the quota. -/
theorem send_segs_progress (env : Env) (hs : sizes_ok env) (cb : tL2C_CB) (p : tL2C_LCB)
    (b : BT_HDR) (hlen : b.len < U16) (hm : private_may_send env cb p = true)
    (hq16 : p.link_xmit_quota < U16) :
    1 ≤ (send_segs env cb p b).1 ∧
      p.sent_not_acked + (send_segs env cb p b).1 ≤ p.link_xmit_quota := by
  have hlt := private_may_send_lt env cb p hm
  obtain ⟨s1, s2, s3, s4, _⟩ := hs
  unfold send_segs
  by_cases hf : fits_acl_packet env p b = true
  · rw [if_pos hf]; exact ⟨le_refl _, hlt⟩
  · rw [if_neg hf]
    refine ⟨?_, ?_⟩
    · apply clamp_segs_pos _ _ _ _ (by omega) _ _ hlt hq16
      · unfold fits_acl_packet at hf
        unfold private_may_send at hm
        unfold is_le
        cases hb : env.BLE_INCLUDED <;> cases ht : p.transport <;>
          simp [hb, ht] at hf hm ⊢ <;>
          exact num_segs_of_pos env _ _ (by omega) (by assumption) hlen
      · unfold private_may_send at hm
        unfold is_le
        cases hb : env.BLE_INCLUDED <;> cases ht : p.transport <;>
          simp [hb, ht] at hm ⊢ <;> omega
    · have := clamp_segs_le (num_segs_of env b.len
        (if is_le env p = true then env.acl_data_size_ble else env.acl_data_size_classic))
        (if is_le env p = true then cb.controller_le_xmit_window else cb.controller_xmit_window)
        p.link_xmit_quota p.sent_not_acked (by omega) hlt
      omega

theorem getElem?_set_same {α : Type} (l : List α) (i : Nat) (a b : α) (h : l[i]? = some a) :
    (l.set i b)[i]? = some b :=
  List.getElem?_set_self (List.getElem?_eq_some.mp h).1

theorem fixed_tx_complete_window (env : Env) (cb : tL2C_CB) (c : Nat) :
    (fixed_tx_complete env cb c).controller_xmit_window = cb.controller_xmit_window ∧
    (fixed_tx_complete env cb c).controller_le_xmit_window = cb.controller_le_xmit_window := by
  unfold fixed_tx_complete; split <;> exact ⟨rfl, rfl⟩

/-- A send that the loop condition of the private-quota branch admits raises
`sent_not_acked` of the link, and not above the quota. -/
theorem send_private_slot (env : Env) (hs : sizes_ok env) (cb : tL2C_CB) (i : Nat)
    (p : tL2C_LCB) (b : BT_HDR) (hp : cb.lcb_pool[i]? = some p) (hlen : b.len < U16)
    (hm : private_may_send env cb p = true) (hq16 : p.link_xmit_quota < U16) :
    ∃ p2, (l2c_link_send_to_lower env cb i b).lcb_pool[i]? = some p2 ∧
      p2.link_xmit_quota = p.link_xmit_quota ∧ p.sent_not_acked < p2.sent_not_acked ∧
      p2.sent_not_acked ≤ p.link_xmit_quota := by
  have hprog := send_segs_progress env hs cb p b hlen hm hq16
  have hmod : u16_add p.sent_not_acked (send_segs env cb p b).1
      = p.sent_not_acked + (send_segs env cb p b).1 := by
    unfold u16_add
    exact Nat.mod_eq_of_lt (by omega)
  rw [send_to_lower_eq env cb i p b hp]
  refine ⟨_, getElem?_set_same _ i _ _ hp, rfl, ?_, ?_⟩
  · dsimp only; rw [hmod]; omega
  · dsimp only; rw [hmod]; omega

/-- The channel loop returns when the fuel exceeds the spare quota of the
link. -/
theorem drain_channels_returns (env : Env) (hs : sizes_ok env) (i : Nat) (fuel : Nat)
    (cb : tL2C_CB) (c : Nat) (p : tL2C_LCB) (hp : cb.lcb_pool[i]? = some p)
    (hq16 : p.link_xmit_quota < U16)
    (hfuel : p.link_xmit_quota - p.sent_not_acked < fuel) :
    ∃ cb1, drain_channels env i fuel cb c = some cb1 := by
  induction fuel generalizing cb c p with
  | zero => omega
  | succ f ih =>
    unfold drain_channels
    rw [hp]
    dsimp only
    split
    · rename_i hm
      split
      · exact ⟨_, rfl⟩
      · rename_i b hb
        have hlen := hs.2.2.2.2 p c b hb
        have hq1 : ({ p with ccb_queue := (env.l2cu_get_next_buffer_to_send p c).2.2 }
            : tL2C_LCB).link_xmit_quota = p.link_xmit_quota := rfl
        have hs1 : ({ p with ccb_queue := (env.l2cu_get_next_buffer_to_send p c).2.2 }
            : tL2C_LCB).sent_not_acked = p.sent_not_acked := rfl
        have hm1 : private_may_send env cb
            { p with ccb_queue := (env.l2cu_get_next_buffer_to_send p c).2.2 } = true := hm
        generalize ({ p with ccb_queue := (env.l2cu_get_next_buffer_to_send p c).2.2 }
            : tL2C_LCB) = p1 at hq1 hs1 hm1 ⊢
        have hp1 := getElem?_set_same cb.lcb_pool i p p1 hp
        obtain ⟨p2, hp2, hq2, hlt, hle⟩ := send_private_slot env hs
          { cb with lcb_pool := cb.lcb_pool.set i p1 } i p1 b hp1 hlen hm1 (by omega)
        apply ih _ _ p2
        · rw [fixed_tx_complete_pool]; exact hp2
        · omega
        · omega
    · exact ⟨_, rfl⟩

theorem rr_serve_p_lcb (env : Env) (sw : Bool) (s : tRR_STATE) (i : Nat) (p : tL2C_LCB) :
    (rr_serve env sw s i p).1.p_lcb = i := by
  unfold rr_serve
  split
  · rfl
  · split
    · rfl
    · split
      · rfl
      · dsimp only
        split <;> rfl

/-- Compiled with `MTK_COMMON`, one pass of the round-robin loop reads only
slots of the pool. -/
theorem rr_body_returns (env : Env) (hmtk : env.MTK_COMMON = true) (sw : Bool) (s : tRR_STATE)
    (hidx : s.p_lcb ≤ s.cb.lcb_pool.length) (hlen : 0 < s.cb.lcb_pool.length) :
    ∃ r, rr_body env sw s = some r ∧ r.1.p_lcb < s.cb.lcb_pool.length := by
  have h1 : rr_wrap_mtk env s.cb s.p_lcb < s.cb.lcb_pool.length := by
    unfold rr_wrap_mtk
    split
    · exact hlen
    · rename_i hn
      simp only [hmtk, true_and] at hn
      omega
  have h2 : rr_wrap_aosp env s.cb (rr_wrap_mtk env s.cb s.p_lcb)
      = rr_wrap_mtk env s.cb s.p_lcb := by
    generalize rr_wrap_mtk env s.cb s.p_lcb = k
    unfold rr_wrap_aosp
    simp [hmtk]
  unfold rr_body
  split
  · exact ⟨_, rfl, h1⟩
  · rw [h2, List.getElem?_eq_getElem h1]
    exact ⟨_, rfl, by rw [rr_serve_p_lcb]; exact h1⟩

theorem rr_loop_returns (env : Env) (hmtk : env.MTK_COMMON = true) (sw : Bool) (n : Nat)
    (s : tRR_STATE) (hidx : s.p_lcb ≤ s.cb.lcb_pool.length)
    (hn : n ≤ s.cb.lcb_pool.length) : ∃ s1, rr_loop env sw n s = some s1 := by
  induction n generalizing s with
  | zero => exact ⟨s, rfl⟩
  | succ n ih =>
    obtain ⟨r, hr, hlt⟩ := rr_body_returns env hmtk sw s hidx (by omega)
    have hstep := (rr_body_step env sw s r hr).1.1
    unfold rr_loop
    rw [hr]
    dsimp only
    split
    · exact ⟨_, rfl⟩
    · apply ih
      · dsimp only; omega
      · dsimp only; omega

theorem sched_round_robin_returns (env : Env) (hmtk : env.MTK_COMMON = true) (sw : Bool)
    (cb : tL2C_CB) (start : Nat) (h : start ≤ cb.lcb_pool.length) :
    ∃ cb1, sched_round_robin env sw cb start = some cb1 := by
  obtain ⟨s1, hs1⟩ := rr_loop_returns env hmtk sw cb.lcb_pool.length
    { cb := cb, p_lcb := start, fixd_cid := 0 } h (le_refl _)
  unfold sched_round_robin
  rw [hs1]
  exact ⟨_, rfl⟩

theorem cb_step_slot (cb cb1 : tL2C_CB) (h : cb_step cb cb1) (i : Nat) (p : tL2C_LCB)
    (hp : cb.lcb_pool[i]? = some p) : ∃ p1, cb1.lcb_pool[i]? = some p1 ∧ link_step p p1 := by
  have hi : i < cb1.lcb_pool.length := by
    rw [h.1.1]; exact (List.getElem?_eq_some.mp hp).1
  exact ⟨cb1.lcb_pool[i], List.getElem?_eq_getElem hi,
    h.1.2 i p _ hp (List.getElem?_eq_getElem hi)⟩

theorem sched_private_returns (env : Env) (hs : sizes_ok env) (fuel : Nat) (sw : Bool)
    (cb : tL2C_CB) (i : Nat) (p : tL2C_LCB) (hp : cb.lcb_pool[i]? = some p)
    (hq16 : p.link_xmit_quota < U16) (hfuel : U16 ≤ fuel) :
    ∃ cb1, sched_private env fuel sw cb i p = some cb1 := by
  unfold sched_private
  split
  · exact ⟨_, rfl⟩
  · dsimp only
    cases sw with
    | true => exact ⟨_, rfl⟩
    | false =>
      obtain ⟨p2, hp2, hl⟩ := cb_step_slot cb _ (drain_link_q_step env i p.link_xmit_data_q cb)
        i p hp
      have hq2 : p2.link_xmit_quota < U16 := by rw [hl.2.2.2.2.2.2.1]; exact hq16
      obtain ⟨c, hc⟩ := drain_channels_returns env hs i fuel _ 0 p2 hp2 hq2 (by omega)
      simp only [Bool.false_eq_true, if_false, hc]
      exact ⟨_, rfl⟩

theorem sched_link_returns (env : Env) (hmtk : env.MTK_COMMON = true) (hs : sizes_ok env)
    (fuel : Nat) (sw : Bool) (cb : tL2C_CB) (i q : Nat) (p : tL2C_LCB)
    (hp : cb.lcb_pool[i]? = some p) (hq16 : p.link_xmit_quota < U16) (hfuel : U16 ≤ fuel) :
    ∃ cb1, sched_link env fuel sw cb i q = some cb1 := by
  have hi : i < cb.lcb_pool.length := (List.getElem?_eq_some.mp hp).1
  unfold sched_link
  split
  · exact ⟨_, rfl⟩
  · split
    · apply sched_round_robin_returns env hmtk
      split <;> omega
    · rw [hp]
      exact sched_private_returns env hs fuel sw cb i p hp hq16 hfuel

theorem quotas_u16_get (pool : List tL2C_LCB) (h : quotas_u16 pool) (i : Nat) (p : tL2C_LCB)
    (hp : pool[i]? = some p) : p.link_xmit_quota < U16 :=
  h p (List.mem_iff_getElem?.mpr ⟨i, hp⟩)

theorem quotas_u16_step (cb cb1 : tL2C_CB) (h : cb_step cb cb1)
    (hq : quotas_u16 cb.lcb_pool) : quotas_u16 cb1.lcb_pool := by
  intro p1 hp1
  obtain ⟨j, hj⟩ := List.mem_iff_getElem?.mp hp1
  have hjl : j < cb.lcb_pool.length := by
    rw [← h.1.1]; exact (List.getElem?_eq_some.mp hj).1
  have hl := h.1.2 j _ p1 (List.getElem?_eq_getElem hjl) hj
  rw [hl.2.2.2.2.2.2.1]
  exact hq _ (List.getElem_mem hjl)

/-- Compiled with `MTK_COMMON` and given `2^16` units of fuel, the scheduler
returns on every control block with 16-bit quotas, for a null `p_lcb` without
a buffer and for every `p_lcb` that points into the pool. -/
theorem check_send_pkts_returns (env : Env) (hmtk : env.MTK_COMMON = true) (hs : sizes_ok env)
    (fuel : Nat) (hfuel : U16 ≤ fuel) (cb : tL2C_CB) (hq : quotas_u16 cb.lcb_pool)
    (p_lcb : Option Nat) (p_ccb : Option tL2C_CCB) (p_buf : Option BT_HDR)
    (hargs : match p_lcb with
      | none => p_buf = none
      | some i => i < cb.lcb_pool.length) :
    ∃ cb1, l2c_link_check_send_pkts env fuel cb p_lcb p_ccb p_buf = some cb1 := by
  unfold l2c_link_check_send_pkts
  cases p_lcb with
  | none =>
    dsimp only at hargs
    subst hargs
    dsimp only
    split
    · exact ⟨_, rfl⟩
    · exact sched_round_robin_returns env hmtk _ cb 0 (Nat.zero_le _)
  | some i =>
    dsimp only at hargs
    have hp := List.getElem?_eq_getElem hargs
    cases p_buf with
    | none =>
      dsimp only
      rw [hp]
      exact sched_link_returns env hmtk hs fuel _ cb i _ _ hp (quotas_u16_get _ hq i _ hp) hfuel
    | some b =>
      dsimp only
      rw [hp]
      dsimp only
      have hst := enqueue_buf_step env cb i _ p_ccb b hp
      obtain ⟨p1, hp1, hl⟩ := cb_step_slot cb _ hst i _ hp
      exact sched_link_returns env hmtk hs fuel _ _ i _ p1 hp1
        (quotas_u16_get _ (quotas_u16_step _ _ hst hq) i _ hp1) hfuel

theorem find_lcb_by_handle_lt (cb : tL2C_CB) (h i : Nat)
    (hf : l2cu_find_lcb_by_handle cb h = some i) : i < cb.lcb_pool.length := by
  unfold l2cu_find_lcb_by_handle at hf
  dsimp only at hf
  split at hf
  · cases hf; assumption
  · exact absurd hf (by simp)

theorem nocp_reschedule_returns (env : Env) (hmtk : env.MTK_COMMON = true) (hs : sizes_ok env)
    (fuel : Nat) (hfuel : U16 ≤ fuel) (cb : tL2C_CB) (hq : quotas_u16 cb.lcb_pool) (i : Nat)
    (hi : i < cb.lcb_pool.length) : ∃ cb1, nocp_reschedule env fuel cb i = some cb1 := by
  obtain ⟨c1, hc1⟩ := check_send_pkts_returns env hmtk hs fuel hfuel cb hq (some i) none none hi
  have hst1 := check_send_pkts_step env fuel cb c1 _ _ _ hc1
  have hq1 := quotas_u16_step _ _ hst1 hq
  obtain ⟨p1, hp1, _⟩ := cb_step_slot cb c1 hst1 i _ (List.getElem?_eq_getElem hi)
  unfold nocp_reschedule
  rw [hc1]
  dsimp only
  rw [hp1]
  dsimp only
  have h2 : ∃ c2, (if p1.acl_priority = .L2CAP_PRIORITY_HIGH ∧ c1.check_round_robin = true
        ∧ c1.round_robin_unacked < c1.round_robin_quota then
        l2c_link_check_send_pkts env fuel c1 none none none
      else some c1) = some c2 ∧ cb_step c1 c2 := by
    split
    · obtain ⟨c2, hc2⟩ := check_send_pkts_returns env hmtk hs fuel hfuel c1 hq1 none none none
        rfl
      exact ⟨c2, hc2, check_send_pkts_step env fuel c1 c2 _ _ _ hc2⟩
    · exact ⟨c1, rfl, cb_step_refl _⟩
  obtain ⟨c2, hc2, hst2⟩ := h2
  rw [hc2]
  dsimp only
  obtain ⟨p2, hp2, _⟩ := cb_step_slot c1 c2 hst2 i _ hp1
  rw [hp2]
  dsimp only
  split
  · exact check_send_pkts_returns env hmtk hs fuel hfuel c2 (quotas_u16_step _ _ hst2 hq1)
      none none none rfl
  · exact ⟨_, rfl⟩

theorem nocp_entry_returns (env : Env) (hmtk : env.MTK_COMMON = true) (hs : sizes_ok env)
    (fuel : Nat) (hfuel : U16 ≤ fuel) (cb : tL2C_CB) (hq : quotas_u16 cb.lcb_pool)
    (e : Nat × Nat) : ∃ cb1, nocp_entry env fuel cb e = some cb1 := by
  unfold nocp_entry
  split
  · exact ⟨_, rfl⟩
  · rename_i i hi
    have hlt := find_lcb_by_handle_lt cb e.1 i hi
    split
    · exact ⟨_, rfl⟩
    · rename_i p hp
      dsimp only
      have hst : cb_step cb (nocp_account env
          (if p.p_nocp_cb = true then
            { cb with nocp_calls := cb.nocp_calls ++ [p.remote_bd_addr] } else cb) i p e.2) := by
        split
        · refine cb_step_trans cb { cb with nocp_calls := cb.nocp_calls ++ [p.remote_bd_addr] }
            _ ⟨pool_step_refl _, ⟨[], by simp⟩, rfl, rfl, rfl, rfl, rfl⟩ ?_
          exact nocp_account_step env _ i p e.2 hp
        · exact nocp_account_step env _ i p e.2 hp
      exact nocp_reschedule_returns env hmtk hs fuel hfuel _ (quotas_u16_step _ _ hst hq) i
        (by rw [hst.1.1]; exact hlt)

/-- Compiled with `MTK_COMMON` and given `2^16` units of fuel, acknowledgement
processing returns for every event on every control block with 16-bit
quotas. -/
theorem process_num_completed_pkts_returns (env : Env) (hmtk : env.MTK_COMMON = true)
    (hs : sizes_ok env) (fuel : Nat) (hfuel : U16 ≤ fuel) (es : List (Nat × Nat))
    (cb : tL2C_CB) (hq : quotas_u16 cb.lcb_pool) :
    ∃ cb1, l2c_link_process_num_completed_pkts env fuel cb es = some cb1 := by
  induction es generalizing cb with
  | nil => exact ⟨_, rfl⟩
  | cons e es ih =>
    obtain ⟨c1, hc1⟩ := nocp_entry_returns env hmtk hs fuel hfuel cb hq e
    unfold l2c_link_process_num_completed_pkts
    rw [hc1]
    exact ih c1 (quotas_u16_step _ _ (nocp_entry_step env fuel cb c1 e hc1) hq)

/-! ### Outstanding counts of private-quota links under the scheduler -/

theorem link_mono_refl (p : tL2C_LCB) : link_mono p p :=
  ⟨rfl, fun _ _ h => ⟨le_refl _, h⟩⟩

theorem link_mono_of_eq (p p1 : tL2C_LCB) (hq : p1.link_xmit_quota = p.link_xmit_quota)
    (hs : p1.sent_not_acked = p.sent_not_acked) : link_mono p p1 :=
  ⟨hq, fun _ _ h => ⟨by omega, by omega⟩⟩

theorem link_mono_trans (p q r : tL2C_LCB) (h1 : link_mono p q) (h2 : link_mono q r) :
    link_mono p r := by
  refine ⟨h2.1.trans h1.1, ?_⟩
  intro a b c
  obtain ⟨x1, x2⟩ := h1.2 a b c
  obtain ⟨y1, y2⟩ := h2.2 (by rw [h1.1]; exact a) (by rw [h1.1]; exact b)
    (by rw [h1.1]; exact x2)
  rw [h1.1] at y2
  exact ⟨x1.trans y1, y2⟩

theorem pool_mono_refl (pool : List tL2C_LCB) : pool_mono pool pool := by
  refine ⟨rfl, ?_⟩
  intro j p p1 h h1
  rw [h] at h1; cases h1; exact link_mono_refl p

theorem pool_mono_trans (a b c : List tL2C_LCB) (h1 : pool_mono a b) (h2 : pool_mono b c) :
    pool_mono a c := by
  refine ⟨h2.1.trans h1.1, ?_⟩
  intro j p r hp hr
  have hjb : j < b.length := by rw [h1.1]; exact (List.getElem?_eq_some.mp hp).1
  have hq : b[j]? = some b[j] := List.getElem?_eq_getElem hjb
  exact link_mono_trans p _ r (h1.2 j p _ hp hq) (h2.2 j _ r hq hr)

theorem pool_mono_set (pool : List tL2C_LCB) (i : Nat) (p p1 : tL2C_LCB)
    (hp : pool[i]? = some p) (h : link_mono p p1) : pool_mono pool (pool.set i p1) := by
  refine ⟨List.length_set _ _ _, ?_⟩
  intro j q q1 hq hq1
  rw [List.getElem?_set] at hq1
  by_cases hij : i = j
  · subst hij
    rw [hp] at hq
    cases hq
    simp only [if_true] at hq1
    split at hq1
    · cases hq1; exact h
    · exact absurd hq1 (by simp)
  · rw [if_neg hij, hq] at hq1
    cases hq1
    exact link_mono_refl q

theorem send_segs_le (env : Env) (cb : tL2C_CB) (p : tL2C_LCB) (b : BT_HDR)
    (hq : p.link_xmit_quota ≠ 0) (h : p.sent_not_acked < p.link_xmit_quota) :
    (send_segs env cb p b).1 ≤ p.link_xmit_quota - p.sent_not_acked := by
  unfold send_segs
  split
  · dsimp only; omega
  · exact clamp_segs_le _ _ _ _ hq h

theorem send_to_lower_mono (env : Env) (cb : tL2C_CB) (i : Nat) (b : BT_HDR)
    (hpre : ∀ p, cb.lcb_pool[i]? = some p →
      p.link_xmit_quota = 0 ∨ p.sent_not_acked < p.link_xmit_quota) :
    pool_mono cb.lcb_pool (l2c_link_send_to_lower env cb i b).lcb_pool := by
  cases hp : cb.lcb_pool[i]? with
  | none =>
    unfold l2c_link_send_to_lower
    rw [hp]
    exact pool_mono_refl _
  | some p =>
    rw [send_to_lower_eq env cb i p b hp]
    apply pool_mono_set _ _ _ _ hp
    refine ⟨rfl, ?_⟩
    intro h0 h16 hle
    have hlt : p.sent_not_acked < p.link_xmit_quota := by
      rcases hpre p hp with h | h
      · exact absurd h h0
      · exact h
    have hk := send_segs_le env cb p b h0 hlt
    have hmod : u16_add p.sent_not_acked (send_segs env cb p b).1
        = p.sent_not_acked + (send_segs env cb p b).1 := by
      unfold u16_add
      exact Nat.mod_eq_of_lt (by omega)
    dsimp only
    rw [hmod]
    omega

theorem send_after_set_mono (env : Env) (cb : tL2C_CB) (i : Nat) (p p1 : tL2C_LCB)
    (b : BT_HDR) (hp : cb.lcb_pool[i]? = some p)
    (hq : p1.link_xmit_quota = p.link_xmit_quota) (hs : p1.sent_not_acked = p.sent_not_acked)
    (hpre : p.link_xmit_quota = 0 ∨ p.sent_not_acked < p.link_xmit_quota) :
    pool_mono cb.lcb_pool
      (l2c_link_send_to_lower env { cb with lcb_pool := cb.lcb_pool.set i p1 } i b).lcb_pool := by
  refine pool_mono_trans _ (cb.lcb_pool.set i p1) _
    (pool_mono_set _ _ _ _ hp (link_mono_of_eq p p1 hq hs)) ?_
  apply send_to_lower_mono env { cb with lcb_pool := cb.lcb_pool.set i p1 } i b
  intro q hq1
  have := getElem?_set_some _ _ _ _ hq1
  subst this
  rw [hq, hs]
  exact hpre

theorem rr_serve_mono (env : Env) (sw : Bool) (s : tRR_STATE) (i : Nat) (p : tL2C_LCB)
    (hp : s.cb.lcb_pool[i]? = some p) :
    pool_mono s.cb.lcb_pool (rr_serve env sw s i p).1.cb.lcb_pool := by
  unfold rr_serve
  split
  · exact pool_mono_refl _
  · rename_i hel
    simp only [Bool.or_eq_true, Bool.not_eq_true', decide_eq_true_eq, not_or,
      Bool.not_eq_true, ne_eq, not_not] at hel
    have hq0 : p.link_xmit_quota = 0 := hel.1.2
    split
    · rename_i b rest hqueue
      exact send_after_set_mono env s.cb i p _ b hp rfl rfl (Or.inl hq0)
    · split
      · exact pool_mono_refl _
      · dsimp only
        split
        · rename_i b hb
          dsimp only
          rw [fixed_tx_complete_pool]
          exact send_after_set_mono env s.cb i p _ b hp rfl rfl (Or.inl hq0)
        · exact pool_mono_set _ _ _ _ hp (link_mono_of_eq p _ rfl rfl)

theorem rr_body_mono (env : Env) (sw : Bool) (s : tRR_STATE) (r : tRR_STATE × Bool)
    (hr : rr_body env sw s = some r) : pool_mono s.cb.lcb_pool r.1.cb.lcb_pool := by
  unfold rr_body at hr
  split at hr
  · cases hr; exact pool_mono_refl _
  · split at hr
    · exact absurd hr (by simp)
    · rename_i p hp
      cases hr
      exact rr_serve_mono env sw s _ p hp

theorem rr_loop_mono (env : Env) (sw : Bool) (n : Nat) (s s1 : tRR_STATE)
    (hr : rr_loop env sw n s = some s1) : pool_mono s.cb.lcb_pool s1.cb.lcb_pool := by
  induction n generalizing s with
  | zero =>
    unfold rr_loop at hr
    cases hr; exact pool_mono_refl _
  | succ n ih =>
    unfold rr_loop at hr
    split at hr
    · exact absurd hr (by simp)
    · rename_i r hbody
      have h1 := rr_body_mono env sw s r hbody
      split at hr
      · cases hr; exact h1
      · have h2 := ih _ hr
        exact pool_mono_trans _ _ _ h1 h2

theorem drain_link_q_mono (env : Env) (i : Nat) (q : List BT_HDR) (cb : tL2C_CB) :
    pool_mono cb.lcb_pool (drain_link_q env i q cb).lcb_pool := by
  induction q generalizing cb with
  | nil => exact pool_mono_refl _
  | cons b rest ih =>
    unfold drain_link_q
    split
    · exact pool_mono_refl _
    · rename_i p hp
      split
      · rename_i hm
        refine pool_mono_trans _ _ _ ?_ (ih _)
        exact send_after_set_mono env _ i p _ b hp rfl rfl
          (Or.inr (private_may_send_lt env _ p hm))
      · exact pool_mono_refl _

theorem drain_channels_mono (env : Env) (i : Nat) (fuel : Nat) (cb cb1 : tL2C_CB) (c : Nat)
    (hr : drain_channels env i fuel cb c = some cb1) :
    pool_mono cb.lcb_pool cb1.lcb_pool := by
  induction fuel generalizing cb c with
  | zero => unfold drain_channels at hr; exact absurd hr (by simp)
  | succ f ih =>
    unfold drain_channels at hr
    split at hr
    · cases hr; exact pool_mono_refl _
    · rename_i p hp
      split at hr
      · rename_i hm
        dsimp only at hr
        split at hr
        · cases hr
          exact pool_mono_set _ _ _ _ hp (link_mono_of_eq p _ rfl rfl)
        · rename_i b hb
          have h2 := ih _ _ hr
          rw [fixed_tx_complete_pool] at h2
          refine pool_mono_trans _ _ _ ?_ h2
          exact send_after_set_mono env _ i p _ b hp rfl rfl
            (Or.inr (private_may_send_lt env _ p hm))
      · cases hr; exact pool_mono_refl _

theorem private_timer_mono (cb : tL2C_CB) (i : Nat) :
    pool_mono cb.lcb_pool (private_timer cb i).lcb_pool := by
  unfold private_timer
  split
  · exact pool_mono_refl _
  · rename_i p hp
    split
    · exact pool_mono_set _ _ _ _ hp (link_mono_of_eq p _ rfl rfl)
    · exact pool_mono_refl _

theorem enqueue_buf_mono (env : Env) (cb : tL2C_CB) (i : Nat) (p : tL2C_LCB)
    (c : Option tL2C_CCB) (b : BT_HDR) (hp : cb.lcb_pool[i]? = some p) :
    pool_mono cb.lcb_pool (enqueue_buf env cb i p c b).lcb_pool := by
  unfold enqueue_buf
  dsimp only
  split
  · split <;> exact pool_mono_set _ _ _ _ hp (link_mono_of_eq p _ rfl rfl)
  · exact pool_mono_set _ _ _ _ hp (link_mono_of_eq p _ rfl rfl)

theorem sched_round_robin_mono (env : Env) (sw : Bool) (cb cb1 : tL2C_CB) (start : Nat)
    (hr : sched_round_robin env sw cb start = some cb1) :
    pool_mono cb.lcb_pool cb1.lcb_pool := by
  unfold sched_round_robin at hr
  simp only [Option.map_eq_some'] at hr
  obtain ⟨s1, hs1, rfl⟩ := hr
  rw [rr_clear_flags_pool]
  exact rr_loop_mono env _ _ _ s1 hs1

theorem sched_private_mono (env : Env) (fuel : Nat) (sw : Bool) (cb cb1 : tL2C_CB)
    (i : Nat) (p : tL2C_LCB) (hr : sched_private env fuel sw cb i p = some cb1) :
    pool_mono cb.lcb_pool cb1.lcb_pool := by
  unfold sched_private at hr
  split at hr
  · cases hr; exact pool_mono_refl _
  · simp only [Option.map_eq_some'] at hr
    obtain ⟨c, hc, rfl⟩ := hr
    refine pool_mono_trans _ _ _ ?_ (private_timer_mono c i)
    have hd := drain_link_q_mono env i p.link_xmit_data_q cb
    split at hc
    · cases hc; exact hd
    · exact pool_mono_trans _ _ _ hd (drain_channels_mono env i fuel _ c 0 hc)

theorem sched_link_mono (env : Env) (fuel : Nat) (sw : Bool) (cb cb1 : tL2C_CB)
    (i q : Nat) (hr : sched_link env fuel sw cb i q = some cb1) :
    pool_mono cb.lcb_pool cb1.lcb_pool := by
  unfold sched_link at hr
  split at hr
  · cases hr; exact pool_mono_refl _
  · split at hr
    · exact sched_round_robin_mono env _ _ cb1 _ hr
    · split at hr
      · exact absurd hr (by simp)
      · rename_i p1 hp1
        exact sched_private_mono env fuel _ _ cb1 i p1 hr

/-- Under the scheduler the outstanding count of a private-quota link that is
within its quota only grows, and not above the quota. -/
theorem check_send_pkts_mono (env : Env) (fuel : Nat) (cb cb1 : tL2C_CB)
    (p_lcb : Option Nat) (p_ccb : Option tL2C_CCB) (p_buf : Option BT_HDR)
    (hr : l2c_link_check_send_pkts env fuel cb p_lcb p_ccb p_buf = some cb1) :
    pool_mono cb.lcb_pool cb1.lcb_pool := by
  unfold l2c_link_check_send_pkts at hr
  split at hr
  · exact absurd hr (by simp)
  · split at hr
    · cases hr; exact pool_mono_refl _
    · exact sched_round_robin_mono env _ cb cb1 0 hr
  · split at hr
    · exact absurd hr (by simp)
    · exact sched_link_mono env fuel _ _ cb1 _ _ hr
  · split at hr
    · exact absurd hr (by simp)
    · rename_i p hp
      exact pool_mono_trans _ _ _ (enqueue_buf_mono env cb _ p p_ccb _ hp)
        (sched_link_mono env fuel _ _ cb1 _ _ hr)

/-! ## Properties of the completion accountant and of the scheduler -/

theorem sna_le_refl (pool : List tL2C_LCB) : sna_le pool pool := by
  refine ⟨rfl, ?_⟩
  intro j p p1 h h1
  rw [h] at h1; cases h1; exact le_refl _

theorem sna_le_trans (a b c : List tL2C_LCB) (h1 : sna_le a b) (h2 : sna_le b c) :
    sna_le a c := by
  refine ⟨h2.1.trans h1.1, ?_⟩
  intro j p r hp hr
  have hjb : j < b.length := by rw [h1.1]; exact (List.getElem?_eq_some.mp hp).1
  have hq : b[j]? = some b[j] := List.getElem?_eq_getElem hjb
  exact (h2.2 j _ r hq hr).trans (h1.2 j p _ hp hq)

theorem nocp_account_sna_le (env : Env) (cb : tL2C_CB) (i : Nat) (p : tL2C_LCB) (n : Nat)
    (hp : cb.lcb_pool[i]? = some p) :
    sna_le cb.lcb_pool (nocp_account env cb i p n).lcb_pool ∧
    (nocp_account env cb i p n).round_robin_unacked ≤ cb.round_robin_unacked ∧
    (nocp_account env cb i p n).ble_round_robin_unacked ≤ cb.ble_round_robin_unacked := by
  unfold nocp_account
  dsimp only
  refine ⟨⟨List.length_set _ _ _, ?_⟩, ?_, ?_⟩
  · intro j q q1 hq hq1
    rw [List.getElem?_set] at hq1
    by_cases hij : i = j
    · subst hij
      rw [hp] at hq
      cases hq
      simp only [if_true] at hq1
      split at hq1
      · cases hq1; exact floor_sub_le _ _
      · exact absurd hq1 (by simp)
    · rw [if_neg hij, hq] at hq1
      cases hq1
      exact le_refl _
  · split <;> split <;> first | exact le_refl _ | exact floor_sub_le _ _
  · split <;> split <;> first | exact le_refl _ | exact floor_sub_le _ _

theorem nocp_account_all_le (env : Env) (es : List (Nat × Nat)) (cb : tL2C_CB) :
    sna_le cb.lcb_pool (nocp_account_all env cb es).lcb_pool ∧
    (nocp_account_all env cb es).round_robin_unacked ≤ cb.round_robin_unacked ∧
    (nocp_account_all env cb es).ble_round_robin_unacked ≤ cb.ble_round_robin_unacked := by
  induction es generalizing cb with
  | nil => exact ⟨sna_le_refl _, le_refl _, le_refl _⟩
  | cons e es ih =>
    unfold nocp_account_all
    split
    · exact ih cb
    · rename_i i hi
      split
      · exact ih cb
      · rename_i p hp
        obtain ⟨a1, a2, a3⟩ := nocp_account_sna_le env cb i p e.2 hp
        obtain ⟨b1, b2, b3⟩ := ih (nocp_account env cb i p e.2)
        exact ⟨sna_le_trans _ _ _ a1 b1, b2.trans a2, b3.trans a3⟩

/-- C8: for an acknowledgement entry `(handle, n)` addressed to the link `p` in
slot `i`, the accounting step sets `sent_not_acked` to `sent_not_acked - n`
when `sent_not_acked > n` and to 0 otherwise, and for a link with
`link_xmit_quota = 0` sets the round-robin unacked counter of the link's
transport (`round_robin_unacked`; `ble_round_robin_unacked` for an LE link) by
the same rule; both results are the integer `max (counter - n) 0`, so neither
counter wraps below zero, and over every sequence of reports the accounting
steps never raise a counter. -/
theorem nocp_account_never_negative (env : Env) (cb : tL2C_CB) (i : Nat) (p : tL2C_LCB)
    (n : Nat) (hp : cb.lcb_pool[i]? = some p) :
    (∃ p1, (nocp_account env cb i p n).lcb_pool[i]? = some p1 ∧
      p1.sent_not_acked = (if p.sent_not_acked > n then p.sent_not_acked - n else 0) ∧
      (p1.sent_not_acked : Int) = max ((p.sent_not_acked : Int) - (n : Int)) 0) ∧
    (p.link_xmit_quota = 0 → is_le env p = false →
      (nocp_account env cb i p n).round_robin_unacked
        = (if cb.round_robin_unacked > n then cb.round_robin_unacked - n else 0) ∧
      ((nocp_account env cb i p n).round_robin_unacked : Int)
        = max ((cb.round_robin_unacked : Int) - (n : Int)) 0) ∧
    (p.link_xmit_quota = 0 → is_le env p = true →
      (nocp_account env cb i p n).ble_round_robin_unacked
        = (if cb.ble_round_robin_unacked > n then cb.ble_round_robin_unacked - n else 0) ∧
      ((nocp_account env cb i p n).ble_round_robin_unacked : Int)
        = max ((cb.ble_round_robin_unacked : Int) - (n : Int)) 0) ∧
    (∀ es : List (Nat × Nat),
      sna_le cb.lcb_pool (nocp_account_all env cb es).lcb_pool ∧
      (nocp_account_all env cb es).round_robin_unacked ≤ cb.round_robin_unacked ∧
      (nocp_account_all env cb es).ble_round_robin_unacked ≤ cb.ble_round_robin_unacked) := by
  refine ⟨?_, ?_, ?_, fun es => nocp_account_all_le env es cb⟩
  · refine ⟨{ p with sent_not_acked := floor_sub p.sent_not_acked n }, ?_, rfl, ?_⟩
    · unfold nocp_account
      exact getElem?_set_same _ i _ _ hp
    · dsimp only
      rw [floor_sub_eq]
      omega
  · intro hq hle
    unfold nocp_account
    simp only [hq, hle, if_true, Bool.false_eq_true, if_false]
    refine ⟨rfl, ?_⟩
    rw [floor_sub_eq]
    omega
  · intro hq hle
    unfold nocp_account
    simp only [hq, hle, if_true]
    refine ⟨rfl, ?_⟩
    rw [floor_sub_eq]
    omega

/-- Witness of C8: a duplicated report of 3 for a round-robin link that has one
buffer outstanding. -/
theorem nocp_account_never_negative_witness :
    (∃ p1, (nocp_account env0 cb_two_links 0
        { in_use := true, link_state := .LST_CONNECTED, handle := 1, link_xmit_quota := 0,
          sent_not_acked := 1 } 3).lcb_pool[0]? = some p1 ∧
      p1.sent_not_acked = (if 1 > 3 then 1 - 3 else 0) ∧
      (p1.sent_not_acked : Int) = max ((1 : Int) - (3 : Int)) 0) ∧
    (nocp_account env0 cb_two_links 0
        { in_use := true, link_state := .LST_CONNECTED, handle := 1, link_xmit_quota := 0,
          sent_not_acked := 1 } 3).round_robin_unacked = 0 := by
  have h := nocp_account_never_negative env0 cb_two_links 0
    { in_use := true, link_state := .LST_CONNECTED, handle := 1, link_xmit_quota := 0,
      sent_not_acked := 1 } 3 (by decide)
  exact ⟨h.1, (h.2.1 rfl rfl).1⟩

theorem is_le_br_edr (env : Env) (p : tL2C_LCB) (h : p.transport = .BT_TRANSPORT_BR_EDR) :
    is_le env p = false := by
  unfold is_le; simp [h]

/-- The accounting step for a BR/EDR link with a private quota. -/
theorem nocp_account_private (env : Env) (cb : tL2C_CB) (i : Nat) (p : tL2C_LCB) (n : Nat)
    (htr : p.transport = .BT_TRANSPORT_BR_EDR) (hq : p.link_xmit_quota ≠ 0) :
    nocp_account env cb i p n =
      { cb with
        controller_xmit_window := u16_add cb.controller_xmit_window n,
        lcb_pool := cb.lcb_pool.set i
          { p with sent_not_acked := floor_sub p.sent_not_acked n } } := by
  unfold nocp_account
  simp [is_le_br_edr env p htr, hq]

/-- What follows the scheduler call for the acknowledged link in
`nocp_reschedule` is made of scheduler calls only. -/
theorem nocp_reschedule_first (env : Env) (fuel : Nat) (cb cb1 : tL2C_CB) (i : Nat)
    (hr : nocp_reschedule env fuel cb i = some cb1) :
    ∃ c1, l2c_link_check_send_pkts env fuel cb (some i) none none = some c1 ∧
      cb_step c1 cb1 ∧ pool_mono c1.lcb_pool cb1.lcb_pool := by
  unfold nocp_reschedule at hr
  split at hr
  · exact absurd hr (by simp)
  · rename_i c1 hc1
    refine ⟨c1, hc1, ?_⟩
    split at hr
    · exact absurd hr (by simp)
    · rename_i p hp
      dsimp only at hr
      split at hr
      · exact absurd hr (by simp)
      · rename_i c2 hc2
        have h2 : cb_step c1 c2 ∧ pool_mono c1.lcb_pool c2.lcb_pool := by
          split at hc2
          · exact ⟨check_send_pkts_step env fuel c1 c2 _ _ _ hc2,
              check_send_pkts_mono env fuel c1 c2 _ _ _ hc2⟩
          · cases hc2; exact ⟨cb_step_refl _, pool_mono_refl _⟩
        split at hr
        · exact absurd hr (by simp)
        · split at hr
          · exact ⟨cb_step_trans _ _ _ h2.1 (check_send_pkts_step env fuel c2 cb1 _ _ _ hr),
              pool_mono_trans _ _ _ h2.2 (check_send_pkts_mono env fuel c2 cb1 _ _ _ hr)⟩
          · cases hr; exact h2

/-- The scheduler call for a private-quota link that is connected, has no
partial segment in flight and is not held by the power-mode check, outside
congestion-callback context: the two drain loops and the timer check. -/
theorem check_send_pkts_private (env : Env) (fuel : Nat) (cb : tL2C_CB) (i : Nat)
    (p : tL2C_LCB) (hp : cb.lcb_pool[i]? = some p) (hq : p.link_xmit_quota ≠ 0)
    (hcong : cb.is_cong_cback_context = false)
    (hpart : p.partial_segment_being_sent = false)
    (hconn : p.link_state = .LST_CONNECTED)
    (hpm : L2C_LINK_CHECK_POWER_MODE env p = false) :
    l2c_link_check_send_pkts env fuel cb (some i) none none
      = (drain_channels env i fuel (drain_link_q env i p.link_xmit_data_q cb) 0).map
          (fun c => private_timer c i) := by
  unfold l2c_link_check_send_pkts
  simp only [hp]
  unfold sched_link
  simp only [hcong, hq, hp, Bool.false_eq_true, if_false]
  unfold sched_private
  simp [hpart, hconn, hpm]

/-- The first pass of the link-queue loop for a BR/EDR link whose front buffer
fits an ACL packet: the buffer is handed to the lower layer with
`layer_specific = 0`, the window loses one buffer and the link has one more
outstanding. -/
theorem drain_link_q_first (env : Env) (cb : tL2C_CB) (i : Nat) (p : tL2C_LCB) (b : BT_HDR)
    (rest : List BT_HDR) (hp : cb.lcb_pool[i]? = some p)
    (htr : p.transport = .BT_TRANSPORT_BR_EDR) (hfit : b.len ≤ env.acl_packet_size_classic)
    (hw : cb.controller_xmit_window ≠ 0) (hlt : p.sent_not_acked < p.link_xmit_quota) :
    ∃ cbs, drain_link_q env i (b :: rest) cb = drain_link_q env i rest cbs ∧
      cbs.lcb_pool[i]? = some
        { p with link_xmit_data_q := rest, sent_not_acked := u16_add p.sent_not_acked 1 } ∧
      cbs.hci_sent = cb.hci_sent ++ [⟨p.handle, { b with layer_specific := 0 }, false⟩] ∧
      cbs.controller_xmit_window = u16_sub cb.controller_xmit_window 1 := by
  have hle := is_le_br_edr env p htr
  have hm : private_may_send env cb p = true := by
    unfold private_may_send
    cases env.BLE_INCLUDED <;> simp [htr, hw, hlt]
  have hfits : fits_acl_packet env { p with link_xmit_data_q := rest } b = true := by
    unfold fits_acl_packet
    cases env.BLE_INCLUDED <;> simp [htr, hfit]
  have hle1 : is_le env { p with link_xmit_data_q := rest } = false :=
    is_le_br_edr env _ htr
  have hqne : p.link_xmit_quota ≠ 0 := by omega
  have hp1 := getElem?_set_same cb.lcb_pool i p { p with link_xmit_data_q := rest } hp
  refine ⟨l2c_link_send_to_lower env
    { cb with lcb_pool := cb.lcb_pool.set i { p with link_xmit_data_q := rest } } i b, ?_, ?_,
    ?_, ?_⟩
  · conv => lhs; unfold drain_link_q
    simp only [hp, hm, if_true]
  · rw [send_to_lower_eq env _ i _ b hp1]
    dsimp only
    rw [getElem?_set_same _ i _ _ hp1]
    unfold send_segs
    simp [hfits]
  · rw [send_to_lower_eq env _ i _ b hp1]
    simp [hfits, hle1]
  · rw [send_to_lower_eq env _ i _ b hp1]
    unfold send_segs
    simp [hfits, hle1]

theorem process_single (env : Env) (fuel : Nat) (cb : tL2C_CB) (e : Nat × Nat) :
    l2c_link_process_num_completed_pkts env fuel cb [e] = nocp_entry env fuel cb e := by
  unfold l2c_link_process_num_completed_pkts
  cases nocp_entry env fuel cb e with
  | none => rfl
  | some c => simp [l2c_link_process_num_completed_pkts]

/-- C9 (amended): for a connected BR/EDR link with `link_xmit_quota = 2` and
`sent_not_acked = 2` that has no partial segment in flight and is not held by
the power-mode check, outside congestion-callback context, an acknowledgement
report of 2 for its handle brings `sent_not_acked` to 0 and raises
`controller_xmit_window` by 2 (state `cba`) before the scheduler is re-invoked
for the link; if the front of the link queue then fits the ACL packet size, the
call returns and that frame is the first buffer it hands to the lower layer,
and the link ends the call with between 1 and 2 buffers outstanding. -/
theorem nocp_private_link_resumes (env : Env) (hmtk : env.MTK_COMMON = true)
    (hs : sizes_ok env) (fuel : Nat) (hfuel : U16 ≤ fuel) (cb : tL2C_CB)
    (hq : quotas_u16 cb.lcb_pool) (handle i : Nat) (p : tL2C_LCB) (b : BT_HDR)
    (rest : List BT_HDR)
    (hfind : l2cu_find_lcb_by_handle cb handle = some i) (hp : cb.lcb_pool[i]? = some p)
    (hconn : p.link_state = .LST_CONNECTED) (htr : p.transport = .BT_TRANSPORT_BR_EDR)
    (hquota : p.link_xmit_quota = 2) (hsna : p.sent_not_acked = 2)
    (hpart : p.partial_segment_being_sent = false)
    (hcong : cb.is_cong_cback_context = false)
    (hpm : L2C_LINK_CHECK_POWER_MODE env p = false)
    (hw : cb.controller_xmit_window + 2 < U16)
    (hqueue : p.link_xmit_data_q = b :: rest) (hfit : b.len ≤ env.acl_packet_size_classic) :
    ∃ cba cb1,
      cba.lcb_pool[i]? = some { p with sent_not_acked := 0 } ∧
      cba.controller_xmit_window = cb.controller_xmit_window + 2 ∧
      nocp_entry env fuel cb (handle, 2) = nocp_reschedule env fuel cba i ∧
      l2c_link_process_num_completed_pkts env fuel cb [(handle, 2)] = some cb1 ∧
      (∃ more, cb1.hci_sent
        = cb.hci_sent ++ ⟨p.handle, { b with layer_specific := 0 }, false⟩ :: more) ∧
      ∃ p1, cb1.lcb_pool[i]? = some p1 ∧ 1 ≤ p1.sent_not_acked ∧ p1.sent_not_acked ≤ 2 := by
  obtain ⟨cb1, hcb1⟩ := process_num_completed_pkts_returns env hmtk hs fuel hfuel
    [(handle, 2)] cb hq
  have hentry : nocp_entry env fuel cb (handle, 2)
      = nocp_reschedule env fuel (nocp_account env
          (if p.p_nocp_cb = true then
            { cb with nocp_calls := cb.nocp_calls ++ [p.remote_bd_addr] } else cb) i p 2) i := by
    unfold nocp_entry
    simp only [hfind, hp]
  have h0 : (if p.p_nocp_cb = true then
        { cb with nocp_calls := cb.nocp_calls ++ [p.remote_bd_addr] } else cb).lcb_pool
        = cb.lcb_pool ∧
      (if p.p_nocp_cb = true then
        { cb with nocp_calls := cb.nocp_calls ++ [p.remote_bd_addr] } else cb).controller_xmit_window
        = cb.controller_xmit_window ∧
      (if p.p_nocp_cb = true then
        { cb with nocp_calls := cb.nocp_calls ++ [p.remote_bd_addr] } else cb).hci_sent
        = cb.hci_sent ∧
      (if p.p_nocp_cb = true then
        { cb with nocp_calls := cb.nocp_calls ++ [p.remote_bd_addr] } else cb).is_cong_cback_context
        = cb.is_cong_cback_context := by
    split <;> exact ⟨rfl, rfl, rfl, rfl⟩
  generalize (if p.p_nocp_cb = true then
      { cb with nocp_calls := cb.nocp_calls ++ [p.remote_bd_addr] } else cb) = cb0 at hentry h0
  obtain ⟨h0p, h0w, h0s, h0c⟩ := h0
  have hp0 : cb0.lcb_pool[i]? = some p := by rw [h0p]; exact hp
  have hacc := nocp_account_private env cb0 i p 2 htr (by omega)
  have hfs : floor_sub p.sent_not_acked 2 = 0 := by rw [hsna]; rfl
  rw [hfs] at hacc
  have hwin : u16_add cb0.controller_xmit_window 2 = cb.controller_xmit_window + 2 := by
    unfold u16_add
    rw [h0w]
    exact Nat.mod_eq_of_lt hw
  generalize nocp_account env cb0 i p 2 = cba at hentry hacc
  have hpa : cba.lcb_pool[i]? = some { p with sent_not_acked := 0 } := by
    rw [hacc]; exact getElem?_set_same _ i _ _ hp0
  have hwa : cba.controller_xmit_window = cb.controller_xmit_window + 2 := by
    rw [hacc]; exact hwin
  have hsa : cba.hci_sent = cb.hci_sent := by rw [hacc]; exact h0s
  have hca : cba.is_cong_cback_context = false := by rw [hacc]; exact h0c.trans hcong
  refine ⟨cba, cb1, hpa, hwa, hentry, hcb1, ?_⟩
  rw [process_single, hentry] at hcb1
  obtain ⟨c1, hc1, hst1, hmono1⟩ := nocp_reschedule_first env fuel cba cb1 i hcb1
  rw [check_send_pkts_private env fuel cba i _ hpa (by dsimp only; omega) hca hpart hconn hpm]
    at hc1
  simp only [Option.map_eq_some'] at hc1
  obtain ⟨dc, hdc, rfl⟩ := hc1
  have hq1 : ({ p with sent_not_acked := 0 } : tL2C_LCB).link_xmit_data_q = b :: rest := hqueue
  rw [hq1] at hdc
  obtain ⟨cbs, hcbs, hps, hss, _⟩ := drain_link_q_first env cba i _ b rest hpa htr hfit
    (by omega) (by dsimp only; omega)
  rw [hcbs] at hdc
  have hstq := drain_link_q_step env i rest cbs
  have hmq := drain_link_q_mono env i rest cbs
  have hstc := drain_channels_step env i fuel _ dc 0 hdc
  have hmc := drain_channels_mono env i fuel _ dc 0 hdc
  have hstt := private_timer_step dc i
  have hmt := private_timer_mono dc i
  have hst : cb_step cbs cb1 :=
    cb_step_trans _ _ _ (cb_step_trans _ _ _ (cb_step_trans _ _ _ hstq hstc) hstt) hst1
  have hmono : pool_mono cbs.lcb_pool cb1.lcb_pool :=
    pool_mono_trans _ _ _ (pool_mono_trans _ _ _ (pool_mono_trans _ _ _ hmq hmc) hmt) hmono1
  constructor
  · obtain ⟨more, hmore⟩ := hst.2.1
    refine ⟨more, ?_⟩
    rw [hmore, hss, hsa, List.append_assoc]
    rfl
  · obtain ⟨p1, hp1, _⟩ := cb_step_slot cbs cb1 hst i _ hps
    have hm := hmono.2 i _ p1 hps hp1
    have hb := hm.2 (by dsimp only; omega) (by dsimp only; unfold U16; omega)
      (by dsimp only; unfold u16_add U16; omega)
    refine ⟨p1, hp1, ?_, ?_⟩
    · have := hb.1
      dsimp only at this
      unfold u16_add U16 at this
      omega
    · have := hb.2
      dsimp only at this
      omega

theorem sizes_ok_env0 : sizes_ok env0 :=
  ⟨by decide, by decide, by decide, by decide, fun p c b h => by simp [env0] at h⟩

/-- C9, counterexample: the link is connected, BR/EDR, has quota 2 and two
buffers outstanding, and a 100-byte frame that fits the ACL packet size is on
its queue; `partial_segment_being_sent` is set.  The report of 2 for its handle
brings `sent_not_acked` to 0 and the window to 2, but the scheduler returns at
the guard of line 1288: nothing is handed to the lower layer, the frame stays
queued and `sent_not_acked` stays 0. -/
theorem nocp_partial_segment_blocks :
    l2cu_find_lcb_by_handle cb_quota2_partial 7 = some 0 ∧
    cb_quota2_partial.lcb_pool.map
        (fun p => (p.in_use, p.link_state, p.transport, p.link_xmit_quota, p.sent_not_acked,
          p.link_xmit_data_q.map (fun b => decide (b.len ≤ env0.acl_packet_size_classic))))
      = [(true, .LST_CONNECTED, .BT_TRANSPORT_BR_EDR, 2, 2, [true])] ∧
    (l2c_link_process_num_completed_pkts env0 65536 cb_quota2_partial [(7, 2)]).map
        (fun c => (c.hci_sent, c.controller_xmit_window,
          c.lcb_pool.map (fun p => (p.sent_not_acked, p.link_xmit_data_q.length))))
      = some ([], 2, [(0, 1)]) := by
  refine ⟨by decide, rfl, by decide⟩

/-- Witness of C9 (amended) on the link with quota 2, two buffers outstanding
and one queued frame of 100 bytes; there the frame is the only buffer sent and
the link ends with one buffer outstanding. -/
theorem nocp_private_link_resumes_witness :
    (∃ cba cb1,
      cba.lcb_pool[0]? = some
        { in_use := true, link_state := .LST_CONNECTED, handle := 7, link_xmit_quota := 2,
          sent_not_acked := 0, link_xmit_data_q := [ { len := 100, data := 1 } ] } ∧
      cba.controller_xmit_window = cb_quota2.controller_xmit_window + 2 ∧
      nocp_entry env0 65536 cb_quota2 (7, 2) = nocp_reschedule env0 65536 cba 0 ∧
      l2c_link_process_num_completed_pkts env0 65536 cb_quota2 [(7, 2)] = some cb1 ∧
      (∃ more, cb1.hci_sent
        = cb_quota2.hci_sent ++ ⟨7, { len := 100, data := 1, layer_specific := 0 }, false⟩
          :: more) ∧
      ∃ p1, cb1.lcb_pool[0]? = some p1 ∧ 1 ≤ p1.sent_not_acked ∧ p1.sent_not_acked ≤ 2) ∧
    (l2c_link_process_num_completed_pkts env0 65536 cb_quota2 [(7, 2)]).map
        (fun c => (c.hci_sent, c.controller_xmit_window,
          c.lcb_pool.map (fun p => (p.sent_not_acked, p.link_xmit_data_q.length))))
      = some ([⟨7, { len := 100, data := 1 }, false⟩], 1, [(1, 0)]) :=
  ⟨nocp_private_link_resumes env0 rfl sizes_ok_env0 65536 (by decide) cb_quota2 (by decide) 7 0
    { in_use := true, link_state := .LST_CONNECTED, handle := 7, link_xmit_quota := 2,
      sent_not_acked := 2, link_xmit_data_q := [ { len := 100, data := 1 } ] }
    { len := 100, data := 1 } [] (by decide) (by decide) rfl rfl rfl rfl rfl rfl (by decide)
    (by decide) rfl (by decide), by decide⟩

/-- C10 (amended): the bound `sent_not_acked <= link_xmit_quota` of the in-use
links with a private quota is preserved by egress scheduling
(`l2c_link_check_send_pkts`) and by acknowledgement processing
(`l2c_link_process_num_completed_pkts`): if it holds for all links before the
call it holds for all links after it, and with `2^16` units of fuel both calls
return.  Quota reallocation (`l2c_link_adjust_allocation`) leaves every
`sent_not_acked` as it is. -/
theorem quota_bound_preserved (env : Env) (fuel : Nat) (cb : tL2C_CB)
    (hinv : pool_ok cb.lcb_pool) :
    (∀ p_lcb p_ccb p_buf cb1,
      l2c_link_check_send_pkts env fuel cb p_lcb p_ccb p_buf = some cb1 →
        pool_ok cb1.lcb_pool) ∧
    (∀ es cb1, l2c_link_process_num_completed_pkts env fuel cb es = some cb1 →
        pool_ok cb1.lcb_pool) ∧
    (∀ HQ cb1, l2c_link_adjust_allocation HQ fuel cb = some cb1 →
        cb1.lcb_pool.map tL2C_LCB.sent_not_acked
          = cb.lcb_pool.map tL2C_LCB.sent_not_acked) ∧
    (env.MTK_COMMON = true → sizes_ok env → U16 ≤ fuel → quotas_u16 cb.lcb_pool →
      (∀ es, ∃ cb1, l2c_link_process_num_completed_pkts env fuel cb es = some cb1) ∧
      (∀ p_ccb, ∃ cb1, l2c_link_check_send_pkts env fuel cb none p_ccb none = some cb1) ∧
      (∀ i p_ccb p_buf, i < cb.lcb_pool.length →
        ∃ cb1, l2c_link_check_send_pkts env fuel cb (some i) p_ccb p_buf = some cb1)) := by
  refine ⟨?_, ?_, ?_, ?_⟩
  · intro p_lcb p_ccb p_buf cb1 h
    exact check_send_pkts_pool_ok env fuel cb cb1 p_lcb p_ccb p_buf h hinv
  · intro es cb1 h
    exact process_num_completed_pkts_pool_ok env fuel es cb cb1 h hinv
  · intro HQ cb1 h
    exact adjust_allocation_sna HQ fuel cb cb1 h
  · intro hmtk hs hfuel hq
    refine ⟨?_, ?_, ?_⟩
    · intro es
      exact process_num_completed_pkts_returns env hmtk hs fuel hfuel es cb hq
    · intro p_ccb
      exact check_send_pkts_returns env hmtk hs fuel hfuel cb hq none p_ccb none rfl
    · intro i p_ccb p_buf hi
      exact check_send_pkts_returns env hmtk hs fuel hfuel cb hq (some i) p_ccb p_buf hi

/-- C10, counterexample: a link owns all four buffers (quota 4) and has four
outstanding; a second link is created and the allocation recomputed.  The bound
holds before the call; after it both links have quota 2 and the first still has
four buffers outstanding. -/
theorem adjust_allocation_breaks_quota_bound :
    pool_ok cb_new_link.lcb_pool ∧
    (l2c_link_adjust_allocation 5 6 cb_new_link).map
        (fun c => (c.lcb_pool.map (fun p => (p.in_use, p.link_xmit_quota, p.sent_not_acked)),
          decide (pool_ok c.lcb_pool)))
      = some ([(true, 2, 4), (true, 2, 0)], false) := by
  refine ⟨by decide, by decide⟩

/-- Witness of C10 (amended) on the link with quota 2 and two buffers
outstanding. -/
theorem quota_bound_preserved_witness :
    (∀ p_lcb p_ccb p_buf cb1,
      l2c_link_check_send_pkts env0 65536 cb_quota2 p_lcb p_ccb p_buf = some cb1 →
        pool_ok cb1.lcb_pool) ∧
    (∀ es cb1, l2c_link_process_num_completed_pkts env0 65536 cb_quota2 es = some cb1 →
        pool_ok cb1.lcb_pool) ∧
    (∀ HQ cb1, l2c_link_adjust_allocation HQ 65536 cb_quota2 = some cb1 →
        cb1.lcb_pool.map tL2C_LCB.sent_not_acked
          = cb_quota2.lcb_pool.map tL2C_LCB.sent_not_acked) ∧
    (env0.MTK_COMMON = true → sizes_ok env0 → U16 ≤ 65536 → quotas_u16 cb_quota2.lcb_pool →
      (∀ es, ∃ cb1, l2c_link_process_num_completed_pkts env0 65536 cb_quota2 es = some cb1) ∧
      (∀ p_ccb, ∃ cb1,
        l2c_link_check_send_pkts env0 65536 cb_quota2 none p_ccb none = some cb1) ∧
      (∀ i p_ccb p_buf, i < cb_quota2.lcb_pool.length →
        ∃ cb1, l2c_link_check_send_pkts env0 65536 cb_quota2 (some i) p_ccb p_buf
          = some cb1)) :=
  quota_bound_preserved env0 65536 cb_quota2 (by decide)

/-! ## Properties of `l2c_link_send_to_lower` and of the scheduler -/

theorem ceil_div_spec (a b : Nat) (hb : 0 < b) :
    a ≤ ceil_div a b * b ∧ (0 < a → (ceil_div a b - 1) * b < a) := by
  unfold ceil_div
  constructor
  · have h1 := Nat.div_add_mod (a + b - 1) b
    have h2 := Nat.mod_lt (a + b - 1) hb
    rw [Nat.mul_comm] at h1
    generalize (a + b - 1) / b = k at h1 ⊢
    generalize (a + b - 1) % b = r at h1 h2
    omega
  · intro ha
    have e : a + b - 1 = (a - 1) + b := by omega
    rw [e, Nat.add_div_right _ hb]
    have h1 := Nat.div_mul_le_self (a - 1) b
    simp only [Nat.add_sub_cancel]
    omega

theorem ceil_div_le (a b : Nat) (hb : 0 < b) : ceil_div a b ≤ a := by
  unfold ceil_div
  rcases Nat.eq_zero_or_pos a with h | h
  · subst h
    rw [Nat.zero_add, Nat.div_eq_of_lt (by omega)]
  · have e : a + b - 1 = (a - 1) + b := by omega
    rw [e, Nat.add_div_right _ hb]
    have := Nat.div_le_self (a - 1) b
    omega

/-- With a non-zero ACL data size and a 16-bit length that holds the HCI
preamble, line 1428 computes the payload length divided by the ACL data size,
rounded up. -/
theorem num_segs_of_eq (env : Env) (len ads : Nat) (h1 : env.HCI_DATA_PREAMBLE_SIZE ≤ len)
    (h2 : 0 < ads) (h3 : len < U16) :
    num_segs_of env len ads = ceil_div (len - env.HCI_DATA_PREAMBLE_SIZE) ads := by
  have hle := ceil_div_le (len - env.HCI_DATA_PREAMBLE_SIZE) ads h2
  unfold num_segs_of
  have e : (len : Int) - (env.HCI_DATA_PREAMBLE_SIZE : Int) + (ads : Int) - 1
      = ((len - env.HCI_DATA_PREAMBLE_SIZE + ads - 1 : Nat) : Int) := by omega
  rw [e, ← Int.ofNat_tdiv]
  unfold ceil_div at hle ⊢
  generalize (len - env.HCI_DATA_PREAMBLE_SIZE + ads - 1) / ads = k at hle ⊢
  unfold to_u16
  unfold U16 at h3
  omega

/-- Lines 1431-1451 for a link with a private quota and room in it: the segment
count is cut to the window and to the room in the quota, and the flag is set
exactly when it was cut. -/
theorem clamp_segs_private (ns w q sna : Nat) (h : sna < q) (hq16 : q < U16) :
    clamp_segs ns w q sna
      = (min ns (min w (q - sna)), decide (min ns (min w (q - sna)) < ns)) := by
  have hu : to_u16 ((q : Int) - (sna : Int)) = q - sna := by
    unfold to_u16; unfold U16 at hq16; omega
  unfold clamp_segs
  rw [if_neg (by omega)]
  dsimp only
  by_cases h1 : ns > w
  · rw [if_pos h1]
    dsimp only
    split
    · rename_i hc
      rw [hu]
      have e : min ns (min w (q - sna)) = q - sna := by omega
      rw [e]
      simp only [Prod.mk.injEq, true_and]
      symm; rw [decide_eq_true_eq]; omega
    · rename_i hc
      have e : min ns (min w (q - sna)) = w := by omega
      rw [e]
      simp only [Prod.mk.injEq, true_and]
      symm; rw [decide_eq_true_eq]; omega
  · rw [if_neg h1]
    dsimp only
    split
    · rename_i hc
      rw [hu]
      have e : min ns (min w (q - sna)) = q - sna := by omega
      rw [e]
      simp only [Prod.mk.injEq, true_and]
      symm; rw [decide_eq_true_eq]; omega
    · rename_i hc
      have e : min ns (min w (q - sna)) = ns := by omega
      rw [e]
      simp only [Prod.mk.injEq, true_and]
      symm; rw [decide_eq_false_iff_not]; omega

theorem u16_sub_le (w n : Nat) (h : n ≤ w) (hw : w < U16) : u16_sub w n = w - n := by
  unfold u16_sub U16 at *
  omega

theorem u16_add_lt (a n : Nat) (h : a + n < U16) : u16_add a n = a + n := by
  unfold u16_add
  exact Nat.mod_eq_of_lt h

/-- C14: when the buffer fits the ACL packet size of the link's transport
(first branch of `l2c_link_send_to_lower`), the buffer is handed to the lower
layer with `layer_specific = 0`, the controller window of the transport goes
down by exactly 1, `sent_not_acked` of the link goes up by 1, the round-robin
counter of the transport goes up by 1 exactly when `link_xmit_quota = 0`, and
nothing else of the link changes, `partial_segment_being_sent` included.  The
counters are 16-bit: the window is not 0 at the call, and the incremented
counters are below `2^16`. -/
theorem send_to_lower_small_frame (env : Env) (cb : tL2C_CB) (i : Nat) (p : tL2C_LCB)
    (b : BT_HDR) (hp : cb.lcb_pool[i]? = some p) (hfit : fits_acl_packet env p b = true)
    (hw : 0 < xmit_window_of env cb p) (hw16 : xmit_window_of env cb p < U16)
    (hsna : p.sent_not_acked + 1 < U16)
    (hrr : p.link_xmit_quota = 0 → rr_unacked_of env cb p + 1 < U16) :
    xmit_window_of env (l2c_link_send_to_lower env cb i b) p + 1 = xmit_window_of env cb p ∧
    (l2c_link_send_to_lower env cb i b).lcb_pool
      = cb.lcb_pool.set i { p with sent_not_acked := p.sent_not_acked + 1 } ∧
    rr_unacked_of env (l2c_link_send_to_lower env cb i b) p
      = (if p.link_xmit_quota = 0 then rr_unacked_of env cb p + 1 else rr_unacked_of env cb p) ∧
    (l2c_link_send_to_lower env cb i b).hci_sent
      = cb.hci_sent ++ [⟨p.handle, { b with layer_specific := 0 }, is_le env p⟩] := by
  have hs : send_segs env cb p b = (1, false) := by
    unfold send_segs; rw [if_pos hfit]
  rw [send_to_lower_eq env cb i p b hp, hs]
  unfold xmit_window_of rr_unacked_of at *
  by_cases hl : is_le env p = true
  · simp only [hl, if_true] at hw hw16 hrr ⊢
    refine ⟨?_, ?_, ?_, ?_⟩
    · rw [u16_sub_le _ _ hw hw16]; omega
    · rw [u16_add_lt _ _ hsna]; simp
    · by_cases hq : p.link_xmit_quota = 0
      · simp only [hq, true_and, if_true]
        exact u16_add_lt _ _ (hrr hq)
      · simp only [hq, false_and, if_false]
    · simp [hfit]
  · simp only [hl] at hw hw16 hrr ⊢
    simp only [Bool.false_eq_true, if_false] at hw hw16 hrr ⊢
    refine ⟨?_, ?_, ?_, ?_⟩
    · rw [u16_sub_le _ _ hw hw16]; omega
    · rw [u16_add_lt _ _ hsna]; simp
    · by_cases hq : p.link_xmit_quota = 0
      · simp only [hq, true_and, if_true]
        exact u16_add_lt _ _ (hrr hq)
      · simp only [hq, false_and, if_false]
    · simp [hfit]

/-- The segment count of `l2c_link_send_to_lower` for a frame that does not fit
one ACL packet, on a link with a private quota and room in it. -/
theorem send_segs_private_oversized (env : Env) (cb : tL2C_CB) (p : tL2C_LCB) (b : BT_HDR)
    (hnofit : fits_acl_packet env p b = false)
    (hq : p.sent_not_acked < p.link_xmit_quota) (hq16 : p.link_xmit_quota < U16)
    (hads : 0 < acl_data_size_of env p) (hpre : env.HCI_DATA_PREAMBLE_SIZE ≤ b.len)
    (hlen : b.len < U16) :
    send_segs env cb p b
      = (min (ceil_div (b.len - env.HCI_DATA_PREAMBLE_SIZE) (acl_data_size_of env p))
            (min (xmit_window_of env cb p) (p.link_xmit_quota - p.sent_not_acked)),
          decide (min (ceil_div (b.len - env.HCI_DATA_PREAMBLE_SIZE) (acl_data_size_of env p))
              (min (xmit_window_of env cb p) (p.link_xmit_quota - p.sent_not_acked))
            < ceil_div (b.len - env.HCI_DATA_PREAMBLE_SIZE) (acl_data_size_of env p))) := by
  unfold send_segs
  rw [hnofit]
  simp only [Bool.false_eq_true, if_false]
  unfold acl_data_size_of at hads
  rw [num_segs_of_eq env _ _ hpre hads hlen, clamp_segs_private _ _ _ _ hq hq16]
  rfl

/-- C12: for a link with room in its private quota
(`sent_not_acked < link_xmit_quota`) and a frame that does not fit one ACL
packet, `l2c_link_send_to_lower` releases
`num_segs = min (ceil ((len - HCI_DATA_PREAMBLE_SIZE) / acl_data_size), window,
link_xmit_quota - sent_not_acked)` segments in the one call: the controller
window of the transport goes down and `sent_not_acked` goes up by exactly
`num_segs`, the buffer is handed over with `layer_specific = num_segs`, the
round-robin counters stay, and `partial_segment_being_sent` is set exactly when
`num_segs` is smaller than the full count (a flag that was set stays set).
The quotient is the least `k` with `len - HCI_DATA_PREAMBLE_SIZE <= k *
acl_data_size`. -/
theorem send_to_lower_private_oversized (env : Env) (cb : tL2C_CB) (i : Nat) (p : tL2C_LCB)
    (b : BT_HDR) (hp : cb.lcb_pool[i]? = some p) (hnofit : fits_acl_packet env p b = false)
    (hq : p.sent_not_acked < p.link_xmit_quota) (hq16 : p.link_xmit_quota < U16)
    (hw16 : xmit_window_of env cb p < U16)
    (hads : 0 < acl_data_size_of env p) (hpre : env.HCI_DATA_PREAMBLE_SIZE < b.len)
    (hlen : b.len < U16) (full num_segs : Nat)
    (hfull : full = ceil_div (b.len - env.HCI_DATA_PREAMBLE_SIZE) (acl_data_size_of env p))
    (hnum : num_segs
      = min full (min (xmit_window_of env cb p) (p.link_xmit_quota - p.sent_not_acked))) :
    (b.len - env.HCI_DATA_PREAMBLE_SIZE ≤ full * acl_data_size_of env p ∧
      (full - 1) * acl_data_size_of env p < b.len - env.HCI_DATA_PREAMBLE_SIZE) ∧
    xmit_window_of env (l2c_link_send_to_lower env cb i b) p + num_segs
      = xmit_window_of env cb p ∧
    (l2c_link_send_to_lower env cb i b).lcb_pool
      = cb.lcb_pool.set i
          { p with
            sent_not_acked := p.sent_not_acked + num_segs,
            partial_segment_being_sent :=
              p.partial_segment_being_sent || decide (num_segs < full) } ∧
    (l2c_link_send_to_lower env cb i b).hci_sent
      = cb.hci_sent ++ [⟨p.handle, { b with layer_specific := num_segs }, is_le env p⟩] ∧
    (l2c_link_send_to_lower env cb i b).round_robin_unacked = cb.round_robin_unacked ∧
    (l2c_link_send_to_lower env cb i b).ble_round_robin_unacked
      = cb.ble_round_robin_unacked := by
  have hs := send_segs_private_oversized env cb p b hnofit hq hq16 hads (by omega) hlen
  rw [← hfull, ← hnum] at hs
  have hcd := ceil_div_spec (b.len - env.HCI_DATA_PREAMBLE_SIZE) (acl_data_size_of env p) hads
  rw [← hfull] at hcd
  refine ⟨⟨hcd.1, hcd.2 (by omega)⟩, ?_⟩
  have hq0 : p.link_xmit_quota ≠ 0 := by omega
  have hnw : num_segs ≤ xmit_window_of env cb p := by omega
  have hns : p.sent_not_acked + num_segs < U16 := by omega
  rw [send_to_lower_eq env cb i p b hp, hs]
  unfold xmit_window_of at *
  by_cases hl : is_le env p = true
  · simp only [hl, if_true] at hnw hw16 ⊢
    refine ⟨?_, ?_, ?_, ?_, ?_⟩
    · rw [u16_sub_le _ _ hnw hw16]; omega
    · rw [u16_add_lt _ _ hns]
    · simp [hnofit]
    · simp [hq0]
    · simp [hq0]
  · simp only [hl] at hnw hw16 ⊢
    simp only [Bool.false_eq_true, if_false] at hnw hw16 ⊢
    refine ⟨?_, ?_, ?_, ?_, ?_⟩
    · rw [u16_sub_le _ _ hnw hw16]; omega
    · rw [u16_add_lt _ _ hns]
    · simp [hnofit]
    · simp [hq0]
    · simp [hq0]

/-- The segment count of `l2c_link_send_to_lower` for a frame that does not fit
one ACL packet, on a round-robin link. -/
theorem send_segs_rr_oversized (env : Env) (cb : tL2C_CB) (p : tL2C_LCB) (b : BT_HDR)
    (hnofit : fits_acl_packet env p b = false) (hq : p.link_xmit_quota = 0) :
    send_segs env cb p b = (1, true) := by
  unfold send_segs clamp_segs
  rw [hnofit, hq]
  simp

/-- A send on a round-robin link that does not fit one ACL packet: one segment
is released and the flag is set. -/
theorem send_to_lower_rr_oversized_eq (env : Env) (cb : tL2C_CB) (i : Nat) (p : tL2C_LCB)
    (b : BT_HDR) (hp : cb.lcb_pool[i]? = some p) (hnofit : fits_acl_packet env p b = false)
    (hq : p.link_xmit_quota = 0)
    (hw : 0 < xmit_window_of env cb p) (hw16 : xmit_window_of env cb p < U16)
    (hsna : p.sent_not_acked + 1 < U16) (hrr : rr_unacked_of env cb p + 1 < U16) :
    xmit_window_of env (l2c_link_send_to_lower env cb i b) p + 1 = xmit_window_of env cb p ∧
    (l2c_link_send_to_lower env cb i b).lcb_pool
      = cb.lcb_pool.set i
          { p with sent_not_acked := p.sent_not_acked + 1,
                   partial_segment_being_sent := true } ∧
    rr_unacked_of env (l2c_link_send_to_lower env cb i b) p = rr_unacked_of env cb p + 1 ∧
    (l2c_link_send_to_lower env cb i b).hci_sent
      = cb.hci_sent ++ [⟨p.handle, { b with layer_specific := 1 }, is_le env p⟩] := by
  have hs := send_segs_rr_oversized env cb p b hnofit hq
  rw [send_to_lower_eq env cb i p b hp, hs]
  unfold xmit_window_of rr_unacked_of at *
  by_cases hl : is_le env p = true
  · simp only [hl, if_true] at hw hw16 hrr ⊢
    refine ⟨?_, ?_, ?_, ?_⟩
    · rw [u16_sub_le _ _ hw hw16]; omega
    · rw [u16_add_lt _ _ hsna]; simp
    · simp only [hq, true_and, if_true]
      exact u16_add_lt _ _ hrr
    · simp [hnofit]
  · simp only [hl] at hw hw16 hrr ⊢
    simp only [Bool.false_eq_true, if_false] at hw hw16 hrr ⊢
    refine ⟨?_, ?_, ?_, ?_⟩
    · rw [u16_sub_le _ _ hw hw16]; omega
    · rw [u16_add_lt _ _ hsna]; simp
    · simp only [hq, true_and, if_true]
      exact u16_add_lt _ _ hrr
    · simp [hnofit]

theorem send_to_lower_other (env : Env) (cb : tL2C_CB) (i j : Nat) (b : BT_HDR)
    (hj : j ≠ i) : (l2c_link_send_to_lower env cb i b).lcb_pool[j]? = cb.lcb_pool[j]? := by
  cases hp : cb.lcb_pool[i]? with
  | none =>
    unfold l2c_link_send_to_lower
    rw [hp]
  | some p =>
    rw [send_to_lower_eq env cb i p b hp]
    exact List.getElem?_set_ne (Ne.symm hj)

theorem send_after_set_other (env : Env) (cb : tL2C_CB) (i j : Nat) (p1 : tL2C_LCB)
    (b : BT_HDR) (hj : j ≠ i) :
    (l2c_link_send_to_lower env { cb with lcb_pool := cb.lcb_pool.set i p1 } i b).lcb_pool[j]?
      = cb.lcb_pool[j]? := by
  rw [send_to_lower_other env _ i j b hj]
  exact List.getElem?_set_ne (Ne.symm hj)

/-- The service of slot `i` by the round-robin loop leaves the other slots as
they are. -/
theorem rr_serve_other (env : Env) (sw : Bool) (s : tRR_STATE) (i j : Nat) (p : tL2C_LCB)
    (hj : j ≠ i) : (rr_serve env sw s i p).1.cb.lcb_pool[j]? = s.cb.lcb_pool[j]? := by
  unfold rr_serve
  split
  · rfl
  · split
    · exact send_after_set_other env s.cb i j _ _ hj
    · split
      · rfl
      · dsimp only
        split
        · dsimp only
          rw [fixed_tx_complete_pool]
          exact send_after_set_other env s.cb i j _ _ hj
        · exact List.getElem?_set_ne (Ne.symm hj)

/-- A link that the test of line 1230 passes over is not served. -/
theorem rr_serve_skip (env : Env) (sw : Bool) (s : tRR_STATE) (i : Nat) (p : tL2C_LCB)
    (h : rr_skip env p = true) : rr_serve env sw s i p = ({ s with p_lcb := i }, false) := by
  unfold rr_skip at h
  unfold rr_serve
  rw [if_pos h]

/-- One pass of the round-robin loop leaves a link that the test of line 1230
passes over as it is. -/
theorem rr_body_skipped (env : Env) (sw : Bool) (s : tRR_STATE) (r : tRR_STATE × Bool)
    (hr : rr_body env sw s = some r) (j : Nat) (p : tL2C_LCB)
    (hp : s.cb.lcb_pool[j]? = some p) (hskip : rr_skip env p = true) :
    r.1.cb.lcb_pool[j]? = some p := by
  unfold rr_body at hr
  split at hr
  · cases hr; exact hp
  · split at hr
    · exact absurd hr (by simp)
    · rename_i q hq
      cases hr
      by_cases hj : j = rr_wrap_aosp env s.cb (rr_wrap_mtk env s.cb s.p_lcb)
      · rw [← hj, hp] at hq
        cases hq
        rw [rr_serve_skip env sw s _ p hskip]
        exact hp
      · rw [rr_serve_other env sw s _ j q hj]
        exact hp

theorem rr_loop_skipped (env : Env) (sw : Bool) (n : Nat) (s s1 : tRR_STATE)
    (hr : rr_loop env sw n s = some s1) (j : Nat) (p : tL2C_LCB)
    (hp : s.cb.lcb_pool[j]? = some p) (hskip : rr_skip env p = true) :
    s1.cb.lcb_pool[j]? = some p := by
  induction n generalizing s with
  | zero =>
    unfold rr_loop at hr
    cases hr; exact hp
  | succ n ih =>
    unfold rr_loop at hr
    split at hr
    · exact absurd hr (by simp)
    · rename_i r hbody
      have h1 := rr_body_skipped env sw s r hbody j p hp hskip
      split at hr
      · cases hr; exact h1
      · exact ih _ hr h1

/-- The round-robin service leaves a link that the test of line 1230 passes
over as it is. -/
theorem sched_round_robin_skipped (env : Env) (sw : Bool) (cb cb1 : tL2C_CB) (start : Nat)
    (hr : sched_round_robin env sw cb start = some cb1) (j : Nat) (p : tL2C_LCB)
    (hp : cb.lcb_pool[j]? = some p) (hskip : rr_skip env p = true) :
    cb1.lcb_pool[j]? = some p := by
  unfold sched_round_robin at hr
  simp only [Option.map_eq_some'] at hr
  obtain ⟨s1, hs1, rfl⟩ := hr
  rw [rr_clear_flags_pool]
  exact rr_loop_skipped env sw _ _ s1 hs1 j p hp hskip

theorem drain_link_q_other (env : Env) (i j : Nat) (q : List BT_HDR) (cb : tL2C_CB)
    (hj : j ≠ i) : (drain_link_q env i q cb).lcb_pool[j]? = cb.lcb_pool[j]? := by
  induction q generalizing cb with
  | nil => rfl
  | cons b rest ih =>
    unfold drain_link_q
    split
    · rfl
    · split
      · rw [ih]
        exact send_after_set_other env cb i j _ _ hj
      · rfl

theorem drain_channels_other (env : Env) (i j : Nat) (fuel : Nat) (cb cb1 : tL2C_CB) (c : Nat)
    (hr : drain_channels env i fuel cb c = some cb1) (hj : j ≠ i) :
    cb1.lcb_pool[j]? = cb.lcb_pool[j]? := by
  induction fuel generalizing cb c with
  | zero => unfold drain_channels at hr; exact absurd hr (by simp)
  | succ f ih =>
    unfold drain_channels at hr
    split at hr
    · cases hr; rfl
    · split at hr
      · dsimp only at hr
        split at hr
        · cases hr
          exact List.getElem?_set_ne (Ne.symm hj)
        · rw [ih _ _ hr, fixed_tx_complete_pool]
          exact send_after_set_other env cb i j _ _ hj
      · cases hr; rfl

theorem private_timer_other (cb : tL2C_CB) (i j : Nat) (hj : j ≠ i) :
    (private_timer cb i).lcb_pool[j]? = cb.lcb_pool[j]? := by
  unfold private_timer
  split
  · rfl
  · split
    · exact List.getElem?_set_ne (Ne.symm hj)
    · rfl

/-- The private-quota service of slot `i` leaves the other slots as they are,
and leaves slot `i` as it is when the link has a partial segment in flight. -/
theorem sched_private_frozen (env : Env) (fuel : Nat) (sw : Bool) (cb cb1 : tL2C_CB)
    (i : Nat) (p : tL2C_LCB) (hr : sched_private env fuel sw cb i p = some cb1) (j : Nat)
    (hj : j ≠ i ∨ p.partial_segment_being_sent = true) :
    cb1.lcb_pool[j]? = cb.lcb_pool[j]? := by
  unfold sched_private at hr
  split at hr
  · cases hr; rfl
  · rename_i hguard
    rcases hj with hj | hj
    · simp only [Option.map_eq_some'] at hr
      obtain ⟨c, hc, rfl⟩ := hr
      rw [private_timer_other c i j hj]
      cases sw with
      | true =>
        simp only [if_true] at hc
        cases hc
        exact drain_link_q_other env i j _ cb hj
      | false =>
        simp only [Bool.false_eq_true, if_false] at hc
        rw [drain_channels_other env i j fuel _ c 0 hc hj]
        exact drain_link_q_other env i j _ cb hj
    · rw [hj] at hguard
      simp at hguard

theorem rr_skip_partial_set (env : Env) (p : tL2C_LCB) (h : p.partial_segment_being_sent = true) :
    rr_skip env p = true := by
  unfold rr_skip; simp [h]

/-- The services of `l2c_link_check_send_pkts` leave a link with a partial
segment in flight as it is. -/
theorem sched_link_partial_frozen (env : Env) (fuel : Nat) (sw : Bool) (cb cb1 : tL2C_CB)
    (i q : Nat) (hr : sched_link env fuel sw cb i q = some cb1) (j : Nat) (p : tL2C_LCB)
    (hp : cb.lcb_pool[j]? = some p) (hpart : p.partial_segment_being_sent = true) :
    cb1.lcb_pool[j]? = some p := by
  unfold sched_link at hr
  split at hr
  · cases hr; exact hp
  · split at hr
    · exact sched_round_robin_skipped env sw cb cb1 _ hr j p hp (rr_skip_partial_set env p hpart)
    · split at hr
      · exact absurd hr (by simp)
      · rename_i pi hpi
        rw [sched_private_frozen env fuel sw cb cb1 i pi hr j]
        · exact hp
        · by_cases hj : j = i
          · right
            rw [hj, hpi] at hp
            cases hp
            exact hpart
          · left; exact hj

theorem enqueue_buf_pool (env : Env) (cb : tL2C_CB) (i : Nat) (p : tL2C_LCB)
    (c : Option tL2C_CCB) (b : BT_HDR) :
    (enqueue_buf env cb i p c b).lcb_pool
      = cb.lcb_pool.set i
          { p with link_xmit_data_q := p.link_xmit_data_q ++ [tagged_buf c b] } := by
  unfold enqueue_buf tagged_buf
  dsimp only
  split
  · split <;> rfl
  · rfl

/-- No call of `l2c_link_check_send_pkts` sends from a link with a partial
segment in flight: the link is left as it is, but for a passed buffer that is
appended to its queue. -/
theorem check_send_pkts_partial_frozen (env : Env) (fuel : Nat) (cb cb1 : tL2C_CB)
    (p_lcb : Option Nat) (p_ccb : Option tL2C_CCB) (p_buf : Option BT_HDR)
    (hr : l2c_link_check_send_pkts env fuel cb p_lcb p_ccb p_buf = some cb1) (j : Nat)
    (p : tL2C_LCB) (hp : cb.lcb_pool[j]? = some p)
    (hpart : p.partial_segment_being_sent = true) :
    (p_buf = none → cb1.lcb_pool[j]? = some p) ∧
    ∃ q, cb1.lcb_pool[j]? = some { p with link_xmit_data_q := p.link_xmit_data_q ++ q } := by
  unfold l2c_link_check_send_pkts at hr
  split at hr
  · exact absurd hr (by simp)
  · have h : cb1.lcb_pool[j]? = some p := by
      split at hr
      · cases hr; exact hp
      · exact sched_round_robin_skipped env false cb cb1 _ hr j p hp
          (rr_skip_partial_set env p hpart)
    exact ⟨fun _ => h, [], by rw [h]; simp⟩
  · split at hr
    · exact absurd hr (by simp)
    · have h := sched_link_partial_frozen env fuel false cb cb1 _ _ hr j p hp hpart
      exact ⟨fun _ => h, [], by rw [h]; simp⟩
  · rename_i i b
    split at hr
    · exact absurd hr (by simp)
    · rename_i pi hpi
      refine ⟨fun h => absurd h (by simp), ?_⟩
      by_cases hj : j = i
      · rw [hj, hpi] at hp
        cases hp
        have hp1 := getElem?_set_same cb.lcb_pool i p
          { p with link_xmit_data_q := p.link_xmit_data_q ++ [tagged_buf p_ccb b] } hpi
        rw [← enqueue_buf_pool env cb i p p_ccb b] at hp1
        have h := sched_link_partial_frozen env fuel _ _ cb1 _ _ hr i _ hp1 hpart
        rw [hj]
        exact ⟨_, h⟩
      · have hp1 : (enqueue_buf env cb i pi p_ccb b).lcb_pool[j]? = some p := by
          rw [enqueue_buf_pool, List.getElem?_set_ne (Ne.symm hj)]
          exact hp
        have h := sched_link_partial_frozen env fuel _ _ cb1 _ _ hr j p hp1 hpart
        exact ⟨[], by rw [h]; simp⟩

/-- C13: for a round-robin link (`link_xmit_quota = 0`) and a frame that does
not fit one ACL packet, `l2c_link_send_to_lower` releases exactly one segment:
the controller window of the transport goes down by 1, `sent_not_acked` and the
round-robin counter of the transport go up by 1, the buffer is handed over with
`layer_specific = 1`, and `partial_segment_being_sent` is set.  While the flag
is set no call of `l2c_link_check_send_pkts` sends from the link (the link is
left as it is, but for a passed buffer appended to its queue), and
`l2c_link_segments_xmitted` for the handle of the connected link puts the
buffer back at the front of the queue, clears the flag and calls the scheduler
for the link.  The counters are 16-bit: the window is not 0 at the call, and
the incremented counters are below `2^16`. -/
theorem send_to_lower_round_robin_oversized (env : Env) (cb : tL2C_CB) (i : Nat)
    (p : tL2C_LCB) (b : BT_HDR) (hp : cb.lcb_pool[i]? = some p)
    (hnofit : fits_acl_packet env p b = false) (hq : p.link_xmit_quota = 0)
    (hw : 0 < xmit_window_of env cb p) (hw16 : xmit_window_of env cb p < U16)
    (hsna : p.sent_not_acked + 1 < U16) (hrr : rr_unacked_of env cb p + 1 < U16) :
    (xmit_window_of env (l2c_link_send_to_lower env cb i b) p + 1 = xmit_window_of env cb p ∧
      (l2c_link_send_to_lower env cb i b).lcb_pool
        = cb.lcb_pool.set i
            { p with sent_not_acked := p.sent_not_acked + 1,
                     partial_segment_being_sent := true } ∧
      rr_unacked_of env (l2c_link_send_to_lower env cb i b) p = rr_unacked_of env cb p + 1 ∧
      (l2c_link_send_to_lower env cb i b).hci_sent
        = cb.hci_sent ++ [⟨p.handle, { b with layer_specific := 1 }, is_le env p⟩]) ∧
    (∀ (fuel : Nat) (cb2 cb3 : tL2C_CB) (p2 : tL2C_LCB) (p_lcb : Option Nat)
        (p_ccb : Option tL2C_CCB) (p_buf : Option BT_HDR),
      cb2.lcb_pool[i]? = some p2 → p2.partial_segment_being_sent = true →
      l2c_link_check_send_pkts env fuel cb2 p_lcb p_ccb p_buf = some cb3 →
        (p_buf = none → cb3.lcb_pool[i]? = some p2) ∧
        ∃ q, cb3.lcb_pool[i]?
          = some { p2 with link_xmit_data_q := p2.link_xmit_data_q ++ q }) ∧
    (∀ (fuel : Nat) (cb2 : tL2C_CB) (p2 : tL2C_LCB) (handle : Nat) (p_msg : BT_HDR),
      l2cu_find_lcb_by_handle cb2 handle = some i → cb2.lcb_pool[i]? = some p2 →
      p2.link_state = .LST_CONNECTED →
        l2c_link_segments_xmitted env fuel cb2 handle p_msg
          = l2c_link_check_send_pkts env fuel
              { cb2 with
                lcb_pool := cb2.lcb_pool.set i
                  { p2 with link_xmit_data_q := p_msg :: p2.link_xmit_data_q,
                            partial_segment_being_sent := false } }
              (some i) none none) := by
  refine ⟨send_to_lower_rr_oversized_eq env cb i p b hp hnofit hq hw hw16 hsna hrr, ?_, ?_⟩
  · intro fuel cb2 cb3 p2 p_lcb p_ccb p_buf hp2 hpart hr
    exact check_send_pkts_partial_frozen env fuel cb2 cb3 p_lcb p_ccb p_buf hr i p2 hp2 hpart
  · intro fuel cb2 p2 handle p_msg hfind hp2 hconn
    unfold l2c_link_segments_xmitted
    simp only [hfind, hp2, hconn, if_true]

/-- Witness of C13 on a round-robin link of `env0` with a frame of 1026 bytes:
one segment is released, and the call of `l2c_link_segments_xmitted` with the
remainder of 5 bytes sends it whole. -/
theorem send_to_lower_round_robin_oversized_witness :
    (xmit_window_of env0 (l2c_link_send_to_lower env0 cb_rr_frame 0 { len := 1026 })
        { in_use := true, link_state := .LST_CONNECTED, handle := 5, link_xmit_quota := 0 } + 1
      = xmit_window_of env0 cb_rr_frame
        { in_use := true, link_state := .LST_CONNECTED, handle := 5, link_xmit_quota := 0 }) ∧
    ((l2c_link_send_to_lower env0 cb_rr_frame 0 { len := 1026 }).controller_xmit_window,
      (l2c_link_send_to_lower env0 cb_rr_frame 0 { len := 1026 }).round_robin_unacked,
      (l2c_link_send_to_lower env0 cb_rr_frame 0 { len := 1026 }).hci_sent,
      (l2c_link_send_to_lower env0 cb_rr_frame 0 { len := 1026 }).lcb_pool.map
        (fun p => (p.sent_not_acked, p.partial_segment_being_sent)))
      = (2, 1, [⟨5, { len := 1026, layer_specific := 1 }, false⟩], [(1, true)]) ∧
    (l2c_link_segments_xmitted env0 65536
        (l2c_link_send_to_lower env0 cb_rr_frame 0 { len := 1026 }) 5
        { len := 5, offset := 1021 }).map
      (fun c => (c.controller_xmit_window, c.hci_sent.map (fun s => s.buf.layer_specific),
        c.lcb_pool.map (fun p => (p.sent_not_acked, p.partial_segment_being_sent))))
      = some (1, [1, 0], [(2, false)]) :=
  ⟨(send_to_lower_round_robin_oversized env0 cb_rr_frame 0
      { in_use := true, link_state := .LST_CONNECTED, handle := 5, link_xmit_quota := 0 }
      { len := 1026 } rfl (by decide) rfl (by decide) (by decide) (by decide)
      (by decide)).1.1, by decide, by decide⟩

theorem ceil_div_eq_one (a b : Nat) (ha : 0 < a) (hab : a ≤ b) : ceil_div a b = 1 := by
  unfold ceil_div
  have e : a + b - 1 = (a - 1) + b := by omega
  rw [e, Nat.add_div_right _ (by omega), Nat.div_eq_of_lt (by omega)]

theorem ceil_div_sub (a b n : Nat) (hb : 0 < b) (h : n * b ≤ a) :
    ceil_div a b = n + ceil_div (a - n * b) b := by
  unfold ceil_div
  have e : a + b - 1 = (a - n * b + b - 1) + n * b := by omega
  rw [e, Nat.add_mul_div_right _ _ hb]
  omega

/-- For a link of one of the two transports, with ACL packet sizes that are the
ACL data sizes plus the HCI preamble, the first branch of
`l2c_link_send_to_lower` is taken exactly when the payload fits one segment. -/
theorem fits_acl_packet_iff (env : Env) (p : tL2C_LCB) (b : BT_HDR)
    (htr : p.transport = .BT_TRANSPORT_BR_EDR ∨ p.transport = .BT_TRANSPORT_LE)
    (hpk : env.acl_packet_size_classic = env.acl_data_size_classic + env.HCI_DATA_PREAMBLE_SIZE
      ∧ env.acl_packet_size_ble = env.acl_data_size_ble + env.HCI_DATA_PREAMBLE_SIZE) :
    fits_acl_packet env p b
      = decide (b.len ≤ acl_data_size_of env p + env.HCI_DATA_PREAMBLE_SIZE) := by
  unfold fits_acl_packet acl_data_size_of is_le
  rw [hpk.1, hpk.2]
  cases env.BLE_INCLUDED <;> rcases htr with h | h <;> simp [h]

/-- What one call of `l2c_link_send_to_lower` contributes to `frame_calls`. -/
theorem frame_calls_cons (env : Env) (i : Nat) (cb : tL2C_CB) (rest : List tL2C_CB)
    (b : BT_HDR) (p : tL2C_LCB) (hp : cb.lcb_pool[i]? = some p)
    (hpart : p.partial_segment_being_sent = false)
    (hw16 : xmit_window_of env cb p < U16)
    (hle : (send_segs env cb p b).1 ≤ xmit_window_of env cb p) :
    frame_calls env i (cb :: rest) b =
      if (send_segs env cb p b).2 then
        (((send_segs env cb p b).1,
            if fits_acl_packet env p b then 0 else (send_segs env cb p b).1)
          :: (frame_calls env i rest (remainder_buf (acl_data_size_of env p)
                (if fits_acl_packet env p b then 0 else (send_segs env cb p b).1) b)).1,
          (frame_calls env i rest (remainder_buf (acl_data_size_of env p)
                (if fits_acl_packet env p b then 0 else (send_segs env cb p b).1) b)).2)
      else
        ([((send_segs env cb p b).1,
            if fits_acl_packet env p b then 0 else (send_segs env cb p b).1)], true) := by
  have hdec : xmit_window_of env cb p
      - xmit_window_of env (l2c_link_send_to_lower env cb i b) p = (send_segs env cb p b).1 := by
    rw [send_to_lower_eq env cb i p b hp]
    unfold xmit_window_of at *
    by_cases hl : is_le env p = true
    · simp only [hl, if_true] at hle hw16 ⊢
      rw [u16_sub_le _ _ hle hw16]; omega
    · simp only [hl] at hle hw16 ⊢
      simp only [Bool.false_eq_true, if_false] at hle hw16 ⊢
      rw [u16_sub_le _ _ hle hw16]; omega
  have hslot : (l2c_link_send_to_lower env cb i b).lcb_pool[i]? = some
      { p with
        sent_not_acked := u16_add p.sent_not_acked (send_segs env cb p b).1,
        partial_segment_being_sent := (send_segs env cb p b).2 } := by
    rw [send_to_lower_eq env cb i p b hp]
    dsimp only
    rw [getElem?_set_same _ i _ _ hp, hpart]
    simp
  have hlast : (l2c_link_send_to_lower env cb i b).hci_sent.getLast? = some
      ⟨p.handle,
        { b with layer_specific :=
            if fits_acl_packet env p b then 0 else (send_segs env cb p b).1 },
        is_le env p⟩ := by
    rw [send_to_lower_eq env cb i p b hp]
    simp
  rw [frame_calls]
  simp only [hp, hslot, hlast, hdec]

theorem send_call_ok_spec (env : Env) (i : Nat) (t : tBT_TRANSPORT) (cb : tL2C_CB)
    (h : send_call_ok env i t cb = true) :
    ∃ p, cb.lcb_pool[i]? = some p ∧ p.transport = t ∧ p.partial_segment_being_sent = false ∧
      (p.link_xmit_quota = 0 ∨ p.sent_not_acked < p.link_xmit_quota) ∧
      p.link_xmit_quota < U16 ∧ 0 < xmit_window_of env cb p ∧ xmit_window_of env cb p < U16 := by
  unfold send_call_ok at h
  split at h
  · exact absurd h (by simp)
  · rename_i p hp
    simp only [Bool.and_eq_true, Bool.or_eq_true, decide_eq_true_eq, Bool.not_eq_true'] at h
    obtain ⟨⟨⟨⟨⟨h1, h2⟩, h3⟩, h4⟩, h5⟩, h6⟩ := h
    exact ⟨p, hp, h1, h2, h3, h4, h5, h6⟩

theorem ceil_div_pos (a b : Nat) (ha : 0 < a) (hb : 0 < b) : 0 < ceil_div a b := by
  have h := (ceil_div_spec a b hb).1
  rcases Nat.eq_zero_or_pos (ceil_div a b) with h0 | h0
  · rw [h0] at h; omega
  · exact h0

/-- C11 (amended): a frame with `S = len - HCI_DATA_PREAMBLE_SIZE > 0` bytes of
payload on a link whose transport has ACL data size `M > 0` and ACL packet size
`M + HCI_DATA_PREAMBLE_SIZE`, released by calls of `l2c_link_send_to_lower` that
the scheduler admits (`send_call_ok`), each later call being made with the
remainder that the lower layer hands back (`remainder_buf`).  Every call
releases at least one segment, so the frame is complete after at most
`ceil (S / M)` calls; when it is complete the decrements of the controller
window of the transport sum to exactly `ceil (S / M)`; and every call hands the
buffer over with `layer_specific` equal to its segment count, except that a call
whose buffer fits one ACL packet takes one buffer off the window and records
`layer_specific = 0`. -/
theorem frame_calls_total (env : Env) (i : Nat) (t : tBT_TRANSPORT)
    (ht : t = .BT_TRANSPORT_BR_EDR ∨ t = .BT_TRANSPORT_LE)
    (hpk : env.acl_packet_size_classic = env.acl_data_size_classic + env.HCI_DATA_PREAMBLE_SIZE
      ∧ env.acl_packet_size_ble = env.acl_data_size_ble + env.HCI_DATA_PREAMBLE_SIZE)
    (M : Nat)
    (hM : M = if env.BLE_INCLUDED = true ∧ t = .BT_TRANSPORT_LE then env.acl_data_size_ble
      else env.acl_data_size_classic)
    (hM0 : 0 < M) (calls : List tL2C_CB) (b : BT_HDR)
    (hpre : env.HCI_DATA_PREAMBLE_SIZE < b.len) (hlen : b.len < U16)
    (hcalls : ∀ cb ∈ calls, send_call_ok env i t cb = true) :
    (ceil_div (b.len - env.HCI_DATA_PREAMBLE_SIZE) M ≤ calls.length →
      (frame_calls env i calls b).2 = true) ∧
    ((frame_calls env i calls b).2 = true →
      ((frame_calls env i calls b).1.map Prod.fst).sum
        = ceil_div (b.len - env.HCI_DATA_PREAMBLE_SIZE) M) ∧
    (∀ c ∈ (frame_calls env i calls b).1, c.2 = c.1 ∨ (c.2 = 0 ∧ c.1 = 1)) := by
  induction calls generalizing b with
  | nil =>
    have hpos := ceil_div_pos (b.len - env.HCI_DATA_PREAMBLE_SIZE) M (by omega) hM0
    refine ⟨?_, ?_, ?_⟩
    · intro h; simp only [List.length_nil] at h; omega
    · intro h; simp [frame_calls] at h
    · intro c hc; simp [frame_calls] at hc
  | cons cb rest ih =>
    obtain ⟨p, hp, htr, hpart, hroom, hq16, hw, hw16⟩ :=
      send_call_ok_spec env i t cb (hcalls cb (List.mem_cons_self _ _))
    have hrest : ∀ c ∈ rest, send_call_ok env i t c = true :=
      fun c hc => hcalls c (List.mem_cons_of_mem _ hc)
    have hads : acl_data_size_of env p = M := by
      rw [hM]
      unfold acl_data_size_of is_le
      rw [htr]
      cases env.BLE_INCLUDED <;> rcases ht with h | h <;> simp [h]
    have hfits := fits_acl_packet_iff env p b (by rw [htr]; exact ht) hpk
    rw [hads] at hfits
    have hpos := ceil_div_pos (b.len - env.HCI_DATA_PREAMBLE_SIZE) M (by omega) hM0
    by_cases hf : b.len ≤ M + env.HCI_DATA_PREAMBLE_SIZE
    · -- the buffer fits one ACL packet
      have hfit : fits_acl_packet env p b = true := by rw [hfits]; exact decide_eq_true hf
      have hs : send_segs env cb p b = (1, false) := by
        unfold send_segs; rw [if_pos hfit]
      have hone := ceil_div_eq_one (b.len - env.HCI_DATA_PREAMBLE_SIZE) M (by omega) (by omega)
      rw [frame_calls_cons env i cb rest b p hp hpart hw16 (by rw [hs]; exact hw), hs, hfit, hone]
      simp
    · have hnofit : fits_acl_packet env p b = false := by
        rw [hfits]; exact decide_eq_false hf
      by_cases hq : p.link_xmit_quota = 0
      · -- a round-robin link: one segment
        have hs := send_segs_rr_oversized env cb p b hnofit hq
        have hsub := ceil_div_sub (b.len - env.HCI_DATA_PREAMBLE_SIZE) M 1 hM0 (by omega)
        have hb1 : (remainder_buf M 1 b).len = b.len - 1 * M := rfl
        obtain ⟨i1, i2, i3⟩ := ih (remainder_buf M 1 b) (by rw [hb1]; omega)
          (by rw [hb1]; omega) hrest
        have e : (remainder_buf M 1 b).len - env.HCI_DATA_PREAMBLE_SIZE
            = b.len - env.HCI_DATA_PREAMBLE_SIZE - 1 * M := by rw [hb1]; omega
        rw [e] at i1 i2
        rw [frame_calls_cons env i cb rest b p hp hpart hw16 (by rw [hs]; exact hw), hs,
          hnofit, hads]
        simp only [Bool.false_eq_true, if_false, if_true, List.length_cons, List.map_cons,
          List.sum_cons, List.mem_cons]
        refine ⟨?_, ?_, ?_⟩
        · intro h; exact i1 (by omega)
        · intro h; rw [i2 h]; omega
        · intro c hc
          rcases hc with hc | hc
          · left; rw [hc]
          · exact i3 c hc
      · -- a link with room in its private quota
        have hlt : p.sent_not_acked < p.link_xmit_quota := by
          rcases hroom with h | h
          · exact absurd h hq
          · exact h
        have hs := send_segs_private_oversized env cb p b hnofit hlt hq16
          (by rw [hads]; exact hM0) (by omega) hlen
        rw [hads] at hs
        have hspec := ceil_div_spec (b.len - env.HCI_DATA_PREAMBLE_SIZE) M hM0
        generalize hfull : ceil_div (b.len - env.HCI_DATA_PREAMBLE_SIZE) M = full
          at hs hspec hpos ⊢
        generalize hn : min full (min (xmit_window_of env cb p)
          (p.link_xmit_quota - p.sent_not_acked)) = n at hs
        have hnw : n ≤ xmit_window_of env cb p := by omega
        rw [frame_calls_cons env i cb rest b p hp hpart hw16 (by rw [hs]; exact hnw), hs,
          hnofit, hads]
        by_cases hcut : n < full
        · have hn1 : 1 ≤ n := by omega
          have hmul : n * M ≤ (full - 1) * M := Nat.mul_le_mul_right M (by omega)
          have hlt2 := hspec.2 (by omega)
          have hsub := ceil_div_sub (b.len - env.HCI_DATA_PREAMBLE_SIZE) M n hM0 (by omega)
          rw [hfull] at hsub
          have hb1 : (remainder_buf M n b).len = b.len - n * M := rfl
          obtain ⟨i1, i2, i3⟩ := ih (remainder_buf M n b) (by rw [hb1]; omega)
            (by rw [hb1]; omega) hrest
          have e : (remainder_buf M n b).len - env.HCI_DATA_PREAMBLE_SIZE
              = b.len - env.HCI_DATA_PREAMBLE_SIZE - n * M := by rw [hb1]; omega
          rw [e] at i1 i2
          simp only [hcut, decide_True, Bool.false_eq_true, if_false, if_true,
            List.length_cons, List.map_cons, List.sum_cons, List.mem_cons]
          refine ⟨?_, ?_, ?_⟩
          · intro h; exact i1 (by omega)
          · intro h; rw [i2 h]; omega
          · intro c hc
            rcases hc with hc | hc
            · left; rw [hc]
            · exact i3 c hc
        · have hnf : n = full := by omega
          simp only [hcut, decide_False, Bool.false_eq_true, if_false, List.map_cons,
            List.map_nil, List.sum_cons, List.sum_nil, List.mem_singleton]
          refine ⟨fun _ => trivial, fun _ => by omega, ?_⟩
          intro c hc
          left; rw [hc]

/-- C11, counterexample: a round-robin link of `env0` (ACL data size 1021, ACL
packet size 1025, preamble 4) sends a frame of 1026 bytes, that is 1022 bytes of
payload and `ceil (1022 / 1021) = 2` segments.  The scheduler call with the
frame releases one segment with `layer_specific = 1`;
`l2c_link_segments_xmitted` with the remainder of 5 bytes releases the second
one through the first branch of `l2c_link_send_to_lower`, which takes one buffer
off the window (3, 2, 1) and records `layer_specific = 0`, not the segment
count 1 of that call. -/
theorem last_segment_records_zero :
    ceil_div (1026 - env0.HCI_DATA_PREAMBLE_SIZE) env0.acl_data_size_classic = 2 ∧
    cb_rr_frame.controller_xmit_window = 3 ∧
    (l2c_link_check_send_pkts env0 65536 cb_rr_frame (some 0) none (some { len := 1026 })).map
      (fun c => (c.controller_xmit_window, c.hci_sent.map (fun s => s.buf.layer_specific),
        c.lcb_pool.map (fun p => (p.sent_not_acked, p.partial_segment_being_sent))))
      = some (2, [1], [(1, true)]) ∧
    ((l2c_link_check_send_pkts env0 65536 cb_rr_frame (some 0) none (some { len := 1026 })).bind
      (fun c => l2c_link_segments_xmitted env0 65536 c 5
        (remainder_buf env0.acl_data_size_classic 1 { len := 1026 }))).map
      (fun c => (c.controller_xmit_window, c.hci_sent.map (fun s => s.buf.layer_specific),
        c.lcb_pool.map (fun p => (p.sent_not_acked, p.partial_segment_being_sent))))
      = some (1, [1, 0], [(2, false)]) ∧
    frame_calls env0 0 [cb_rr_frame, cb_rr_frame] { len := 1026 } = ([(1, 1), (1, 0)], true) := by
  refine ⟨by decide, by decide, by decide, by decide, by decide⟩

/-- Witness of C11 (amended) on a private-quota link of `env0` with quota 3 and
a window of 2: a frame of 3067 bytes (three segments) is released as two
segments, and then the remainder of 1025 bytes as one. -/
theorem frame_calls_total_witness :
    ((ceil_div (3067 - env0.HCI_DATA_PREAMBLE_SIZE) 1021
        ≤ [cb_private_frame, cb_private_frame].length →
      (frame_calls env0 0 [cb_private_frame, cb_private_frame] { len := 3067 }).2 = true) ∧
    ((frame_calls env0 0 [cb_private_frame, cb_private_frame] { len := 3067 }).2 = true →
      ((frame_calls env0 0 [cb_private_frame, cb_private_frame] { len := 3067 }).1.map
          Prod.fst).sum
        = ceil_div (3067 - env0.HCI_DATA_PREAMBLE_SIZE) 1021) ∧
    (∀ c ∈ (frame_calls env0 0 [cb_private_frame, cb_private_frame] { len := 3067 }).1,
      c.2 = c.1 ∨ (c.2 = 0 ∧ c.1 = 1))) ∧
    frame_calls env0 0 [cb_private_frame, cb_private_frame] { len := 3067 }
      = ([(2, 2), (1, 0)], true) ∧
    ceil_div (3067 - env0.HCI_DATA_PREAMBLE_SIZE) 1021 = 3 :=
  ⟨frame_calls_total env0 0 .BT_TRANSPORT_BR_EDR (Or.inl rfl) ⟨rfl, rfl⟩ 1021 rfl (by decide)
    [cb_private_frame, cb_private_frame] { len := 3067 } (by decide) (by decide) (by decide),
    by decide, by decide⟩

/-- Witness of C14 on a round-robin link of `env0` with a frame of 100 bytes. -/
theorem send_to_lower_small_frame_witness :
    (xmit_window_of env0 (l2c_link_send_to_lower env0 cb_rr_frame 0 { len := 100 })
          { in_use := true, link_state := .LST_CONNECTED, handle := 5, link_xmit_quota := 0 } + 1
        = xmit_window_of env0 cb_rr_frame
          { in_use := true, link_state := .LST_CONNECTED, handle := 5, link_xmit_quota := 0 } ∧
      (l2c_link_send_to_lower env0 cb_rr_frame 0 { len := 100 }).lcb_pool
        = cb_rr_frame.lcb_pool.set 0
            { in_use := true, link_state := .LST_CONNECTED, handle := 5, link_xmit_quota := 0,
              sent_not_acked := 0 + 1 } ∧
      rr_unacked_of env0 (l2c_link_send_to_lower env0 cb_rr_frame 0 { len := 100 })
          { in_use := true, link_state := .LST_CONNECTED, handle := 5, link_xmit_quota := 0 }
        = (if (0 : Nat) = 0 then
            rr_unacked_of env0 cb_rr_frame
              { in_use := true, link_state := .LST_CONNECTED, handle := 5,
                link_xmit_quota := 0 } + 1
          else rr_unacked_of env0 cb_rr_frame
            { in_use := true, link_state := .LST_CONNECTED, handle := 5, link_xmit_quota := 0 }) ∧
      (l2c_link_send_to_lower env0 cb_rr_frame 0 { len := 100 }).hci_sent
        = cb_rr_frame.hci_sent ++ [⟨5, { len := 100, layer_specific := 0 }, false⟩]) ∧
    ((l2c_link_send_to_lower env0 cb_rr_frame 0 { len := 100 }).controller_xmit_window,
      (l2c_link_send_to_lower env0 cb_rr_frame 0 { len := 100 }).round_robin_unacked,
      (l2c_link_send_to_lower env0 cb_rr_frame 0 { len := 100 }).lcb_pool.map
        (fun p => (p.sent_not_acked, p.partial_segment_being_sent)))
      = (2, 1, [(1, false)]) :=
  ⟨send_to_lower_small_frame env0 cb_rr_frame 0
    { in_use := true, link_state := .LST_CONNECTED, handle := 5, link_xmit_quota := 0 }
    { len := 100 } rfl (by decide) (by decide) (by decide) (by decide) (by decide), by decide⟩

/-- Witness of C12 on a private-quota link of `env0` with quota 3 and a window
of 2, for a frame of 3067 bytes: two of its three segments are released. -/
theorem send_to_lower_private_oversized_witness :
    ((l2c_link_send_to_lower env0 cb_private_frame 0 { len := 3067 }).controller_xmit_window,
      (l2c_link_send_to_lower env0 cb_private_frame 0 { len := 3067 }).hci_sent,
      (l2c_link_send_to_lower env0 cb_private_frame 0 { len := 3067 }).lcb_pool.map
        (fun p => (p.sent_not_acked, p.partial_segment_being_sent)))
      = (0, [⟨6, { len := 3067, layer_specific := 2 }, false⟩], [(2, true)]) ∧
    xmit_window_of env0 (l2c_link_send_to_lower env0 cb_private_frame 0 { len := 3067 })
        { in_use := true, link_state := .LST_CONNECTED, handle := 6, link_xmit_quota := 3 } + 2
      = xmit_window_of env0 cb_private_frame
        { in_use := true, link_state := .LST_CONNECTED, handle := 6, link_xmit_quota := 3 } :=
  ⟨by decide,
    (send_to_lower_private_oversized env0 cb_private_frame 0
      { in_use := true, link_state := .LST_CONNECTED, handle := 6, link_xmit_quota := 3 }
      { len := 3067 } rfl (by decide) (by decide) (by decide) (by decide) (by decide)
      (by decide) (by decide) 3 2 (by decide) (by decide)).2.1⟩

theorem enqueue_buf_eq (env : Env) (cb : tL2C_CB) (i : Nat) (p : tL2C_LCB)
    (c : Option tL2C_CCB) (b : BT_HDR) :
    enqueue_buf env cb i p c b =
      { cb with
        lcb_pool := cb.lcb_pool.set i
          { p with link_xmit_data_q := p.link_xmit_data_q ++ [tagged_buf c b] },
        check_round_robin :=
          cb.check_round_robin || (decide (p.link_xmit_quota = 0) && !is_le env p),
        ble_check_round_robin :=
          cb.ble_check_round_robin || (decide (p.link_xmit_quota = 0) && is_le env p) } := by
  unfold enqueue_buf tagged_buf
  cases c <;> dsimp only <;>
    by_cases hq : p.link_xmit_quota = 0 <;> by_cases hl : is_le env p = true <;> simp [hq, hl]

/-- C16: in congestion-callback context (`l2cb.is_cong_cback_context` set)
`l2c_link_check_send_pkts` returns at line 1181.  Without a buffer the control
block is left as it is.  With a buffer for the link in slot `i`, the buffer is
appended to the tail of the link queue as `tagged_buf`, that is with `event` set
to the local CID of the channel (0 without a channel) and `layer_specific = 0`,
and for a quota-0 link
the round-robin check flag of the link's transport is set; everything else,
`hci_sent` (the buffers handed to the lower layer), both controller windows,
every `sent_not_acked` and both round-robin counters included, is left as it
is. -/
theorem check_send_pkts_cong_context (env : Env) (fuel : Nat) (cb : tL2C_CB)
    (hcong : cb.is_cong_cback_context = true) :
    (∀ p_ccb, l2c_link_check_send_pkts env fuel cb none p_ccb none = some cb) ∧
    (∀ (i : Nat) (p : tL2C_LCB) (p_ccb : Option tL2C_CCB), cb.lcb_pool[i]? = some p →
      l2c_link_check_send_pkts env fuel cb (some i) p_ccb none = some cb ∧
      ∀ b : BT_HDR, l2c_link_check_send_pkts env fuel cb (some i) p_ccb (some b) = some
        { cb with
          lcb_pool := cb.lcb_pool.set i
            { p with link_xmit_data_q := p.link_xmit_data_q ++
                [tagged_buf p_ccb b] },
          check_round_robin :=
            cb.check_round_robin || (decide (p.link_xmit_quota = 0) && !is_le env p),
          ble_check_round_robin :=
            cb.ble_check_round_robin || (decide (p.link_xmit_quota = 0) && is_le env p) }) := by
  refine ⟨?_, ?_⟩
  · intro p_ccb
    unfold l2c_link_check_send_pkts
    simp only [hcong, if_true]
  · intro i p p_ccb hp
    refine ⟨?_, ?_⟩
    · unfold l2c_link_check_send_pkts
      simp only [hp]
      unfold sched_link
      simp only [hcong, if_true]
    · intro b
      have he := enqueue_buf_eq env cb i p p_ccb b
      unfold l2c_link_check_send_pkts
      simp only [hp]
      unfold sched_link
      rw [he]
      simp only [hcong, if_true]

/-- Witness of C16: in congestion-callback context a frame passed for the
round-robin link of `cb_rr_cong` is queued, the check flag is set, and nothing
is sent. -/
theorem check_send_pkts_cong_context_witness :
    ((∀ p_ccb, l2c_link_check_send_pkts env0 65536 cb_rr_cong none p_ccb none
        = some cb_rr_cong) ∧
      (∀ (i : Nat) (p : tL2C_LCB) (p_ccb : Option tL2C_CCB), cb_rr_cong.lcb_pool[i]? = some p →
        l2c_link_check_send_pkts env0 65536 cb_rr_cong (some i) p_ccb none = some cb_rr_cong ∧
        ∀ b : BT_HDR,
          l2c_link_check_send_pkts env0 65536 cb_rr_cong (some i) p_ccb (some b) = some
            { cb_rr_cong with
              lcb_pool := cb_rr_cong.lcb_pool.set i
                { p with link_xmit_data_q := p.link_xmit_data_q ++
                    [tagged_buf p_ccb b] },
              check_round_robin :=
                cb_rr_cong.check_round_robin
                  || (decide (p.link_xmit_quota = 0) && !is_le env0 p),
              ble_check_round_robin :=
                cb_rr_cong.ble_check_round_robin
                  || (decide (p.link_xmit_quota = 0) && is_le env0 p) })) ∧
    (l2c_link_check_send_pkts env0 65536 cb_rr_cong (some 0) (some { local_cid := 64 })
        (some { len := 100, layer_specific := 9 })).map
      (fun c => (c.hci_sent, c.controller_xmit_window, c.round_robin_unacked,
        c.check_round_robin,
        c.lcb_pool.map (fun p => (p.sent_not_acked, p.link_xmit_data_q))))
      = some ([], 3, 0, true, [(0, [{ event := 64, len := 100, layer_specific := 0 }])]) :=
  ⟨check_send_pkts_cong_context env0 65536 cb_rr_cong rfl, rfl⟩

theorem enqueue_buf_cong (env : Env) (cb : tL2C_CB) (i : Nat) (p : tL2C_LCB)
    (c : Option tL2C_CCB) (b : BT_HDR) :
    (enqueue_buf env cb i p c b).is_cong_cback_context = cb.is_cong_cback_context ∧
    (enqueue_buf env cb i p c b).hci_sent = cb.hci_sent := by
  rw [enqueue_buf_eq]
  exact ⟨rfl, rfl⟩

theorem rr_skip_quota (env : Env) (p : tL2C_LCB) (h : rr_skip env p = false) :
    p.link_xmit_quota = 0 := by
  unfold rr_skip at h
  simp only [Bool.or_eq_false_iff, decide_eq_false_iff_not, not_not] at h
  exact h.1.2

theorem send_segs_rr (env : Env) (cb : tL2C_CB) (p : tL2C_LCB) (b : BT_HDR)
    (hq : p.link_xmit_quota = 0) : send_segs env cb p b = (1, !fits_acl_packet env p b) := by
  unfold send_segs clamp_segs
  rw [hq]
  cases fits_acl_packet env p b <;> simp

/-- Writing a quota-0 link back into its slot and sending on it: one buffer is
charged to the link, to the window of its transport and to the round-robin
counter of its transport. -/
theorem send_after_set_rr (env : Env) (cb : tL2C_CB) (i : Nat) (p p1 : tL2C_LCB) (b : BT_HDR)
    (hp : cb.lcb_pool[i]? = some p) (hq : p1.link_xmit_quota = 0) :
    (l2c_link_send_to_lower env { cb with lcb_pool := cb.lcb_pool.set i p1 } i b).lcb_pool[i]?
      = some { p1 with
          sent_not_acked := u16_add p1.sent_not_acked 1,
          partial_segment_being_sent :=
            p1.partial_segment_being_sent || !fits_acl_packet env p1 b } ∧
    (l2c_link_send_to_lower env { cb with lcb_pool := cb.lcb_pool.set i p1 } i b).hci_sent
      = cb.hci_sent ++
        [⟨p1.handle, { b with layer_specific := if fits_acl_packet env p1 b then 0 else 1 },
          is_le env p1⟩] ∧
    (l2c_link_send_to_lower env { cb with lcb_pool := cb.lcb_pool.set i p1 } i
        b).controller_xmit_window
      = (if is_le env p1 then cb.controller_xmit_window
        else u16_sub cb.controller_xmit_window 1) ∧
    (l2c_link_send_to_lower env { cb with lcb_pool := cb.lcb_pool.set i p1 } i
        b).round_robin_unacked
      = (if is_le env p1 then cb.round_robin_unacked else u16_add cb.round_robin_unacked 1) := by
  have hp1 : ({ cb with lcb_pool := cb.lcb_pool.set i p1 } : tL2C_CB).lcb_pool[i]? = some p1 :=
    getElem?_set_same _ i _ _ hp
  rw [send_to_lower_eq env _ i p1 b hp1, send_segs_rr env _ p1 b hq]
  refine ⟨getElem?_set_same _ i _ _ hp1, ?_, rfl, ?_⟩
  · cases fits_acl_packet env p1 b <;> rfl
  · cases is_le env p1 <;> simp [hq]

theorem fixed_tx_complete_fields (env : Env) (cb : tL2C_CB) (c : Nat) :
    (fixed_tx_complete env cb c).hci_sent = cb.hci_sent ∧
    (fixed_tx_complete env cb c).controller_xmit_window = cb.controller_xmit_window ∧
    (fixed_tx_complete env cb c).round_robin_unacked = cb.round_robin_unacked := by
  unfold fixed_tx_complete; split <;> exact ⟨rfl, rfl, rfl⟩

/-- The service of an eligible link by the round-robin loop, in terms of
`rr_slot_after` and `rr_sent`. -/
theorem rr_serve_eligible (env : Env) (sw : Bool) (s : tRR_STATE) (i : Nat) (p : tL2C_LCB)
    (hp : s.cb.lcb_pool[i]? = some p) (hskip : rr_skip env p = false) :
    (rr_serve env sw s i p).1.cb.lcb_pool[i]? = some (rr_slot_after env sw p s.fixd_cid) ∧
    (rr_serve env sw s i p).1.cb.hci_sent
      = s.cb.hci_sent ++ (rr_sent env sw p s.fixd_cid).toList := by
  have hq := rr_skip_quota env p hskip
  unfold rr_skip at hskip
  unfold rr_serve rr_slot_after rr_sent rr_pick
  rw [if_neg (by rw [hskip]; simp)]
  cases hqueue : p.link_xmit_data_q with
  | cons b rest =>
    dsimp only
    obtain ⟨h1, h2, _, _⟩ := send_after_set_rr env s.cb i p { p with link_xmit_data_q := rest } b
      hp hq
    exact ⟨h1, h2⟩
  | nil =>
    dsimp only
    cases sw with
    | true =>
      simp only [if_true, Option.map_none', Option.toList_none, List.append_nil]
      exact ⟨hp, trivial⟩
    | false =>
      simp only [Bool.false_eq_true, if_false]
      cases hr : (env.l2cu_get_next_buffer_to_send p s.fixd_cid).1 with
      | none =>
        simp only [Option.map_none', Option.toList_none, List.append_nil]
        exact ⟨getElem?_set_same _ i _ _ hp, trivial⟩
      | some b =>
        dsimp only
        obtain ⟨h1, h2, _, _⟩ := send_after_set_rr env s.cb i p
          { p with ccb_queue := (env.l2cu_get_next_buffer_to_send p s.fixd_cid).2.2 } b hp hq
        rw [fixed_tx_complete_pool, (fixed_tx_complete_fields env _ _).1]
        rw [hqueue] at h1 h2
        exact ⟨h1, h2⟩

/-- Compiled with `MTK_COMMON`, one pass of the round-robin loop wraps the
pointer to the slot `i2` of the pool, and either passes over the slot because
the window of its transport is used up, or runs `rr_serve` on it. -/
theorem rr_body_cases (env : Env) (hmtk : env.MTK_COMMON = true) (sw : Bool) (s : tRR_STATE)
    (hidx : s.p_lcb ≤ s.cb.lcb_pool.length) (hlen : 0 < s.cb.lcb_pool.length) :
    ∃ i2 p, i2 = (if s.p_lcb = s.cb.lcb_pool.length then 0 else s.p_lcb) ∧
      i2 < s.cb.lcb_pool.length ∧ s.cb.lcb_pool[i2]? = some p ∧
      rr_body env sw s =
        if rr_window_full env s.cb i2 then some ({ s with p_lcb := i2 }, !env.BLE_INCLUDED)
        else some (rr_serve env sw s i2 p) := by
  have h0 : rr_wrap_mtk env s.cb s.p_lcb
      = (if s.p_lcb = s.cb.lcb_pool.length then 0 else s.p_lcb) := by
    unfold rr_wrap_mtk
    simp [hmtk]
  have h1 : rr_wrap_mtk env s.cb s.p_lcb < s.cb.lcb_pool.length := by
    rw [h0]; split <;> omega
  have h2 : rr_wrap_aosp env s.cb (rr_wrap_mtk env s.cb s.p_lcb)
      = rr_wrap_mtk env s.cb s.p_lcb := by
    generalize rr_wrap_mtk env s.cb s.p_lcb = k
    unfold rr_wrap_aosp
    simp [hmtk]
  refine ⟨rr_wrap_mtk env s.cb s.p_lcb, s.cb.lcb_pool[rr_wrap_mtk env s.cb s.p_lcb], h0, h1,
    List.getElem?_eq_getElem h1, ?_⟩
  unfold rr_body
  rw [h2, List.getElem?_eq_getElem h1]

theorem rr_visits_step (m x n i2 j : Nat) (hx : x ≤ m) (hi : i2 = if x = m then 0 else x)
    (hn : n + 1 ≤ m) (h : rr_visits m (i2 + 1) n j) : rr_visits m x (n + 1) j ∧ j ≠ i2 := by
  unfold rr_visits at *
  split at hi <;> omega

theorem rr_visits_head (m x n i2 : Nat) (hx : x ≤ m) (hi : i2 = if x = m then 0 else x) :
    rr_visits m x (n + 1) i2 := by
  unfold rr_visits
  split at hi <;> omega

/-- Compiled with `MTK_COMMON`, at most `MAX_L2CAP_LINKS` passes of the
round-robin loop serve a list `vs` of distinct slots, each once: the links in
them are eligible and end as `rr_slot_after`, the other slots are left as they
are, and what is handed to the lower layer is `rr_sent` of the links served, in
the order of service. -/
theorem rr_loop_visits (env : Env) (hmtk : env.MTK_COMMON = true) (sw : Bool) (n : Nat)
    (s s1 : tRR_STATE) (hidx : s.p_lcb ≤ s.cb.lcb_pool.length)
    (hn : n ≤ s.cb.lcb_pool.length) (hr : rr_loop env sw n s = some s1) :
    ∃ vs : List (Nat × Nat), (vs.map Prod.fst).Nodup ∧
      (∀ v ∈ vs, rr_visits s.cb.lcb_pool.length s.p_lcb n v.1 ∧
        ∃ p, s.cb.lcb_pool[v.1]? = some p ∧ rr_skip env p = false ∧
          s1.cb.lcb_pool[v.1]? = some (rr_slot_after env sw p v.2)) ∧
      (∀ j, j ∉ vs.map Prod.fst → s1.cb.lcb_pool[j]? = s.cb.lcb_pool[j]?) ∧
      s1.cb.hci_sent = s.cb.hci_sent ++
        vs.filterMap (fun v => (s.cb.lcb_pool[v.1]?).bind (fun p => rr_sent env sw p v.2)) := by
  induction n generalizing s with
  | zero =>
    unfold rr_loop at hr
    cases hr
    exact ⟨[], List.nodup_nil, fun v hv => absurd hv (List.not_mem_nil v), fun j _ => rfl,
      by simp⟩
  | succ n ih =>
    obtain ⟨i2, p, hi2, hlt, hp, hbody⟩ := rr_body_cases env hmtk sw s hidx (by omega)
    unfold rr_loop at hr
    rw [hbody] at hr
    -- the passes that leave the control block as it is
    have hsame : ∀ s2 : tRR_STATE, s2.cb = s.cb → s2.p_lcb = i2 + 1 →
        rr_loop env sw n s2 = some s1 →
        ∃ vs : List (Nat × Nat), (vs.map Prod.fst).Nodup ∧
          (∀ v ∈ vs, rr_visits s.cb.lcb_pool.length s.p_lcb (n + 1) v.1 ∧
            ∃ p, s.cb.lcb_pool[v.1]? = some p ∧ rr_skip env p = false ∧
              s1.cb.lcb_pool[v.1]? = some (rr_slot_after env sw p v.2)) ∧
          (∀ j, j ∉ vs.map Prod.fst → s1.cb.lcb_pool[j]? = s.cb.lcb_pool[j]?) ∧
          s1.cb.hci_sent = s.cb.hci_sent ++
            vs.filterMap
              (fun v => (s.cb.lcb_pool[v.1]?).bind (fun p => rr_sent env sw p v.2)) := by
      intro s2 hcb hpl hr2
      obtain ⟨vs, h1, h2, h3, h4⟩ := ih s2 (by rw [hcb, hpl]; omega) (by rw [hcb]; omega) hr2
      rw [hcb, hpl] at h2
      rw [hcb] at h3 h4
      refine ⟨vs, h1, ?_, h3, h4⟩
      intro v hv
      obtain ⟨g1, g2⟩ := h2 v hv
      exact ⟨(rr_visits_step _ _ _ _ _ hidx hi2 hn g1).1, g2⟩
    by_cases hfull : rr_window_full env s.cb i2 = true
    · rw [if_pos hfull] at hr
      dsimp only at hr
      split at hr
      · cases hr
        exact ⟨[], List.nodup_nil, fun v hv => absurd hv (List.not_mem_nil v), fun j _ => rfl,
          by simp⟩
      · refine hsame _ ?_ ?_ hr <;> rfl
    · rw [if_neg hfull] at hr
      dsimp only at hr
      by_cases hskip : rr_skip env p = true
      · rw [rr_serve_skip env sw s i2 p hskip] at hr
        simp only [Bool.false_eq_true, if_false] at hr
        refine hsame _ ?_ ?_ hr <;> rfl
      · simp only [Bool.not_eq_true] at hskip
        obtain ⟨hsv1, hsv2⟩ := rr_serve_eligible env sw s i2 p hp hskip
        have hoth : ∀ j, j ≠ i2 →
            (rr_serve env sw s i2 p).1.cb.lcb_pool[j]? = s.cb.lcb_pool[j]? :=
          fun j hj => rr_serve_other env sw s i2 j p hj
        have hlen := (rr_serve_step env sw s i2 p hp).1.1
        have hpl := rr_serve_p_lcb env sw s i2 p
        generalize rr_serve env sw s i2 p = r at hr hsv1 hsv2 hoth hlen hpl
        have hhead : (s.cb.lcb_pool[i2]?).bind (fun p => rr_sent env sw p s.fixd_cid)
            = rr_sent env sw p s.fixd_cid := by rw [hp]; rfl
        split at hr
        · cases hr
          refine ⟨[(i2, s.fixd_cid)], by simp, ?_, ?_, ?_⟩
          · intro v hv
            simp only [List.mem_singleton] at hv
            subst hv
            exact ⟨rr_visits_head _ _ _ _ hidx hi2, p, hp, hskip, hsv1⟩
          · intro j hj
            simp only [List.map_cons, List.map_nil, List.mem_singleton] at hj
            exact hoth j hj
          · rw [hsv2]
            simp only [List.filterMap_cons, List.filterMap_nil, hhead]
            cases rr_sent env sw p s.fixd_cid <;> rfl
        · obtain ⟨vs, h1, h2, h3, h4⟩ := ih { r.1 with p_lcb := r.1.p_lcb + 1 }
            (by dsimp only; rw [hlen, hpl]; omega) (by dsimp only; rw [hlen]; omega) hr
          dsimp only at h2 h3 h4
          rw [hlen, hpl] at h2
          have hne : ∀ v ∈ vs, v.1 ≠ i2 := fun v hv =>
            (rr_visits_step _ _ _ _ _ hidx hi2 hn (h2 v hv).1).2
          have hnot : i2 ∉ vs.map Prod.fst := by
            intro hmem
            obtain ⟨v, hv, hv1⟩ := List.mem_map.mp hmem
            exact hne v hv hv1
          refine ⟨(i2, s.fixd_cid) :: vs, ?_, ?_, ?_, ?_⟩
          · simp only [List.map_cons, List.nodup_cons]
            exact ⟨hnot, h1⟩
          · intro v hv
            rcases List.mem_cons.mp hv with hv | hv
            · subst hv
              refine ⟨rr_visits_head _ _ _ _ hidx hi2, p, hp, hskip, ?_⟩
              rw [h3 i2 hnot]
              exact hsv1
            · obtain ⟨g1, q, g2, g3, g4⟩ := h2 v hv
              refine ⟨(rr_visits_step _ _ _ _ _ hidx hi2 hn g1).1, q, ?_, g3, g4⟩
              rw [← hoth v.1 (hne v hv)]
              exact g2
          · intro j hj
            simp only [List.map_cons, List.mem_cons, not_or] at hj
            rw [h3 j hj.2]
            exact hoth j hj.1
          · rw [h4, hsv2, List.append_assoc]
            congr 1
            simp only [List.filterMap_cons, hhead]
            have hcongr : vs.filterMap
                  (fun v => (r.1.cb.lcb_pool[v.1]?).bind (fun p => rr_sent env sw p v.2))
                = vs.filterMap
                  (fun v => (s.cb.lcb_pool[v.1]?).bind (fun p => rr_sent env sw p v.2)) := by
              apply List.filterMap_congr
              intro v hv
              rw [hoth v.1 (hne v hv)]
            rw [hcongr]
            cases rr_sent env sw p s.fixd_cid <;> rfl

theorem rr_skip_of (env : Env) (p : tL2C_LCB)
    (h : p.in_use = false ∨ p.link_state ≠ .LST_CONNECTED ∨
      p.partial_segment_being_sent = true ∨ L2C_LINK_CHECK_POWER_MODE env p = true ∨
      p.link_xmit_quota ≠ 0) : rr_skip env p = true := by
  unfold rr_skip
  rcases h with h | h | h | h | h <;> simp [h]

/-- C17: a round-robin pass of `l2c_link_check_send_pkts` (lines 1187-1284,
compiled with `MTK_COMMON`, started at a pointer into the pool).  A link that
is not in use, is not in state `LST_CONNECTED`, has
`partial_segment_being_sent` set, is held by the power-mode check or has a
non-zero quota is left as it is, its queue and `sent_not_acked` included.  The
pass serves a list `vs` of distinct slots, each once: the link `p` in such a
slot is eligible and ends as `rr_slot_after`, that is with at most one buffer
taken, from its link queue if that is not empty and otherwise from its next
ready channel (`rr_pick`); every other slot is left as it is; and the buffers
handed to the lower layer in the pass are exactly those, one for each link
served that had a buffer (`rr_sent`), in the order of service. -/
theorem round_robin_pass_slots (env : Env) (hmtk : env.MTK_COMMON = true) (sw : Bool)
    (cb cb1 : tL2C_CB) (start : Nat) (hstart : start ≤ cb.lcb_pool.length)
    (hr : sched_round_robin env sw cb start = some cb1) :
    (∀ (j : Nat) (p : tL2C_LCB), cb.lcb_pool[j]? = some p →
      (p.in_use = false ∨ p.link_state ≠ .LST_CONNECTED ∨
        p.partial_segment_being_sent = true ∨ L2C_LINK_CHECK_POWER_MODE env p = true ∨
        p.link_xmit_quota ≠ 0) →
      cb1.lcb_pool[j]? = some p) ∧
    ∃ vs : List (Nat × Nat), (vs.map Prod.fst).Nodup ∧
      (∀ v ∈ vs, ∃ p, cb.lcb_pool[v.1]? = some p ∧ rr_skip env p = false ∧
        cb1.lcb_pool[v.1]? = some (rr_slot_after env sw p v.2)) ∧
      (∀ j, j ∉ vs.map Prod.fst → cb1.lcb_pool[j]? = cb.lcb_pool[j]?) ∧
      cb1.hci_sent = cb.hci_sent ++
        vs.filterMap (fun v => (cb.lcb_pool[v.1]?).bind (fun p => rr_sent env sw p v.2)) := by
  refine ⟨?_, ?_⟩
  · intro j p hp h
    exact sched_round_robin_skipped env sw cb cb1 start hr j p hp (rr_skip_of env p h)
  · unfold sched_round_robin at hr
    simp only [Option.map_eq_some'] at hr
    obtain ⟨s1, hs1, rfl⟩ := hr
    obtain ⟨vs, h1, h2, h3, h4⟩ := rr_loop_visits env hmtk sw cb.lcb_pool.length
      { cb := cb, p_lcb := start, fixd_cid := 0 } s1 hstart (le_refl _) hs1
    have hsent : (rr_clear_flags env s1).hci_sent = s1.cb.hci_sent := by
      unfold rr_clear_flags
      dsimp only
      split <;> split <;> rfl
    refine ⟨vs, h1, ?_, ?_, ?_⟩
    · intro v hv
      obtain ⟨_, p, g1, g2, g3⟩ := h2 v hv
      exact ⟨p, g1, g2, by rw [rr_clear_flags_pool]; exact g3⟩
    · intro j hj
      rw [rr_clear_flags_pool]
      exact h3 j hj
    · rw [hsent]
      exact h4

/-- Witness of C17 on `cb_rr_three`: the pass sends the front frame of the
first and of the third link and leaves the second link, which is not connected,
as it is. -/
theorem round_robin_pass_slots_witness :
    ((∀ (j : Nat) (p : tL2C_LCB), cb_rr_three.lcb_pool[j]? = some p →
        (p.in_use = false ∨ p.link_state ≠ .LST_CONNECTED ∨
          p.partial_segment_being_sent = true ∨ L2C_LINK_CHECK_POWER_MODE env0 p = true ∨
          p.link_xmit_quota ≠ 0) →
        cb_rr_three_after.lcb_pool[j]? = some p) ∧
      ∃ vs : List (Nat × Nat), (vs.map Prod.fst).Nodup ∧
        (∀ v ∈ vs, ∃ p, cb_rr_three.lcb_pool[v.1]? = some p ∧ rr_skip env0 p = false ∧
          cb_rr_three_after.lcb_pool[v.1]? = some (rr_slot_after env0 false p v.2)) ∧
        (∀ j, j ∉ vs.map Prod.fst → cb_rr_three_after.lcb_pool[j]? = cb_rr_three.lcb_pool[j]?) ∧
        cb_rr_three_after.hci_sent = cb_rr_three.hci_sent ++
          vs.filterMap
            (fun v => (cb_rr_three.lcb_pool[v.1]?).bind (fun p => rr_sent env0 false p v.2))) ∧
    sched_round_robin env0 false cb_rr_three 0 = some cb_rr_three_after :=
  ⟨round_robin_pass_slots env0 rfl false cb_rr_three cb_rr_three_after 0 (by decide) rfl, rfl⟩

theorem rr_budget_refl (cb : tL2C_CB) : rr_budget_step cb cb :=
  ⟨0, rfl, rfl, rfl, Or.inl rfl, rfl⟩

theorem rr_budget_same (cb cb1 : tL2C_CB) (h1 : cb1.hci_sent = cb.hci_sent)
    (h2 : cb1.controller_xmit_window = cb.controller_xmit_window)
    (h3 : cb1.round_robin_unacked = cb.round_robin_unacked)
    (h4 : cb1.round_robin_quota = cb.round_robin_quota) : rr_budget_step cb cb1 := by
  refine ⟨0, ?_, ?_, ?_, Or.inl rfl, h4⟩
  · unfold classic_sent; rw [h1]; rfl
  · rw [h2]; rfl
  · rw [h3]; rfl

theorem rr_budget_trans (a b c : tL2C_CB) (h1 : rr_budget_step a b) (h2 : rr_budget_step b c) :
    rr_budget_step a c := by
  obtain ⟨k1, a1, a2, a3, a4, a5⟩ := h1
  obtain ⟨k2, b1, b2, b3, b4, b5⟩ := h2
  refine ⟨k1 + k2, by omega, by omega, by omega, ?_, by omega⟩
  rcases b4 with b4 | b4
  · rcases a4 with a4 | a4
    · left; omega
    · right; omega
  · right; omega

/-- A send on a quota-0 link written back into its slot uses the shared BR/EDR
budget as `rr_budget_step` says, when the window and the round-robin counter
have room for a link that is not an LE link. -/
theorem send_after_set_budget (env : Env) (cb : tL2C_CB) (i : Nat) (p p1 : tL2C_LCB)
    (b : BT_HDR) (hp : cb.lcb_pool[i]? = some p) (hq : p1.link_xmit_quota = 0)
    (hroom : is_le env p1 = false →
      0 < cb.controller_xmit_window ∧ cb.controller_xmit_window < U16 ∧
      cb.round_robin_unacked < cb.round_robin_quota ∧ cb.round_robin_quota < U16) :
    rr_budget_step cb
      (l2c_link_send_to_lower env { cb with lcb_pool := cb.lcb_pool.set i p1 } i b) := by
  obtain ⟨_, h2, h3, h4⟩ := send_after_set_rr env cb i p p1 b hp hq
  have h5 : (l2c_link_send_to_lower env { cb with lcb_pool := cb.lcb_pool.set i p1 } i
      b).round_robin_quota = cb.round_robin_quota :=
    (send_to_lower_step env _ i b).2.2.2.2.1
  generalize l2c_link_send_to_lower env { cb with lcb_pool := cb.lcb_pool.set i p1 } i b
    = cb2 at h2 h3 h4 h5 ⊢
  cases hl : is_le env p1 with
  | true =>
    rw [hl] at h2 h3 h4
    simp only [if_true] at h3 h4
    refine ⟨0, ?_, by omega, by omega, Or.inl rfl, h5⟩
    unfold classic_sent
    rw [h2]
    simp
  | false =>
    rw [hl] at h2 h3 h4
    simp only [Bool.false_eq_true, if_false] at h3 h4
    obtain ⟨r1, r2, r3, r4⟩ := hroom hl
    rw [u16_sub_le _ _ r1 r2] at h3
    rw [u16_add_lt _ _ (by omega)] at h4
    refine ⟨1, ?_, by omega, by omega, Or.inr (by omega), h5⟩
    unfold classic_sent
    rw [h2]
    simp

theorem rr_budget_fixed (env : Env) (cb c : tL2C_CB) (x : Nat) (h : rr_budget_step cb c) :
    rr_budget_step cb (fixed_tx_complete env c x) := by
  obtain ⟨f1, f2, f3⟩ := fixed_tx_complete_fields env c x
  have f4 := (fixed_tx_complete_step env c x).2.2.2.2.1
  exact rr_budget_trans _ _ _ h (rr_budget_same _ _ f1 f2 f3 f4)

/-- When the test of lines 1206-1216 lets the loop go on to a BR/EDR or LE link,
the budget of the link's transport has room. -/
theorem rr_window_room (env : Env) (cb : tL2C_CB) (i : Nat) (p : tL2C_LCB)
    (hp : cb.lcb_pool[i]? = some p)
    (htr : p.transport = .BT_TRANSPORT_BR_EDR ∨ p.transport = .BT_TRANSPORT_LE)
    (hnf : rr_window_full env cb i = false) (hl : is_le env p = false) :
    0 < cb.controller_xmit_window ∧ cb.round_robin_unacked < cb.round_robin_quota := by
  unfold rr_window_full transport_at at hnf
  rw [hp] at hnf
  unfold is_le at hl
  dsimp only at hnf
  cases hb : env.BLE_INCLUDED with
  | true =>
    rw [hb] at hnf hl
    simp only [Bool.true_and, decide_eq_false_iff_not] at hl
    have h1 : p.transport = .BT_TRANSPORT_BR_EDR := by
      rcases htr with h | h
      · exact h
      · exact absurd h hl
    simp [h1] at hnf
    omega
  | false =>
    rw [hb] at hnf
    simp at hnf
    omega

/-- The service of a slot by the round-robin loop uses the shared BR/EDR budget
as `rr_budget_step` says, when the link in the slot is a BR/EDR or an LE link
unless the loop passes over it. -/
theorem rr_serve_budget (env : Env) (sw : Bool) (s : tRR_STATE) (i : Nat) (p : tL2C_LCB)
    (hp : s.cb.lcb_pool[i]? = some p)
    (htr : rr_skip env p = false →
      p.transport = .BT_TRANSPORT_BR_EDR ∨ p.transport = .BT_TRANSPORT_LE)
    (hnf : rr_window_full env s.cb i = false)
    (hw16 : s.cb.controller_xmit_window < U16) (hq16 : s.cb.round_robin_quota < U16) :
    rr_budget_step s.cb (rr_serve env sw s i p).1.cb := by
  by_cases hskip : rr_skip env p = true
  · rw [rr_serve_skip env sw s i p hskip]
    exact rr_budget_refl _
  · simp only [Bool.not_eq_true] at hskip
    have hroom : is_le env p = false →
        0 < s.cb.controller_xmit_window ∧ s.cb.controller_xmit_window < U16 ∧
        s.cb.round_robin_unacked < s.cb.round_robin_quota ∧ s.cb.round_robin_quota < U16 := by
      intro hl
      obtain ⟨r1, r2⟩ := rr_window_room env s.cb i p hp (htr hskip) hnf hl
      exact ⟨r1, hw16, r2, hq16⟩
    have hq := rr_skip_quota env p hskip
    unfold rr_skip at hskip
    unfold rr_serve
    rw [if_neg (by rw [hskip]; simp)]
    split
    · exact send_after_set_budget env s.cb i p _ _ hp hq hroom
    · split
      · exact rr_budget_refl _
      · dsimp only
        split
        · dsimp only
          apply rr_budget_fixed
          exact send_after_set_budget env s.cb i p _ _ hp hq hroom
        · exact rr_budget_same _ _ rfl rfl rfl rfl

/-- The service of a slot keeps a property of the transport of the links that
the loop may serve: a link that is passed over is left as it is, and the
transport of a link that is served is not written. -/
theorem rr_serve_transports (env : Env) (sw : Bool) (s : tRR_STATE) (i : Nat) (q : tL2C_LCB)
    (P : tBT_TRANSPORT → Prop) (hq : s.cb.lcb_pool[i]? = some q)
    (h : ∀ p ∈ s.cb.lcb_pool, rr_skip env p = false → P p.transport) :
    ∀ p ∈ (rr_serve env sw s i q).1.cb.lcb_pool, rr_skip env p = false → P p.transport := by
  intro p1 hp1 hs1
  obtain ⟨j, hj⟩ := List.mem_iff_getElem?.mp hp1
  by_cases hji : j = i
  · subst hji
    by_cases hskip : rr_skip env q = true
    · rw [rr_serve_skip env sw s j q hskip] at hj
      exact h p1 (List.mem_iff_getElem?.mpr ⟨j, hj⟩) hs1
    · simp only [Bool.not_eq_true] at hskip
      have hl := (rr_serve_step env sw s j q hq).1.2 j q p1 hq hj
      rw [hl.2.1]
      exact h q (List.mem_iff_getElem?.mpr ⟨j, hq⟩) hskip
  · rw [rr_serve_other env sw s i j q hji] at hj
    exact h p1 (List.mem_iff_getElem?.mpr ⟨j, hj⟩) hs1

/-- The same for one pass through the body of the round-robin loop. -/
theorem rr_body_transports (env : Env) (hmtk : env.MTK_COMMON = true) (sw : Bool)
    (s : tRR_STATE) (r : tRR_STATE × Bool) (P : tBT_TRANSPORT → Prop)
    (hidx : s.p_lcb ≤ s.cb.lcb_pool.length) (hlen : 0 < s.cb.lcb_pool.length)
    (h : ∀ p ∈ s.cb.lcb_pool, rr_skip env p = false → P p.transport)
    (hr : rr_body env sw s = some r) :
    ∀ p ∈ r.1.cb.lcb_pool, rr_skip env p = false → P p.transport := by
  obtain ⟨i2, q, _, _, hq, hbody⟩ := rr_body_cases env hmtk sw s hidx hlen
  rw [hbody] at hr
  by_cases hfull : rr_window_full env s.cb i2 = true
  · rw [if_pos hfull] at hr
    cases hr
    exact h
  · rw [if_neg hfull] at hr
    cases hr
    exact rr_serve_transports env sw s i2 q P hq h

theorem rr_body_budget (env : Env) (hmtk : env.MTK_COMMON = true) (sw : Bool) (s : tRR_STATE)
    (r : tRR_STATE × Bool) (hidx : s.p_lcb ≤ s.cb.lcb_pool.length)
    (hlen : 0 < s.cb.lcb_pool.length) (hv : transports_valid env s.cb.lcb_pool)
    (hw16 : s.cb.controller_xmit_window < U16) (hq16 : s.cb.round_robin_quota < U16)
    (hr : rr_body env sw s = some r) : rr_budget_step s.cb r.1.cb := by
  obtain ⟨i2, p, _, _, hp, hbody⟩ := rr_body_cases env hmtk sw s hidx hlen
  rw [hbody] at hr
  by_cases hfull : rr_window_full env s.cb i2 = true
  · rw [if_pos hfull] at hr
    cases hr
    exact rr_budget_refl _
  · rw [if_neg hfull] at hr
    cases hr
    simp only [Bool.not_eq_true] at hfull
    exact rr_serve_budget env sw s i2 p hp (hv p (List.mem_iff_getElem?.mpr ⟨i2, hp⟩)) hfull
      hw16 hq16

theorem rr_loop_budget (env : Env) (hmtk : env.MTK_COMMON = true) (sw : Bool) (n : Nat)
    (s s1 : tRR_STATE) (hidx : s.p_lcb ≤ s.cb.lcb_pool.length)
    (hn : n ≤ s.cb.lcb_pool.length) (hv : transports_valid env s.cb.lcb_pool)
    (hw16 : s.cb.controller_xmit_window < U16) (hq16 : s.cb.round_robin_quota < U16)
    (hr : rr_loop env sw n s = some s1) : rr_budget_step s.cb s1.cb := by
  induction n generalizing s with
  | zero =>
    unfold rr_loop at hr
    cases hr; exact rr_budget_refl _
  | succ n ih =>
    unfold rr_loop at hr
    split at hr
    · exact absurd hr (by simp)
    · rename_i r hbody
      have h1 := rr_body_budget env hmtk sw s r hidx (by omega) hv hw16 hq16 hbody
      have hst := rr_body_step env sw s r hbody
      obtain ⟨r0, hr0, hlt⟩ := rr_body_returns env hmtk sw s hidx (by omega)
      rw [hbody] at hr0
      cases hr0
      split at hr
      · cases hr; exact h1
      · have hv1 : transports_valid env r.1.cb.lcb_pool :=
          rr_body_transports env hmtk sw s r
            (fun t => t = .BT_TRANSPORT_BR_EDR ∨ t = .BT_TRANSPORT_LE) hidx (by omega) hv hbody
        obtain ⟨k, _, k2, _, _, k5⟩ := h1
        have h2 := ih { r.1 with p_lcb := r.1.p_lcb + 1 }
          (by dsimp only; rw [hst.1.1]; omega) (by dsimp only; rw [hst.1.1]; omega) hv1
          (by dsimp only; omega) (by dsimp only; omega) hr
        exact rr_budget_trans _ _ _ ⟨k, ‹_›, k2, ‹_›, ‹_›, k5⟩ h2

theorem rr_clear_flags_budget (env : Env) (s : tRR_STATE) :
    rr_budget_step s.cb (rr_clear_flags env s) := by
  unfold rr_clear_flags
  dsimp only
  split <;> split <;> exact rr_budget_same _ _ rfl rfl rfl rfl

/-- C18: a round-robin pass of `l2c_link_check_send_pkts` (compiled with
`MTK_COMMON`, started at a pointer into the pool) over a pool in which every
link that the loop may serve is a BR/EDR or an LE link, whatever the slots hold
that the loop passes over (the slots that are not in use among them), with a
16-bit controller window and round-robin quota.  With `k` the
number of buffers that the pass hands to the lower layer for BR/EDR links, the
window ends exactly `k` lower and `round_robin_unacked` exactly `k` higher, and
`k` is at most `min (controller_xmit_window, round_robin_quota -
round_robin_unacked)` as measured at entry: nothing is sent with the window at
0 or with `round_robin_unacked >= round_robin_quota`, the window does not wrap
below zero, and `round_robin_unacked <= round_robin_quota` is kept. -/
theorem round_robin_pass_budget (env : Env) (hmtk : env.MTK_COMMON = true) (sw : Bool)
    (cb cb1 : tL2C_CB) (start : Nat) (hstart : start ≤ cb.lcb_pool.length)
    (hv : transports_valid env cb.lcb_pool) (hw16 : cb.controller_xmit_window < U16)
    (hq16 : cb.round_robin_quota < U16)
    (hr : sched_round_robin env sw cb start = some cb1) :
    ∃ more, cb1.hci_sent = cb.hci_sent ++ more ∧
      cb1.controller_xmit_window + (more.filter (fun s => !s.ble)).length
        = cb.controller_xmit_window ∧
      cb1.round_robin_unacked
        = cb.round_robin_unacked + (more.filter (fun s => !s.ble)).length ∧
      (more.filter (fun s => !s.ble)).length
        ≤ min cb.controller_xmit_window (cb.round_robin_quota - cb.round_robin_unacked) ∧
      cb1.round_robin_quota = cb.round_robin_quota ∧
      (cb.round_robin_unacked ≤ cb.round_robin_quota →
        cb1.round_robin_unacked ≤ cb1.round_robin_quota) := by
  obtain ⟨more, hmore⟩ := (sched_round_robin_step env sw cb cb1 start hr).2.1
  unfold sched_round_robin at hr
  simp only [Option.map_eq_some'] at hr
  obtain ⟨s1, hs1, rfl⟩ := hr
  have h1 := rr_loop_budget env hmtk sw cb.lcb_pool.length
    { cb := cb, p_lcb := start, fixd_cid := 0 } s1 hstart (le_refl _) hv hw16 hq16 hs1
  obtain ⟨k, k1, k2, k3, k4, k5⟩ := rr_budget_trans _ _ _ h1 (rr_clear_flags_budget env s1)
  dsimp only at k1 k2 k3 k4 k5
  have hk : (more.filter (fun s => !s.ble)).length = k := by
    unfold classic_sent at k1
    rw [hmore, List.filter_append, List.length_append] at k1
    omega
  refine ⟨more, hmore, ?_, ?_, ?_, k5, ?_⟩
  · rw [hk]; exact k2
  · rw [hk]; exact k3
  · rw [hk]
    rcases k4 with k4 | k4
    · omega
    · omega
  · intro h
    rcases k4 with k4 | k4
    · omega
    · omega

/-- Counting the slots of a list whose entry satisfies `f` counts the entries
that satisfy `f`. -/
theorem filter_range_length {α : Type} (l : List α) (f : α → Bool) :
    ((List.range l.length).filter (slot_sat f l)).length = (l.filter f).length := by
  induction l with
  | nil => rfl
  | cons a t ih =>
    have e : (slot_sat f (a :: t)) ∘ Nat.succ = slot_sat f t := by
      funext j
      simp [Function.comp, slot_sat]
    have e0 : slot_sat f (a :: t) 0 = f a := by simp [slot_sat]
    rw [List.length_cons, List.range_succ_eq_map, List.filter_cons, List.filter_map, e, e0,
      List.filter_cons]
    cases f a <;> simp [ih]

theorem eligible_count (env : Env) (pool : List tL2C_LCB) :
    ((List.range pool.length).filter (rr_eligible_at env pool)).length
      = (pool.filter (fun p => !rr_skip env p)).length :=
  filter_range_length pool (fun p => !rr_skip env p)

theorem rr_eligible_at_iff (env : Env) (pool : List tL2C_LCB) (j : Nat) :
    j ∈ (List.range pool.length).filter (rr_eligible_at env pool)
      ↔ ∃ p, pool[j]? = some p ∧ rr_skip env p = false := by
  rw [List.mem_filter, List.mem_range]
  unfold rr_eligible_at slot_sat
  constructor
  · intro ⟨_, h⟩
    split at h
    · rename_i p hp
      exact ⟨p, hp, by simpa using h⟩
    · exact absurd h (by simp)
  · intro ⟨p, hp, hs⟩
    refine ⟨(List.getElem?_eq_some.mp hp).1, ?_⟩
    rw [hp]
    simp [hs]

/-- A list of distinct slots that all hold eligible links is no longer than the
number of eligible links, and holds every eligible slot when it is as long. -/
theorem served_le_eligible (env : Env) (pool : List tL2C_LCB) (js : List Nat)
    (hnd : js.Nodup) (hel : ∀ j ∈ js, ∃ p, pool[j]? = some p ∧ rr_skip env p = false) :
    js.length ≤ (pool.filter (fun p => !rr_skip env p)).length ∧
    ((pool.filter (fun p => !rr_skip env p)).length ≤ js.length →
      ∀ j p, pool[j]? = some p → rr_skip env p = false → j ∈ js) := by
  have hsub : js ⊆ (List.range pool.length).filter (rr_eligible_at env pool) :=
    fun j hj => (rr_eligible_at_iff env pool j).mpr (hel j hj)
  have hsp := List.subperm_of_subset hnd hsub
  rw [← eligible_count]
  refine ⟨hsp.length_le, ?_⟩
  intro hle j p hp hs
  have hperm := hsp.perm_of_length_le hle
  exact hperm.mem_iff.mpr ((rr_eligible_at_iff env pool j).mpr ⟨p, hp, hs⟩)

/-- A list of distinct slots that holds every eligible slot is at least as long
as the number of eligible links. -/
theorem eligible_le_served (env : Env) (pool : List tL2C_LCB) (js : List Nat)
    (hall : ∀ j p, pool[j]? = some p → rr_skip env p = false → j ∈ js) :
    (pool.filter (fun p => !rr_skip env p)).length ≤ js.length := by
  rw [← eligible_count]
  have hnd : ((List.range pool.length).filter (rr_eligible_at env pool)).Nodup :=
    List.Nodup.filter _ (List.nodup_range _)
  have hsub : (List.range pool.length).filter (rr_eligible_at env pool) ⊆ js := by
    intro j hj
    obtain ⟨p, hp, hs⟩ := (rr_eligible_at_iff env pool j).mp hj
    exact hall j p hp hs
  exact (List.subperm_of_subset hnd hsub).length_le

theorem rr_window_not_full (env : Env) (cb : tL2C_CB) (i : Nat) (p : tL2C_LCB)
    (hp : cb.lcb_pool[i]? = some p) (htr : p.transport = .BT_TRANSPORT_BR_EDR)
    (hw : 0 < cb.controller_xmit_window)
    (hr : cb.round_robin_unacked < cb.round_robin_quota) :
    rr_window_full env cb i = false := by
  unfold rr_window_full transport_at
  rw [hp]
  dsimp only
  have h1 : decide (cb.controller_xmit_window = 0) = false := decide_eq_false (by omega)
  have h2 : decide (cb.round_robin_unacked ≥ cb.round_robin_quota) = false :=
    decide_eq_false (by omega)
  rw [h1, h2, htr]
  cases env.BLE_INCLUDED <;> simp

theorem rr_serve_no_break (env : Env) (s : tRR_STATE) (i : Nat) (p : tL2C_LCB) :
    (rr_serve env false s i p).2 = false := by
  unfold rr_serve
  split
  · rfl
  · split
    · rfl
    · simp only [Bool.false_eq_true, if_false]
      split <;> rfl

theorem rr_visits_cases (m x n i2 j : Nat) (hx : x ≤ m) (hi : i2 = if x = m then 0 else x)
    (hj : j < m) (h : rr_visits m x (n + 1) j) : j = i2 ∨ rr_visits m (i2 + 1) n j := by
  unfold rr_visits at *
  split at hi <;> omega

theorem rr_slot_after_sna (env : Env) (sw : Bool) (p : tL2C_LCB) (c : Nat)
    (hq : rr_pick env sw p c ≠ none) :
    (rr_slot_after env sw p c).sent_not_acked = u16_add p.sent_not_acked 1 := by
  unfold rr_pick at hq
  unfold rr_slot_after
  cases hqueue : p.link_xmit_data_q with
  | cons b rest => rfl
  | nil =>
    rw [hqueue] at hq
    dsimp only at hq ⊢
    cases sw with
    | true => simp at hq
    | false =>
      simp only [Bool.false_eq_true, if_false] at hq ⊢
      cases hb : (env.l2cu_get_next_buffer_to_send p c).1 with
      | none => exact absurd hb hq
      | some b => rfl

/-- Over a pool whose eligible links are BR/EDR links and whose shared budget is
within the controller window, a round-robin loop that ends with budget left has
sent from every eligible link with a buffer to send that it has visited. -/
theorem rr_loop_complete (env : Env) (hmtk : env.MTK_COMMON = true) (n : Nat)
    (s s1 : tRR_STATE) (hidx : s.p_lcb ≤ s.cb.lcb_pool.length)
    (hn : n ≤ s.cb.lcb_pool.length)
    (hcl : ∀ p ∈ s.cb.lcb_pool, rr_skip env p = false → p.transport = .BT_TRANSPORT_BR_EDR)
    (hw16 : s.cb.controller_xmit_window < U16) (hq16 : s.cb.round_robin_quota < U16)
    (hbw : s.cb.round_robin_quota - s.cb.round_robin_unacked ≤ s.cb.controller_xmit_window)
    (hr : rr_loop env false n s = some s1)
    (hleft : s1.cb.round_robin_unacked < s1.cb.round_robin_quota) :
    ∀ (j : Nat) (p : tL2C_LCB), rr_visits s.cb.lcb_pool.length s.p_lcb n j →
      s.cb.lcb_pool[j]? = some p → rr_skip env p = false →
      (∀ c, rr_pick env false p c ≠ none) →
      ∃ p1, s1.cb.lcb_pool[j]? = some p1 ∧
        p1.sent_not_acked = u16_add p.sent_not_acked 1 := by
  induction n generalizing s with
  | zero =>
    intro j p hvis
    unfold rr_visits at hvis
    omega
  | succ n ih =>
    intro j p hvis hpj hskip hdata
    have hval : transports_valid env s.cb.lcb_pool := fun q hq hs => Or.inl (hcl q hq hs)
    obtain ⟨k, _, kw, kr, _, kq⟩ := rr_loop_budget env hmtk false (n + 1) s s1 hidx hn hval
      hw16 hq16 hr
    obtain ⟨i2, q, hi2, hlt, hq, hbody⟩ := rr_body_cases env hmtk false s hidx (by omega)
    have hqm : q ∈ s.cb.lcb_pool := List.mem_iff_getElem?.mpr ⟨i2, hq⟩
    -- the pass over slot `i2`, whether or not the window test lets it through
    have hpass : ∃ r, rr_body env false s = some r ∧ r.2 = false ∧ r.1.p_lcb = i2 ∧
        rr_budget_step s.cb r.1.cb ∧ cb_step s.cb r.1.cb ∧
        (∀ j, j ≠ i2 → r.1.cb.lcb_pool[j]? = s.cb.lcb_pool[j]?) ∧
        (rr_skip env q = false →
          r.1.cb.lcb_pool[i2]? = some (rr_slot_after env false q s.fixd_cid)) := by
      by_cases hfull : rr_window_full env s.cb i2 = true
      · rw [if_pos hfull] at hbody
        have hble : env.BLE_INCLUDED = true := by
          by_contra hb
          unfold rr_window_full at hfull
          simp only [hb, Bool.false_eq_true, if_false, Bool.or_eq_true, decide_eq_true_eq]
            at hfull
          omega
        refine ⟨_, hbody, by simp [hble], rfl, rr_budget_refl _, cb_step_refl _,
          fun _ _ => rfl, ?_⟩
        intro hs
        have hnf := rr_window_not_full env s.cb i2 q hq (hcl q hqm hs) (by omega) (by omega)
        rw [hnf] at hfull
        exact absurd hfull (by simp)
      · simp only [Bool.not_eq_true] at hfull
        rw [hfull] at hbody
        simp only [Bool.false_eq_true, if_false] at hbody
        exact ⟨_, hbody, rr_serve_no_break env s i2 q, rr_serve_p_lcb env false s i2 q,
          rr_serve_budget env false s i2 q hq (hval q hqm) hfull hw16 hq16,
          rr_serve_step env false s i2 q hq,
          fun j hj => rr_serve_other env false s i2 j q hj,
          fun h => (rr_serve_eligible env false s i2 q hq h).1⟩
    obtain ⟨r, hbody2, hnb, hpl, hb1, hst, hoth, hel⟩ := hpass
    have hcl1 := rr_body_transports env hmtk false s r (fun t => t = .BT_TRANSPORT_BR_EDR)
      hidx (by omega) hcl hbody2
    unfold rr_loop at hr
    rw [hbody2] at hr
    dsimp only at hr
    rw [hnb] at hr
    simp only [Bool.false_eq_true, if_false] at hr
    have hlen := hst.1.1
    obtain ⟨k1, _, k1w, k1r, _, k1q⟩ := hb1
    have hjm : j < s.cb.lcb_pool.length := (List.getElem?_eq_some.mp hpj).1
    rcases rr_visits_cases _ _ _ _ _ hidx hi2 hjm hvis with hj | hj
    · subst hj
      rw [hq] at hpj
      cases hpj
      obtain ⟨vs, _, v2, v3, _⟩ := rr_loop_visits env hmtk false n
        { r.1 with p_lcb := r.1.p_lcb + 1 } s1
        (by dsimp only; rw [hlen, hpl]; omega) (by dsimp only; rw [hlen]; omega) hr
      dsimp only at v2 v3
      rw [hlen, hpl] at v2
      have hnot : j ∉ vs.map Prod.fst := by
        intro hmem
        obtain ⟨v, hv1, hv2⟩ := List.mem_map.mp hmem
        exact (rr_visits_step _ _ _ _ _ hidx hi2 hn (v2 v hv1).1).2 hv2
      refine ⟨_, (v3 j hnot).trans (hel hskip), rr_slot_after_sna env false p _ (hdata _)⟩
    · have hne := (rr_visits_step _ _ _ _ _ hidx hi2 hn hj).2
      have hih := ih { r.1 with p_lcb := r.1.p_lcb + 1 }
        (by dsimp only; rw [hlen, hpl]; omega) (by dsimp only; rw [hlen]; omega)
        hcl1 (by dsimp only; omega) (by dsimp only; omega)
        (by dsimp only; omega) hr j p
      dsimp only at hih
      rw [hlen, hpl] at hih
      exact hih hj ((hoth j hne).trans hpj) hskip hdata

theorem rr_sent_of_data (env : Env) (sw : Bool) (p : tL2C_LCB) (c : Nat)
    (htr : p.transport = .BT_TRANSPORT_BR_EDR) (hq : rr_pick env sw p c ≠ none) :
    ∃ e, rr_sent env sw p c = some e ∧ e.ble = false := by
  unfold rr_sent
  cases hb : rr_pick env sw p c with
  | none => exact absurd hb hq
  | some b => exact ⟨_, rfl, is_le_br_edr env p htr⟩

theorem filterMap_all_classic (f : Nat × Nat → Option tHCI_SEND) (vs : List (Nat × Nat))
    (h : ∀ v ∈ vs, ∃ e, f v = some e ∧ e.ble = false) :
    ((vs.filterMap f).filter (fun s => !s.ble)).length = vs.length ∧
    (vs.filterMap f).length = vs.length := by
  induction vs with
  | nil => exact ⟨rfl, rfl⟩
  | cons v t ih =>
    obtain ⟨e, he, hb⟩ := h v (List.mem_cons_self _ _)
    obtain ⟨i1, i2⟩ := ih (fun w hw => h w (List.mem_cons_of_mem _ hw))
    rw [List.filterMap_cons, he]
    simp only [List.filter_cons, hb, Bool.not_false, if_true, List.length_cons]
    omega

theorem u16_add_one_ne (a : Nat) : u16_add a 1 ≠ a := by
  unfold u16_add U16
  omega

theorem rr_visits_all (m start j : Nat) (hs : start ≤ m) (hj : j < m) :
    rr_visits m start m j := by
  unfold rr_visits
  omega

/-- C19 (amended): one round-robin pass of `l2c_link_check_send_pkts` (compiled
with `MTK_COMMON`, not for a single write) over a pool with `N` eligible links
(links that the test of lines 1229-1233 does not pass over), which are BR/EDR
links and all have a buffer to send, on their link queue or from
`l2cu_get_next_buffer_to_send`; nothing is asked of the other slots.  The
shared budget `B = round_robin_quota - round_robin_unacked` is within the
16-bit controller window.  The pass serves a list `vs` of distinct slots: every
one of the `N` links is sent from at most once, `min (B, N)` of them are sent
from and as many buffers are handed to the lower layer, and all `N` are sent
from when `N <= B`.  So for `B < 2 * N` every one of the `N` links is sent from
`floor (B / N)` or `ceil (B / N)` times. -/
theorem round_robin_pass_fairness (env : Env) (hmtk : env.MTK_COMMON = true)
    (cb cb1 : tL2C_CB) (start : Nat) (hstart : start ≤ cb.lcb_pool.length)
    (hcl : ∀ p ∈ cb.lcb_pool, rr_skip env p = false → p.transport = .BT_TRANSPORT_BR_EDR)
    (hdata : ∀ p ∈ cb.lcb_pool, rr_skip env p = false → ∀ c, rr_pick env false p c ≠ none)
    (hw16 : cb.controller_xmit_window < U16) (hq16 : cb.round_robin_quota < U16)
    (N B : Nat) (hN : N = (cb.lcb_pool.filter (fun p => !rr_skip env p)).length)
    (hB : B = cb.round_robin_quota - cb.round_robin_unacked)
    (hBw : B ≤ cb.controller_xmit_window)
    (hr : sched_round_robin env false cb start = some cb1) :
    ∃ vs : List (Nat × Nat), (vs.map Prod.fst).Nodup ∧
      (∀ v ∈ vs, ∃ p, cb.lcb_pool[v.1]? = some p ∧ rr_skip env p = false ∧
        cb1.lcb_pool[v.1]? = some (rr_slot_after env false p v.2)) ∧
      (∀ j, j ∉ vs.map Prod.fst → cb1.lcb_pool[j]? = cb.lcb_pool[j]?) ∧
      vs.length = min B N ∧
      (∃ more, cb1.hci_sent = cb.hci_sent ++ more ∧ more.length = min B N) ∧
      (N ≤ B → ∀ (j : Nat) (p : tL2C_LCB), cb.lcb_pool[j]? = some p →
        rr_skip env p = false → j ∈ vs.map Prod.fst) ∧
      (B < 2 * N → ∀ (j : Nat) (p : tL2C_LCB), cb.lcb_pool[j]? = some p →
        rr_skip env p = false →
        (j ∈ vs.map Prod.fst ∧ (1 = B / N ∨ 1 = ceil_div B N)) ∨
        (j ∉ vs.map Prod.fst ∧ (0 = B / N ∨ 0 = ceil_div B N))) := by
  unfold sched_round_robin at hr
  simp only [Option.map_eq_some'] at hr
  obtain ⟨s1, hs1, rfl⟩ := hr
  obtain ⟨vs, h1, h2, h3, h4⟩ := rr_loop_visits env hmtk false cb.lcb_pool.length
    { cb := cb, p_lcb := start, fixd_cid := 0 } s1 hstart (le_refl _) hs1
  dsimp only at h2 h3 h4
  have hval : transports_valid env cb.lcb_pool := fun q hq hs => Or.inl (hcl q hq hs)
  obtain ⟨k, k1, k2, k3, k4, k5⟩ := rr_loop_budget env hmtk false cb.lcb_pool.length
    { cb := cb, p_lcb := start, fixd_cid := 0 } s1 hstart (le_refl _) hval hw16 hq16 hs1
  dsimp only at k1 k2 k3 k4 k5
  -- every slot served has handed over one buffer
  have hall : ∀ v ∈ vs, ∃ e,
      (cb.lcb_pool[v.1]?).bind (fun p => rr_sent env false p v.2) = some e ∧ e.ble = false := by
    intro v hv1
    obtain ⟨_, p, g1, g2, _⟩ := h2 v hv1
    have hmem : p ∈ cb.lcb_pool := List.mem_iff_getElem?.mpr ⟨v.1, g1⟩
    obtain ⟨e, he, hb⟩ := rr_sent_of_data env false p v.2 (hcl p hmem g2) (hdata p hmem g2 v.2)
    exact ⟨e, by rw [g1]; exact he, hb⟩
  obtain ⟨f1, f2⟩ := filterMap_all_classic _ vs hall
  have hk : k = vs.length := by
    unfold classic_sent at k1
    rw [h4, List.filter_append, List.length_append, f1] at k1
    omega
  -- the slots served hold eligible links
  have hel : ∀ j ∈ vs.map Prod.fst, ∃ p, cb.lcb_pool[j]? = some p ∧ rr_skip env p = false := by
    intro j hj
    obtain ⟨v, hv1, hv2⟩ := List.mem_map.mp hj
    obtain ⟨_, p, g1, g2, _⟩ := h2 v hv1
    exact ⟨p, by rw [← hv2]; exact g1, g2⟩
  obtain ⟨c1, c2⟩ := served_le_eligible env cb.lcb_pool (vs.map Prod.fst) h1 hel
  rw [List.length_map, ← hN] at c1 c2
  -- with budget left at the end, every eligible link was served
  have hcomp : s1.cb.round_robin_unacked < s1.cb.round_robin_quota →
      ∀ (j : Nat) (p : tL2C_LCB), cb.lcb_pool[j]? = some p → rr_skip env p = false →
        j ∈ vs.map Prod.fst := by
    intro hleft j p hp hs
    by_contra hnot
    have hmem : p ∈ cb.lcb_pool := List.mem_iff_getElem?.mpr ⟨j, hp⟩
    obtain ⟨p1, g1, g2⟩ := rr_loop_complete env hmtk cb.lcb_pool.length
      { cb := cb, p_lcb := start, fixd_cid := 0 } s1 hstart (le_refl _) hcl hw16 hq16
      (by dsimp only; omega) hs1 hleft j p
      (rr_visits_all _ _ _ hstart (List.getElem?_eq_some.mp hp).1) hp hs (hdata p hmem hs)
    rw [h3 j hnot, hp] at g1
    cases g1
    exact u16_add_one_ne _ g2.symm
  have hlen : vs.length = min B N ∧
      (N ≤ B → ∀ (j : Nat) (p : tL2C_LCB), cb.lcb_pool[j]? = some p →
        rr_skip env p = false → j ∈ vs.map Prod.fst) := by
    by_cases hleft : s1.cb.round_robin_unacked < s1.cb.round_robin_quota
    · have hge := eligible_le_served env cb.lcb_pool (vs.map Prod.fst) (hcomp hleft)
      rw [List.length_map, ← hN] at hge
      exact ⟨by omega, fun _ => hcomp hleft⟩
    · have hkB : k = B := by
        rcases k4 with k4 | k4 <;> omega
      refine ⟨by omega, ?_⟩
      intro hNB
      exact c2 (by omega)
  obtain ⟨hl1, hl2⟩ := hlen
  have hpool := rr_clear_flags_pool env s1
  have hsent : (rr_clear_flags env s1).hci_sent = s1.cb.hci_sent := by
    unfold rr_clear_flags
    dsimp only
    split <;> split <;> rfl
  refine ⟨vs, h1, ?_, ?_, hl1, ⟨_, by rw [hsent]; exact h4, by rw [f2]; exact hl1⟩, hl2, ?_⟩
  · intro v hv1
    obtain ⟨_, p, g1, g2, g3⟩ := h2 v hv1
    exact ⟨p, g1, g2, by rw [hpool]; exact g3⟩
  · intro j hj
    rw [hpool]
    exact h3 j hj
  · intro h2N j p hp hs
    by_cases hj : j ∈ vs.map Prod.fst
    · left
      refine ⟨hj, ?_⟩
      have hpos : 0 < vs.length := by
        obtain ⟨v, hv1, _⟩ := List.mem_map.mp hj
        exact List.length_pos_of_mem hv1
      by_cases hNB : N ≤ B
      · left
        exact (Nat.div_eq_of_lt_le (by omega) (by omega)).symm
      · right
        exact (ceil_div_eq_one B N (by omega) (by omega)).symm
    · right
      refine ⟨hj, Or.inl ?_⟩
      have hlt : B < N := by
        by_contra hge
        exact hj (hl2 (by omega) j p hp hs)
      exact (Nat.div_eq_of_lt hlt).symm

/-- Witness of C18 on `cb_rr_spare`, whose first slot was never used and holds
no valid transport: two buffers are sent with a window of 3 and a round-robin
quota of 3. -/
theorem round_robin_pass_budget_witness :
    (∃ more, cb_rr_spare_after.hci_sent = cb_rr_spare.hci_sent ++ more ∧
      cb_rr_spare_after.controller_xmit_window + (more.filter (fun s => !s.ble)).length
        = cb_rr_spare.controller_xmit_window ∧
      cb_rr_spare_after.round_robin_unacked
        = cb_rr_spare.round_robin_unacked + (more.filter (fun s => !s.ble)).length ∧
      (more.filter (fun s => !s.ble)).length
        ≤ min cb_rr_spare.controller_xmit_window
            (cb_rr_spare.round_robin_quota - cb_rr_spare.round_robin_unacked) ∧
      cb_rr_spare_after.round_robin_quota = cb_rr_spare.round_robin_quota ∧
      (cb_rr_spare.round_robin_unacked ≤ cb_rr_spare.round_robin_quota →
        cb_rr_spare_after.round_robin_unacked ≤ cb_rr_spare_after.round_robin_quota)) ∧
    cb_rr_spare.lcb_pool.map (fun p => (p.in_use, p.transport))
      = [(false, .BT_TRANSPORT_INVALID), (true, .BT_TRANSPORT_BR_EDR),
          (true, .BT_TRANSPORT_LE), (true, .BT_TRANSPORT_BR_EDR)] ∧
    (sched_round_robin env_chan false cb_rr_spare 0).map
        (fun c => (c.controller_xmit_window, c.round_robin_unacked, c.hci_sent.length))
      = some (1, 2, 2) :=
  ⟨round_robin_pass_budget env_chan rfl false cb_rr_spare cb_rr_spare_after 0 (by decide)
    (by decide) (by decide) (by decide) rfl, rfl, rfl⟩

/-- C19, counterexample: five round-robin links share four controller buffers
(`round_robin_quota = 4`, nothing outstanding, window 4), which is the
allocation that `l2c_link_adjust_allocation` computes for them.  Two of the
links are eligible and have two frames queued each, so `N = 2`, `B = 4` and
`floor (B / N) = ceil (B / N) = 2`; the call of `l2c_link_check_send_pkts`
sends from each of the two links once, not twice, and returns with half of the
budget unused. -/
theorem round_robin_pass_serves_once :
    (cb_rr_five.lcb_pool.filter (fun p => !rr_skip env0 p)).length = 2 ∧
    cb_rr_five.round_robin_quota - cb_rr_five.round_robin_unacked = 4 ∧
    cb_rr_five.controller_xmit_window = 4 ∧
    4 / 2 = 2 ∧ ceil_div 4 2 = 2 ∧
    (l2c_link_adjust_allocation 5 10 cb_rr_five).map
        (fun c => (c.round_robin_quota, c.lcb_pool.map (fun p => p.link_xmit_quota)))
      = some (4, [0, 0, 0, 0, 0]) ∧
    (l2c_link_check_send_pkts env0 65536 cb_rr_five none none none).map
        (fun c => (c.hci_sent.map (fun s => s.handle), c.controller_xmit_window,
          c.round_robin_unacked,
          c.lcb_pool.map (fun p => (p.sent_not_acked, p.link_xmit_data_q.length))))
      = some ([1, 2], 2, 2, [(1, 1), (1, 1), (0, 0), (0, 0), (0, 0)]) := by
  refine ⟨by decide, by decide, rfl, by decide, by decide, by decide, by decide⟩

/-- Witness of C19 (amended) on `cb_rr_spare` in `env_chan`, where `N = 2` links
are eligible, one with a frame on its link queue and one with a frame on a
channel, next to a slot never used and an LE link with a private quota; the
budget is `B = 3`, and both links are sent from once. -/
theorem round_robin_pass_fairness_witness :
    (∃ vs : List (Nat × Nat), (vs.map Prod.fst).Nodup ∧
      (∀ v ∈ vs, ∃ p, cb_rr_spare.lcb_pool[v.1]? = some p ∧ rr_skip env_chan p = false ∧
        cb_rr_spare_after.lcb_pool[v.1]? = some (rr_slot_after env_chan false p v.2)) ∧
      (∀ j, j ∉ vs.map Prod.fst → cb_rr_spare_after.lcb_pool[j]? = cb_rr_spare.lcb_pool[j]?) ∧
      vs.length = min 3 2 ∧
      (∃ more, cb_rr_spare_after.hci_sent = cb_rr_spare.hci_sent ++ more ∧
        more.length = min 3 2) ∧
      (2 ≤ 3 → ∀ (j : Nat) (p : tL2C_LCB), cb_rr_spare.lcb_pool[j]? = some p →
        rr_skip env_chan p = false → j ∈ vs.map Prod.fst) ∧
      (3 < 2 * 2 → ∀ (j : Nat) (p : tL2C_LCB), cb_rr_spare.lcb_pool[j]? = some p →
        rr_skip env_chan p = false →
        (j ∈ vs.map Prod.fst ∧ (1 = 3 / 2 ∨ 1 = ceil_div 3 2)) ∨
        (j ∉ vs.map Prod.fst ∧ (0 = 3 / 2 ∨ 0 = ceil_div 3 2)))) ∧
    sched_round_robin env_chan false cb_rr_spare 0 = some cb_rr_spare_after :=
  ⟨round_robin_pass_fairness env_chan rfl cb_rr_spare cb_rr_spare_after 0 (by decide)
    (by decide)
    (by
      intro p hp hs c
      simp only [cb_rr_spare, List.mem_cons, List.mem_singleton, List.not_mem_nil,
        or_false] at hp
      rcases hp with rfl | rfl | rfl | rfl
      · exact absurd hs (by decide)
      · exact fun h => Option.noConfusion h
      · exact absurd hs (by decide)
      · exact fun h => Option.noConfusion h)
    (by decide) (by decide) 2 3 (by decide) (by decide) (by decide) rfl, rfl⟩

theorem findIdx_none {α : Type} (l : List α) (f : α → Bool) (h : ∀ x ∈ l, f x = false) :
    ¬ l.findIdx f < l.length := by
  induction l with
  | nil => simp
  | cons a t ih =>
    rw [List.findIdx_cons, h a (List.mem_cons_self _ _)]
    have := ih (fun x hx => h x (List.mem_cons_of_mem _ hx))
    simp only [cond_false, List.length_cons]
    omega

theorem find_lcb_by_bd_addr_unused (cb : tL2C_CB) (bd_addr : Nat) (t : tBT_TRANSPORT)
    (h : ∀ q ∈ cb.lcb_pool, q.in_use = false) : l2cu_find_lcb_by_bd_addr cb bd_addr t = none := by
  unfold l2cu_find_lcb_by_bd_addr
  dsimp only
  rw [if_neg (findIdx_none _ _ (fun q hq => by simp [h q hq]))]

theorem conn_req_no_links_of (cb : tL2C_CB) (i : Nat)
    (h : ∀ (j : Nat) (q : tL2C_LCB), j ≠ i → cb.lcb_pool[j]? = some q → q.in_use = false) :
    conn_req_no_links cb i = true := by
  unfold conn_req_no_links
  simp only [Bool.not_eq_true', List.any_eq_false, Bool.and_eq_true, decide_eq_true_eq, not_and,
    Bool.not_eq_true]
  intro jp hjp hne
  exact h jp.1 jp.2 hne (List.mk_mem_enum_iff_getElem?.mp hjp)

/-- C20 (amended): no link control block is in use, and `l2cu_allocate_lcb`
returns a block in slot `i`, leaving the other slots as they are.  Then
`l2c_link_hci_conn_req` returns `TRUE`; the new block is in state
`LST_CONNECTING`, its timer is armed with `L2CAP_LINK_CONNECT_TIMEOUT_MS`, and
its role is master when the build has `MTK_STACK_CONFIG_BL` and the address is
on the list `INTEROP_MTK_HID_NOT_SET_SLAVE`, and otherwise slave if the remote
does not support the role switch and else the role that `l2cu_get_conn_role`
gives; the one call made is `btsnd_hcic_accept_conn` with that role. -/
theorem conn_req_empty_pool (env : Env) (cb cb1 : tL2C_CB) (bd_addr i : Nat) (p : tL2C_LCB)
    (role : tHCI_ROLE)
    (hnone : ∀ q ∈ cb.lcb_pool, q.in_use = false)
    (halloc : env.l2cu_allocate_lcb cb bd_addr false .BT_TRANSPORT_BR_EDR = some (i, cb1))
    (hp : cb1.lcb_pool[i]? = some p)
    (hkeep : ∀ j, j ≠ i → cb1.lcb_pool[j]? = cb.lcb_pool[j]?)
    (hrole : role =
      if env.MTK_STACK_CONFIG_BL = true ∧ env.interop_mtk_match_addr_name bd_addr = true then
        .HCI_ROLE_MASTER
      else if env.btm_dev_support_switch bd_addr = false then .HCI_ROLE_SLAVE
      else env.l2cu_get_conn_role p) :
    l2c_link_hci_conn_req env cb bd_addr = some (true,
      { cb1 with
        lcb_pool := cb1.lcb_pool.set i
          { p with link_role := role, link_state := .LST_CONNECTING,
                   l2c_lcb_timer := some .L2CAP_LINK_CONNECT_TIMEOUT_MS },
        calls := cb1.calls ++ [.btsnd_hcic_accept_conn bd_addr role] }) := by
  have hno : conn_req_no_links cb1 i = true := by
    apply conn_req_no_links_of
    intro j q hj hq
    rw [hkeep j hj] at hq
    exact hnone q (List.mem_iff_getElem?.mpr ⟨j, hq⟩)
  have hr : conn_req_new_role env cb1 i bd_addr p = role := by
    rw [hrole]
    unfold conn_req_new_role conn_req_switch_role
    rw [hno]
    cases env.MTK_STACK_CONFIG_BL <;> cases env.interop_mtk_match_addr_name bd_addr <;>
      cases env.btm_dev_support_switch bd_addr <;> simp
  unfold l2c_link_hci_conn_req
  rw [find_lcb_by_bd_addr_unused cb bd_addr _ hnone]
  simp only [halloc, hp, hr]
  rfl

/-- C20, counterexample: in a build with `MTK_STACK_CONFIG_BL`, for an address
that is on the list `INTEROP_MTK_HID_NOT_SET_SLAVE`, the connection request of
a remote device that does not support the role switch is accepted as master,
not as slave, with no link control block in use before. -/
theorem conn_req_interop_master :
    env_interop.btm_dev_support_switch 7 = false ∧
    (∀ q ∈ cb_unused.lcb_pool, q.in_use = false) ∧
    (l2c_link_hci_conn_req env_interop cb_unused 7).map
        (fun r => (r.1, r.2.calls,
          r.2.lcb_pool.map (fun p => (p.in_use, p.link_state, p.link_role, p.l2c_lcb_timer))))
      = some (true, [.btsnd_hcic_accept_conn 7 .HCI_ROLE_MASTER],
          [(true, .LST_CONNECTING, .HCI_ROLE_MASTER, some .L2CAP_LINK_CONNECT_TIMEOUT_MS),
           (false, .LST_DISCONNECTED, .HCI_ROLE_MASTER, none)]) := by
  refine ⟨rfl, by decide, rfl⟩

/-- Witness of C20 (amended) in a build without `MTK_STACK_CONFIG_BL`: the
request of a device that does not support the role switch is accepted as
slave. -/
theorem conn_req_empty_pool_witness :
    l2c_link_hci_conn_req env_alloc cb_unused 7 = some (true,
      { (set_lcb cb_unused 0 { in_use := true, remote_bd_addr := 7 }) with
        lcb_pool := (set_lcb cb_unused 0 { in_use := true, remote_bd_addr := 7 }).lcb_pool.set 0
          { in_use := true, remote_bd_addr := 7, link_role := .HCI_ROLE_SLAVE,
            link_state := .LST_CONNECTING,
            l2c_lcb_timer := some .L2CAP_LINK_CONNECT_TIMEOUT_MS },
        calls := (set_lcb cb_unused 0 { in_use := true, remote_bd_addr := 7 }).calls
          ++ [.btsnd_hcic_accept_conn 7 .HCI_ROLE_SLAVE] }) :=
  conn_req_empty_pool env_alloc cb_unused (set_lcb cb_unused 0 { in_use := true, remote_bd_addr := 7 })
    7 0 { in_use := true, remote_bd_addr := 7 } .HCI_ROLE_SLAVE (by decide) rfl rfl
    (fun j hj => by
      cases j with
      | zero => exact absurd rfl hj
      | succ k => rfl) rfl

/-- C21: the address has no link control block and `l2cu_allocate_lcb` fails.
Then `l2c_link_hci_conn_req` returns `FALSE`, and the one thing it does is the
call `btsnd_hcic_reject_conn` with `HCI_ERR_HOST_REJECT_RESOURCES`: no accept is
issued, no timer is armed, and the link pool and the rest of the control block
are left as they are. -/
theorem conn_req_allocation_fails (env : Env) (cb : tL2C_CB) (bd_addr : Nat)
    (hfind : l2cu_find_lcb_by_bd_addr cb bd_addr .BT_TRANSPORT_BR_EDR = none)
    (halloc : env.l2cu_allocate_lcb cb bd_addr false .BT_TRANSPORT_BR_EDR = none) :
    l2c_link_hci_conn_req env cb bd_addr = some (false,
      { cb with calls := cb.calls ++
          [.btsnd_hcic_reject_conn bd_addr .HCI_ERR_HOST_REJECT_RESOURCES] }) := by
  unfold l2c_link_hci_conn_req
  simp only [hfind, halloc]
  rfl

/-- Witness of C21 in `env0`, whose allocator always fails. -/
theorem conn_req_allocation_fails_witness :
    l2c_link_hci_conn_req env0 cb_unused 7 = some (false,
      { cb_unused with calls := cb_unused.calls ++
          [.btsnd_hcic_reject_conn 7 .HCI_ERR_HOST_REJECT_RESOURCES] }) :=
  conn_req_allocation_fails env0 cb_unused 7 (by decide) rfl

/-- C22: the address has a link control block `p`, in slot `i`.  When its state
is `LST_CONNECTING` or `LST_CONNECT_HOLDING`, `l2c_link_hci_conn_req` returns
`TRUE`, issues `btsnd_hcic_accept_conn` with the role of the role-switch policy
and leaves the link in `LST_CONNECTING` with that role.  In every other state it
returns `FALSE`, issues `btsnd_hcic_reject_conn` (with
`HCI_ERR_HOST_REJECT_DEVICE` in `LST_DISCONNECTING` and
`HCI_ERR_CONNECTION_EXISTS` otherwise, `LST_CONNECTED` included) and leaves the
pool as it is, `link_state` and `link_role` included.  So it returns `TRUE`
exactly when the state was `LST_CONNECTING` or `LST_CONNECT_HOLDING`. -/
theorem conn_req_existing_lcb (env : Env) (cb : tL2C_CB) (bd_addr i : Nat) (p : tL2C_LCB)
    (hfind : l2cu_find_lcb_by_bd_addr cb bd_addr .BT_TRANSPORT_BR_EDR = some i)
    (hp : cb.lcb_pool[i]? = some p) :
    (p.link_state = .LST_CONNECTING ∨ p.link_state = .LST_CONNECT_HOLDING →
      l2c_link_hci_conn_req env cb bd_addr = some (true,
        { cb with
          lcb_pool := cb.lcb_pool.set i
            { p with link_role := conn_req_switch_role env bd_addr p,
                     link_state := .LST_CONNECTING },
          calls := cb.calls ++
            [.btsnd_hcic_accept_conn bd_addr (conn_req_switch_role env bd_addr p)] })) ∧
    (¬ (p.link_state = .LST_CONNECTING ∨ p.link_state = .LST_CONNECT_HOLDING) →
      l2c_link_hci_conn_req env cb bd_addr = some (false,
        { cb with calls := cb.calls ++
            [.btsnd_hcic_reject_conn bd_addr
              (if p.link_state = .LST_DISCONNECTING then .HCI_ERR_HOST_REJECT_DEVICE
                else .HCI_ERR_CONNECTION_EXISTS)] })) ∧
    ((∃ cb1, l2c_link_hci_conn_req env cb bd_addr = some (true, cb1)) ↔
      (p.link_state = .LST_CONNECTING ∨ p.link_state = .LST_CONNECT_HOLDING)) := by
  have h1 : p.link_state = .LST_CONNECTING ∨ p.link_state = .LST_CONNECT_HOLDING →
      l2c_link_hci_conn_req env cb bd_addr = some (true,
        { cb with
          lcb_pool := cb.lcb_pool.set i
            { p with link_role := conn_req_switch_role env bd_addr p,
                     link_state := .LST_CONNECTING },
          calls := cb.calls ++
            [.btsnd_hcic_accept_conn bd_addr (conn_req_switch_role env bd_addr p)] }) := by
    intro h
    unfold l2c_link_hci_conn_req
    simp only [hfind, hp, h, if_true]
    rfl
  have h2 : ¬ (p.link_state = .LST_CONNECTING ∨ p.link_state = .LST_CONNECT_HOLDING) →
      l2c_link_hci_conn_req env cb bd_addr = some (false,
        { cb with calls := cb.calls ++
            [.btsnd_hcic_reject_conn bd_addr
              (if p.link_state = .LST_DISCONNECTING then .HCI_ERR_HOST_REJECT_DEVICE
                else .HCI_ERR_CONNECTION_EXISTS)] }) := by
    intro h
    unfold l2c_link_hci_conn_req
    simp only [hfind, hp, h, if_false]
    by_cases hd : p.link_state = .LST_DISCONNECTING
    · simp only [hd, if_true]; rfl
    · simp only [hd, if_false]; rfl
  refine ⟨h1, h2, ?_⟩
  constructor
  · intro ⟨cb1, hcb1⟩
    by_contra hn
    rw [h2 hn] at hcb1
    simp at hcb1
  · intro h
    exact ⟨_, h1 h⟩

/-- Witness of C22: a request for the connected link of `cb_connected` is
rejected with `HCI_ERR_CONNECTION_EXISTS` and the link keeps its state and
role; a request for the connecting link of `cb_connecting` is accepted. -/
theorem conn_req_existing_lcb_witness :
    l2c_link_hci_conn_req env0 cb_connected 7 = some (false,
      { cb_connected with calls := cb_connected.calls ++
          [.btsnd_hcic_reject_conn 7
            (if tL2C_LINK_STATE.LST_CONNECTED = .LST_DISCONNECTING then
                .HCI_ERR_HOST_REJECT_DEVICE
              else .HCI_ERR_CONNECTION_EXISTS)] }) ∧
    (l2c_link_hci_conn_req env0 cb_connecting 7).map
        (fun r => (r.1, r.2.calls, r.2.lcb_pool.map (fun p => (p.link_state, p.link_role))))
      = some (true, [.btsnd_hcic_accept_conn 7 .HCI_ROLE_MASTER],
          [(.LST_CONNECTING, .HCI_ROLE_MASTER), (.LST_DISCONNECTED, .HCI_ROLE_MASTER)]) :=
  ⟨(conn_req_existing_lcb env0 cb_connected 7 0
      { in_use := true, remote_bd_addr := 7, link_state := .LST_CONNECTED, handle := 9,
        link_role := .HCI_ROLE_SLAVE,
        ccb_queue := [ { local_cid := 64, ccb_id := 1 }, { local_cid := 65, ccb_id := 2 } ] }
      (by decide) rfl).2.1 (by decide), rfl⟩

theorem ext_call_pool (cb : tL2C_CB) (c : tEXT_CALL) : (ext_call cb c).lcb_pool = cb.lcb_pool :=
  rfl

theorem ext_call_calls (cb : tL2C_CB) (c : tEXT_CALL) : (ext_call cb c).calls = cb.calls ++ [c] :=
  rfl

theorem set_lcb_pool (cb : tL2C_CB) (i : Nat) (p : tL2C_LCB) :
    (set_lcb cb i p).lcb_pool = cb.lcb_pool.set i p := rfl

theorem set_lcb_calls (cb : tL2C_CB) (i : Nat) (p : tL2C_LCB) :
    (set_lcb cb i p).calls = cb.calls := rfl

theorem set_lcb_get (cb : tL2C_CB) (i : Nat) (p q : tL2C_LCB) (h : cb.lcb_pool[i]? = some q) :
    (set_lcb cb i p).lcb_pool[i]? = some p :=
  getElem?_set_same _ i _ _ h

theorem set_lcb_other (cb : tL2C_CB) (i j : Nat) (p : tL2C_LCB) (h : j ≠ i) :
    (set_lcb cb i p).lcb_pool[j]? = cb.lcb_pool[j]? :=
  List.getElem?_set_ne (Ne.symm h)

theorem set_lcb_set_lcb (cb : tL2C_CB) (i : Nat) (p q : tL2C_LCB) :
    set_lcb (set_lcb cb i p) i q = set_lcb cb i q := by
  unfold set_lcb
  simp [List.set_set]

theorem set_lcb_ext_call (cb : tL2C_CB) (i : Nat) (p : tL2C_LCB) (c : tEXT_CALL) :
    set_lcb (ext_call cb c) i p = ext_call (set_lcb cb i p) c := rfl

theorem set_lcb_self (cb : tL2C_CB) (i : Nat) (p : tL2C_LCB) (h : cb.lcb_pool[i]? = some p) :
    set_lcb cb i p = cb := by
  unfold set_lcb
  have e : cb.lcb_pool.set i p = cb.lcb_pool := by
    apply List.ext_getElem?
    intro j
    by_cases hj : j = i
    · rw [hj, getElem?_set_same _ i _ _ h, h]
    · rw [List.getElem?_set_ne (Ne.symm hj)]
  rw [e]

/-- The event sent to a channel that stays on the channel list. -/
theorem csm_execute_stays (env : Env) (cb : tL2C_CB) (i : Nat) (c : tL2C_CCB) (ev : tL2C_EVT)
    (h : env.csm_detaches c.ccb_id ev = false) :
    l2c_csm_execute env cb i c ev = ext_call cb (.l2c_csm_execute c.ccb_id ev) := by
  unfold l2c_csm_execute
  simp [h]

theorem find_lcb_by_bd_addr_ext (cb : tL2C_CB) (c : tEXT_CALL) (a : Nat) (t : tBT_TRANSPORT) :
    l2cu_find_lcb_by_bd_addr (ext_call cb c) a t = l2cu_find_lcb_by_bd_addr cb a t := rfl

theorem csm_stays_nil (env : Env) (ev : tL2C_EVT) (skip : Option Nat) (d : tL2C_CCB) :
    csm_stays env ev skip [] d = true := by
  simp [csm_stays]

/-- On the list that the loop runs over, a channel stays when it is the one that
is skipped or when it does not take itself off the list. -/
theorem csm_stays_self (env : Env) (ev : tL2C_EVT) (skip : Option Nat) (l : List tL2C_CCB)
    (d : tL2C_CCB) (hd : d ∈ l) :
    csm_stays env ev skip l d
      = !(decide (some d.ccb_id ≠ skip) && env.csm_detaches d.ccb_id ev) := by
  unfold csm_stays
  congr 1
  rw [Bool.eq_iff_iff]
  simp only [List.any_eq_true, Bool.and_eq_true, decide_eq_true_eq]
  constructor
  · rintro ⟨c, _, ⟨hc, hs⟩, hdet⟩
    rw [hc] at hs hdet
    exact ⟨hs, hdet⟩
  · rintro ⟨hs, hdet⟩
    exact ⟨d, hd, ⟨rfl, hs⟩, hdet⟩

theorem filter_stays_self (env : Env) (ev : tL2C_EVT) (skip : Option Nat) (l : List tL2C_CCB) :
    l.filter (csm_stays env ev skip l)
      = l.filter (fun d => !(decide (some d.ccb_id ≠ skip) && env.csm_detaches d.ccb_id ev)) := by
  apply List.filter_congr
  intro d hd
  exact csm_stays_self env ev skip l d hd

/-- The loops of lines 267-274 and 411-426: every channel of the list `l` but the
skipped one gets the event once, in the order of the list, and the channels
that take themselves off are gone from the channel list of the link. -/
theorem csm_dispatch_saved_eq (env : Env) (i : Nat) (ev : tL2C_EVT) (skip : Option Nat)
    (l : List tL2C_CCB) (cb : tL2C_CB) (p : tL2C_LCB) (hp : cb.lcb_pool[i]? = some p) :
    csm_dispatch_saved env i ev skip l cb
      = { cb with
          lcb_pool := cb.lcb_pool.set i
            { p with ccb_queue := p.ccb_queue.filter (csm_stays env ev skip l) },
          calls := cb.calls ++ (l.filter (fun c => decide (some c.ccb_id ≠ skip))).map
            (fun c => .l2c_csm_execute c.ccb_id ev) } := by
  induction l generalizing cb p with
  | nil =>
    have e : p.ccb_queue.filter (csm_stays env ev skip []) = p.ccb_queue := by
      rw [List.filter_eq_self]
      intro d _
      exact csm_stays_nil env ev skip d
    have e2 := set_lcb_self cb i p hp
    unfold set_lcb at e2
    simp only [csm_dispatch_saved, e, List.filter_nil, List.map_nil, List.append_nil]
    have e3 : cb.lcb_pool.set i p = cb.lcb_pool := congrArg tL2C_CB.lcb_pool e2
    rw [e3]
  | cons c rest ih =>
    rw [csm_dispatch_saved]
    by_cases hs : some c.ccb_id = skip
    · rw [if_pos hs, ih cb p hp]
      have e : p.ccb_queue.filter (csm_stays env ev skip (c :: rest))
          = p.ccb_queue.filter (csm_stays env ev skip rest) := by
        apply List.filter_congr
        intro d _
        simp [csm_stays, hs]
      rw [e]
      simp [List.filter_cons, hs]
    · rw [if_neg hs]
      cases hdet : env.csm_detaches c.ccb_id ev
      · rw [csm_execute_stays env cb i c ev hdet, ih (ext_call cb _) p hp]
        have e : p.ccb_queue.filter (csm_stays env ev skip (c :: rest))
            = p.ccb_queue.filter (csm_stays env ev skip rest) := by
          apply List.filter_congr
          intro d _
          simp [csm_stays, hs, hdet]
        rw [e]
        simp [List.filter_cons, hs, ext_call]
      · have hx : l2c_csm_execute env cb i c ev
            = set_lcb (ext_call cb (.l2c_csm_execute c.ccb_id ev)) i
                { p with ccb_queue := p.ccb_queue.filter (fun d => d.ccb_id ≠ c.ccb_id) } := by
          unfold l2c_csm_execute
          simp [hdet, ext_call_pool, hp]
        have hp2 : (ext_call cb (.l2c_csm_execute c.ccb_id ev)).lcb_pool[i]? = some p := hp
        rw [hx, ih _ _ (set_lcb_get (ext_call cb (.l2c_csm_execute c.ccb_id ev)) i _ p hp2)]
        have e : (p.ccb_queue.filter (fun d => d.ccb_id ≠ c.ccb_id)).filter
              (csm_stays env ev skip rest)
            = p.ccb_queue.filter (csm_stays env ev skip (c :: rest)) := by
          rw [List.filter_filter]
          apply List.filter_congr
          intro d _
          by_cases hcd : c.ccb_id = d.ccb_id
          · have hcd2 : d.ccb_id = c.ccb_id := hcd.symm
            simp [csm_stays, hs, hdet, hcd2]
          · have hcd2 : ¬ d.ccb_id = c.ccb_id := fun h => hcd h.symm
            simp [csm_stays, hcd, hcd2]
        simp only [e]
        simp [List.filter_cons, hs, ext_call, set_lcb, List.set_set]

/-- Lines 260-292: the failed connection of the link `p` in slot `i`.  Every
channel of the link gets `L2CEVT_LP_CONNECT_CFM_NEG` once; when no channel is
left the link is released, when channels are left the link goes back to
`LST_CONNECTING` for `HCI_ERR_CONNECTION_EXISTS` and gets a new connect attempt
for every other status. -/
theorem conn_comp_failed_eq (env : Env) (cb : tL2C_CB) (i : Nat) (p q0 : tL2C_LCB)
    (status : tHCI_STATUS) (hq : cb.lcb_pool[i]? = some q0) :
    conn_comp_failed env cb i p status
      = { cb with
          lcb_pool := cb.lcb_pool.set i
            { p with
              in_use :=
                if p.ccb_queue.filter (fun d => !env.csm_detaches d.ccb_id .L2CEVT_LP_CONNECT_CFM_NEG)
                    = [] then false
                else p.in_use,
              link_state :=
                if p.ccb_queue.filter (fun d => !env.csm_detaches d.ccb_id .L2CEVT_LP_CONNECT_CFM_NEG)
                    = [] then .LST_DISCONNECTING
                else if status = .HCI_ERR_CONNECTION_EXISTS then .LST_CONNECTING
                else .LST_DISCONNECTING,
              disc_reason := status,
              ccb_queue :=
                p.ccb_queue.filter (fun d => !env.csm_detaches d.ccb_id .L2CEVT_LP_CONNECT_CFM_NEG) },
          calls := cb.calls
            ++ p.ccb_queue.map (fun c => .l2c_csm_execute c.ccb_id .L2CEVT_LP_CONNECT_CFM_NEG)
            ++ (if p.ccb_queue.filter
                    (fun d => !env.csm_detaches d.ccb_id .L2CEVT_LP_CONNECT_CFM_NEG) = [] then
                  [.l2cu_release_lcb i]
                else if status = .HCI_ERR_CONNECTION_EXISTS then []
                else [.l2cu_create_conn i .BT_TRANSPORT_BR_EDR]) } := by
  have h1 := set_lcb_get cb i { p with link_state := .LST_DISCONNECTING } q0 hq
  have hlt : i < cb.lcb_pool.length := by
    rcases List.getElem?_eq_some_iff.mp hq with ⟨h, _⟩
    exact h
  unfold conn_comp_failed
  simp only []
  rw [csm_dispatch_saved_eq env i .L2CEVT_LP_CONNECT_CFM_NEG none p.ccb_queue _ _ h1]
  simp only [filter_stays_self]
  have ef : (fun (d : tL2C_CCB) => !(decide (some d.ccb_id ≠ none)
        && env.csm_detaches d.ccb_id .L2CEVT_LP_CONNECT_CFM_NEG))
      = (fun d => !env.csm_detaches d.ccb_id .L2CEVT_LP_CONNECT_CFM_NEG) := by
    funext d
    simp
  have eg : p.ccb_queue.filter (fun c => decide (some c.ccb_id ≠ none)) = p.ccb_queue := by
    rw [List.filter_eq_self]
    intro d _
    simp
  rw [ef, eg]
  by_cases hempty : p.ccb_queue.filter
      (fun d => !env.csm_detaches d.ccb_id .L2CEVT_LP_CONNECT_CFM_NEG) = []
  · simp [hempty, set_lcb, ext_call, l2cu_release_lcb, List.set_set, hlt]
  · by_cases hex : status = .HCI_ERR_CONNECTION_EXISTS
    · simp [hempty, hex, set_lcb, List.set_set, hlt]
    · simp [hempty, hex, set_lcb, ext_call, l2cu_create_conn, List.set_set, hlt]

/-- C24: the address has a link control block `p` in state `LST_CONNECTING`, and
the connect-complete has a failure status that is not
`HCI_ERR_MAX_NUM_OF_CONNECTIONS` with another link disconnecting.  Then
`l2c_link_hci_conn_comp` returns `TRUE`, every channel of the link gets
`L2CEVT_LP_CONNECT_CFM_NEG` exactly once, in the order of the list, and the
status is stored as `disc_reason`.  When no channel is left on the list the
link is released (`l2cu_release_lcb`); when channels are left and the status is
`HCI_ERR_CONNECTION_EXISTS` the link is in `LST_CONNECTING` and nothing more is
called; otherwise `l2cu_create_conn` is called for the link. -/
theorem conn_comp_failure (env : Env) (cb : tL2C_CB) (status : tHCI_STATUS)
    (handle p_bda i : Nat) (p : tL2C_LCB)
    (hfind : l2cu_find_lcb_by_bd_addr cb p_bda .BT_TRANSPORT_BR_EDR = some i)
    (hp : cb.lcb_pool[i]? = some p) (hstate : p.link_state = .LST_CONNECTING)
    (hfail : status ≠ .HCI_SUCCESS)
    (hnot : ¬ (status = .HCI_ERR_MAX_NUM_OF_CONNECTIONS ∧
      env.l2cu_lcb_disconnecting
        (set_lcb (ext_call cb .btm_acl_update_busy_level) i { p with handle := handle }) = true)) :
    l2c_link_hci_conn_comp env cb status handle p_bda = some (true,
      { cb with
        lcb_pool := cb.lcb_pool.set i
          { p with
            handle := handle,
            in_use :=
              if p.ccb_queue.filter (fun d => !env.csm_detaches d.ccb_id .L2CEVT_LP_CONNECT_CFM_NEG)
                  = [] then false
              else p.in_use,
            link_state :=
              if p.ccb_queue.filter (fun d => !env.csm_detaches d.ccb_id .L2CEVT_LP_CONNECT_CFM_NEG)
                  = [] then .LST_DISCONNECTING
              else if status = .HCI_ERR_CONNECTION_EXISTS then .LST_CONNECTING
              else .LST_DISCONNECTING,
            disc_reason := status,
            ccb_queue :=
              p.ccb_queue.filter (fun d => !env.csm_detaches d.ccb_id .L2CEVT_LP_CONNECT_CFM_NEG) },
        calls := cb.calls ++ [.btm_acl_update_busy_level]
          ++ p.ccb_queue.map (fun c => .l2c_csm_execute c.ccb_id .L2CEVT_LP_CONNECT_CFM_NEG)
          ++ (if p.ccb_queue.filter
                  (fun d => !env.csm_detaches d.ccb_id .L2CEVT_LP_CONNECT_CFM_NEG) = [] then
                [.l2cu_release_lcb i]
              else if status = .HCI_ERR_CONNECTION_EXISTS then []
              else [.l2cu_create_conn i .BT_TRANSPORT_BR_EDR]) }) := by
  have hp0 : (ext_call cb .btm_acl_update_busy_level).lcb_pool[i]? = some p := hp
  have hp1 := set_lcb_get (ext_call cb .btm_acl_update_busy_level) i { p with handle := handle } p hp0
  have hs : ¬ (p.link_state ≠ .LST_CONNECTING) := by simp [hstate]
  have h := conn_comp_failed_eq env _ i { p with handle := handle }
    { p with handle := handle } status hp1
  unfold l2c_link_hci_conn_comp
  simp only [find_lcb_by_bd_addr_ext, hfind, hp0, if_neg hs, if_neg hfail, if_neg hnot]
  rw [h]
  simp [set_lcb, ext_call, List.set_set]

/-- Witness of C24 on `cb_connecting` with the status `HCI_ERR_OTHER 4`: the
channels 1 and 2 get the event, none takes itself off the list, and a connect
attempt is made for the link. -/
theorem conn_comp_failure_witness :
    l2c_link_hci_conn_comp env0 cb_connecting (.HCI_ERR_OTHER 4) 9 7 = some (true,
      { cb_connecting with
        lcb_pool :=
          [ { in_use := true, remote_bd_addr := 7, link_state := .LST_DISCONNECTING, handle := 9,
              disc_reason := .HCI_ERR_OTHER 4,
              l2c_lcb_timer := some .L2CAP_LINK_CONNECT_TIMEOUT_MS,
              ccb_queue := [ { local_cid := 64, ccb_id := 1 }, { local_cid := 65, ccb_id := 2 } ] },
            {} ],
        calls :=
          [.btm_acl_update_busy_level,
            .l2c_csm_execute 1 .L2CEVT_LP_CONNECT_CFM_NEG,
            .l2c_csm_execute 2 .L2CEVT_LP_CONNECT_CFM_NEG,
            .l2cu_create_conn 0 .BT_TRANSPORT_BR_EDR] }) :=
  (conn_comp_failure env0 cb_connecting (.HCI_ERR_OTHER 4) 9 7 0
    { in_use := true, remote_bd_addr := 7, link_state := .LST_CONNECTING, handle := 9,
      l2c_lcb_timer := some .L2CAP_LINK_CONNECT_TIMEOUT_MS,
      ccb_queue := [ { local_cid := 64, ccb_id := 1 }, { local_cid := 65, ccb_id := 2 } ] }
    (by decide) rfl rfl (by decide) (by decide)).trans rfl

/-- C25: the address has a link control block `p` in state `LST_CONNECTING`, the
connect-complete has the status `HCI_ERR_MAX_NUM_OF_CONNECTIONS` and
`l2cu_lcb_disconnecting` says that a link is disconnecting.  Then
`l2c_link_hci_conn_comp` returns `TRUE`, the link is in `LST_CONNECT_HOLDING`
with the handle `HCI_INVALID_HANDLE`, it is still in use with the channels it
had, and nothing is called but `btm_acl_update_busy_level`: no channel gets an
event and the link is not released. -/
theorem conn_comp_holding (env : Env) (cb : tL2C_CB) (handle p_bda i : Nat) (p : tL2C_LCB)
    (hfind : l2cu_find_lcb_by_bd_addr cb p_bda .BT_TRANSPORT_BR_EDR = some i)
    (hp : cb.lcb_pool[i]? = some p) (hstate : p.link_state = .LST_CONNECTING)
    (hdisc : env.l2cu_lcb_disconnecting
      (set_lcb (ext_call cb .btm_acl_update_busy_level) i { p with handle := handle }) = true) :
    l2c_link_hci_conn_comp env cb .HCI_ERR_MAX_NUM_OF_CONNECTIONS handle p_bda = some (true,
      { cb with
        lcb_pool := cb.lcb_pool.set i
          { p with handle := env.HCI_INVALID_HANDLE, link_state := .LST_CONNECT_HOLDING },
        calls := cb.calls ++ [.btm_acl_update_busy_level] }) := by
  have hp0 : (ext_call cb .btm_acl_update_busy_level).lcb_pool[i]? = some p := hp
  have hs : ¬ (p.link_state ≠ .LST_CONNECTING) := by simp [hstate]
  have hf : ¬ (tHCI_STATUS.HCI_ERR_MAX_NUM_OF_CONNECTIONS = .HCI_SUCCESS) := by decide
  unfold l2c_link_hci_conn_comp
  simp only [find_lcb_by_bd_addr_ext, hfind, hp0, if_neg hs, if_neg hf, hdisc, and_self, if_true]
  simp [set_lcb, ext_call, List.set_set]

/-- Witness of C25 on `cb_connecting`, with a link that is disconnecting. -/
theorem conn_comp_holding_witness :
    l2c_link_hci_conn_comp env_disconnecting cb_connecting .HCI_ERR_MAX_NUM_OF_CONNECTIONS 9 7
      = some (true,
      { cb_connecting with
        lcb_pool :=
          [ { in_use := true, remote_bd_addr := 7, link_state := .LST_CONNECT_HOLDING,
              handle := 65535,
              l2c_lcb_timer := some .L2CAP_LINK_CONNECT_TIMEOUT_MS,
              ccb_queue := [ { local_cid := 64, ccb_id := 1 }, { local_cid := 65, ccb_id := 2 } ] },
            {} ],
        calls := [.btm_acl_update_busy_level] }) :=
  (conn_comp_holding env_disconnecting cb_connecting 9 7 0
    { in_use := true, remote_bd_addr := 7, link_state := .LST_CONNECTING, handle := 9,
      l2c_lcb_timer := some .L2CAP_LINK_CONNECT_TIMEOUT_MS,
      ccb_queue := [ { local_cid := 64, ccb_id := 1 }, { local_cid := 65, ccb_id := 2 } ] }
    (by decide) rfl rfl rfl).trans rfl

/-- C26: a connect-complete for an address without a link control block makes
`l2c_link_hci_conn_comp` return `FALSE` with the control block as it was, the
call of `btm_acl_update_busy_level` that opens the function being all that is
recorded.  For a link control block `p` whose state is not `LST_CONNECTING` it
returns `FALSE` as well: with the status `HCI_SUCCESS` the control block is as
it was, so neither the handle nor `link_state` is written, and with every other
status the control block is the one that `l2c_link_hci_disc_comp` leaves when
called with the handle of `p` and the status. -/
theorem conn_comp_bad_state (env : Env) (cb : tL2C_CB) (status : tHCI_STATUS)
    (handle p_bda : Nat) :
    (l2cu_find_lcb_by_bd_addr cb p_bda .BT_TRANSPORT_BR_EDR = none →
      l2c_link_hci_conn_comp env cb status handle p_bda
        = some (false, ext_call cb .btm_acl_update_busy_level)) ∧
    (∀ (i : Nat) (p : tL2C_LCB),
      l2cu_find_lcb_by_bd_addr cb p_bda .BT_TRANSPORT_BR_EDR = some i →
      cb.lcb_pool[i]? = some p → p.link_state ≠ .LST_CONNECTING →
      l2c_link_hci_conn_comp env cb status handle p_bda
        = some (false,
            if status = .HCI_SUCCESS then ext_call cb .btm_acl_update_busy_level
            else (l2c_link_hci_disc_comp env (ext_call cb .btm_acl_update_busy_level)
              p.handle status).2)) := by
  constructor
  · intro hfind
    unfold l2c_link_hci_conn_comp
    simp only [find_lcb_by_bd_addr_ext, hfind]
  · intro i p hfind hp hstate
    have hp0 : (ext_call cb .btm_acl_update_busy_level).lcb_pool[i]? = some p := hp
    unfold l2c_link_hci_conn_comp
    simp only [find_lcb_by_bd_addr_ext, hfind, hp0, if_pos hstate]
    by_cases hs : status = .HCI_SUCCESS
    · simp [hs]
    · simp [hs]

/-- Witness of C26 on `cb_connected`: a connect-complete with the status
`HCI_ERR_OTHER 8` for the connected link with the handle 9. -/
theorem conn_comp_bad_state_witness :
    l2c_link_hci_conn_comp env0 cb_connected (.HCI_ERR_OTHER 8) 5 7
      = some (false,
          (l2c_link_hci_disc_comp env0 (ext_call cb_connected .btm_acl_update_busy_level)
            9 (.HCI_ERR_OTHER 8)).2) :=
  ((conn_comp_bad_state env0 cb_connected (.HCI_ERR_OTHER 8) 5 7).2 0
    { in_use := true, remote_bd_addr := 7, link_state := .LST_CONNECTED, handle := 9,
      link_role := .HCI_ROLE_SLAVE,
      ccb_queue := [ { local_cid := 64, ccb_id := 1 }, { local_cid := 65, ccb_id := 2 } ] }
    (by decide) rfl (by decide)).trans rfl

/-- The search of lines 336-340 finds the first channel with the address
`p_ref_data`, and line 350 arms the timer of that channel and of no other. -/
theorem ccb_arm_timer_spec (r : Nat) (q : List tL2C_CCB) (c : tL2C_CCB)
    (h : q.find? (fun d => decide (d.ccb_id = r)) = some c) :
    ∃ pre post, q = pre ++ c :: post ∧ c.ccb_id = r ∧ (∀ d ∈ pre, d.ccb_id ≠ r) ∧
      ccb_arm_timer r q
        = pre ++ ccb_timer_armed c :: post := by
  induction q with
  | nil => simp at h
  | cons d rest ih =>
    by_cases hd : d.ccb_id = r
    · have e : d = c := by
        simpa [List.find?_cons, hd] using h
      subst e
      exact ⟨[], rest, rfl, hd, by simp, by simp [ccb_arm_timer, hd, ccb_timer_armed]⟩
    · have h2 : rest.find? (fun d => decide (d.ccb_id = r)) = some c := by
        simpa [List.find?_cons, hd] using h
      rcases ih h2 with ⟨pre, post, e1, e2, e3, e4⟩
      refine ⟨d :: pre, post, by simp [e1], e2, ?_, ?_⟩
      · intro x hx
        rcases List.mem_cons.mp hx with hx | hx
        · rw [hx]; exact hd
        · exact e3 x hx
      · simp [ccb_arm_timer, hd, e4]

theorem find_ccb_none (r : Nat) (q : List tL2C_CCB) (h : ∀ c ∈ q, c.ccb_id ≠ r) :
    q.find? (fun d => decide (d.ccb_id = r)) = none := by
  rw [List.find?_eq_none]
  intro c hc
  simpa using h c hc

theorem csm_execute_calls (env : Env) (cb : tL2C_CB) (i : Nat) (c : tL2C_CCB) (ev : tL2C_EVT) :
    (l2c_csm_execute env cb i c ev).calls = cb.calls ++ [.l2c_csm_execute c.ccb_id ev] := by
  unfold l2c_csm_execute
  simp only []
  split
  · split <;> rfl
  · rfl

/-- C27: `l2c_link_sec_comp` leaves the control block as it is when the address
has no link control block on the transport and when no channel of the link has
the address `p_ref_data`.  When the link has such a channel, the only call is
one `l2c_csm_execute` for the channel `p_ref_data`, with `L2CEVT_SEC_COMP` for
the status `BTM_SUCCESS` or `BTM_SUCCESS_NO_SECURITY` and with
`L2CEVT_SEC_COMP_NEG` for every other status but `BTM_DELAY_CHECK`; for
`BTM_DELAY_CHECK` nothing is called and the timer of the first channel with
that address, and of no other channel, is armed with
`L2CAP_DELAY_CHECK_SM4_TIMEOUT_MS`. -/
theorem sec_comp_dispatch (env : Env) (cb : tL2C_CB) (p_bda : Nat) (transport : tBT_TRANSPORT)
    (p_ref_data : Nat) (status : tBTM_STATUS) :
    (l2cu_find_lcb_by_bd_addr cb p_bda transport = none →
      l2c_link_sec_comp env cb p_bda transport p_ref_data status = cb) ∧
    (∀ (i : Nat) (p : tL2C_LCB),
      l2cu_find_lcb_by_bd_addr cb p_bda transport = some i → cb.lcb_pool[i]? = some p →
      ((∀ c ∈ p.ccb_queue, c.ccb_id ≠ p_ref_data) →
        l2c_link_sec_comp env cb p_bda transport p_ref_data status = cb) ∧
      ((∃ c ∈ p.ccb_queue, c.ccb_id = p_ref_data) →
        (l2c_link_sec_comp env cb p_bda transport p_ref_data status).calls
          = cb.calls ++
            (if status = .BTM_DELAY_CHECK then []
             else if status = .BTM_SUCCESS ∨ status = .BTM_SUCCESS_NO_SECURITY then
               [.l2c_csm_execute p_ref_data .L2CEVT_SEC_COMP]
             else [.l2c_csm_execute p_ref_data .L2CEVT_SEC_COMP_NEG]) ∧
        (status = .BTM_DELAY_CHECK →
          ∃ pre c post, p.ccb_queue = pre ++ c :: post ∧ c.ccb_id = p_ref_data ∧
            (∀ d ∈ pre, d.ccb_id ≠ p_ref_data) ∧
            l2c_link_sec_comp env cb p_bda transport p_ref_data status
              = set_lcb cb i
                  { p with
                    ccb_queue := pre ++ ccb_timer_armed c :: post }))) := by
  constructor
  · intro hfind
    unfold l2c_link_sec_comp
    simp only [hfind]
  · intro i p hfind hp
    constructor
    · intro hno
      unfold l2c_link_sec_comp
      simp only [hfind, hp, find_ccb_none p_ref_data p.ccb_queue hno]
    · rintro ⟨c0, hc0, hid0⟩
      cases hf : p.ccb_queue.find? (fun d => decide (d.ccb_id = p_ref_data)) with
      | none =>
        rw [List.find?_eq_none] at hf
        have := hf c0 hc0
        simp [hid0] at this
      | some c =>
        rcases ccb_arm_timer_spec p_ref_data p.ccb_queue c hf with ⟨pre, post, e1, e2, e3, e4⟩
        constructor
        · unfold l2c_link_sec_comp
          simp only [hfind, hp, hf]
          cases status <;> simp [csm_execute_calls, e2, set_lcb]
        · intro hs
          refine ⟨pre, c, post, e1, e2, e3, ?_⟩
          unfold l2c_link_sec_comp
          simp only [hfind, hp, hf, hs]
          simp [set_lcb, e4]

/-- Witness of C27 on `cb_connected`: the security manager hands back the
channel 2 of the link with the address 7, with a failure status. -/
theorem sec_comp_dispatch_witness :
    (l2c_link_sec_comp env0 cb_connected 7 .BT_TRANSPORT_BR_EDR 2 .BTM_BUSY).calls
      = [.l2c_csm_execute 2 .L2CEVT_SEC_COMP_NEG] :=
  ((((sec_comp_dispatch env0 cb_connected 7 .BT_TRANSPORT_BR_EDR 2 .BTM_BUSY).2 0
    { in_use := true, remote_bd_addr := 7, link_state := .LST_CONNECTED, handle := 9,
      link_role := .HCI_ROLE_SLAVE,
      ccb_queue := [ { local_cid := 64, ccb_id := 1 }, { local_cid := 65, ccb_id := 2 } ] }
    (by decide) rfl).2 ⟨{ local_cid := 65, ccb_id := 2 }, by decide, rfl⟩).1).trans rfl

theorem csm_events_append (a b : List tEXT_CALL) :
    csm_events (a ++ b) = csm_events a ++ csm_events b := by
  simp [csm_events, List.filterMap_append]

theorem conn_attempts_append (a b : List tEXT_CALL) :
    conn_attempts (a ++ b) = conn_attempts a ++ conn_attempts b := by
  simp [conn_attempts, List.filterMap_append]

theorem lcb_releases_append (a b : List tEXT_CALL) :
    lcb_releases (a ++ b) = lcb_releases a ++ lcb_releases b := by
  simp [lcb_releases, List.filterMap_append]

theorem quiet_csm_events (l : List tEXT_CALL) (h : l.all quiet_call = true) :
    csm_events l = [] := by
  induction l with
  | nil => rfl
  | cons c rest ih =>
    simp only [List.all_cons, Bool.and_eq_true] at h
    have e := ih h.2
    unfold csm_events at e ⊢
    cases c <;> simp_all [quiet_call]

theorem quiet_lcb_releases (l : List tEXT_CALL) (h : l.all quiet_call = true) :
    lcb_releases l = [] := by
  induction l with
  | nil => rfl
  | cons c rest ih =>
    simp only [List.all_cons, Bool.and_eq_true] at h
    have e := ih h.2
    unfold lcb_releases at e ⊢
    cases c <;> simp_all [quiet_call]

theorem csm_events_map (q : List tL2C_CCB) (ev : tL2C_EVT) :
    csm_events (q.map (fun c => .l2c_csm_execute c.ccb_id ev))
      = q.map (fun c => (c.ccb_id, ev)) := by
  induction q with
  | nil => rfl
  | cons c rest ih =>
    unfold csm_events at ih ⊢
    simp [ih]

theorem conn_attempts_csm (q : List tL2C_CCB) (ev : tL2C_EVT) :
    conn_attempts (q.map (fun c => .l2c_csm_execute c.ccb_id ev)) = [] := by
  induction q with
  | nil => rfl
  | cons c rest ih =>
    unfold conn_attempts at ih ⊢
    simp [ih]

theorem lcb_releases_csm (q : List tL2C_CCB) (ev : tL2C_EVT) :
    lcb_releases (q.map (fun c => .l2c_csm_execute c.ccb_id ev)) = [] := by
  induction q with
  | nil => rfl
  | cons c rest ih =>
    unfold lcb_releases at ih ⊢
    simp [ih]

theorem lcb_kept_refl (p : tL2C_LCB) : lcb_kept p p := by
  simp [lcb_kept]

/-- The loop of lines 467-495 calls the fixed-channel callbacks and
`l2cu_release_ccb`, and changes nothing else of the control block. -/
theorem release_fixed_ccbs_eq (env : Env) (p : tL2C_LCB) (t : tBT_TRANSPORT) (xx : Nat)
    (l : List (Option Nat)) (cb : tL2C_CB) :
    ∃ extra, (release_fixed_ccbs env p t xx l cb).2 = { cb with calls := cb.calls ++ extra } ∧
      extra.all quiet_call = true := by
  induction l generalizing xx cb with
  | nil => exact ⟨[], by simp [release_fixed_ccbs], rfl⟩
  | cons f rest ih =>
    cases f with
    | none =>
      rcases ih (xx + 1) cb with ⟨extra, e1, e2⟩
      exact ⟨extra, by simp [release_fixed_ccbs, e1], e2⟩
    | some c =>
      by_cases hc : some c ≠ p.p_pending_ccb
      · rcases ih (xx + 1) (ext_call (ext_call cb
            (.pL2CA_FixedConn_Cb (xx + env.L2CAP_FIRST_FIXED_CHNL) p.remote_bd_addr p.disc_reason t))
            (.l2cu_release_ccb c)) with ⟨extra, e1, e2⟩
        refine ⟨[.pL2CA_FixedConn_Cb (xx + env.L2CAP_FIRST_FIXED_CHNL) p.remote_bd_addr
          p.disc_reason t, .l2cu_release_ccb c] ++ extra, ?_, ?_⟩
        · simp only [release_fixed_ccbs, if_pos hc, e1]
          simp [ext_call]
        · simp [e2, quiet_call]
      · rcases ih (xx + 1) cb with ⟨extra, e1, e2⟩
        exact ⟨extra, by simp only [release_fixed_ccbs, if_neg hc, e1], e2⟩

/-- Lines 515-567 touch the windows, the round-robin counters and
`sent_not_acked` of the link. -/
theorem disc_restore_window_frame (env : Env) (cb : tL2C_CB) (i : Nat) (p q : tL2C_LCB)
    (hq : cb.lcb_pool[i]? = some q) (hqp : q = p) :
    (disc_restore_window env cb i p).calls = cb.calls ∧
    ∃ p1, (disc_restore_window env cb i p).lcb_pool = cb.lcb_pool.set i p1 ∧ lcb_kept p p1 := by
  subst hqp
  unfold disc_restore_window
  by_cases hs : q.sent_not_acked > 0
  · simp only [if_pos hs]
    constructor
    · split <;> rfl
    · refine ⟨{ q with sent_not_acked := 0 }, ?_, by simp [lcb_kept]⟩
      split <;> rfl
  · simp only [if_neg hs]
    refine ⟨trivial, q, ?_, lcb_kept_refl q⟩
    have := set_lcb_self cb i q hq
    exact (congrArg tL2C_CB.lcb_pool this).symm

theorem quiet_step_set (i : Nat) (cb : tL2C_CB) (p p1 : tL2C_LCB) (h : lcb_kept p p1) :
    quiet_step i cb p (set_lcb cb i p1) :=
  ⟨⟨p1, rfl, h⟩, [], by simp [set_lcb], rfl⟩

theorem quiet_step_ext (i : Nat) (cb cb1 : tL2C_CB) (p : tL2C_LCB) (c : tEXT_CALL)
    (h : quiet_step i cb p cb1) (hc : quiet_call c = true) :
    quiet_step i cb p (ext_call cb1 c) := by
  rcases h with ⟨⟨p1, e1, k1⟩, extra, e2, q2⟩
  refine ⟨⟨p1, e1, k1⟩, extra ++ [c], ?_, ?_⟩
  · simp [ext_call, e2]
  · simp [q2, hc]

theorem quiet_step_set_after (i : Nat) (cb cb1 : tL2C_CB) (p p1 : tL2C_LCB)
    (h : quiet_step i cb p cb1) (k : lcb_kept p p1) :
    quiet_step i cb p (set_lcb cb1 i p1) := by
  rcases h with ⟨⟨p0, e1, _⟩, extra, e2, q2⟩
  refine ⟨⟨p1, ?_, k⟩, extra, e2, q2⟩
  simp [set_lcb, e1, List.set_set]

theorem quiet_step_fields (i : Nat) (cb cb1 cb2 : tL2C_CB) (p : tL2C_LCB)
    (h : quiet_step i cb p cb1) (hpool : cb2.lcb_pool = cb1.lcb_pool)
    (hcalls : cb2.calls = cb1.calls) : quiet_step i cb p cb2 := by
  rcases h with ⟨⟨p0, e1, k1⟩, extra, e2, q2⟩
  exact ⟨⟨p0, by rw [hpool, e1], k1⟩, extra, by rw [hcalls, e2], q2⟩

theorem quiet_step_fixed (env : Env) (i : Nat) (cb cb1 : tL2C_CB) (p p1 : tL2C_LCB)
    (t : tBT_TRANSPORT) (xx : Nat) (l : List (Option Nat)) (h : quiet_step i cb p cb1) :
    quiet_step i cb p (release_fixed_ccbs env p1 t xx l cb1).2 := by
  rcases release_fixed_ccbs_eq env p1 t xx l cb1 with ⟨extra, e, hq⟩
  rcases h with ⟨⟨p0, e1, k1⟩, extra1, e2, q2⟩
  rw [e]
  refine ⟨⟨p0, e1, k1⟩, extra1 ++ extra, ?_, ?_⟩
  · simp [e2]
  · simp [q2, hq]

theorem lcb_kept_trans (p p1 p2 : tL2C_LCB) (h1 : lcb_kept p p1) (h2 : lcb_kept p1 p2) :
    lcb_kept p p2 := by
  unfold lcb_kept at *
  simp_all

theorem quiet_step_window (env : Env) (i : Nat) (cb cb1 : tL2C_CB) (p p1 : tL2C_LCB)
    (h : quiet_step i cb p cb1) (hk : lcb_kept p p1) (hp1 : cb1.lcb_pool[i]? = some p1) :
    quiet_step i cb p (disc_restore_window env cb1 i p1) := by
  rcases disc_restore_window_frame env cb1 i p1 p1 hp1 rfl with ⟨ec, p2, ep, k2⟩
  rcases h with ⟨⟨p0, e1, _⟩, extra, e2, q2⟩
  refine ⟨⟨p2, ?_, lcb_kept_trans p p1 p2 hk k2⟩, extra, by rw [ec, e2], q2⟩
  rw [ep, e1, List.set_set]

theorem quiet_step_refl (i : Nat) (cb : tL2C_CB) (p : tL2C_LCB)
    (hp : cb.lcb_pool[i]? = some p) : quiet_step i cb p cb :=
  ⟨⟨p, (congrArg tL2C_CB.lcb_pool (set_lcb_self cb i p hp)).symm, lcb_kept_refl p⟩,
    [], by simp, rfl⟩

theorem quiet_step_get (i : Nat) (cb cb1 : tL2C_CB) (p p1 : tL2C_LCB)
    (h : quiet_step i cb p cb1) (hp : cb.lcb_pool[i]? = some p) :
    (set_lcb cb1 i p1).lcb_pool[i]? = some p1 := by
  rcases h with ⟨⟨p0, e1, _⟩, _⟩
  have hlt : i < cb.lcb_pool.length := (List.getElem?_eq_some_iff.mp hp).1
  simp [set_lcb, e1, List.set_set, hlt]

/-- Lines 440-573: the restart of the connection calls `l2cu_create_conn` for
the link once, after quiet calls only, and keeps the state, the channels and
the pending channel of the link. -/
theorem disc_comp_reconnect_spec (env : Env) (cb : tL2C_CB) (i : Nat) (p : tL2C_LCB)
    (hp : cb.lcb_pool[i]? = some p) :
    ∃ cb4, disc_comp_reconnect env cb i p
        = (env.l2cu_create_conn cb4 i p.transport,
            ext_call cb4 (.l2cu_create_conn i p.transport))
      ∧ quiet_step i cb p cb4 := by
  unfold disc_comp_reconnect l2cu_create_conn
  refine ⟨_, rfl, ?_⟩
  simp only []
  -- the state after lines 446-458
  have k1 : lcb_kept p (if is_le env p then { p with link_xmit_data_q := [] } else p) := by
    split <;> simp [lcb_kept]
  have s1 : quiet_step i cb p (if is_le env p then ext_call { cb with is_ble_connecting := false }
          (.btm_acl_removed p.remote_bd_addr p.transport) else cb) := by
    split
    · apply quiet_step_ext
      · exact quiet_step_fields i cb cb _ p (quiet_step_refl i cb p hp) rfl rfl
      · rfl
    · exact quiet_step_refl i cb p hp
  have s2 := quiet_step_set_after i cb _ p _ s1 k1
  by_cases hfix : env.L2CAP_NUM_FIXED_CHNLS > 0
  · simp only [if_pos hfix]
    have s3 := quiet_step_fixed env i cb _ p
      (if is_le env p then { p with link_xmit_data_q := [] } else p)
      (if env.BLE_INCLUDED then
        (if is_le env p then { p with link_xmit_data_q := [] } else p).transport
       else .BT_TRANSPORT_BR_EDR) 0
      (if is_le env p then { p with link_xmit_data_q := [] } else p).p_fixed_ccbs s2
    have s4 : quiet_step i cb p (set_lcb _ i _) := quiet_step_set_after i cb _ p
      { (if is_le env p then { p with link_xmit_data_q := [] } else p) with
        p_fixed_ccbs := (release_fixed_ccbs env
          (if is_le env p then { p with link_xmit_data_q := [] } else p)
          (if env.BLE_INCLUDED then
            (if is_le env p then { p with link_xmit_data_q := [] } else p).transport
           else .BT_TRANSPORT_BR_EDR) 0
          (if is_le env p then { p with link_xmit_data_q := [] } else p).p_fixed_ccbs
          (set_lcb (if is_le env p then ext_call { cb with is_ble_connecting := false }
            (.btm_acl_removed p.remote_bd_addr p.transport) else cb) i
            (if is_le env p then { p with link_xmit_data_q := [] } else p))).1 } s3
      (by split <;> simp [lcb_kept])
    by_cases hmtk : env.MTK_COMMON = true
    · simp only [if_pos hmtk]
      refine quiet_step_window env i cb _ p _ ?_ ?_ ?_
      · refine quiet_step_set_after i cb _ p _ s4 ?_
        split <;> simp [lcb_kept]
      · split <;> simp [lcb_kept]
      · exact quiet_step_get i cb _ p _ s4 hp
    · simp only [if_neg hmtk]
      exact s4
  · simp only [if_neg hfix]
    exact s2

/-- Lines 394-434: the reason is stored, the link in slot `i` is in
`LST_DISCONNECTING` without the channels that have taken themselves off, and
every channel but the pending one has got `L2CEVT_LP_DISCONNECT_IND` once. -/
theorem disc_comp_dispatch_eq (env : Env) (cb : tL2C_CB) (i : Nat) (p : tL2C_LCB)
    (reason : tHCI_STATUS) (hp : cb.lcb_pool[i]? = some p) :
    disc_comp_dispatch env cb i p reason
      = { cb with
          acl_disc_reason :=
            if cb.acl_disc_reason ≠ .HCI_ERR_HOST_REJECT_SECURITY then reason
            else cb.acl_disc_reason,
          lcb_pool := cb.lcb_pool.set i
            { p with
              disc_reason :=
                if cb.acl_disc_reason ≠ .HCI_ERR_HOST_REJECT_SECURITY then reason
                else cb.acl_disc_reason,
              link_state := .LST_DISCONNECTING,
              ccb_queue := p.ccb_queue.filter (fun d =>
                !(decide (some d.ccb_id ≠ p.p_pending_ccb)
                  && env.csm_detaches d.ccb_id .L2CEVT_LP_DISCONNECT_IND)) },
          calls := cb.calls
            ++ (if is_le env p then [.btm_ble_update_link_topology_mask p.link_role] else [])
            ++ (p.ccb_queue.filter (fun c => decide (some c.ccb_id ≠ p.p_pending_ccb))).map
                (fun c => .l2c_csm_execute c.ccb_id .L2CEVT_LP_DISCONNECT_IND)
            ++ (if env.BTM_SCO_INCLUDED ∧
                  (env.BLE_INCLUDED = true → p.transport = .BT_TRANSPORT_BR_EDR) then
                [.btm_sco_acl_removed p.remote_bd_addr] else []) } := by
  have hlt : i < cb.lcb_pool.length := (List.getElem?_eq_some_iff.mp hp).1
  unfold disc_comp_dispatch
  simp only []
  have h3 : ∀ (cb1 : tL2C_CB) (p1 : tL2C_LCB), cb1.lcb_pool = cb.lcb_pool →
      (if is_le env p then ext_call (set_lcb cb1 i p1)
          (.btm_ble_update_link_topology_mask p.link_role) else set_lcb cb1 i p1).lcb_pool[i]?
        = some p1 := by
    intro cb1 p1 e
    split <;> simp [ext_call, set_lcb, e, hlt]
  rw [csm_dispatch_saved_eq env i .L2CEVT_LP_DISCONNECT_IND p.p_pending_ccb p.ccb_queue _ _
    (h3 _ _ (by split <;> rfl))]
  simp only [filter_stays_self]
  by_cases h4 : (env.BTM_SCO_INCLUDED ∧
      (env.BLE_INCLUDED = true → p.transport = .BT_TRANSPORT_BR_EDR))
  · simp only [if_pos h4]
    by_cases h1 : cb.acl_disc_reason ≠ .HCI_ERR_HOST_REJECT_SECURITY <;>
    by_cases h2 : is_le env p = true <;>
    simp [h1, h2, ext_call, set_lcb, List.set_set]
  · simp only [if_neg h4]
    by_cases h1 : cb.acl_disc_reason ≠ .HCI_ERR_HOST_REJECT_SECURITY <;>
    by_cases h2 : is_le env p = true <;>
    simp [h1, h2, ext_call, set_lcb, List.set_set]

theorem release_lcb_eq (cb : tL2C_CB) (i : Nat) (p : tL2C_LCB) (hp : cb.lcb_pool[i]? = some p) :
    l2cu_release_lcb cb i
      = { cb with
          lcb_pool := cb.lcb_pool.set i { p with in_use := false },
          calls := cb.calls ++ [.l2cu_release_lcb i] } := by
  unfold l2cu_release_lcb
  simp [ext_call, set_lcb, hp]

/-- Lines 436-580: what the end of `l2c_link_hci_disc_comp` does for the link
`p5` in slot `i`.  The connection is restarted, after quiet calls, when a
channel is left or one is pending; `lcb_is_free` stays `TRUE` unless that
connect attempt succeeds, and then the link is released; the pending channel
is cleared. -/
theorem disc_comp_finish_spec (env : Env) (cb5 : tL2C_CB) (i : Nat) (p5 : tL2C_LCB)
    (h5 : cb5.lcb_pool[i]? = some p5) :
    ∃ (pf : tL2C_LCB) (b : List tEXT_CALL) (cbr : tL2C_CB),
      b.all quiet_call = true ∧
      (disc_comp_finish env cb5 i).1
        = !(decide (p5.ccb_queue ≠ [] ∨ p5.p_pending_ccb.isSome = true)
            && env.l2cu_create_conn cbr i p5.transport) ∧
      (disc_comp_finish env cb5 i).2.calls
        = cb5.calls ++ b
          ++ (if p5.ccb_queue ≠ [] ∨ p5.p_pending_ccb.isSome = true then
                [.l2cu_create_conn i p5.transport] else [])
          ++ (if (disc_comp_finish env cb5 i).1 then [.l2cu_release_lcb i] else []) ∧
      (disc_comp_finish env cb5 i).2.lcb_pool = cb5.lcb_pool.set i pf ∧
      lcb_kept
        { p5 with
          p_pending_ccb := none
          in_use := if (disc_comp_finish env cb5 i).1 then false else p5.in_use } pf := by
  have hlt : i < cb5.lcb_pool.length := (List.getElem?_eq_some_iff.mp h5).1
  unfold disc_comp_finish
  simp only [h5]
  by_cases hag : p5.ccb_queue ≠ [] ∨ p5.p_pending_ccb.isSome = true
  · rcases disc_comp_reconnect_spec env cb5 i p5 h5 with ⟨cb4, e, ⟨⟨p1, e1, k1⟩, extra, e2, q2⟩⟩
    simp only [if_pos hag, e]
    have hg : (ext_call cb4 (.l2cu_create_conn i p5.transport)).lcb_pool[i]? = some p1 := by
      simp [ext_call, e1, hlt]
    simp only [hg]
    refine ⟨
      { p1 with
        p_pending_ccb := none
        in_use := if env.l2cu_create_conn cb4 i p5.transport then p1.in_use else false },
      extra, cb4, q2, ?_, ?_, ?_, ?_⟩
    · simp [hag]
    · cases hc : env.l2cu_create_conn cb4 i p5.transport
      · have hg2 : (set_lcb (ext_call cb4 (.l2cu_create_conn i p5.transport)) i
            { p1 with p_pending_ccb := none }).lcb_pool[i]? = some { p1 with p_pending_ccb := none } := by
          simp [ext_call, set_lcb, e1, hlt]
        simp only [Bool.not_false, if_true]
        rw [release_lcb_eq _ i _ hg2]
        simp [ext_call, set_lcb, e2]
      · simp [ext_call, set_lcb, e2]
    · cases hc : env.l2cu_create_conn cb4 i p5.transport
      · have hg2 : (set_lcb (ext_call cb4 (.l2cu_create_conn i p5.transport)) i
            { p1 with p_pending_ccb := none }).lcb_pool[i]? = some { p1 with p_pending_ccb := none } := by
          simp [ext_call, set_lcb, e1, hlt]
        simp only [Bool.not_false, if_true]
        rw [release_lcb_eq _ i _ hg2]
        simp [ext_call, set_lcb, e1, List.set_set]
      · simp [ext_call, set_lcb, e1, List.set_set]
    · unfold lcb_kept at k1 ⊢
      cases hc : env.l2cu_create_conn cb4 i p5.transport <;> simp [k1]
  · simp only [if_neg hag, h5]
    have hg2 : (set_lcb cb5 i { p5 with p_pending_ccb := none }).lcb_pool[i]?
        = some { p5 with p_pending_ccb := none } := by
      simp [set_lcb, hlt]
    refine ⟨
      { p5 with
        p_pending_ccb := none
        in_use := false }, [], cb5, rfl, ?_, ?_, ?_, ?_⟩
    · simp [hag]
    · simp only [if_true]
      rw [release_lcb_eq _ i _ hg2]
      simp [set_lcb]
    · simp only [if_true]
      rw [release_lcb_eq _ i _ hg2]
      simp [set_lcb, List.set_set]
    · simp [lcb_kept]

theorem find_lcb_by_state_some (cb : tL2C_CB) (st : tL2C_LINK_STATE) (j : Nat)
    (h : l2cu_find_lcb_by_state cb st = some j) :
    ∃ pj, cb.lcb_pool[j]? = some pj ∧ pj.in_use = true ∧ pj.link_state = st := by
  unfold l2cu_find_lcb_by_state at h
  simp only [] at h
  split at h
  · rename_i hlt
    have hj : List.findIdx (fun p => p.in_use && decide (p.link_state = st)) cb.lcb_pool = j := by
      simpa using h
    rw [hj] at hlt
    have hsat := @List.findIdx_getElem tL2C_LCB (fun p => p.in_use && decide (p.link_state = st)) cb.lcb_pool
      (by rw [hj]; exact hlt)
    simp only [hj] at hsat
    refine ⟨cb.lcb_pool[j], by simp [hlt], ?_⟩
    simpa using hsat
  · simp at h

/-- Lines 582-587 after a known handle: `l2c_link_hci_disc_comp` returns `TRUE`,
and all it adds to what lines 394-580 have done is the connect attempt for a
link that is in `LST_CONNECT_HOLDING`, which it makes only when `lcb_is_free`
is `TRUE`. -/
theorem disc_comp_found (env : Env) (cb : tL2C_CB) (handle i : Nat) (reason : tHCI_STATUS)
    (p : tL2C_LCB) (hfind : l2cu_find_lcb_by_handle cb handle = some i)
    (hp : cb.lcb_pool[i]? = some p) :
    (l2c_link_hci_disc_comp env cb handle reason).1 = true ∧
    (l2c_link_hci_disc_comp env cb handle reason).2.lcb_pool
      = (disc_comp_known env cb i p reason).2.lcb_pool ∧
    ∃ promo, (l2c_link_hci_disc_comp env cb handle reason).2.calls
        = (disc_comp_known env cb i p reason).2.calls ++ promo ∧
      ((disc_comp_known env cb i p reason).1 = false → promo = []) ∧
      ∀ c ∈ promo, ∃ j pj, c = .l2cu_create_conn j .BT_TRANSPORT_BR_EDR ∧
        (disc_comp_known env cb i p reason).2.lcb_pool[j]? = some pj ∧ pj.in_use = true ∧
        pj.link_state = .LST_CONNECT_HOLDING := by
  unfold l2c_link_hci_disc_comp
  simp only [hfind, hp]
  refine ⟨trivial, ?_, ?_⟩
  · split
    · split <;> rfl
    · rfl
  · cases hfree : (disc_comp_known env cb i p reason).1
    · exact ⟨[], by simp, fun _ => rfl, by simp⟩
    · cases hst : l2cu_find_lcb_by_state (disc_comp_known env cb i p reason).2 .LST_CONNECT_HOLDING with
      | none => exact ⟨[], by simp [hst], by simp, by simp⟩
      | some j =>
        rcases find_lcb_by_state_some _ _ j hst with ⟨pj, e1, e2, e3⟩
        refine ⟨[.l2cu_create_conn j .BT_TRANSPORT_BR_EDR], ?_, by simp, ?_⟩
        · simp [hst, l2cu_create_conn, ext_call]
        · intro c hc
          rw [List.mem_singleton] at hc
          exact ⟨j, pj, hc, e1, e2, e3⟩

/-- Lines 394-580 for the link `p` in slot `i`: the calls are quiet calls, one
`L2CEVT_LP_DISCONNECT_IND` for every channel but the pending one, a connect
attempt when a channel is left or one is pending, and the release of the link
when `lcb_is_free` is `TRUE`; `lcb_is_free` is `FALSE` exactly when the connect
attempt is made and succeeds. -/
theorem disc_comp_known_spec (env : Env) (cb : tL2C_CB) (i : Nat) (p : tL2C_LCB)
    (reason : tHCI_STATUS) (hp : cb.lcb_pool[i]? = some p) :
    ∃ (pf : tL2C_LCB) (a b : List tEXT_CALL) (cbr : tL2C_CB),
      a.all quiet_call = true ∧ b.all quiet_call = true ∧
      (disc_comp_known env cb i p reason).1
        = !(decide (disc_comp_left env p ≠ [] ∨ p.p_pending_ccb.isSome = true)
            && env.l2cu_create_conn cbr i p.transport) ∧
      (disc_comp_known env cb i p reason).2.calls
        = cb.calls ++ a
          ++ (disc_comp_served p).map (fun c => .l2c_csm_execute c.ccb_id .L2CEVT_LP_DISCONNECT_IND)
          ++ b
          ++ (if disc_comp_left env p ≠ [] ∨ p.p_pending_ccb.isSome = true then
                [.l2cu_create_conn i p.transport] else [])
          ++ (if (disc_comp_known env cb i p reason).1 then [.l2cu_release_lcb i] else []) ∧
      (disc_comp_known env cb i p reason).2.lcb_pool = cb.lcb_pool.set i pf ∧
      pf.link_state = .LST_DISCONNECTING ∧ pf.p_pending_ccb = none ∧
      pf.ccb_queue = disc_comp_left env p ∧
      pf.in_use = (if (disc_comp_known env cb i p reason).1 then false else p.in_use) ∧
      pf.handle = p.handle ∧ pf.transport = p.transport ∧
      pf.remote_bd_addr = p.remote_bd_addr ∧ pf.link_xmit_quota = p.link_xmit_quota := by
  have hlt : i < cb.lcb_pool.length := (List.getElem?_eq_some_iff.mp hp).1
  have hd := disc_comp_dispatch_eq env cb i p reason hp
  have h5 : (disc_comp_dispatch env cb i p reason).lcb_pool[i]? = some
      { p with
        disc_reason :=
          if cb.acl_disc_reason ≠ .HCI_ERR_HOST_REJECT_SECURITY then reason
          else cb.acl_disc_reason,
        link_state := .LST_DISCONNECTING,
        ccb_queue := disc_comp_left env p } := by
    rw [hd]
    simp [hlt, disc_comp_left]
  rcases disc_comp_finish_spec env _ i _ h5 with ⟨pf, b, cbr, qb, e1, e2, e3, k⟩
  have hk : (disc_comp_known env cb i p reason) = disc_comp_finish env
      (disc_comp_dispatch env cb i p reason) i := rfl
  rw [← hk] at e1 e2 e3 k
  unfold lcb_kept at k
  simp only [] at k
  refine ⟨pf, if is_le env p then [.btm_ble_update_link_topology_mask p.link_role] else [],
    (if env.BTM_SCO_INCLUDED ∧ (env.BLE_INCLUDED = true → p.transport = .BT_TRANSPORT_BR_EDR) then
      [.btm_sco_acl_removed p.remote_bd_addr] else []) ++ b, cbr, ?_, ?_, e1, ?_, ?_,
    k.2.2.1, k.2.2.2.2.2.2.2.1, k.2.2.2.2.2.2.1, k.1, k.2.2.2.2.1, k.2.1, k.2.2.2.1,
    k.2.2.2.2.2.1⟩
  · split <;> rfl
  · rw [List.all_append, qb]
    split <;> rfl
  · rw [e2, hd]
    simp [disc_comp_served, List.append_assoc]
  · rw [e3, hd]
    simp [List.set_set]

/-- C28: the handle is the one of the link control block `p` in slot `i`.  Then
`l2c_link_hci_disc_comp` returns `TRUE`; the events that the channels get
during the call are one `L2CEVT_LP_DISCONNECT_IND` for every channel that is on
the channel list at entry and is not `p_pending_ccb`, in the order of the list,
and nothing for the pending channel; and at the end the link is in
`LST_DISCONNECTING` with `p_pending_ccb` cleared. -/
theorem disc_comp_notifies_channels (env : Env) (cb : tL2C_CB) (handle i : Nat)
    (reason : tHCI_STATUS) (p : tL2C_LCB)
    (hfind : l2cu_find_lcb_by_handle cb handle = some i) (hp : cb.lcb_pool[i]? = some p) :
    (l2c_link_hci_disc_comp env cb handle reason).1 = true ∧
    csm_events (l2c_link_hci_disc_comp env cb handle reason).2.calls
      = csm_events cb.calls
        ++ (p.ccb_queue.filter (fun c => decide (some c.ccb_id ≠ p.p_pending_ccb))).map
            (fun c => (c.ccb_id, .L2CEVT_LP_DISCONNECT_IND)) ∧
    ∃ pf, (l2c_link_hci_disc_comp env cb handle reason).2.lcb_pool[i]? = some pf ∧
      pf.link_state = .LST_DISCONNECTING ∧ pf.p_pending_ccb = none := by
  have hlt : i < cb.lcb_pool.length := (List.getElem?_eq_some_iff.mp hp).1
  rcases disc_comp_found env cb handle i reason p hfind hp with ⟨r1, r2, promo, r3, _, r5⟩
  rcases disc_comp_known_spec env cb i p reason hp with
    ⟨pf, a, b, cbr, qa, qb, _, e2, e3, s1, s2, _⟩
  refine ⟨r1, ?_, pf, ?_, s1, s2⟩
  · have hpromo : csm_events promo = [] := by
      have : ∀ c ∈ promo, (match c with
          | .l2c_csm_execute ccb event => some (ccb, event)
          | _ => none) = none := by
        intro c hc
        rcases r5 c hc with ⟨j, pj, e, _⟩
        rw [e]
      unfold csm_events
      rw [List.filterMap_eq_nil_iff]
      exact this
    rw [r3, e2]
    simp only [csm_events_append, quiet_csm_events a qa, quiet_csm_events b qb, hpromo,
      csm_events_map, disc_comp_served, List.append_nil]
    have e4 : csm_events (if disc_comp_left env p ≠ [] ∨ p.p_pending_ccb.isSome = true then
        [.l2cu_create_conn i p.transport] else []) = [] := by
      split <;> rfl
    have e5 : csm_events (if (disc_comp_known env cb i p reason).1 = true then
        [.l2cu_release_lcb i] else []) = [] := by
      split <;> rfl
    rw [e4, e5]
    simp
  · rw [r2, e3]
    simp [hlt]

/-- Witness of C28 on `cb_pending`, where the channel 2 is pending: the channel 1
gets the event, the channel 2 gets none. -/
theorem disc_comp_notifies_channels_witness :
    csm_events (l2c_link_hci_disc_comp env_detach cb_pending 9 (.HCI_ERR_OTHER 19)).2.calls
      = [(1, .L2CEVT_LP_DISCONNECT_IND)] :=
  (disc_comp_notifies_channels env_detach cb_pending 9 0 (.HCI_ERR_OTHER 19)
    { in_use := true, remote_bd_addr := 7, link_state := .LST_CONNECTED, handle := 9,
      sent_not_acked := 2, p_pending_ccb := some 2,
      ccb_queue := [ { local_cid := 64, ccb_id := 1 }, { local_cid := 65, ccb_id := 2 } ] }
    (by decide) rfl).2.1.trans rfl

theorem window_view_release (cb : tL2C_CB) (i : Nat) :
    window_view (l2cu_release_lcb cb i) i = window_view cb i := by
  unfold l2cu_release_lcb
  simp only [ext_call_pool]
  cases h : cb.lcb_pool[i]? with
  | none => simp [window_view, ext_call, h]
  | some q =>
    have hlt : i < cb.lcb_pool.length := (List.getElem?_eq_some_iff.mp h).1
    simp [window_view, ext_call, set_lcb, h, hlt]

theorem window_view_pending (cb : tL2C_CB) (i : Nat) (q : tL2C_LCB)
    (h : cb.lcb_pool[i]? = some q) :
    window_view (set_lcb cb i { q with p_pending_ccb := none }) i = window_view cb i := by
  have hlt : i < cb.lcb_pool.length := (List.getElem?_eq_some_iff.mp h).1
  simp [window_view, set_lcb, h, hlt]

/-- Lines 436-580 write the windows, the round-robin counters and
`sent_not_acked` only where the connection is restarted. -/
theorem disc_comp_finish_view (env : Env) (cb5 : tL2C_CB) (i : Nat) (p5 : tL2C_LCB)
    (h5 : cb5.lcb_pool[i]? = some p5) :
    window_view (disc_comp_finish env cb5 i).2 i
      = if p5.ccb_queue ≠ [] ∨ p5.p_pending_ccb.isSome = true then
          window_view (disc_comp_reconnect env cb5 i p5).2 i
        else window_view cb5 i := by
  unfold disc_comp_finish
  simp only [h5]
  by_cases hag : p5.ccb_queue ≠ [] ∨ p5.p_pending_ccb.isSome = true
  · simp only [if_pos hag]
    cases hq : (disc_comp_reconnect env cb5 i p5).2.lcb_pool[i]? with
    | none => rfl
    | some p6 =>
      simp only []
      split
      · rw [window_view_release, window_view_pending _ i p6 hq]
      · rw [window_view_pending _ i p6 hq]
  · simp only [if_neg hag, h5, if_true]
    rw [window_view_release, window_view_pending _ i p5 h5]

/-- Lines 515-567 in the restart of the connection of a link that is not an LE
link and has buffers outstanding, in a build with `MTK_COMMON` and fixed
channels. -/
theorem disc_comp_reconnect_view (env : Env) (cb : tL2C_CB) (i : Nat) (p : tL2C_LCB)
    (hp : cb.lcb_pool[i]? = some p) (hmtk : env.MTK_COMMON = true)
    (hfix : env.L2CAP_NUM_FIXED_CHNLS > 0) (hbr : is_le env p = false)
    (hs : p.sent_not_acked > 0) :
    window_view (disc_comp_reconnect env cb i p).2 i
      = (if u16_add cb.controller_xmit_window p.sent_not_acked > cb.num_lm_acl_bufs then
            cb.num_lm_acl_bufs
          else u16_add cb.controller_xmit_window p.sent_not_acked,
         if p.link_xmit_quota = 0 then floor_sub cb.round_robin_unacked p.sent_not_acked
          else cb.round_robin_unacked,
         some 0) := by
  have hlt : i < cb.lcb_pool.length := (List.getElem?_eq_some_iff.mp hp).1
  unfold disc_comp_reconnect l2cu_create_conn
  simp only [hbr, Bool.false_eq_true, if_false, if_pos hfix, if_pos hmtk]
  rcases release_fixed_ccbs_eq env p (if env.BLE_INCLUDED then p.transport else .BT_TRANSPORT_BR_EDR)
    0 p.p_fixed_ccbs (set_lcb cb i p) with ⟨extra, e, _⟩
  rw [e]
  unfold disc_restore_window
  have hle : ∀ q : tL2C_LCB, q.transport = p.transport → is_le env q = false := by
    intro q hq
    unfold is_le at hbr ⊢
    rw [hq]
    exact hbr
  simp [hle, hs, window_view, ext_call, set_lcb, hlt]

theorem disc_comp_view (env : Env) (cb : tL2C_CB) (handle i : Nat) (reason : tHCI_STATUS)
    (p : tL2C_LCB) (hfind : l2cu_find_lcb_by_handle cb handle = some i)
    (hp : cb.lcb_pool[i]? = some p) :
    window_view (l2c_link_hci_disc_comp env cb handle reason).2 i
      = window_view (disc_comp_known env cb i p reason).2 i := by
  unfold l2c_link_hci_disc_comp
  simp only [hfind, hp]
  split
  · split <;> rfl
  · rfl

/-- C30: the handle is the one of the link control block `p` in slot `i`, which
is not an LE link and has `s = sent_not_acked > 0` buffers outstanding; after
the channel loop a channel is left or one is pending, so that the connection
is restarted; the build has `MTK_COMMON` and fixed channels, and the window
plus `s` fits 16 bits.  Then after `l2c_link_hci_disc_comp` the controller
window is `min (controller_xmit_window + s) num_lm_acl_bufs`,
`round_robin_unacked` is lowered by `s`, not below 0, when the quota of the link
is 0 and is as before otherwise, and `sent_not_acked` of the link is 0. -/
theorem disc_comp_restores_window (env : Env) (cb : tL2C_CB) (handle i : Nat)
    (reason : tHCI_STATUS) (p : tL2C_LCB)
    (hfind : l2cu_find_lcb_by_handle cb handle = some i) (hp : cb.lcb_pool[i]? = some p)
    (hmtk : env.MTK_COMMON = true) (hfix : env.L2CAP_NUM_FIXED_CHNLS > 0)
    (hbr : is_le env p = false) (hs : p.sent_not_acked > 0)
    (hagain : disc_comp_left env p ≠ [] ∨ p.p_pending_ccb.isSome = true)
    (hw : cb.controller_xmit_window + p.sent_not_acked < U16) :
    (l2c_link_hci_disc_comp env cb handle reason).2.controller_xmit_window
      = min (cb.controller_xmit_window + p.sent_not_acked) cb.num_lm_acl_bufs ∧
    (l2c_link_hci_disc_comp env cb handle reason).2.round_robin_unacked
      = (if p.link_xmit_quota = 0 then cb.round_robin_unacked - p.sent_not_acked
         else cb.round_robin_unacked) ∧
    ∃ pf, (l2c_link_hci_disc_comp env cb handle reason).2.lcb_pool[i]? = some pf ∧
      pf.sent_not_acked = 0 := by
  have hlt : i < cb.lcb_pool.length := (List.getElem?_eq_some_iff.mp hp).1
  have hd := disc_comp_dispatch_eq env cb i p reason hp
  have h5 : (disc_comp_dispatch env cb i p reason).lcb_pool[i]? = some
      { p with
        disc_reason :=
          if cb.acl_disc_reason ≠ .HCI_ERR_HOST_REJECT_SECURITY then reason
          else cb.acl_disc_reason,
        link_state := .LST_DISCONNECTING,
        ccb_queue := disc_comp_left env p } := by
    rw [hd]
    simp [hlt, disc_comp_left]
  have hv := disc_comp_view env cb handle i reason p hfind hp
  have hk : (disc_comp_known env cb i p reason) = disc_comp_finish env
      (disc_comp_dispatch env cb i p reason) i := rfl
  rw [hk, disc_comp_finish_view env _ i _ h5, if_pos hagain,
    disc_comp_reconnect_view env _ i _ h5 hmtk hfix hbr hs] at hv
  have hcw : (disc_comp_dispatch env cb i p reason).controller_xmit_window
      = cb.controller_xmit_window := by rw [hd]
  have hnb : (disc_comp_dispatch env cb i p reason).num_lm_acl_bufs = cb.num_lm_acl_bufs := by
    rw [hd]
  have hrr : (disc_comp_dispatch env cb i p reason).round_robin_unacked
      = cb.round_robin_unacked := by rw [hd]
  simp only [hcw, hnb, hrr] at hv
  have hu : u16_add cb.controller_xmit_window p.sent_not_acked
      = cb.controller_xmit_window + p.sent_not_acked := by
    unfold u16_add
    exact Nat.mod_eq_of_lt hw
  rw [hu] at hv
  unfold window_view at hv
  simp only [Prod.mk.injEq] at hv
  rcases hv with ⟨v1, v2, v3⟩
  refine ⟨?_, ?_, ?_⟩
  · rw [v1]
    split
    · rw [Nat.min_eq_right (by omega)]
    · rw [Nat.min_eq_left (by omega)]
  · rw [v2]
    unfold floor_sub
    split
    · split <;> omega
    · rfl
  · cases hq : (l2c_link_hci_disc_comp env cb handle reason).2.lcb_pool[i]? with
    | none => simp [hq] at v3
    | some pf =>
      refine ⟨pf, rfl, ?_⟩
      simpa [hq] using v3

/-- Witness of C30 on `cb_pending`: the link has the quota 0 and two buffers
outstanding, the window is 1 of 4 buffers and the round-robin counter is 3. -/
theorem disc_comp_restores_window_witness :
    (l2c_link_hci_disc_comp env_detach cb_pending 9 (.HCI_ERR_OTHER 19)).2.controller_xmit_window
      = 3 ∧
    (l2c_link_hci_disc_comp env_detach cb_pending 9 (.HCI_ERR_OTHER 19)).2.round_robin_unacked
      = 1 ∧
    ∃ pf, (l2c_link_hci_disc_comp env_detach cb_pending 9 (.HCI_ERR_OTHER 19)).2.lcb_pool[0]?
        = some pf ∧ pf.sent_not_acked = 0 :=
  disc_comp_restores_window env_detach cb_pending 9 0 (.HCI_ERR_OTHER 19)
    { in_use := true, remote_bd_addr := 7, link_state := .LST_CONNECTED, handle := 9,
      sent_not_acked := 2, p_pending_ccb := some 2,
      ccb_queue := [ { local_cid := 64, ccb_id := 1 }, { local_cid := 65, ccb_id := 2 } ] }
    (by decide) rfl rfl (by decide) rfl (by decide) (by decide) (by decide)

/-! ### The scheduler and the completion accountant make no call of the trace -/

theorem send_to_lower_calls (env : Env) (cb : tL2C_CB) (i : Nat) (b : BT_HDR) :
    (l2c_link_send_to_lower env cb i b).calls = cb.calls := by
  cases hp : cb.lcb_pool[i]? with
  | none =>
    unfold l2c_link_send_to_lower
    rw [hp]
  | some p => rw [send_to_lower_eq env cb i p b hp]

theorem fixed_tx_complete_calls (env : Env) (cb : tL2C_CB) (c : Nat) :
    (fixed_tx_complete env cb c).calls = cb.calls := by
  unfold fixed_tx_complete
  split <;> rfl

theorem send_after_set_calls (env : Env) (cb : tL2C_CB) (i : Nat) (p1 : tL2C_LCB) (b : BT_HDR) :
    (l2c_link_send_to_lower env { cb with lcb_pool := cb.lcb_pool.set i p1 } i b).calls
      = cb.calls := by
  rw [send_to_lower_calls]

theorem rr_serve_calls (env : Env) (sw : Bool) (s : tRR_STATE) (i : Nat) (p : tL2C_LCB) :
    (rr_serve env sw s i p).1.cb.calls = s.cb.calls := by
  unfold rr_serve
  split
  · rfl
  · split
    · exact send_after_set_calls env s.cb i _ _
    · split
      · rfl
      · dsimp only
        split
        · dsimp only
          rw [fixed_tx_complete_calls]
          exact send_after_set_calls env s.cb i _ _
        · rfl

theorem rr_body_calls (env : Env) (sw : Bool) (s : tRR_STATE) (r : tRR_STATE × Bool)
    (hr : rr_body env sw s = some r) : r.1.cb.calls = s.cb.calls := by
  unfold rr_body at hr
  split at hr
  · cases hr; rfl
  · split at hr
    · exact absurd hr (by simp)
    · rename_i p hp
      cases hr
      exact rr_serve_calls env sw s _ p

theorem rr_loop_calls (env : Env) (sw : Bool) (n : Nat) (s s1 : tRR_STATE)
    (hr : rr_loop env sw n s = some s1) : s1.cb.calls = s.cb.calls := by
  induction n generalizing s with
  | zero =>
    unfold rr_loop at hr
    cases hr; rfl
  | succ n ih =>
    unfold rr_loop at hr
    split at hr
    · exact absurd hr (by simp)
    · rename_i r hbody
      have h1 := rr_body_calls env sw s r hbody
      split at hr
      · cases hr; exact h1
      · exact (ih _ hr).trans h1

theorem rr_clear_flags_calls (env : Env) (s : tRR_STATE) :
    (rr_clear_flags env s).calls = s.cb.calls := by
  unfold rr_clear_flags
  dsimp only
  split <;> split <;> rfl

theorem drain_link_q_calls (env : Env) (i : Nat) (q : List BT_HDR) (cb : tL2C_CB) :
    (drain_link_q env i q cb).calls = cb.calls := by
  induction q generalizing cb with
  | nil => rfl
  | cons b rest ih =>
    unfold drain_link_q
    split
    · rfl
    · split
      · rw [ih]
        exact send_after_set_calls env cb i _ _
      · rfl

theorem drain_channels_calls (env : Env) (i : Nat) (fuel : Nat) (cb cb1 : tL2C_CB) (c : Nat)
    (hr : drain_channels env i fuel cb c = some cb1) : cb1.calls = cb.calls := by
  induction fuel generalizing cb c with
  | zero => unfold drain_channels at hr; exact absurd hr (by simp)
  | succ f ih =>
    unfold drain_channels at hr
    split at hr
    · cases hr; rfl
    · split at hr
      · dsimp only at hr
        split at hr
        · cases hr; rfl
        · rw [ih _ _ hr, fixed_tx_complete_calls]
          exact send_after_set_calls env cb i _ _
      · cases hr; rfl

theorem private_timer_calls (cb : tL2C_CB) (i : Nat) : (private_timer cb i).calls = cb.calls := by
  unfold private_timer
  split
  · rfl
  · split <;> rfl

theorem enqueue_buf_calls (env : Env) (cb : tL2C_CB) (i : Nat) (p : tL2C_LCB)
    (c : Option tL2C_CCB) (b : BT_HDR) : (enqueue_buf env cb i p c b).calls = cb.calls := by
  unfold enqueue_buf
  dsimp only
  split
  · split <;> rfl
  · rfl

theorem sched_round_robin_calls (env : Env) (sw : Bool) (cb cb1 : tL2C_CB) (start : Nat)
    (hr : sched_round_robin env sw cb start = some cb1) : cb1.calls = cb.calls := by
  unfold sched_round_robin at hr
  simp only [Option.map_eq_some'] at hr
  obtain ⟨s1, hs1, rfl⟩ := hr
  rw [rr_clear_flags_calls, rr_loop_calls env _ _ _ s1 hs1]

theorem sched_private_calls (env : Env) (fuel : Nat) (sw : Bool) (cb cb1 : tL2C_CB)
    (i : Nat) (p : tL2C_LCB) (hr : sched_private env fuel sw cb i p = some cb1) :
    cb1.calls = cb.calls := by
  unfold sched_private at hr
  split at hr
  · cases hr; rfl
  · simp only [Option.map_eq_some'] at hr
    obtain ⟨c, hc, rfl⟩ := hr
    rw [private_timer_calls]
    have hd := drain_link_q_calls env i p.link_xmit_data_q cb
    split at hc
    · cases hc; exact hd
    · exact (drain_channels_calls env i fuel _ c 0 hc).trans hd

theorem sched_link_calls (env : Env) (fuel : Nat) (sw : Bool) (cb cb1 : tL2C_CB)
    (i q : Nat) (hr : sched_link env fuel sw cb i q = some cb1) : cb1.calls = cb.calls := by
  unfold sched_link at hr
  split at hr
  · cases hr; rfl
  · split at hr
    · exact sched_round_robin_calls env _ _ cb1 _ hr
    · split at hr
      · exact absurd hr (by simp)
      · rename_i p1 hp1
        exact sched_private_calls env fuel _ _ cb1 i p1 hr

/-- The scheduler makes no call of the trace. -/
theorem check_send_pkts_calls (env : Env) (fuel : Nat) (cb cb1 : tL2C_CB)
    (p_lcb : Option Nat) (p_ccb : Option tL2C_CCB) (p_buf : Option BT_HDR)
    (hr : l2c_link_check_send_pkts env fuel cb p_lcb p_ccb p_buf = some cb1) :
    cb1.calls = cb.calls := by
  unfold l2c_link_check_send_pkts at hr
  split at hr
  · exact absurd hr (by simp)
  · split at hr
    · cases hr; rfl
    · exact sched_round_robin_calls env _ cb cb1 0 hr
  · split at hr
    · exact absurd hr (by simp)
    · exact sched_link_calls env fuel _ _ cb1 _ _ hr
  · split at hr
    · exact absurd hr (by simp)
    · rename_i p hp
      exact (sched_link_calls env fuel _ _ cb1 _ _ hr).trans (enqueue_buf_calls env cb _ p p_ccb _)

theorem nocp_account_calls (env : Env) (cb : tL2C_CB) (i : Nat) (p : tL2C_LCB) (n : Nat) :
    (nocp_account env cb i p n).calls = cb.calls := by
  unfold nocp_account
  dsimp only
  (split <;> split) <;> rfl

theorem nocp_reschedule_calls (env : Env) (fuel : Nat) (cb cb1 : tL2C_CB) (i : Nat)
    (hr : nocp_reschedule env fuel cb i = some cb1) : cb1.calls = cb.calls := by
  unfold nocp_reschedule at hr
  split at hr
  · exact absurd hr (by simp)
  · rename_i c1 hc1
    have h1 := check_send_pkts_calls env fuel cb c1 _ _ _ hc1
    split at hr
    · exact absurd hr (by simp)
    · rename_i p hp
      dsimp only at hr
      split at hr
      · exact absurd hr (by simp)
      · rename_i c2 hc2
        have h2 : c2.calls = cb.calls := by
          split at hc2
          · exact (check_send_pkts_calls env fuel c1 c2 _ _ _ hc2).trans h1
          · cases hc2; exact h1
        split at hr
        · exact absurd hr (by simp)
        · split at hr
          · exact (check_send_pkts_calls env fuel c2 cb1 _ _ _ hr).trans h2
          · cases hr; exact h2

theorem nocp_entry_calls (env : Env) (fuel : Nat) (cb cb1 : tL2C_CB) (e : Nat × Nat)
    (hr : nocp_entry env fuel cb e = some cb1) : cb1.calls = cb.calls := by
  unfold nocp_entry at hr
  split at hr
  · cases hr; rfl
  · rename_i i hi
    split at hr
    · cases hr; rfl
    · rename_i p hp
      dsimp only at hr
      rw [nocp_reschedule_calls env fuel _ cb1 i hr]
      split
      · rw [nocp_account_calls]
      · rw [nocp_account_calls]

/-- Acknowledgement processing makes no call of the trace. -/
theorem process_num_completed_pkts_calls (env : Env) (fuel : Nat) (es : List (Nat × Nat))
    (cb cb1 : tL2C_CB) (hr : l2c_link_process_num_completed_pkts env fuel cb es = some cb1) :
    cb1.calls = cb.calls := by
  induction es generalizing cb with
  | nil => unfold l2c_link_process_num_completed_pkts at hr; cases hr; rfl
  | cons e es ih =>
    unfold l2c_link_process_num_completed_pkts at hr
    split at hr
    · exact absurd hr (by simp)
    · rename_i c1 hc1
      exact (ih c1 hr).trans (nocp_entry_calls env fuel _ c1 e hc1)

/-- The segment-transmitted notification makes no call of the trace. -/
theorem segments_xmitted_calls (env : Env) (fuel : Nat) (cb cb1 : tL2C_CB) (handle : Nat)
    (m : BT_HDR) (hr : l2c_link_segments_xmitted env fuel cb handle m = some cb1) :
    cb1.calls = cb.calls := by
  unfold l2c_link_segments_xmitted at hr
  split at hr
  · cases hr; rfl
  · split at hr
    · exact absurd hr (by simp)
    · split at hr
      · dsimp only at hr
        have h := check_send_pkts_calls env fuel _ cb1 _ _ _ hr
        exact h
      · cases hr; rfl

theorem calls_ext_refl (cb : tL2C_CB) : calls_ext cb cb := ⟨[], by simp, rfl⟩

theorem calls_ext_trans (a b c : tL2C_CB) (h1 : calls_ext a b) (h2 : calls_ext b c) :
    calls_ext a c := by
  rcases h1 with ⟨n1, e1, q1⟩
  rcases h2 with ⟨n2, e2, q2⟩
  exact ⟨n1 ++ n2, by rw [e2, e1, List.append_assoc], by rw [conn_attempts_append, q1, q2]; rfl⟩

theorem calls_ext_of_eq (cb cb1 : tL2C_CB) (h : cb1.calls = cb.calls) : calls_ext cb cb1 :=
  ⟨[], by simp [h], rfl⟩

theorem calls_ext_call (cb : tL2C_CB) (c : tEXT_CALL) (h : conn_attempts [c] = []) :
    calls_ext cb (ext_call cb c) := ⟨[c], rfl, h⟩

theorem calls_ext_csm (env : Env) (cb : tL2C_CB) (i : Nat) (c : tL2C_CCB) (ev : tL2C_EVT) :
    calls_ext cb (l2c_csm_execute env cb i c ev) :=
  ⟨[.l2c_csm_execute c.ccb_id ev], csm_execute_calls env cb i c ev, rfl⟩

theorem calls_ext_saved (env : Env) (i : Nat) (ev : tL2C_EVT) (skip : Option Nat)
    (l : List tL2C_CCB) (cb : tL2C_CB) : calls_ext cb (csm_dispatch_saved env i ev skip l cb) := by
  induction l generalizing cb with
  | nil => exact calls_ext_refl cb
  | cons c rest ih =>
    rw [csm_dispatch_saved]
    split
    · exact ih cb
    · exact calls_ext_trans _ _ _ (calls_ext_csm env cb i c ev) (ih _)

theorem calls_ext_live (env : Env) (i : Nat) (ev : tL2C_EVT) (l : List tL2C_CCB)
    (cb cb1 : tL2C_CB) (h : csm_dispatch_live env i ev l cb = some cb1) : calls_ext cb cb1 := by
  induction l generalizing cb with
  | nil =>
    rw [csm_dispatch_live] at h
    cases h
    exact calls_ext_refl _
  | cons c rest ih =>
    rw [csm_dispatch_live] at h
    split at h
    · exact absurd h (by simp)
    · exact calls_ext_trans _ _ _ (calls_ext_csm env cb i c ev) (ih _ h)

theorem calls_ext_release (cb : tL2C_CB) (i : Nat) : calls_ext cb (l2cu_release_lcb cb i) := by
  refine ⟨[.l2cu_release_lcb i], ?_, rfl⟩
  unfold l2cu_release_lcb
  dsimp only
  split <;> rfl

theorem no_retry_of_ext (cb cb1 : tL2C_CB) (h : calls_ext cb cb1) : no_retry cb cb1 := by
  rcases h with ⟨new, e, q⟩
  refine ⟨new, e, ?_⟩
  rw [q]
  intro j hj
  simp at hj

theorem conn_req_silent (env : Env) (cb : tL2C_CB) (bd_addr : Nat) (r : Bool × tL2C_CB)
    (halloc : allocate_quiet env) (h : l2c_link_hci_conn_req env cb bd_addr = some r) :
    calls_ext cb r.2 := by
  unfold l2c_link_hci_conn_req at h
  split at h
  · split at h
    · cases h
      exact calls_ext_call cb _ rfl
    · rename_i i cb1 ha
      split at h
      · exact absurd h (by simp)
      · rename_i p hp
        cases h
        have e := halloc cb cb1 bd_addr i false .BT_TRANSPORT_BR_EDR ha
        exact ⟨[.btsnd_hcic_accept_conn bd_addr (conn_req_new_role env cb1 i bd_addr p)],
          by simp [set_lcb, ext_call, e], rfl⟩
  · split at h
    · exact absurd h (by simp)
    · rename_i p hp
      split at h
      · cases h
        exact ⟨[.btsnd_hcic_accept_conn bd_addr (conn_req_switch_role env bd_addr p)],
          by simp [set_lcb, ext_call], rfl⟩
      · split at h
        · cases h
          exact calls_ext_call cb _ rfl
        · cases h
          exact calls_ext_call cb _ rfl

theorem conn_comp_success_silent (env : Env) (cb cb1 : tL2C_CB) (i : Nat) (p : tL2C_LCB)
    (handle p_bda : Nat) (h : conn_comp_success env cb i p handle p_bda = some cb1) :
    calls_ext cb cb1 := by
  unfold conn_comp_success at h
  dsimp only at h
  have h0 : calls_ext cb (if p.is_bonding = true then
      ext_call (ext_call (ext_call (ext_call (set_lcb cb i { p with link_state := .LST_CONNECTED })
        (.l2cu_send_peer_info_req i)) (.btm_acl_created p_bda handle p.link_role))
        (.BTM_SetLinkSuperTout p_bda)) (.l2cu_start_post_bond_timer handle)
    else ext_call (ext_call (ext_call (set_lcb cb i { p with link_state := .LST_CONNECTED })
        (.l2cu_send_peer_info_req i)) (.btm_acl_created p_bda handle p.link_role))
        (.BTM_SetLinkSuperTout p_bda)) := by
    split
    · exact ⟨[.l2cu_send_peer_info_req i, .btm_acl_created p_bda handle p.link_role,
        .BTM_SetLinkSuperTout p_bda, .l2cu_start_post_bond_timer handle],
        by simp [ext_call, set_lcb], rfl⟩
    · exact ⟨[.l2cu_send_peer_info_req i, .btm_acl_created p_bda handle p.link_role,
        .BTM_SetLinkSuperTout p_bda], by simp [ext_call, set_lcb], rfl⟩
  split at h
  · cases h
    exact h0
  · split at h
    · exact absurd h (by simp)
    · rename_i cb4 hl
      have h1 := calls_ext_live env i _ _ _ cb4 hl
      have h2 : calls_ext cb cb4 := by
        refine calls_ext_trans _ _ _ (calls_ext_trans _ _ _ h0 ?_) h1
        exact ⟨[.l2c_process_held_packets], by simp [ext_call, set_lcb], rfl⟩
      split at h
      · exact absurd h (by simp)
      · split at h
        · cases h
          refine calls_ext_trans _ _ _ h2 ?_
          exact ⟨[.l2cu_send_peer_echo_req i], by simp [ext_call, set_lcb], rfl⟩
        · split at h
          · cases h
            exact calls_ext_trans _ _ _ h2 (calls_ext_of_eq _ _ rfl)
          · cases h
            exact h2

theorem conn_attempts_map_csm (q : List tL2C_CCB) (ev : tL2C_EVT) (rest : List tEXT_CALL) :
    conn_attempts (q.map (fun c => .l2c_csm_execute c.ccb_id ev) ++ rest) = conn_attempts rest := by
  rw [conn_attempts_append, conn_attempts_csm, List.nil_append]

theorem conn_comp_failed_attempts (env : Env) (cb : tL2C_CB) (i : Nat) (p q0 : tL2C_LCB)
    (status : tHCI_STATUS) (hq : cb.lcb_pool[i]? = some q0) :
    ∃ new, (conn_comp_failed env cb i p status).calls = cb.calls ++ new ∧
      ∀ j ∈ conn_attempts new, j = i := by
  rw [conn_comp_failed_eq env cb i p q0 status hq]
  refine ⟨p.ccb_queue.map (fun c => .l2c_csm_execute c.ccb_id .L2CEVT_LP_CONNECT_CFM_NEG)
      ++ (if p.ccb_queue.filter
            (fun d => !env.csm_detaches d.ccb_id .L2CEVT_LP_CONNECT_CFM_NEG) = [] then
          [.l2cu_release_lcb i]
        else if status = .HCI_ERR_CONNECTION_EXISTS then []
        else [.l2cu_create_conn i .BT_TRANSPORT_BR_EDR]), ?_, ?_⟩
  · simp [List.append_assoc]
  · intro j hj
    rw [conn_attempts_map_csm] at hj
    split at hj
    · simp [conn_attempts] at hj
    · split at hj
      · simp [conn_attempts] at hj
      · simpa [conn_attempts] using hj

/-- A connect-complete that does not make `l2c_link_hci_disc_comp` run makes no
connect attempt for a link that is in `LST_CONNECTED`. -/
theorem conn_comp_no_retry (env : Env) (cb : tL2C_CB) (status : tHCI_STATUS)
    (handle p_bda : Nat) (r : Bool × tL2C_CB)
    (h : l2c_link_hci_conn_comp env cb status handle p_bda = some r)
    (hne : runs_disc_comp cb (.hci_conn_comp status handle p_bda) = false) :
    no_retry cb r.2 := by
  have hbusy : calls_ext cb (ext_call cb .btm_acl_update_busy_level) := calls_ext_call cb _ rfl
  unfold l2c_link_hci_conn_comp at h
  simp only [find_lcb_by_bd_addr_ext] at h
  unfold runs_disc_comp at hne
  cases hfind : l2cu_find_lcb_by_bd_addr cb p_bda .BT_TRANSPORT_BR_EDR with
  | none =>
    simp only [hfind] at h
    cases h
    exact no_retry_of_ext _ _ hbusy
  | some i =>
    simp only [hfind] at h hne
    cases hp : cb.lcb_pool[i]? with
    | none =>
      have hp0 : (ext_call cb .btm_acl_update_busy_level).lcb_pool[i]? = none := hp
      simp [hp0] at h
    | some p =>
      have hp0 : (ext_call cb .btm_acl_update_busy_level).lcb_pool[i]? = some p := hp
      simp only [hp0] at h
      simp only [hp] at hne
      by_cases hst : p.link_state ≠ .LST_CONNECTING
      · simp only [if_pos hst] at h
        by_cases hs : status = .HCI_SUCCESS
        · simp only [hs, ne_eq, not_true_eq_false, if_false] at h
          cases h
          exact no_retry_of_ext _ _ hbusy
        · simp [hs, hst] at hne
      · simp only [if_neg hst] at h
        have hst2 : p.link_state = .LST_CONNECTING := by
          by_contra hc
          exact hst hc
        have hset : calls_ext cb (set_lcb (ext_call cb .btm_acl_update_busy_level) i
            { p with handle := handle }) := hbusy
        by_cases hs : status = .HCI_SUCCESS
        · simp only [if_pos hs, Option.map_eq_some'] at h
          rcases h with ⟨c, hc, rfl⟩
          exact no_retry_of_ext _ _
            (calls_ext_trans _ _ _ hset (conn_comp_success_silent env _ c i _ handle p_bda hc))
        · simp only [if_neg hs] at h
          split at h
          · cases h
            exact no_retry_of_ext _ _ hbusy
          · cases h
            have hp1 := set_lcb_get (ext_call cb .btm_acl_update_busy_level) i
              { p with handle := handle } p hp0
            rcases conn_comp_failed_attempts env _ i { p with handle := handle }
              { p with handle := handle } status hp1 with ⟨new, e1, e2⟩
            refine ⟨[.btm_acl_update_busy_level] ++ new, ?_, ?_⟩
            · rw [e1]
              simp [set_lcb, ext_call]
            · intro j hj pj hpj
              rw [conn_attempts_append] at hj
              have hji : j = i := by
                apply e2
                simpa [conn_attempts] using hj
              rw [hji, hp] at hpj
              cases hpj
              rw [hst2]
              decide

theorem sec_comp_silent (env : Env) (cb : tL2C_CB) (p_bda : Nat) (t : tBT_TRANSPORT)
    (r : Nat) (status : tBTM_STATUS) : calls_ext cb (l2c_link_sec_comp env cb p_bda t r status) := by
  unfold l2c_link_sec_comp
  dsimp only
  split
  · exact calls_ext_refl cb
  · split
    · exact calls_ext_refl cb
    · split
      · exact calls_ext_refl cb
      · split
        · exact calls_ext_csm env cb _ _ _
        · exact calls_ext_of_eq _ _ rfl
        · exact calls_ext_csm env cb _ _ _

theorem qos_violation_loop_silent (env : Env) (i : Nat) (l : List tL2C_CCB) (cb cb1 : tL2C_CB)
    (h : qos_violation_loop env i l cb = some cb1) : calls_ext cb cb1 := by
  induction l generalizing cb with
  | nil =>
    rw [qos_violation_loop] at h
    cases h
    exact calls_ext_refl _
  | cons c rest ih =>
    rw [qos_violation_loop] at h
    split at h
    · split at h
      · exact absurd h (by simp)
      · exact calls_ext_trans _ _ _ (calls_ext_csm env cb i c _) (ih _ h)
    · exact ih _ h

theorem qos_violation_silent (env : Env) (cb : tL2C_CB) (handle : Nat) (r : Bool × tL2C_CB)
    (h : l2c_link_hci_qos_violation env cb handle = some r) : calls_ext cb r.2 := by
  unfold l2c_link_hci_qos_violation at h
  split at h
  · cases h
    exact calls_ext_refl _
  · split at h
    · exact absurd h (by simp)
    · simp only [Option.map_eq_some'] at h
      rcases h with ⟨c, hc, rfl⟩
      exact qos_violation_loop_silent env _ _ cb c hc

theorem timeout_drop_silent (env : Env) (cb : tL2C_CB) (i : Nat) (p : tL2C_LCB) :
    calls_ext cb (timeout_drop env cb i p) := by
  unfold timeout_drop
  dsimp only
  refine calls_ext_trans _ _ _ ?_ (calls_ext_release _ i)
  have h2 : calls_ext cb (csm_dispatch_saved env i .L2CEVT_LP_DISCONNECT_IND none p.ccb_queue
      (set_lcb cb i { p with p_pending_ccb := none })) :=
    calls_ext_trans _ _ _ (calls_ext_of_eq cb (set_lcb cb i _) rfl) (calls_ext_saved env i _ _ _ _)
  split
  · exact h2
  · split
    · exact calls_ext_trans _ _ _ h2 (calls_ext_call _ _ rfl)
    · exact h2

theorem timeout_no_channels_silent (env : Env) (cb : tL2C_CB) (i : Nat) (p : tL2C_LCB) :
    calls_ext cb (timeout_no_channels env cb i p) := by
  unfold timeout_no_channels
  dsimp only
  have h1 : calls_ext cb (ext_call cb (.btm_sec_disconnect p.handle)) := calls_ext_call cb _ rfl
  have h2 : calls_ext cb (ext_call (ext_call cb (.btm_sec_disconnect p.handle))
      (.l2cu_process_fixed_disc_cback i)) :=
    calls_ext_trans _ _ _ h1 (calls_ext_call _ (.l2cu_process_fixed_disc_cback i) rfl)
  have h3 : calls_ext cb (ext_call (ext_call cb (.btm_sec_disconnect p.handle))
      (.btsnd_hcic_disconnect p.handle)) :=
    calls_ext_trans _ _ _ h1 (calls_ext_call _ (.btsnd_hcic_disconnect p.handle) rfl)
  have h4 : calls_ext cb (ext_call (ext_call (ext_call cb (.btm_sec_disconnect p.handle))
      (.btsnd_hcic_disconnect p.handle)) (.l2cu_process_fixed_disc_cback i)) :=
    calls_ext_trans _ _ _ h3 (calls_ext_call _ (.l2cu_process_fixed_disc_cback i) rfl)
  split
  · exact h1
  · exact calls_ext_trans _ _ _ h1 (calls_ext_of_eq _ (set_lcb _ i _) rfl)
  · exact calls_ext_trans _ _ _ h2 (calls_ext_of_eq _ (set_lcb _ i _) rfl)
  · exact h1
  · split
    · split
      · exact calls_ext_trans _ _ _ h4 (calls_ext_of_eq _ (set_lcb _ i _) rfl)
      · exact calls_ext_trans _ _ _ h3 (calls_ext_of_eq _ (set_lcb _ i _) rfl)
    · exact calls_ext_trans _ _ _ h1 (calls_ext_of_eq _ (set_lcb _ i _) rfl)

theorem timeout_silent (env : Env) (fuel : Nat) (cb cb1 : tL2C_CB) (i : Nat)
    (h : l2c_link_timeout env fuel cb i = some cb1) : calls_ext cb cb1 := by
  unfold l2c_link_timeout at h
  split at h
  · exact absurd h (by simp)
  · rename_i p hp
    dsimp only at h
    have h1 : calls_ext cb (if p.link_state = .LST_CONNECTING_WAIT_SWITCH ∨
        p.link_state = .LST_CONNECTING ∨ p.link_state = .LST_CONNECT_HOLDING ∨
        p.link_state = .LST_DISCONNECTING then timeout_drop env cb i p else cb) := by
      split
      · exact timeout_drop_silent env cb i p
      · exact calls_ext_refl cb
    split at h
    · exact absurd h (by simp)
    · rename_i p1 hp1
      split at h
      · have h2 : calls_ext cb (if p1.p_echo_rsp_cb = true then
            csm_dispatch_saved env i .L2CEVT_LP_DISCONNECT_IND none p1.ccb_queue
              (ext_call (set_lcb (if p.link_state = .LST_CONNECTING_WAIT_SWITCH ∨
                p.link_state = .LST_CONNECTING ∨ p.link_state = .LST_CONNECT_HOLDING ∨
                p.link_state = .LST_DISCONNECTING then timeout_drop env cb i p else cb) i
                { p1 with p_echo_rsp_cb := false }) (.p_echo_rsp_cb i))
          else (if p.link_state = .LST_CONNECTING_WAIT_SWITCH ∨
            p.link_state = .LST_CONNECTING ∨ p.link_state = .LST_CONNECT_HOLDING ∨
            p.link_state = .LST_DISCONNECTING then timeout_drop env cb i p else cb)) := by
          split
          · refine calls_ext_trans _ _ _ h1 (calls_ext_trans _ _ _ ?_ (calls_ext_saved env i _ _ _ _))
            exact calls_ext_trans _ _ _ (calls_ext_of_eq _ (set_lcb _ i _) rfl)
              (calls_ext_call _ _ rfl)
          · exact h1
        split at h
        · exact absurd h (by simp)
        · split at h
          · cases h
            exact calls_ext_trans _ _ _ h2 (timeout_no_channels_silent env _ i _)
          · exact calls_ext_trans _ _ _ h2
              (calls_ext_of_eq _ _ (check_send_pkts_calls env fuel _ cb1 _ _ _ h))
      · cases h
        exact h1

theorem info_resp_timer_timeout_silent (env : Env) (cb cb1 : tL2C_CB) (i : Nat)
    (h : l2c_info_resp_timer_timeout env cb i = some cb1) : calls_ext cb cb1 := by
  unfold l2c_info_resp_timer_timeout at h
  split at h
  · exact absurd h (by simp)
  · split at h
    · split at h
      · cases h
        exact calls_ext_of_eq _ _ rfl
      · dsimp only at h
        split at h
        · exact calls_ext_trans _ _ _ (calls_ext_of_eq cb (set_lcb cb i _) rfl)
            (calls_ext_live env i _ _ _ cb1 h)
        · cases h
          exact calls_ext_of_eq _ _ rfl
    · cases h
      exact calls_ext_refl _

theorem pin_code_request_silent (cb : tL2C_CB) (bd_addr : Nat) :
    calls_ext cb (l2c_pin_code_request cb bd_addr) := by
  unfold l2c_pin_code_request
  split
  · exact calls_ext_refl cb
  · split
    · exact calls_ext_refl cb
    · split
      · exact calls_ext_of_eq _ _ rfl
      · exact calls_ext_refl cb

/-- The loop of lines 1047-1053 resumes links that are in
`LST_CONNECTING_WAIT_SWITCH` only, and changes nothing of the pool. -/
theorem role_changed_loop_spec (xs : List Nat) (cb : tL2C_CB) :
    (role_changed_loop xs cb).lcb_pool = cb.lcb_pool ∧
    ∃ new, (role_changed_loop xs cb).calls = cb.calls ++ new ∧
      ∀ j ∈ conn_attempts new, ∃ pj, cb.lcb_pool[j]? = some pj ∧
        pj.link_state = .LST_CONNECTING_WAIT_SWITCH := by
  induction xs generalizing cb with
  | nil => exact ⟨rfl, [], by simp [role_changed_loop], by simp [conn_attempts]⟩
  | cons xx rest ih =>
    rw [role_changed_loop]
    split
    · exact ih cb
    · rename_i p hp
      split
      · rename_i hc
        rcases ih (l2cu_create_conn_after_switch cb xx) with ⟨e1, new, e2, e3⟩
        refine ⟨e1, [.l2cu_create_conn_after_switch xx] ++ new, ?_, ?_⟩
        · rw [e2]
          simp [l2cu_create_conn_after_switch, ext_call]
        · intro j hj
          rw [conn_attempts_append] at hj
          rcases List.mem_append.mp hj with hj | hj
          · have hjx : j = xx := by simpa [conn_attempts] using hj
            rw [hjx]
            exact ⟨p, hp, hc.2⟩
          · exact e3 j hj
      · exact ih cb

theorem role_changed_no_retry (cb : tL2C_CB) (bd_addr : Option Nat) (new_role : tHCI_ROLE)
    (st : tHCI_STATUS) : no_retry cb (l2c_link_role_changed cb bd_addr new_role st) := by
  -- the control block before the loop
  have key : ∀ cb1 : tL2C_CB, (∃ pre, cb1.calls = cb.calls ++ pre ∧ conn_attempts pre = []) →
      (∀ (j : Nat) (pj : tL2C_LCB), cb1.lcb_pool[j]? = some pj →
        ∃ qj : tL2C_LCB, cb.lcb_pool[j]? = some qj ∧ qj.link_state = pj.link_state) →
      no_retry cb (role_changed_loop (List.range cb1.lcb_pool.length) cb1) := by
    intro cb1 hpre hst
    rcases hpre with ⟨pre, e0, q0⟩
    rcases role_changed_loop_spec (List.range cb1.lcb_pool.length) cb1 with ⟨_, new, e2, e3⟩
    refine ⟨pre ++ new, by rw [e2, e0, List.append_assoc], ?_⟩
    intro j hj pj hpj
    rw [conn_attempts_append, q0, List.nil_append] at hj
    rcases e3 j hj with ⟨p1, hp1, hs1⟩
    rcases hst j p1 hp1 with ⟨qj, hq, hqs⟩
    rw [hpj] at hq
    cases hq
    rw [hqs, hs1]
    decide
  have hsame : no_retry cb (role_changed_loop (List.range cb.lcb_pool.length) cb) :=
    key cb ⟨[], by simp, rfl⟩ (fun j pj h => ⟨pj, h, rfl⟩)
  unfold l2c_link_role_changed
  cases bd_addr with
  | none => exact hsame
  | some a =>
    cases hfind : l2cu_find_lcb_by_bd_addr cb a .BT_TRANSPORT_BR_EDR with
    | none =>
      simp only [hfind]
      exact hsame
    | some i =>
      cases hp : cb.lcb_pool[i]? with
      | none =>
        simp only [hfind, hp]
        exact hsame
      | some p =>
        simp only [hfind, hp]
        have hpool : ∀ (j : Nat) (pj : tL2C_LCB),
            (set_lcb cb i { p with link_role := new_role }).lcb_pool[j]? = some pj →
            ∃ qj : tL2C_LCB, cb.lcb_pool[j]? = some qj ∧ qj.link_state = pj.link_state := by
          intro j pj hj
          by_cases hji : j = i
          · rw [hji, set_lcb_get cb i _ p hp] at hj
            cases hj
            exact ⟨p, by rw [hji]; exact hp, rfl⟩
          · rw [set_lcb_other cb i j _ hji] at hj
            exact ⟨pj, hj, rfl⟩
        by_cases hs : st = .HCI_SUCCESS
        · simp only [if_pos hs]
          exact key _ ⟨[.l2cu_set_acl_priority a p.acl_priority],
            by simp [l2cu_set_acl_priority, ext_call, set_lcb], rfl⟩ hpool
        · simp only [if_neg hs]
          exact key _ ⟨[], by simp [set_lcb], rfl⟩ hpool

theorem find_lcb_by_handle_some (cb : tL2C_CB) (handle j : Nat)
    (h : l2cu_find_lcb_by_handle cb handle = some j) :
    ∃ pj, cb.lcb_pool[j]? = some pj ∧ pj.in_use = true ∧ pj.handle = handle := by
  unfold l2cu_find_lcb_by_handle at h
  simp only [] at h
  split at h
  · rename_i hlt
    have hj : List.findIdx (fun p => p.in_use && decide (p.handle = handle)) cb.lcb_pool = j := by
      simpa using h
    rw [hj] at hlt
    have hsat := @List.findIdx_getElem tL2C_LCB (fun p => p.in_use && decide (p.handle = handle)) cb.lcb_pool
      (by rw [hj]; exact hlt)
    simp only [hj] at hsat
    refine ⟨cb.lcb_pool[j], by simp [hlt], ?_⟩
    simpa using hsat
  · simp at h

/-- An event that does not make `l2c_link_hci_disc_comp` run makes no connect
attempt for a link that is in `LST_CONNECTED` when the event arrives. -/
theorem link_event_no_retry (env : Env) (fuel : Nat) (cb cb1 : tL2C_CB) (ev : tLINK_EVENT)
    (halloc : allocate_quiet env) (h : l2c_link_event env fuel cb ev = some cb1)
    (hne : runs_disc_comp cb ev = false) : no_retry cb cb1 := by
  cases ev with
  | hci_conn_req a =>
    simp only [l2c_link_event, Option.map_eq_some'] at h
    rcases h with ⟨r, hr, rfl⟩
    exact no_retry_of_ext _ _ (conn_req_silent env cb a r halloc hr)
  | hci_conn_comp st hd a =>
    simp only [l2c_link_event, Option.map_eq_some'] at h
    rcases h with ⟨r, hr, rfl⟩
    exact conn_comp_no_retry env cb st hd a r hr hne
  | sec_comp a t r st =>
    simp only [l2c_link_event, Option.some.injEq] at h
    rw [← h]
    exact no_retry_of_ext _ _ (sec_comp_silent env cb a t r st)
  | hci_disc_comp hd r => simp [runs_disc_comp] at hne
  | hci_qos_violation hd =>
    simp only [l2c_link_event, Option.map_eq_some'] at h
    rcases h with ⟨r, hr, rfl⟩
    exact no_retry_of_ext _ _ (qos_violation_silent env cb hd r hr)
  | timeout i => exact no_retry_of_ext _ _ (timeout_silent env fuel cb cb1 i h)
  | info_resp_timer_timeout i =>
    exact no_retry_of_ext _ _ (info_resp_timer_timeout_silent env cb cb1 i h)
  | role_changed a r st =>
    simp only [l2c_link_event, Option.some.injEq] at h
    rw [← h]
    exact role_changed_no_retry cb a r st
  | pin_code_request a =>
    simp only [l2c_link_event, Option.some.injEq] at h
    rw [← h]
    exact no_retry_of_ext _ _ (pin_code_request_silent cb a)
  | processs_num_bufs n =>
    simp only [l2c_link_event, Option.some.injEq] at h
    rw [← h]
    exact no_retry_of_ext _ _ (calls_ext_of_eq _ _ rfl)
  | process_num_completed_pkts es =>
    exact no_retry_of_ext _ _
      (calls_ext_of_eq _ _ (process_num_completed_pkts_calls env fuel es cb cb1 h))
  | segments_xmitted hd m =>
    exact no_retry_of_ext _ _ (calls_ext_of_eq _ _ (segments_xmitted_calls env fuel cb cb1 hd m h))
  | check_send_pkts l c b =>
    exact no_retry_of_ext _ _ (calls_ext_of_eq _ _ (check_send_pkts_calls env fuel cb cb1 l c b h))

/-- C29 (amended): the handle is the one of the link control block `p` in slot
`i`, and `l2cu_create_conn` returns `b` for this link.  After
`l2c_link_hci_disc_comp` the link is still in use exactly when, after the
channel loop, a channel is left on its list or a channel is pending, and the
connect attempt succeeds (`b` is `TRUE`); in every other case the link is
released, and `l2cu_release_lcb` is called for no other link.  And for every
event that `l2c_link.c` handles: a connect attempt for a link that is in
`LST_CONNECTED` when the event arrives is made only where
`l2c_link_hci_disc_comp` runs, which is on a disconnect-complete and on a
connect-complete with a failure status for a link that is not in
`LST_CONNECTING`. -/
theorem disc_comp_keeps_or_releases (env : Env) (cb : tL2C_CB) (handle i : Nat)
    (reason : tHCI_STATUS) (p : tL2C_LCB) (b : Bool)
    (hfind : l2cu_find_lcb_by_handle cb handle = some i) (hp : cb.lcb_pool[i]? = some p)
    (hb : ∀ c, env.l2cu_create_conn c i p.transport = b) (halloc : allocate_quiet env) :
    (∃ pf, (l2c_link_hci_disc_comp env cb handle reason).2.lcb_pool[i]? = some pf ∧
      (pf.in_use = true ↔
        (disc_comp_left env p ≠ [] ∨ p.p_pending_ccb.isSome = true) ∧ b = true)) ∧
    lcb_releases (l2c_link_hci_disc_comp env cb handle reason).2.calls
      = lcb_releases cb.calls
        ++ (if (disc_comp_left env p ≠ [] ∨ p.p_pending_ccb.isSome = true) ∧ b = true then []
            else [i]) ∧
    ∀ (fuel : Nat) (ev : tLINK_EVENT) (cb0 cb1 : tL2C_CB),
      l2c_link_event env fuel cb0 ev = some cb1 →
      runs_disc_comp cb0 ev = true ∨ no_retry cb0 cb1 := by
  have hlt : i < cb.lcb_pool.length := (List.getElem?_eq_some_iff.mp hp).1
  rcases find_lcb_by_handle_some cb handle i hfind with ⟨p0, hp0, huse, _⟩
  rw [hp] at hp0
  cases hp0
  rcases disc_comp_found env cb handle i reason p hfind hp with ⟨_, r2, promo, r3, _, r5⟩
  rcases disc_comp_known_spec env cb i p reason hp with
    ⟨pf, a, c, cbr, qa, qc, e1, e2, e3, _, _, _, s4, _⟩
  rw [hb cbr] at e1
  have hfree : (disc_comp_known env cb i p reason).1 = true ↔
      ¬ ((disc_comp_left env p ≠ [] ∨ p.p_pending_ccb.isSome = true) ∧ b = true) := by
    rw [e1]
    by_cases hag : disc_comp_left env p ≠ [] ∨ p.p_pending_ccb.isSome = true
    · rw [decide_eq_true hag, Bool.true_and]
      cases b
      · exact ⟨fun _ h => Bool.noConfusion h.2, fun _ => rfl⟩
      · exact ⟨fun h => Bool.noConfusion h, fun h => absurd ⟨hag, rfl⟩ h⟩
    · rw [decide_eq_false hag, Bool.false_and]
      exact ⟨fun _ h => hag h.1, fun _ => rfl⟩
  refine ⟨⟨pf, ?_, ?_⟩, ?_, ?_⟩
  · rw [r2, e3]
    simp [hlt]
  · rw [s4, huse]
    by_cases hf : (disc_comp_known env cb i p reason).1 = true
    · have hno := hfree.mp hf
      rw [hf]
      exact ⟨fun h => absurd h (by decide), fun h => absurd h hno⟩
    · have hn : (disc_comp_left env p ≠ [] ∨ p.p_pending_ccb.isSome = true) ∧ b = true :=
        not_not.mp (fun h => hf (hfree.mpr h))
      rw [Bool.eq_false_iff.mpr hf]
      exact ⟨fun _ => hn, fun _ => rfl⟩
  · have hpromo : lcb_releases promo = [] := by
      unfold lcb_releases
      rw [List.filterMap_eq_nil_iff]
      intro x hx
      rcases r5 x hx with ⟨j, pj, e, _⟩
      rw [e]
    have e4 : lcb_releases (if disc_comp_left env p ≠ [] ∨ p.p_pending_ccb.isSome = true then
        [.l2cu_create_conn i p.transport] else []) = [] := by
      split <;> rfl
    rw [r3, e2]
    simp only [lcb_releases_append, quiet_lcb_releases a qa, quiet_lcb_releases c qc, hpromo,
      lcb_releases_csm, e4, List.append_nil]
    by_cases hf : (disc_comp_known env cb i p reason).1 = true
    · rw [if_pos hf, if_neg (hfree.mp hf)]
      rfl
    · have hn : (disc_comp_left env p ≠ [] ∨ p.p_pending_ccb.isSome = true) ∧ b = true :=
        not_not.mp (fun h => hf (hfree.mpr h))
      rw [if_neg hf, if_pos hn]
      rfl
  · intro fuel ev cb0 cb1 h
    cases hr : runs_disc_comp cb0 ev
    · exact Or.inr (link_event_no_retry env fuel cb0 cb1 ev halloc h hr)
    · exact Or.inl rfl

/-- C29, counterexample: the link in slot 0 of `cb_pending` is in `LST_CONNECTED`
with the channel 2 pending.  A connect-complete with the failure status
`HCI_ERR_OTHER 8` for its address is handed on to `l2c_link_hci_disc_comp`, and
a connect attempt is made for the link: a connect attempt is retried after an
event that is not a disconnect-complete. -/
theorem failed_connect_complete_retries :
    cb_pending.lcb_pool.map (fun p => (p.in_use, p.link_state))
      = [(true, .LST_CONNECTED), (false, .LST_DISCONNECTED)] ∧
    (l2c_link_event env_detach 0 cb_pending (.hci_conn_comp (.HCI_ERR_OTHER 8) 5 7)).map
        (fun c => c.calls)
      = some [.btm_acl_update_busy_level,
          .l2c_csm_execute 1 .L2CEVT_LP_DISCONNECT_IND,
          .btm_sco_acl_removed 7,
          .l2cu_create_conn 0 .BT_TRANSPORT_BR_EDR] := by
  refine ⟨rfl, rfl⟩

/-- Witness of C29 (amended) on `cb_pending`: the channel 2 is pending and the
connect attempt succeeds, so the link is kept and nothing is released. -/
theorem disc_comp_keeps_or_releases_witness :
    lcb_releases (l2c_link_hci_disc_comp env_detach cb_pending 9 (.HCI_ERR_OTHER 19)).2.calls
      = [] :=
  (disc_comp_keeps_or_releases env_detach cb_pending 9 0 (.HCI_ERR_OTHER 19)
    { in_use := true, remote_bd_addr := 7, link_state := .LST_CONNECTED, handle := 9,
      sent_not_acked := 2, p_pending_ccb := some 2,
      ccb_queue := [ { local_cid := 64, ccb_id := 1 }, { local_cid := 65, ccb_id := 2 } ] }
    true (by decide) rfl (fun _ => rfl)
    (fun _ _ _ _ _ _ h => Option.noConfusion h)).2.1.trans rfl

theorem findIdx_map_eq {α : Type} (f : α → Bool) (xs ys : List α) (h : xs.map f = ys.map f) :
    xs.findIdx f = ys.findIdx f := by
  induction xs generalizing ys with
  | nil =>
    cases ys with
    | nil => rfl
    | cons y ys => simp at h
  | cons x xs ih =>
    cases ys with
    | nil => simp at h
    | cons y ys =>
      simp only [List.map_cons, List.cons.injEq] at h
      rw [List.findIdx_cons, List.findIdx_cons, h.1, ih ys h.2]

/-- What `l2cu_find_lcb_by_state` finds depends on the pool only through which
slots are in use and in the state. -/
theorem find_lcb_by_state_congr (cb cb1 : tL2C_CB) (st : tL2C_LINK_STATE)
    (h : cb.lcb_pool.map (fun p => p.in_use && decide (p.link_state = st))
      = cb1.lcb_pool.map (fun p => p.in_use && decide (p.link_state = st))) :
    l2cu_find_lcb_by_state cb st = l2cu_find_lcb_by_state cb1 st := by
  have hl : cb.lcb_pool.length = cb1.lcb_pool.length := by
    have := congrArg List.length h
    simpa using this
  unfold l2cu_find_lcb_by_state
  simp only [findIdx_map_eq _ _ _ h, hl]

/-- The link that `l2cu_find_lcb_by_state` finds is the first one of the pool
that is in use and in the state. -/
theorem find_lcb_by_state_first (cb : tL2C_CB) (st : tL2C_LINK_STATE) (j : Nat)
    (h : l2cu_find_lcb_by_state cb st = some j) :
    ∀ k, k < j → ∀ pk, cb.lcb_pool[k]? = some pk → ¬ (pk.in_use = true ∧ pk.link_state = st) := by
  unfold l2cu_find_lcb_by_state at h
  simp only [] at h
  split at h
  · rename_i hlt
    have hj : List.findIdx (fun p => p.in_use && decide (p.link_state = st)) cb.lcb_pool = j := by
      simpa using h
    intro k hk pk hpk
    rw [← hj] at hk
    have hno := @List.not_of_lt_findIdx tL2C_LCB
      (fun p => p.in_use && decide (p.link_state = st)) cb.lcb_pool k hk
    rcases List.getElem?_eq_some_iff.mp hpk with ⟨hkl, e⟩
    rw [e] at hno
    intro hc
    simp [hc.1, hc.2] at hno
  · simp at h

theorem find_lcb_by_state_exists (cb : tL2C_CB) (st : tL2C_LINK_STATE) (j : Nat) (pj : tL2C_LCB)
    (hj : cb.lcb_pool[j]? = some pj) (huse : pj.in_use = true) (hst : pj.link_state = st) :
    ∃ k, l2cu_find_lcb_by_state cb st = some k := by
  unfold l2cu_find_lcb_by_state
  simp only []
  have hex : ∃ x ∈ cb.lcb_pool, (fun p => p.in_use && decide (p.link_state = st)) x = true :=
    ⟨pj, by
      rcases List.getElem?_eq_some_iff.mp hj with ⟨hl, e⟩
      rw [← e]
      exact List.getElem_mem _, by simp [huse, hst]⟩
  rw [if_pos (List.findIdx_lt_length_of_exists hex)]
  exact ⟨_, rfl⟩

/-- C40: for a handle that no link control block in use has,
`l2c_link_hci_disc_comp` returns `FALSE` and leaves the control block as it is,
but for one call: when a link is in use in `LST_CONNECT_HOLDING`,
`l2cu_create_conn` is called for the first such link of the pool, although no
link was released. -/
theorem disc_comp_unknown_handle (env : Env) (cb : tL2C_CB) (handle : Nat)
    (reason : tHCI_STATUS) (hfind : l2cu_find_lcb_by_handle cb handle = none) :
    l2c_link_hci_disc_comp env cb handle reason
      = (false,
          match l2cu_find_lcb_by_state cb .LST_CONNECT_HOLDING with
          | some j => ext_call cb (.l2cu_create_conn j .BT_TRANSPORT_BR_EDR)
          | none => cb) ∧
    (∀ j pj, cb.lcb_pool[j]? = some pj → pj.in_use = true →
      pj.link_state = .LST_CONNECT_HOLDING →
      ∃ k pk, l2cu_find_lcb_by_state cb .LST_CONNECT_HOLDING = some k ∧ k ≤ j ∧
        cb.lcb_pool[k]? = some pk ∧ pk.in_use = true ∧ pk.link_state = .LST_CONNECT_HOLDING ∧
        (l2c_link_hci_disc_comp env cb handle reason).2
          = ext_call cb (.l2cu_create_conn k .BT_TRANSPORT_BR_EDR)) := by
  have e : l2c_link_hci_disc_comp env cb handle reason
      = (false,
          match l2cu_find_lcb_by_state cb .LST_CONNECT_HOLDING with
          | some j => ext_call cb (.l2cu_create_conn j .BT_TRANSPORT_BR_EDR)
          | none => cb) := by
    unfold l2c_link_hci_disc_comp
    simp only [hfind, if_true]
    cases l2cu_find_lcb_by_state cb .LST_CONNECT_HOLDING <;> rfl
  refine ⟨e, ?_⟩
  intro j pj hj huse hst
  rcases find_lcb_by_state_exists cb _ j pj hj huse hst with ⟨k, hk⟩
  rcases find_lcb_by_state_some cb _ k hk with ⟨pk, e1, e2, e3⟩
  refine ⟨k, pk, hk, ?_, e1, e2, e3, ?_⟩
  · by_contra hlt
    exact find_lcb_by_state_first cb _ k hk j (by omega) pj hj ⟨huse, hst⟩
  · rw [e, hk]

/-- Witness of C40 on a pool whose second link is held: the handle 5 is unknown,
and the held link gets its connect attempt. -/
theorem disc_comp_unknown_handle_witness :
    l2c_link_hci_disc_comp env0 cb_holding 5 (.HCI_ERR_OTHER 19)
      = (false, ext_call cb_holding (.l2cu_create_conn 1 .BT_TRANSPORT_BR_EDR)) :=
  (disc_comp_unknown_handle env0 cb_holding 5 (.HCI_ERR_OTHER 19) (by decide)).1.trans rfl

/-- The function `l2c_link_hci_disc_comp` is `l2c_link_hci_disc_comp_by` for the
helper `l2cu_find_lcb_by_state` of this development. -/
theorem disc_comp_by_eq (env : Env) (cb : tL2C_CB) (handle : Nat) (reason : tHCI_STATUS) :
    l2c_link_hci_disc_comp_by l2cu_find_lcb_by_state env cb handle reason
      = l2c_link_hci_disc_comp env cb handle reason := rfl

/-- Lines 650-670: the pending channel is cleared, every channel of the link gets
`L2CEVT_LP_DISCONNECT_IND` once, and the link is released whether or not a
channel is left. -/
theorem timeout_drop_eq (env : Env) (cb : tL2C_CB) (i : Nat) (p : tL2C_LCB)
    (hp : cb.lcb_pool[i]? = some p) :
    timeout_drop env cb i p
      = { cb with
          lcb_pool := cb.lcb_pool.set i
            { p with
              in_use := false,
              p_pending_ccb := none,
              ccb_queue := p.ccb_queue.filter
                (fun d => !env.csm_detaches d.ccb_id .L2CEVT_LP_DISCONNECT_IND) },
          calls := cb.calls
            ++ p.ccb_queue.map (fun c => .l2c_csm_execute c.ccb_id .L2CEVT_LP_DISCONNECT_IND)
            ++ (if env.BLE_INCLUDED = true ∧ p.link_state = .LST_CONNECTING ∧
                  cb.is_ble_connecting = true then [.L2CA_CancelBleConnectReq] else [])
            ++ [.l2cu_release_lcb i] } := by
  have hlt : i < cb.lcb_pool.length := (List.getElem?_eq_some_iff.mp hp).1
  have h1 := set_lcb_get cb i { p with p_pending_ccb := none } p hp
  unfold timeout_drop
  simp only []
  rw [csm_dispatch_saved_eq env i .L2CEVT_LP_DISCONNECT_IND none p.ccb_queue _ _ h1]
  simp only [filter_stays_self]
  have ef : (fun (d : tL2C_CCB) => !(decide (some d.ccb_id ≠ none)
        && env.csm_detaches d.ccb_id .L2CEVT_LP_DISCONNECT_IND))
      = (fun d => !env.csm_detaches d.ccb_id .L2CEVT_LP_DISCONNECT_IND) := by
    funext d
    simp
  have eg : p.ccb_queue.filter (fun c => decide (some c.ccb_id ≠ none)) = p.ccb_queue := by
    rw [List.filter_eq_self]
    intro d _
    simp
  rw [ef, eg]
  by_cases hc : env.BLE_INCLUDED = true ∧ p.link_state = .LST_CONNECTING ∧
      cb.is_ble_connecting = true
  · simp [hc, set_lcb, ext_call, l2cu_release_lcb, List.set_set, hlt]
  · simp only [if_neg hc]
    simp only [set_lcb, List.set_set, List.getElem?_set_self hlt, if_neg hc]
    simp [set_lcb, ext_call, l2cu_release_lcb, List.set_set, hlt]

/-- C32: the timer of the link `p` in slot `i` expires while the link is in
`LST_CONNECTING_WAIT_SWITCH`, `LST_CONNECTING`, `LST_CONNECT_HOLDING` or
`LST_DISCONNECTING`.  Then `l2c_link_timeout` returns, whatever the fuel of the
scheduler, with `p_pending_ccb` cleared; every channel of the link has got
`L2CEVT_LP_DISCONNECT_IND` exactly once, in the order of the list; the link is
released (`l2cu_release_lcb`) also when channels are left on the list; and no
connect attempt is among the calls. -/
theorem timeout_drops_link (env : Env) (fuel : Nat) (cb : tL2C_CB) (i : Nat) (p : tL2C_LCB)
    (hp : cb.lcb_pool[i]? = some p)
    (hstate : p.link_state = .LST_CONNECTING_WAIT_SWITCH ∨ p.link_state = .LST_CONNECTING ∨
      p.link_state = .LST_CONNECT_HOLDING ∨ p.link_state = .LST_DISCONNECTING) :
    l2c_link_timeout env fuel cb i = some
      { cb with
        lcb_pool := cb.lcb_pool.set i
          { p with
            in_use := false,
            p_pending_ccb := none,
            ccb_queue := p.ccb_queue.filter
              (fun d => !env.csm_detaches d.ccb_id .L2CEVT_LP_DISCONNECT_IND) },
        calls := cb.calls
          ++ p.ccb_queue.map (fun c => .l2c_csm_execute c.ccb_id .L2CEVT_LP_DISCONNECT_IND)
          ++ (if env.BLE_INCLUDED = true ∧ p.link_state = .LST_CONNECTING ∧
                cb.is_ble_connecting = true then [.L2CA_CancelBleConnectReq] else [])
          ++ [.l2cu_release_lcb i] } ∧
    ∀ cb1, l2c_link_timeout env fuel cb i = some cb1 →
      conn_attempts cb1.calls = conn_attempts cb.calls := by
  have hlt : i < cb.lcb_pool.length := (List.getElem?_eq_some_iff.mp hp).1
  have hne : p.link_state ≠ .LST_CONNECTED := by
    rcases hstate with h | h | h | h <;> rw [h] <;> decide
  have e : l2c_link_timeout env fuel cb i = some (timeout_drop env cb i p) := by
    unfold l2c_link_timeout
    simp only [hp, if_pos hstate]
    rw [timeout_drop_eq env cb i p hp]
    simp [hlt, hne]
  refine ⟨by rw [e, timeout_drop_eq env cb i p hp], ?_⟩
  intro cb1 h1
  rcases timeout_silent env fuel cb cb1 i h1 with ⟨new, e1, e2⟩
  rw [e1, conn_attempts_append, e2, List.append_nil]

/-- Witness of C32 on `cb_connecting`: the two channels get the event, stay on
the list, and the link is released all the same. -/
theorem timeout_drops_link_witness :
    l2c_link_timeout env0 0 cb_connecting 0 = some
      { cb_connecting with
        lcb_pool :=
          [ { in_use := false, remote_bd_addr := 7, link_state := .LST_CONNECTING, handle := 9,
              l2c_lcb_timer := some .L2CAP_LINK_CONNECT_TIMEOUT_MS,
              ccb_queue := [ { local_cid := 64, ccb_id := 1 }, { local_cid := 65, ccb_id := 2 } ] },
            {} ],
        calls :=
          [.l2c_csm_execute 1 .L2CEVT_LP_DISCONNECT_IND,
            .l2c_csm_execute 2 .L2CEVT_LP_DISCONNECT_IND, .l2cu_release_lcb 0] } :=
  (timeout_drops_link env0 0 cb_connecting 0
    { in_use := true, remote_bd_addr := 7, link_state := .LST_CONNECTING, handle := 9,
      l2c_lcb_timer := some .L2CAP_LINK_CONNECT_TIMEOUT_MS,
      ccb_queue := [ { local_cid := 64, ccb_id := 1 }, { local_cid := 65, ccb_id := 2 } ] }
    rfl (Or.inr (Or.inl rfl))).1.trans rfl

/-- C33: the timer of the link `p` in slot `i` expires while the link is in
`LST_CONNECTED` and has no channel.  Then `l2c_link_timeout` returns, whatever
the fuel of the scheduler, and the result of `btm_sec_disconnect` decides state
and timer of the link as `timeout_outcome` says: `BTM_CMD_STORED` and
`BTM_BUSY` leave the state `LST_CONNECTED` and the timer not armed again,
`BTM_CMD_STARTED` gives `LST_DISCONNECTING` with
`L2CAP_LINK_DISCONNECT_TIMEOUT_MS`, `BTM_SUCCESS` gives `LST_DISCONNECTING`
with the timer not armed again, and every other result gives
`LST_DISCONNECTING` with `L2CAP_LINK_DISCONNECT_TIMEOUT_MS` if the link is
bonding and `btsnd_hcic_disconnect` succeeds, and else `LST_CONNECTED` with
`BT_1SEC_TIMEOUT_MS`. -/
theorem timeout_connected_no_channels (env : Env) (fuel : Nat) (cb : tL2C_CB) (i : Nat)
    (p : tL2C_LCB) (hp : cb.lcb_pool[i]? = some p) (hstate : p.link_state = .LST_CONNECTED)
    (hq : p.ccb_queue = []) :
    ∃ cb1, l2c_link_timeout env fuel cb i = some cb1 ∧
      (cb1.lcb_pool[i]?).map (fun q => (q.link_state, q.l2c_lcb_timer))
        = some (timeout_outcome (env.btm_sec_disconnect p.handle) p.l2c_lcb_timer
            (p.is_bonding && env.btsnd_hcic_disconnect p.handle)) := by
  have hlt : i < cb.lcb_pool.length := (List.getElem?_eq_some_iff.mp hp).1
  have hno : ¬ (p.link_state = .LST_CONNECTING_WAIT_SWITCH ∨ p.link_state = .LST_CONNECTING ∨
      p.link_state = .LST_CONNECT_HOLDING ∨ p.link_state = .LST_DISCONNECTING) := by
    rw [hstate]
    decide
  -- the result of lines 703-747 for a link control block with the fields of `p`
  have key : ∀ (cb2 : tL2C_CB) (p2 : tL2C_LCB), cb2.lcb_pool[i]? = some p2 →
      p2.handle = p.handle → p2.is_bonding = p.is_bonding →
      p2.l2c_lcb_timer = p.l2c_lcb_timer → p2.link_state = .LST_CONNECTED →
      ((timeout_no_channels env cb2 i p2).lcb_pool[i]?).map
          (fun q => (q.link_state, q.l2c_lcb_timer))
        = some (timeout_outcome (env.btm_sec_disconnect p.handle) p.l2c_lcb_timer
            (p.is_bonding && env.btsnd_hcic_disconnect p.handle)) := by
    intro cb2 p2 h2 eh eb et es
    have hlt2 : i < cb2.lcb_pool.length := (List.getElem?_eq_some_iff.mp h2).1
    unfold timeout_no_channels timeout_outcome
    simp only [eh, eb]
    cases hrc : env.btm_sec_disconnect p.handle <;>
      cases p.is_bonding <;> cases env.btsnd_hcic_disconnect p.handle <;>
      simp [set_lcb, ext_call, hlt2, h2, es, et]
  unfold l2c_link_timeout
  simp only [hp, if_neg hno]
  simp only [hp, hstate, if_true]
  by_cases he : p.p_echo_rsp_cb = true
  · simp only [he, if_true, hq, csm_dispatch_saved]
    have h2 : ∀ P : tL2C_LCB, (ext_call (set_lcb cb i P) (.p_echo_rsp_cb i)).lcb_pool[i]?
        = some P := by
      intro P
      simp [ext_call, set_lcb, hlt]
    simp only [h2, hq, if_true]
    refine ⟨_, rfl, key _ _ (h2 _) ?_ ?_ ?_ ?_⟩ <;> rfl
  · have he2 : p.p_echo_rsp_cb = false := Bool.eq_false_iff.mpr he
    simp only [he2, Bool.false_eq_true, if_false, hp, hq, if_true]
    exact ⟨_, rfl, key cb p hp rfl rfl rfl hstate⟩

/-- Witness of C33 on `cb_idle_link`, where `btm_sec_disconnect` returns a value
that is not named and the link is not bonding: the link stays connected with a
timer of one second. -/
theorem timeout_connected_no_channels_witness :
    (l2c_link_timeout env_sec_fails 0 cb_idle_link 0).map
        (fun c => (c.calls, c.lcb_pool.map (fun p => (p.link_state, p.l2c_lcb_timer))))
      = some ([.btm_sec_disconnect 9], [(.LST_CONNECTED, some .BT_1SEC_TIMEOUT_MS)]) ∧
    ∃ cb1, l2c_link_timeout env_sec_fails 0 cb_idle_link 0 = some cb1 ∧
      (cb1.lcb_pool[0]?).map (fun q => (q.link_state, q.l2c_lcb_timer))
        = some (.LST_CONNECTED, some .BT_1SEC_TIMEOUT_MS) :=
  ⟨rfl, timeout_connected_no_channels env_sec_fails 0 cb_idle_link 0
    { in_use := true, remote_bd_addr := 7, link_state := .LST_CONNECTED, handle := 9 }
    rfl rfl rfl⟩

/-- C36: the loop of lines 856-857 of `l2c_link_adjust_allocation`, started with
`high_pri_link_quota = HQ`, for a control block in the machine ranges.  When
`num_lm_acl_bufs >= 1` or no normal-priority BR/EDR link is in use, the loop
ends after at most `HQ` decrements (any fuel above `HQ` is enough), so with a
quota `h <= HQ` that has not wrapped below zero, and
`l2c_link_adjust_allocation` returns.  When `num_lm_acl_bufs = 0` and a
normal-priority BR/EDR link is in use, the loop condition holds for every value
of the quota, the loop ends for no start value and no fuel, and with an active
link `l2c_link_adjust_allocation` does not return. -/
theorem quota_loop_terminates (HQ : Nat) (cb : tL2C_CB) (hr : adjust_in_range HQ cb) :
    ((0 < cb.num_lm_acl_bufs ∨ cb.lcb_pool.countP tL2C_LCB.is_lowpri = 0) →
      ∀ fuel, HQ < fuel →
        (∃ h, adjust_high_pri_link_quota (cb.lcb_pool.countP tL2C_LCB.is_hipri) (low_reserve cb)
            cb.num_lm_acl_bufs fuel HQ = some h ∧ h ≤ HQ ∧
          cb.lcb_pool.countP tL2C_LCB.is_hipri * h + low_reserve cb ≤ cb.num_lm_acl_bufs) ∧
        ∃ cb1, l2c_link_adjust_allocation HQ fuel cb = some cb1) ∧
    ((cb.num_lm_acl_bufs = 0 ∧ cb.lcb_pool.countP tL2C_LCB.is_lowpri ≠ 0) →
      (∀ h, cb.lcb_pool.countP tL2C_LCB.is_hipri * h + low_reserve cb > cb.num_lm_acl_bufs) ∧
      (∀ fuel hq, adjust_high_pri_link_quota (cb.lcb_pool.countP tL2C_LCB.is_hipri)
        (low_reserve cb) cb.num_lm_acl_bufs fuel hq = none) ∧
      (cb.num_links_active ≠ 0 → ∀ fuel, l2c_link_adjust_allocation HQ fuel cb = none)) := by
  constructor
  · intro hb fuel hf
    have hl : low_reserve cb ≤ cb.num_lm_acl_bufs := by
      unfold low_reserve
      split
      · rename_i hne
        rcases hb with hb | hb
        · omega
        · exact absurd hb hne
      · omega
    obtain ⟨h, hh⟩ := adjust_high_total (cb.lcb_pool.countP tL2C_LCB.is_hipri) _ _ hl
      fuel HQ hr.1 hf
    have hs := adjust_high_spec _ _ _ hl fuel HQ h hr.1 hh
    exact ⟨⟨h, hh, hs.1, hs.2.1⟩, adjust_allocation_returns HQ fuel cb hr hb hf⟩
  · rintro ⟨hb, hlow⟩
    have hl : cb.num_lm_acl_bufs < low_reserve cb := by
      unfold low_reserve
      rw [if_pos hlow, hb]
      omega
    refine ⟨fun h => by omega, fun fuel hq => adjust_high_none _ _ _ hl fuel hq, ?_⟩
    intro hact fuel
    obtain ⟨h1, h2, h3, h4⟩ := hr
    have hc := count_links_eq cb.lcb_pool 0 0 (by simpa using h3)
    simp only [Nat.zero_add] at hc
    have hn := adjust_high_none (cb.lcb_pool.countP tL2C_LCB.is_hipri) (low_reserve cb)
      cb.num_lm_acl_bufs hl fuel HQ
    unfold low_reserve at hn
    unfold l2c_link_adjust_allocation
    simp only [if_neg hact, hc, hn]

/-- Witness of C36 on `cb_three_lo`, three normal-priority links and two
buffers: the loop ends at once with the start value 5. -/
theorem quota_loop_terminates_witness :
    (∃ h, adjust_high_pri_link_quota (cb_three_lo.lcb_pool.countP tL2C_LCB.is_hipri)
        (low_reserve cb_three_lo) cb_three_lo.num_lm_acl_bufs 6 5 = some h ∧ h ≤ 5 ∧
      cb_three_lo.lcb_pool.countP tL2C_LCB.is_hipri * h + low_reserve cb_three_lo
        ≤ cb_three_lo.num_lm_acl_bufs) ∧
    ∃ cb1, l2c_link_adjust_allocation 5 6 cb_three_lo = some cb1 :=
  (quota_loop_terminates 5 cb_three_lo (by decide)).1 (Or.inl (by decide)) 6 (by decide)

/-- C38: the accounting step adds the reported count to the window of the
transport of the link modulo `2 ^ 16` and compares it with nothing; an entry
for a handle that no link control block in use has leaves the control block as
it is; and on `cb_one_private` (four buffers) the link sends one frame, the
report of one completed packet brings the window back to 4, and the same
report once more, with nothing outstanding on the link, brings
`controller_xmit_window` to 5, above `num_lm_acl_bufs = 4`. -/
theorem nocp_window_unclamped (env : Env) (fuel : Nat) (cb : tL2C_CB) :
    (∀ (i : Nat) (p : tL2C_LCB) (n : Nat),
      (nocp_account env cb i p n).controller_xmit_window
        = (if is_le env p then cb.controller_xmit_window
           else u16_add cb.controller_xmit_window n) ∧
      (nocp_account env cb i p n).controller_le_xmit_window
        = (if is_le env p then u16_add cb.controller_le_xmit_window n
           else cb.controller_le_xmit_window)) ∧
    (∀ (handle n : Nat), l2cu_find_lcb_by_handle cb handle = none →
      nocp_entry env fuel cb (handle, n) = some cb ∧
      l2c_link_process_num_completed_pkts env fuel cb [(handle, n)] = some cb) ∧
    (l2c_link_check_send_pkts env0 65536 cb_one_private (some 0) none none).map
        (fun c => (c.controller_xmit_window, c.lcb_pool.map (fun p => p.sent_not_acked)))
      = some (3, [1]) ∧
    ((l2c_link_check_send_pkts env0 65536 cb_one_private (some 0) none none).bind
        (fun c => l2c_link_process_num_completed_pkts env0 65536 c [(1, 1)])).map
        (fun c => (c.controller_xmit_window, c.lcb_pool.map (fun p => p.sent_not_acked)))
      = some (4, [0]) ∧
    (((l2c_link_check_send_pkts env0 65536 cb_one_private (some 0) none none).bind
        (fun c => l2c_link_process_num_completed_pkts env0 65536 c [(1, 1)])).bind
        (fun c => l2c_link_process_num_completed_pkts env0 65536 c [(1, 1)])).map
        (fun c => (c.controller_xmit_window, c.num_lm_acl_bufs,
          c.lcb_pool.map (fun p => p.sent_not_acked)))
      = some (5, 4, [0]) := by
  refine ⟨?_, ?_, rfl, rfl, rfl⟩
  · intro i p n
    unfold nocp_account
    dsimp only
    constructor <;> (split <;> split) <;> simp_all
  · intro handle n hfind
    have e : nocp_entry env fuel cb (handle, n) = some cb := by
      unfold nocp_entry
      simp only [hfind]
    refine ⟨e, ?_⟩
    unfold l2c_link_process_num_completed_pkts
    rw [e]
    simp [l2c_link_process_num_completed_pkts]

/-- Witness of C38: an entry for the unknown handle 7 on `cb_one_private`. -/
theorem nocp_window_unclamped_witness :
    l2c_link_process_num_completed_pkts env0 0 cb_one_private [(7, 3)] = some cb_one_private :=
  ((nocp_window_unclamped env0 0 cb_one_private).2.1 7 3 (by decide)).2

theorem u16_sub_self (w : Nat) : u16_sub w w = 0 := by
  unfold u16_sub U16
  omega

theorem to_u16_sub (q sna : Nat) (hq : q < U16) (h : sna < q) :
    to_u16 ((q : Int) - (sna : Int)) = q - sna := by
  unfold U16 at hq
  unfold to_u16
  omega

/-- When the clamp of lines 1431-1451 sets the flag on a link with spare
private quota, the call takes the whole window or fills the quota. -/
theorem clamp_segs_flag (ns w q sna : Nat) (hq16 : q < U16) (h : sna < q)
    (hf : (clamp_segs ns w q sna).2 = true) :
    (clamp_segs ns w q sna).1 = w ∨ sna + (clamp_segs ns w q sna).1 = q := by
  have hu := to_u16_sub q sna hq16 h
  have hq : q ≠ 0 := by omega
  unfold clamp_segs at hf ⊢
  rw [if_neg hq] at hf ⊢
  dsimp only at hf ⊢
  by_cases h1 : ns > w
  · rw [if_pos h1] at hf ⊢
    dsimp only at hf ⊢
    by_cases h2 : (w : Int) > (q : Int) - (sna : Int)
    · rw [if_pos h2]
      dsimp only
      right
      rw [hu]
      omega
    · rw [if_neg h2]
      left
      rfl
  · rw [if_neg h1] at hf ⊢
    dsimp only at hf ⊢
    by_cases h2 : (ns : Int) > (q : Int) - (sna : Int)
    · rw [if_pos h2]
      dsimp only
      right
      rw [hu]
      omega
    · rw [if_neg h2] at hf
      simp at hf

/-- The same for `send_segs`: a frame that sets the flag takes the whole window
of the transport of the link or fills the quota of the link. -/
theorem send_segs_flag (env : Env) (cb : tL2C_CB) (p : tL2C_LCB) (b : BT_HDR)
    (hq16 : p.link_xmit_quota < U16) (h : p.sent_not_acked < p.link_xmit_quota)
    (hf : (send_segs env cb p b).2 = true) :
    (send_segs env cb p b).1 = xmit_window_of env cb p
      ∨ p.sent_not_acked + (send_segs env cb p b).1 = p.link_xmit_quota := by
  unfold send_segs at hf ⊢
  unfold xmit_window_of
  by_cases hfit : fits_acl_packet env p b = true
  · rw [if_pos hfit] at hf
    simp at hf
  · rw [if_neg hfit] at hf ⊢
    exact clamp_segs_flag _ _ _ _ hq16 h hf

/-- The loop condition of the private-quota branch is false once the window of
the transport of the link is 0 or the link has its quota outstanding. -/
theorem private_may_send_closed (env : Env) (cb : tL2C_CB) (p : tL2C_LCB)
    (h : xmit_window_of env cb p = 0 ∨ p.sent_not_acked = p.link_xmit_quota) :
    private_may_send env cb p = false := by
  unfold private_may_send
  unfold xmit_window_of is_le at h
  rcases h with h | h
  · by_cases hb : env.BLE_INCLUDED = true
    · simp only [hb, if_true, Bool.true_and] at h ⊢
      by_cases hl : p.transport = .BT_TRANSPORT_LE
      · simp [hl] at h ⊢
        simp [h]
      · simp [hl] at h ⊢
        simp [h]
    · simp [hb] at h ⊢
      simp [h]
  · simp [h]

/-- The link in slot `i` after `l2c_link_send_to_lower`. -/
theorem send_to_lower_slot (env : Env) (cb : tL2C_CB) (i : Nat) (p : tL2C_LCB) (b : BT_HDR)
    (hp : cb.lcb_pool[i]? = some p) :
    (l2c_link_send_to_lower env cb i b).lcb_pool[i]? = some
      { p with
        sent_not_acked := u16_add p.sent_not_acked (send_segs env cb p b).1,
        partial_segment_being_sent :=
          p.partial_segment_being_sent || (send_segs env cb p b).2 } := by
  rw [send_to_lower_eq env cb i p b hp]
  dsimp only
  rw [getElem?_set_same _ i _ _ hp]

/-- The window of the transport of the link after `l2c_link_send_to_lower`. -/
theorem send_to_lower_window (env : Env) (cb : tL2C_CB) (i : Nat) (p q : tL2C_LCB) (b : BT_HDR)
    (hp : cb.lcb_pool[i]? = some p) (hq : q.transport = p.transport) :
    xmit_window_of env (l2c_link_send_to_lower env cb i b) q
      = u16_sub (xmit_window_of env cb p) (send_segs env cb p b).1 := by
  rw [send_to_lower_eq env cb i p b hp]
  unfold xmit_window_of is_le
  rw [hq]
  dsimp only
  split <;> rfl

/-- A call of `l2c_link_send_to_lower` made under the loop condition of the
private-quota branch that sets `partial_segment_being_sent` leaves the loop
condition false. -/
theorem send_flag_closes (env : Env) (cb : tL2C_CB) (i : Nat) (p : tL2C_LCB) (b : BT_HDR)
    (hp : cb.lcb_pool[i]? = some p) (hq16 : p.link_xmit_quota < U16)
    (hm : private_may_send env cb p = true) (hclear : p.partial_segment_being_sent = false)
    (p1 : tL2C_LCB) (hp1 : (l2c_link_send_to_lower env cb i b).lcb_pool[i]? = some p1)
    (hset : p1.partial_segment_being_sent = true) :
    (xmit_window_of env (l2c_link_send_to_lower env cb i b) p1 = 0
        ∨ p1.sent_not_acked = p1.link_xmit_quota) ∧
      private_may_send env (l2c_link_send_to_lower env cb i b) p1 = false := by
  have hlt := private_may_send_lt env cb p hm
  rw [send_to_lower_slot env cb i p b hp] at hp1
  have e := (Option.some.inj hp1).symm
  have htr : p1.transport = p.transport := by rw [e]
  have hquota : p1.link_xmit_quota = p.link_xmit_quota := by rw [e]
  have hsna : p1.sent_not_acked = u16_add p.sent_not_acked (send_segs env cb p b).1 := by rw [e]
  have hfl : p1.partial_segment_being_sent
      = (p.partial_segment_being_sent || (send_segs env cb p b).2) := by rw [e]
  rw [hfl, hclear, Bool.false_or] at hset
  have hs := send_segs_flag env cb p b hq16 hlt hset
  have hor : xmit_window_of env (l2c_link_send_to_lower env cb i b) p1 = 0
      ∨ p1.sent_not_acked = p1.link_xmit_quota := by
    rcases hs with hs | hs
    · left
      rw [send_to_lower_window env cb i p p1 b hp htr, hs]
      exact u16_sub_self _
    · right
      rw [hsna, hquota, u16_add_lt _ _ (by omega)]
      exact hs
  exact ⟨hor, private_may_send_closed _ _ _ hor⟩

/-- Neither loop of the private-quota branch sends when the loop condition is
false. -/
theorem drain_closed (env : Env) (cb : tL2C_CB) (i : Nat) (p : tL2C_LCB)
    (hp : cb.lcb_pool[i]? = some p) (hm : private_may_send env cb p = false) :
    (∀ q, drain_link_q env i q cb = cb) ∧
      ∀ fuel fixd_cid, drain_channels env i (fuel + 1) cb fixd_cid = some cb := by
  constructor
  · intro q
    cases q with
    | nil => rfl
    | cons b rest =>
      rw [drain_link_q]
      simp only [hp, hm]
      rfl
  · intro fuel fixd_cid
    rw [drain_channels]
    simp only [hp, hm]
    rfl

/-- C39: in the private-quota branch of `l2c_link_check_send_pkts`, a call of
`l2c_link_send_to_lower` that is made under the loop condition, on a link with
a 16-bit quota whose `partial_segment_being_sent` is clear, and that sets the
flag, has brought the controller window of the transport of the link to 0 or
`sent_not_acked` to `link_xmit_quota`; the loop condition is false in the state
`s` after the call, so the first loop returns `s` for every remaining queue,
the second loop returns `s` (after the tx-complete callback when the call was
made by the second loop), and `hci_sent` is the one of `s`. -/
theorem partial_flag_ends_pass (env : Env) (cb : tL2C_CB) (i : Nat) (p : tL2C_LCB) (b : BT_HDR)
    (hp : cb.lcb_pool[i]? = some p) (hq16 : p.link_xmit_quota < U16)
    (hm : private_may_send env cb p = true) (hclear : p.partial_segment_being_sent = false)
    (p1 : tL2C_LCB) (hp1 : (l2c_link_send_to_lower env cb i b).lcb_pool[i]? = some p1)
    (hset : p1.partial_segment_being_sent = true) :
    (xmit_window_of env (l2c_link_send_to_lower env cb i b) p1 = 0
        ∨ p1.sent_not_acked = p1.link_xmit_quota) ∧
      private_may_send env (l2c_link_send_to_lower env cb i b) p1 = false ∧
      (∀ (rest : List BT_HDR) (fuel fixd_cid : Nat),
        drain_link_q env i rest (l2c_link_send_to_lower env cb i b)
          = l2c_link_send_to_lower env cb i b ∧
        drain_channels env i (fuel + 1)
            (drain_link_q env i rest (l2c_link_send_to_lower env cb i b)) fixd_cid
          = some (l2c_link_send_to_lower env cb i b)) ∧
      (∀ (fuel c fixd_cid : Nat),
        drain_channels env i (fuel + 1)
            (fixed_tx_complete env (l2c_link_send_to_lower env cb i b) c) fixd_cid
          = some (fixed_tx_complete env (l2c_link_send_to_lower env cb i b) c) ∧
        (fixed_tx_complete env (l2c_link_send_to_lower env cb i b) c).hci_sent
          = (l2c_link_send_to_lower env cb i b).hci_sent) := by
  obtain ⟨hor, hcl⟩ := send_flag_closes env cb i p b hp hq16 hm hclear p1 hp1 hset
  have hd := drain_closed env _ i p1 hp1 hcl
  refine ⟨hor, hcl, ?_, ?_⟩
  · intro rest fuel fixd_cid
    rw [hd.1 rest]
    exact ⟨rfl, hd.2 fuel fixd_cid⟩
  · intro fuel c fixd_cid
    have hfp : (fixed_tx_complete env (l2c_link_send_to_lower env cb i b) c).lcb_pool[i]?
        = some p1 := by
      unfold fixed_tx_complete
      split
      · exact hp1
      · exact hp1
    have hfm : private_may_send env
        (fixed_tx_complete env (l2c_link_send_to_lower env cb i b) c) p1 = false := by
      unfold fixed_tx_complete
      by_cases hc : (env.MTK_COMMON = true ∧ c ≠ 0 ∧ env.fixed_tx_complete_cb c = true)
      · rw [if_pos hc]
        exact hcl
      · rw [if_neg hc]
        exact hcl
    refine ⟨(drain_closed env _ i p1 hfp hfm).2 fuel fixd_cid, ?_⟩
    unfold fixed_tx_complete
    split <;> rfl

/-- Witness of C39: on `cb_one_private` (window 4, quota 4) a frame of 5000
bytes needs five segments; the call sends four, sets the flag and leaves the
window at 0. -/
theorem partial_flag_ends_pass_witness :
    private_may_send env0 (l2c_link_send_to_lower env0 cb_one_private 0 { len := 5000 })
      { in_use := true, link_state := .LST_CONNECTED, handle := 1, link_xmit_quota := 4,
        link_xmit_data_q := [ { len := 10 } ], sent_not_acked := 4,
        partial_segment_being_sent := true } = false :=
  (partial_flag_ends_pass env0 cb_one_private 0
    { in_use := true, link_state := .LST_CONNECTED, handle := 1, link_xmit_quota := 4,
      link_xmit_data_q := [ { len := 10 } ] }
    { len := 5000 } rfl (by decide) rfl rfl
    { in_use := true, link_state := .LST_CONNECTED, handle := 1, link_xmit_quota := 4,
      link_xmit_data_q := [ { len := 10 } ], sent_not_acked := 4,
      partial_segment_being_sent := true } rfl rfl).2.1

/-- The outstanding BR/EDR buffers after one slot of the pool is rewritten. -/
theorem acl_outstanding_set (pool : List tL2C_LCB) (i : Nat) (p p1 : tL2C_LCB)
    (hp : pool[i]? = some p) :
    acl_outstanding (pool.set i p1) + (if p.br_edr_in_use then p.sent_not_acked else 0)
      = acl_outstanding pool + (if p1.br_edr_in_use then p1.sent_not_acked else 0) := by
  induction pool generalizing i with
  | nil => simp at hp
  | cons x xs ih =>
    cases i with
    | zero =>
      simp only [List.getElem?_cons_zero, Option.some.injEq] at hp
      subst hp
      simp only [List.set_cons_zero, acl_outstanding, List.filter_cons]
      by_cases h1 : x.br_edr_in_use = true <;> by_cases h2 : p1.br_edr_in_use = true <;>
        simp [h1, h2] <;> omega
    | succ j =>
      simp only [List.getElem?_cons_succ] at hp
      have h := ih j hp
      simp only [List.set_cons_succ, acl_outstanding, List.filter_cons] at h ⊢
      by_cases h1 : x.br_edr_in_use = true
      · simp only [h1, if_true, List.map_cons, List.sum_cons] at h ⊢
        omega
      · simp only [h1] at h ⊢
        exact h

/-- The buffers that an in-use BR/EDR link has outstanding are part of the sum. -/
theorem acl_outstanding_ge (pool : List tL2C_LCB) (i : Nat) (p : tL2C_LCB)
    (hp : pool[i]? = some p) (hb : p.br_edr_in_use = true) :
    p.sent_not_acked ≤ acl_outstanding pool := by
  have h := acl_outstanding_set pool i p { p with sent_not_acked := 0 } hp
  have e : ({ p with sent_not_acked := 0 } : tL2C_LCB).br_edr_in_use = true := hb
  rw [e, hb] at h
  simp only [if_true] at h
  omega

theorem is_le_not_br_edr (env : Env) (p : tL2C_LCB) (h : is_le env p = true) :
    p.br_edr_in_use = false := by
  unfold is_le at h
  unfold tL2C_LCB.br_edr_in_use
  simp only [Bool.and_eq_true, decide_eq_true_eq] at h
  simp [h.2]

/-- The clamp of lines 1431-1451 releases at most the window when the window is
not 0 and a private quota has room. -/
theorem clamp_segs_le_window (ns w q sna : Nat) (hw : w ≠ 0) (hq : q ≠ 0 → sna < q) :
    (clamp_segs ns w q sna).1 ≤ w := by
  unfold clamp_segs
  by_cases h0 : q = 0
  · rw [if_pos h0]
    dsimp only
    omega
  · rw [if_neg h0]
    have hu := to_u16_le _ _ (hq h0)
    dsimp only
    by_cases h1 : ns > w
    · rw [if_pos h1]
      dsimp only
      by_cases h2 : (w : Int) > (q : Int) - (sna : Int)
      · rw [if_pos h2]
        dsimp only
        omega
      · rw [if_neg h2]
    · rw [if_neg h1]
      dsimp only
      by_cases h2 : (ns : Int) > (q : Int) - (sna : Int)
      · rw [if_pos h2]
        dsimp only
        omega
      · rw [if_neg h2]
        dsimp only
        omega

/-- The number of buffers that a call of `l2c_link_send_to_lower` takes is at
most the window of the transport when the guard of the calling loop holds:
spare private quota, or a round-robin link and a window that is not 0. -/
theorem send_segs_le_window (env : Env) (cb : tL2C_CB) (p : tL2C_LCB) (b : BT_HDR)
    (hw : xmit_window_of env cb p ≠ 0)
    (hq : p.link_xmit_quota ≠ 0 → p.sent_not_acked < p.link_xmit_quota) :
    (send_segs env cb p b).1 ≤ xmit_window_of env cb p := by
  unfold send_segs
  unfold xmit_window_of at hw ⊢
  by_cases hfit : fits_acl_packet env p b = true
  · rw [if_pos hfit]
    dsimp only
    omega
  · rw [if_neg hfit]
    exact clamp_segs_le_window _ _ _ _ hw hq

/-- The guards of the scheduler give a window that is not 0 for the transport
of a BR/EDR link. -/
theorem sched_guard_window (env : Env) (cb : tL2C_CB) (i : Nat) (p : tL2C_LCB)
    (hp : cb.lcb_pool[i]? = some p) (htr : p.transport = .BT_TRANSPORT_BR_EDR)
    (hg : private_may_send env cb p = true
      ∨ (p.link_xmit_quota = 0 ∧ rr_window_full env cb i = false)) :
    cb.controller_xmit_window ≠ 0
      ∧ (p.link_xmit_quota ≠ 0 → p.sent_not_acked < p.link_xmit_quota) := by
  rcases hg with hg | ⟨hq, hg⟩
  · refine ⟨?_, fun _ => private_may_send_lt env cb p hg⟩
    unfold private_may_send at hg
    by_cases hb : env.BLE_INCLUDED = true
    · simp [hb, htr] at hg
      exact hg.1
    · simp [hb] at hg
      exact hg.1
  · refine ⟨?_, fun h => absurd hq h⟩
    unfold rr_window_full transport_at at hg
    rw [hp] at hg
    by_cases hb : env.BLE_INCLUDED = true
    · simp [hb, htr] at hg
      exact hg.1
    · simp [hb] at hg
      exact hg.1

/-- Conservation carries over to a state that differs in slot `i` of the pool
and in the window when the two changes balance. -/
theorem acl_conserved_of (cb cb1 : tL2C_CB) (i : Nat) (p p1 : tL2C_LCB)
    (hp : cb.lcb_pool[i]? = some p) (hpool : cb1.lcb_pool = cb.lcb_pool.set i p1)
    (hbufs : cb1.num_lm_acl_bufs = cb.num_lm_acl_bufs)
    (hbal : cb1.controller_xmit_window + (if p1.br_edr_in_use then p1.sent_not_acked else 0)
      = cb.controller_xmit_window + (if p.br_edr_in_use then p.sent_not_acked else 0))
    (hcons : acl_conserved cb) : acl_conserved cb1 := by
  unfold acl_conserved at hcons ⊢
  have h := acl_outstanding_set cb.lcb_pool i p p1 hp
  rw [hpool, hbufs]
  omega

/-- C37: buffer conservation on the BR/EDR transport.  Let the free controller
buffers `controller_xmit_window` and the sum of `sent_not_acked` over the in-use
BR/EDR links add up to `num_lm_acl_bufs`, a 16-bit value, and let `p` be a link
in use in slot `i`, on BR/EDR or an LE link of a build with LE.  Then the
equality holds again after a call of `l2c_link_send_to_lower` for `p` that is
made under the guard of a scheduler loop (the condition of the private-quota
loops, or a quota of 0 and the window test of the round-robin loop for slot
`i`), and after the accounting step of an acknowledgement of `n` buffers for
`p` with `n ≤ sent_not_acked`. -/
theorem acl_buffers_conserved (env : Env) (cb : tL2C_CB) (i : Nat) (p : tL2C_LCB)
    (hp : cb.lcb_pool[i]? = some p) (hin : p.in_use = true)
    (htr : p.transport = .BT_TRANSPORT_BR_EDR ∨ is_le env p = true)
    (h16 : cb.num_lm_acl_bufs < U16) (hcons : acl_conserved cb) :
    (∀ b : BT_HDR,
      (private_may_send env cb p = true
        ∨ (p.link_xmit_quota = 0 ∧ rr_window_full env cb i = false)) →
      acl_conserved (l2c_link_send_to_lower env cb i b)) ∧
    (∀ n : Nat, n ≤ p.sent_not_acked → acl_conserved (nocp_account env cb i p n)) := by
  have hc := hcons
  unfold acl_conserved at hc
  rcases htr with htr | hle
  · have hbr : p.br_edr_in_use = true := by
      unfold tL2C_LCB.br_edr_in_use
      simp [hin, htr]
    have hnle := is_le_br_edr env p htr
    have hge := acl_outstanding_ge _ i p hp hbr
    constructor
    · intro b hg
      obtain ⟨hw, hq⟩ := sched_guard_window env cb i p hp htr hg
      have hwin : xmit_window_of env cb p = cb.controller_xmit_window := by
        unfold xmit_window_of
        simp [hnle]
      have hsegs := send_segs_le_window env cb p b (by rw [hwin]; exact hw) hq
      rw [hwin] at hsegs
      have hsub : u16_sub cb.controller_xmit_window (send_segs env cb p b).1
          = cb.controller_xmit_window - (send_segs env cb p b).1 :=
        u16_sub_le _ _ hsegs (by omega)
      have hadd : u16_add p.sent_not_acked (send_segs env cb p b).1
          = p.sent_not_acked + (send_segs env cb p b).1 := u16_add_lt _ _ (by omega)
      apply acl_conserved_of cb _ i p
        { p with
          sent_not_acked := u16_add p.sent_not_acked (send_segs env cb p b).1,
          partial_segment_being_sent :=
            p.partial_segment_being_sent || (send_segs env cb p b).2 } hp
        (by rw [send_to_lower_eq env cb i p b hp])
        (by rw [send_to_lower_eq env cb i p b hp]) ?_ hcons
      have e : ({ p with
          sent_not_acked := u16_add p.sent_not_acked (send_segs env cb p b).1,
          partial_segment_being_sent :=
            p.partial_segment_being_sent || (send_segs env cb p b).2 }
            : tL2C_LCB).br_edr_in_use = true := hbr
      rw [e, hbr, send_to_lower_eq env cb i p b hp]
      simp only [hnle, Bool.false_eq_true, if_false, if_true]
      rw [hsub, hadd]
      omega
    · intro n hn
      have hadd : u16_add cb.controller_xmit_window n = cb.controller_xmit_window + n :=
        u16_add_lt _ _ (by omega)
      have hwin : (nocp_account env cb i p n).controller_xmit_window
          = u16_add cb.controller_xmit_window n := by
        unfold nocp_account
        simp only [hnle, Bool.false_eq_true, if_false]
        split <;> rfl
      apply acl_conserved_of cb _ i p
        { p with sent_not_acked := floor_sub p.sent_not_acked n } hp
        (by unfold nocp_account; rfl)
        (by unfold nocp_account; simp only [hnle, Bool.false_eq_true, if_false]; split <;> rfl)
        ?_ hcons
      have e : ({ p with sent_not_acked := floor_sub p.sent_not_acked n }
            : tL2C_LCB).br_edr_in_use = true := hbr
      rw [e, hbr, hwin, hadd]
      simp only [if_true, floor_sub_eq]
      omega
  · have hnb := is_le_not_br_edr env p hle
    constructor
    · intro b _
      apply acl_conserved_of cb _ i p
        { p with
          sent_not_acked := u16_add p.sent_not_acked (send_segs env cb p b).1,
          partial_segment_being_sent :=
            p.partial_segment_being_sent || (send_segs env cb p b).2 } hp
        (by rw [send_to_lower_eq env cb i p b hp])
        (by rw [send_to_lower_eq env cb i p b hp]) ?_ hcons
      have e : ({ p with
          sent_not_acked := u16_add p.sent_not_acked (send_segs env cb p b).1,
          partial_segment_being_sent :=
            p.partial_segment_being_sent || (send_segs env cb p b).2 }
            : tL2C_LCB).br_edr_in_use = false := hnb
      rw [e, hnb, send_to_lower_eq env cb i p b hp]
      simp only [hle, if_true, Bool.false_eq_true, if_false]
    · intro n _
      have hwin : (nocp_account env cb i p n).controller_xmit_window
          = cb.controller_xmit_window := by
        unfold nocp_account
        simp only [hle, if_true]
        split <;> rfl
      apply acl_conserved_of cb _ i p
        { p with sent_not_acked := floor_sub p.sent_not_acked n } hp
        (by unfold nocp_account; rfl)
        (by unfold nocp_account; simp only [hle, if_true]; split <;> rfl)
        ?_ hcons
      have e : ({ p with sent_not_acked := floor_sub p.sent_not_acked n }
            : tL2C_LCB).br_edr_in_use = false := hnb
      rw [e, hnb, hwin]
      simp only [Bool.false_eq_true, if_false]

/-- Witness of C37: on `cb_one_private` (four buffers, none outstanding) the
link sends a frame of 10 bytes under the condition of the private-quota loop. -/
theorem acl_buffers_conserved_witness :
    acl_conserved (l2c_link_send_to_lower env0 cb_one_private 0 { len := 10 }) :=
  (acl_buffers_conserved env0 cb_one_private 0
    { in_use := true, link_state := .LST_CONNECTED, handle := 1, link_xmit_quota := 4,
      link_xmit_data_q := [ { len := 10 } ] }
    rfl rfl (Or.inl rfl) (by decide) (by decide)).1 { len := 10 } (Or.inl rfl)

theorem private_timer_sent (cb : tL2C_CB) (i : Nat) :
    (private_timer cb i).hci_sent = cb.hci_sent := by
  unfold private_timer
  split
  · rfl
  · split <;> rfl

theorem rr_clear_flags_sent (env : Env) (s : tRR_STATE) :
    (rr_clear_flags env s).hci_sent = s.cb.hci_sent := by
  unfold rr_clear_flags
  dsimp only
  split <;> split <;> rfl

/-- The private-quota service of a link whose transmit queue starts with the
buffer `b` hands nothing to the lower layer, or `b` first. -/
theorem sched_private_next (env : Env) (fuel : Nat) (cb cb1 : tL2C_CB) (i : Nat)
    (p : tL2C_LCB) (b : BT_HDR) (rest : List BT_HDR)
    (hp : cb.lcb_pool[i]? = some p) (hq : p.link_xmit_data_q = b :: rest)
    (hr : sched_private env fuel false cb i p = some cb1) :
    ∃ more, cb1.hci_sent = cb.hci_sent ++ more ∧
      (more = [] ∨
        ∃ ls tl, more = ⟨p.handle, { b with layer_specific := ls }, is_le env p⟩ :: tl) := by
  unfold sched_private at hr
  split at hr
  · cases hr
    exact ⟨[], by simp, Or.inl rfl⟩
  · simp only [Option.map_eq_some', Bool.false_eq_true, if_false] at hr
    obtain ⟨c, hc, rfl⟩ := hr
    rw [private_timer_sent]
    rw [hq] at hc
    by_cases hm : private_may_send env cb p = true
    · rw [drain_link_q] at hc
      simp only [hp, hm, if_true] at hc
      have hstep := cb_step_trans _ _ _ (drain_link_q_step env i rest _)
        (drain_channels_step env i fuel _ c 0 hc)
      obtain ⟨more2, hm2⟩ := hstep.2.1
      have hp1 : ({ cb with lcb_pool := cb.lcb_pool.set i { p with link_xmit_data_q := rest } }
          : tL2C_CB).lcb_pool[i]? = some { p with link_xmit_data_q := rest } :=
        getElem?_set_same _ i _ _ hp
      have key : ∃ ls, (l2c_link_send_to_lower env
          { cb with lcb_pool := cb.lcb_pool.set i { p with link_xmit_data_q := rest } }
          i b).hci_sent
          = cb.hci_sent ++ [⟨p.handle, { b with layer_specific := ls }, is_le env p⟩] := by
        rw [send_to_lower_eq env _ i _ b hp1]
        exact ⟨_, rfl⟩
      obtain ⟨ls, hls⟩ := key
      rw [hls] at hm2
      refine ⟨⟨p.handle, { b with layer_specific := ls }, is_le env p⟩ :: more2, ?_,
        Or.inr ⟨ls, more2, rfl⟩⟩
      rw [hm2]
      simp
    · rw [drain_link_q] at hc
      simp only [hp, hm, Bool.false_eq_true, if_false] at hc
      cases fuel with
      | zero =>
        rw [drain_channels] at hc
        exact absurd hc (by simp)
      | succ f =>
        rw [drain_channels] at hc
        simp only [hp, hm, Bool.false_eq_true, if_false] at hc
        cases hc
        exact ⟨[], by simp, Or.inl rfl⟩

/-- A round-robin pass leaves a link whose transmit queue starts with the
buffer `b` as it is, or takes `b` off the queue and hands it to the lower
layer. -/
theorem sched_round_robin_next (env : Env) (hmtk : env.MTK_COMMON = true) (cb cb1 : tL2C_CB)
    (start i : Nat) (p : tL2C_LCB) (b : BT_HDR) (rest : List BT_HDR)
    (hstart : start ≤ cb.lcb_pool.length)
    (hp : cb.lcb_pool[i]? = some p) (hq : p.link_xmit_data_q = b :: rest)
    (hr : sched_round_robin env false cb start = some cb1) :
    ∃ more, cb1.hci_sent = cb.hci_sent ++ more ∧
      (cb1.lcb_pool[i]? = some p ∨
        ∃ p2 ls, cb1.lcb_pool[i]? = some p2 ∧ p2.link_xmit_data_q = rest ∧
          (⟨p.handle, { b with layer_specific := ls }, is_le env p⟩ : tHCI_SEND) ∈ more) := by
  unfold sched_round_robin at hr
  simp only [Option.map_eq_some'] at hr
  obtain ⟨s1, hs1, rfl⟩ := hr
  obtain ⟨vs, _, h2, h3, h4⟩ := rr_loop_visits env hmtk false cb.lcb_pool.length
    { cb := cb, p_lcb := start, fixd_cid := 0 } s1 hstart (le_refl _) hs1
  dsimp only at h2 h3 h4
  refine ⟨_, by rw [rr_clear_flags_sent]; exact h4, ?_⟩
  rw [rr_clear_flags_pool]
  by_cases hi : i ∈ vs.map Prod.fst
  · right
    obtain ⟨v, hv, hvi⟩ := List.mem_map.mp hi
    obtain ⟨_, p0, g1, _, g3⟩ := h2 v hv
    rw [hvi, hp] at g1
    cases g1
    rw [hvi] at g3
    refine ⟨_, if fits_acl_packet env p b then 0 else 1, g3, ?_, ?_⟩
    · unfold rr_slot_after
      rw [hq]
    · rw [List.mem_filterMap]
      refine ⟨v, hv, ?_⟩
      rw [hvi, hp]
      simp only [Option.some_bind]
      unfold rr_sent rr_pick
      rw [hq]
      rfl
  · left
    rw [h3 i hi]
    exact hp

/-- C34: `l2c_link_segments_xmitted`.  With an unknown handle, and with a link
that is not in `LST_CONNECTED`, the control block is returned as it is: the
buffer is on no queue and no link state has changed.  With a connected link `p`
in slot `i` the result is the scheduler call `l2c_link_check_send_pkts (p_lcb,
NULL, NULL)` for that link on the state in which the link has the buffer at the
head of its transmit queue and `partial_segment_being_sent` clear
(`requeued`).  That call returns (build with `MTK_COMMON`, sizes as in
`sizes_ok`, 16-bit quotas and enough fuel for the channel loop) and changes no
`link_state`.  The buffer is the next one sent on that link: the private-quota
service hands nothing to the lower layer or this buffer first, and the
round-robin pass leaves the link as requeued or takes this buffer off its queue
and hands it to the lower layer. -/
theorem segments_xmitted_contract (env : Env) (fuel : Nat) (cb : tL2C_CB) (handle : Nat)
    (p_msg : BT_HDR) :
    (l2cu_find_lcb_by_handle cb handle = none →
      l2c_link_segments_xmitted env fuel cb handle p_msg = some cb) ∧
    (∀ (i : Nat) (p : tL2C_LCB),
      l2cu_find_lcb_by_handle cb handle = some i → cb.lcb_pool[i]? = some p →
      (p.link_state ≠ .LST_CONNECTED →
        l2c_link_segments_xmitted env fuel cb handle p_msg = some cb) ∧
      (p.link_state = .LST_CONNECTED →
        l2c_link_segments_xmitted env fuel cb handle p_msg
          = l2c_link_check_send_pkts env fuel (set_lcb cb i (requeued p p_msg)) (some i)
              none none ∧
        (env.MTK_COMMON = true → sizes_ok env → quotas_u16 cb.lcb_pool → U16 ≤ fuel →
          ∃ cb1, l2c_link_segments_xmitted env fuel cb handle p_msg = some cb1) ∧
        ∀ cb1, l2c_link_segments_xmitted env fuel cb handle p_msg = some cb1 →
          (cb1.lcb_pool.map (fun q => q.link_state) = cb.lcb_pool.map (fun q => q.link_state)) ∧
          ∃ more, cb1.hci_sent = cb.hci_sent ++ more ∧
            (p.link_xmit_quota ≠ 0 →
              more = [] ∨ ∃ ls tl,
                more = ⟨p.handle, { p_msg with layer_specific := ls }, is_le env p⟩ :: tl) ∧
            (p.link_xmit_quota = 0 → env.MTK_COMMON = true →
              cb1.lcb_pool[i]? = some (requeued p p_msg) ∨
                ∃ p2 ls, cb1.lcb_pool[i]? = some p2 ∧
                  p2.link_xmit_data_q = p.link_xmit_data_q ∧
                  (⟨p.handle, { p_msg with layer_specific := ls }, is_le env p⟩ : tHCI_SEND)
                    ∈ more))) := by
  constructor
  · intro hfind
    unfold l2c_link_segments_xmitted
    rw [hfind]
  · intro i p hfind hp
    have hi : i < cb.lcb_pool.length := (List.getElem?_eq_some.mp hp).1
    constructor
    · intro hst
      unfold l2c_link_segments_xmitted
      rw [hfind]
      simp only [hp, hst, if_false]
    · intro hst
      have heq : l2c_link_segments_xmitted env fuel cb handle p_msg
          = l2c_link_check_send_pkts env fuel (set_lcb cb i (requeued p p_msg)) (some i)
              none none := by
        unfold l2c_link_segments_xmitted
        rw [hfind]
        dsimp only
        rw [hp]
        dsimp only
        rw [if_pos hst]
        rfl
      have hp1 : (set_lcb cb i (requeued p p_msg)).lcb_pool[i]? = some (requeued p p_msg) :=
        set_lcb_get cb i _ p hp
      have hset : cb_step cb (set_lcb cb i (requeued p p_msg)) :=
        cb_step_set cb i p _ hp ⟨rfl, rfl, rfl, rfl, rfl, rfl, rfl, rfl⟩
      refine ⟨heq, ?_, ?_⟩
      · intro hmtk hs hq hfuel
        rw [heq]
        apply check_send_pkts_returns env hmtk hs fuel hfuel
        · intro q hq1
          unfold set_lcb at hq1
          rcases List.mem_or_eq_of_mem_set hq1 with h | h
          · exact hq q h
          · rw [h]
            obtain ⟨hlt, e⟩ := List.getElem?_eq_some.mp hp
            have hq2 := hq _ (List.getElem_mem hlt)
            rw [e] at hq2
            exact hq2
        · show i < (cb.lcb_pool.set i (requeued p p_msg)).length
          rw [List.length_set]
          exact hi
      · intro cb1 hr
        rw [heq] at hr
        have hstep := cb_step_trans _ _ _ hset
          (check_send_pkts_step env fuel _ cb1 _ _ _ hr)
        constructor
        · apply List.ext_getElem?
          intro j
          rw [List.getElem?_map, List.getElem?_map]
          cases hj : cb.lcb_pool[j]? with
          | none =>
            have hlen : cb1.lcb_pool.length ≤ j := by
              rw [hstep.1.1]
              exact List.getElem?_eq_none_iff.mp hj
            rw [List.getElem?_eq_none_iff.mpr hlen]
          | some q =>
            obtain ⟨q1, hq1, hl⟩ := cb_step_slot cb cb1 hstep j q hj
            rw [hq1]
            simp only [Option.map_some', hl.2.2.2.1]
        · unfold l2c_link_check_send_pkts at hr
          simp only [hp1] at hr
          unfold sched_link at hr
          by_cases hcong : (set_lcb cb i (requeued p p_msg)).is_cong_cback_context = true
          · rw [if_pos hcong] at hr
            cases hr
            refine ⟨[], by simp [set_lcb], fun _ => Or.inl rfl, fun _ _ => Or.inl hp1⟩
          · rw [if_neg hcong] at hr
            by_cases h0 : p.link_xmit_quota = 0
            · have h0r : (requeued p p_msg).link_xmit_quota = 0 := h0
              rw [if_pos h0r] at hr
              simp only [Bool.false_eq_true, if_false] at hr
              by_cases hmtk : env.MTK_COMMON = true
              · obtain ⟨more, hm1, hm2⟩ := sched_round_robin_next env hmtk _ cb1 (i + 1) i
                  (requeued p p_msg) p_msg p.link_xmit_data_q
                  (by show i + 1 ≤ (cb.lcb_pool.set i (requeued p p_msg)).length
                      rw [List.length_set]; omega)
                  hp1 rfl hr
                exact ⟨more, hm1, fun h => absurd h0 h, fun _ _ => hm2⟩
              · obtain ⟨more, hm1⟩ := hstep.2.1
                exact ⟨more, hm1, fun h => absurd h0 h, fun _ h => absurd h hmtk⟩
            · have h0r : ¬ (requeued p p_msg).link_xmit_quota = 0 := h0
              rw [if_neg h0r] at hr
              simp only [hp1] at hr
              obtain ⟨more, hm1, hm2⟩ := sched_private_next env fuel _ cb1 i
                (requeued p p_msg) p_msg p.link_xmit_data_q hp1 rfl hr
              exact ⟨more, hm1, fun _ => hm2, fun h => absurd h h0⟩

/-- Witness of C34: no link of `cb_quota2_partial` has the handle 9, and the
buffer is dropped. -/
theorem segments_xmitted_contract_witness :
    l2c_link_segments_xmitted env0 1 cb_quota2_partial 9 { len := 5 } = some cb_quota2_partial :=
  (segments_xmitted_contract env0 1 cb_quota2_partial 9 { len := 5 }).1 (by decide)

theorem keeps_refl (cb : tL2C_CB) : keeps_states cb cb :=
  ⟨rfl, fun j p p1 h h1 => by rw [h] at h1; cases h1; rfl⟩

theorem keeps_trans (a b c : tL2C_CB) (h1 : keeps_states a b) (h2 : keeps_states b c) :
    keeps_states a c := by
  refine ⟨h2.1.trans h1.1, ?_⟩
  intro j p r hp hr
  have hj : j < b.lcb_pool.length := by
    rw [h1.1]
    exact (List.getElem?_eq_some.mp hp).1
  have hq := List.getElem?_eq_getElem hj
  exact (h2.2 j _ r hq hr).trans (h1.2 j p _ hp hq)

theorem keeps_of_pool (cb cb1 : tL2C_CB) (h : cb1.lcb_pool = cb.lcb_pool) :
    keeps_states cb cb1 := by
  refine ⟨by rw [h], ?_⟩
  intro j p p1 hp hp1
  rw [h, hp] at hp1
  cases hp1
  rfl

theorem keeps_ext_call (cb : tL2C_CB) (c : tEXT_CALL) : keeps_states cb (ext_call cb c) :=
  keeps_of_pool _ _ rfl

/-- Storing a link control block that is in the state of the one in the slot
keeps the states. -/
theorem keeps_set (cb : tL2C_CB) (i : Nat) (p1 : tL2C_LCB)
    (h : ∀ q, cb.lcb_pool[i]? = some q → p1.link_state = q.link_state) :
    keeps_states cb (set_lcb cb i p1) := by
  refine ⟨by simp [set_lcb], ?_⟩
  intro j q q1 hq hq1
  by_cases hj : j = i
  · subst hj
    rw [set_lcb_get cb j p1 q hq] at hq1
    cases hq1
    exact h q hq
  · rw [set_lcb_other cb i j p1 hj, hq] at hq1
    cases hq1
    rfl

theorem keeps_of_step (cb cb1 : tL2C_CB) (h : cb_step cb cb1) : keeps_states cb cb1 :=
  ⟨h.1.1, fun j p p1 hp hp1 => (h.1.2 j p p1 hp hp1).2.2.2.1⟩

/-- The state of the link in slot `i` carries over to a control block that
keeps the states. -/
theorem keeps_slot (cb cb1 : tL2C_CB) (h : keeps_states cb cb1) (i : Nat)
    (s : tL2C_LINK_STATE) (hs : ∀ q, cb.lcb_pool[i]? = some q → q.link_state = s) :
    ∀ q, cb1.lcb_pool[i]? = some q → q.link_state = s := by
  intro q hq
  have hi : i < cb.lcb_pool.length := by
    rw [← h.1]
    exact (List.getElem?_eq_some.mp hq).1
  have h0 := List.getElem?_eq_getElem hi
  rw [h.2 i _ q h0 hq]
  exact hs _ h0

theorem keeps_csm_execute (env : Env) (cb : tL2C_CB) (i : Nat) (c : tL2C_CCB)
    (ev : tL2C_EVT) : keeps_states cb (l2c_csm_execute env cb i c ev) := by
  unfold l2c_csm_execute
  dsimp only
  split
  · split
    · exact keeps_ext_call _ _
    · rename_i p hp
      refine keeps_trans _ _ _ (keeps_ext_call cb _) (keeps_set _ i _ ?_)
      intro q hq
      rw [hp] at hq
      cases hq
      rfl
  · exact keeps_ext_call _ _

theorem keeps_dispatch_saved (env : Env) (i : Nat) (ev : tL2C_EVT) (skip : Option Nat)
    (l : List tL2C_CCB) (cb : tL2C_CB) :
    keeps_states cb (csm_dispatch_saved env i ev skip l cb) := by
  induction l generalizing cb with
  | nil => exact keeps_refl cb
  | cons c rest ih =>
    rw [csm_dispatch_saved]
    refine keeps_trans _ _ _ ?_ (ih _)
    split
    · exact keeps_refl cb
    · exact keeps_csm_execute env cb i c ev

theorem keeps_dispatch_live (env : Env) (i : Nat) (ev : tL2C_EVT) (l : List tL2C_CCB)
    (cb cb1 : tL2C_CB) (h : csm_dispatch_live env i ev l cb = some cb1) :
    keeps_states cb cb1 := by
  induction l generalizing cb with
  | nil =>
    rw [csm_dispatch_live] at h
    cases h
    exact keeps_refl _
  | cons c rest ih =>
    rw [csm_dispatch_live] at h
    split at h
    · exact absurd h (by simp)
    · exact keeps_trans _ _ _ (keeps_csm_execute env cb i c ev) (ih _ h)

theorem keeps_qos_loop (env : Env) (i : Nat) (l : List tL2C_CCB) (cb cb1 : tL2C_CB)
    (h : qos_violation_loop env i l cb = some cb1) : keeps_states cb cb1 := by
  induction l generalizing cb with
  | nil =>
    rw [qos_violation_loop] at h
    cases h
    exact keeps_refl _
  | cons c rest ih =>
    rw [qos_violation_loop] at h
    split at h
    · split at h
      · exact absurd h (by simp)
      · exact keeps_trans _ _ _ (keeps_csm_execute env cb i c _) (ih _ h)
    · exact ih _ h

theorem keeps_release_lcb (cb : tL2C_CB) (i : Nat) : keeps_states cb (l2cu_release_lcb cb i) := by
  unfold l2cu_release_lcb
  dsimp only
  split
  · exact keeps_ext_call _ _
  · rename_i p hp
    refine keeps_trans _ _ _ (keeps_ext_call cb _) (keeps_set _ i _ ?_)
    intro q hq
    rw [hp] at hq
    cases hq
    rfl

theorem writes_of_keeps (i : Nat) (W : tL2C_LINK_STATE → tL2C_LINK_STATE → Prop)
    (cb cb1 : tL2C_CB) (h : keeps_states cb cb1) : writes_at i W cb cb1 :=
  ⟨h.1, fun j p p1 hp hp1 => Or.inl (h.2 j p p1 hp hp1)⟩

theorem writes_keeps (i : Nat) (W : tL2C_LINK_STATE → tL2C_LINK_STATE → Prop)
    (a b c : tL2C_CB) (h1 : writes_at i W a b) (h2 : keeps_states b c) : writes_at i W a c := by
  refine ⟨h2.1.trans h1.1, ?_⟩
  intro j p r hp hr
  have hj : j < b.lcb_pool.length := by
    rw [h1.1]
    exact (List.getElem?_eq_some.mp hp).1
  have hq := List.getElem?_eq_getElem hj
  rw [h2.2 j _ r hq hr]
  exact h1.2 j p _ hp hq

theorem keeps_writes (i : Nat) (W : tL2C_LINK_STATE → tL2C_LINK_STATE → Prop)
    (a b c : tL2C_CB) (h1 : keeps_states a b) (h2 : writes_at i W b c) : writes_at i W a c := by
  refine ⟨h2.1.trans h1.1, ?_⟩
  intro j p r hp hr
  have hj : j < b.lcb_pool.length := by
    rw [h1.1]
    exact (List.getElem?_eq_some.mp hp).1
  have hq := List.getElem?_eq_getElem hj
  have h := h2.2 j _ r hq hr
  rw [h1.2 j p _ hp hq] at h
  exact h

/-- Two writes to slot `i` whose targets `W` admits whatever the old state
is. -/
theorem writes_trans (i : Nat) (T : tL2C_LINK_STATE → Prop) (a b c : tL2C_CB)
    (h1 : writes_at i (fun _ s1 => T s1) a b) (h2 : writes_at i (fun _ s1 => T s1) b c) :
    writes_at i (fun _ s1 => T s1) a c := by
  refine ⟨h2.1.trans h1.1, ?_⟩
  intro j p r hp hr
  have hj : j < b.lcb_pool.length := by
    rw [h1.1]
    exact (List.getElem?_eq_some.mp hp).1
  have hq := List.getElem?_eq_getElem hj
  rcases h2.2 j _ r hq hr with h | ⟨hji, h⟩
  · rw [h]
    exact h1.2 j p _ hp hq
  · exact Or.inr ⟨hji, h⟩

theorem writes_set (i : Nat) (W : tL2C_LINK_STATE → tL2C_LINK_STATE → Prop) (cb : tL2C_CB)
    (p1 : tL2C_LCB) (h : ∀ q, cb.lcb_pool[i]? = some q → W q.link_state p1.link_state) :
    writes_at i W cb (set_lcb cb i p1) := by
  refine ⟨by simp [set_lcb], ?_⟩
  intro j q q1 hq hq1
  by_cases hj : j = i
  · subst hj
    rw [set_lcb_get cb j p1 q hq] at hq1
    cases hq1
    exact Or.inr ⟨rfl, h q hq⟩
  · rw [set_lcb_other cb i j p1 hj, hq] at hq1
    cases hq1
    exact Or.inl rfl

theorem writes_mono (i : Nat) (W W1 : tL2C_LINK_STATE → tL2C_LINK_STATE → Prop)
    (cb cb1 : tL2C_CB) (h : writes_at i W cb cb1) (hW : ∀ s s1, W s s1 → W1 s s1) :
    writes_at i W1 cb cb1 :=
  ⟨h.1, fun j p p1 hp hp1 => (h.2 j p p1 hp hp1).imp id (fun x => ⟨x.1, hW _ _ x.2⟩)⟩

/-- A write to slot `i` seen from the state that the slot is known to be in. -/
theorem writes_from (i : Nat) (W W1 : tL2C_LINK_STATE → tL2C_LINK_STATE → Prop)
    (cb cb1 : tL2C_CB) (s : tL2C_LINK_STATE) (h : writes_at i W cb cb1)
    (hs : ∀ q, cb.lcb_pool[i]? = some q → q.link_state = s)
    (hW : ∀ s1, W s s1 → s1 = s ∨ W1 s s1) : writes_at i W1 cb cb1 := by
  refine ⟨h.1, ?_⟩
  intro j p p1 hp hp1
  rcases h.2 j p p1 hp hp1 with h0 | ⟨hj, h0⟩
  · exact Or.inl h0
  · subst hj
    have e := hs p hp
    rw [e] at h0 ⊢
    rcases hW _ h0 with h1 | h1
    · exact Or.inl h1
    · exact Or.inr ⟨rfl, h1⟩

theorem sec_comp_keeps (env : Env) (cb : tL2C_CB) (p_bda : Nat) (t : tBT_TRANSPORT)
    (r : Nat) (status : tBTM_STATUS) :
    keeps_states cb (l2c_link_sec_comp env cb p_bda t r status) := by
  unfold l2c_link_sec_comp
  dsimp only
  split
  · exact keeps_refl cb
  · split
    · exact keeps_refl cb
    · rename_i p hp
      split
      · exact keeps_refl cb
      · split
        · exact keeps_csm_execute env cb _ _ _
        · refine keeps_set cb _ _ ?_
          intro q hq
          rw [hp] at hq
          cases hq
          rfl
        · exact keeps_csm_execute env cb _ _ _

theorem qos_violation_keeps (env : Env) (cb : tL2C_CB) (handle : Nat) (r : Bool × tL2C_CB)
    (h : l2c_link_hci_qos_violation env cb handle = some r) : keeps_states cb r.2 := by
  unfold l2c_link_hci_qos_violation at h
  split at h
  · cases h
    exact keeps_refl _
  · split at h
    · exact absurd h (by simp)
    · simp only [Option.map_eq_some'] at h
      rcases h with ⟨c, hc, rfl⟩
      exact keeps_qos_loop env _ _ cb c hc

theorem info_resp_timer_timeout_keeps (env : Env) (cb cb1 : tL2C_CB) (i : Nat)
    (h : l2c_info_resp_timer_timeout env cb i = some cb1) : keeps_states cb cb1 := by
  unfold l2c_info_resp_timer_timeout at h
  split at h
  · exact absurd h (by simp)
  · rename_i p hp
    have hset : ∀ p1 : tL2C_LCB, p1.link_state = p.link_state →
        keeps_states cb (set_lcb cb i p1) := by
      intro p1 h1
      refine keeps_set cb i p1 ?_
      intro q hq
      rw [hp] at hq
      cases hq
      exact h1
    split at h
    · split at h
      · cases h
        exact hset _ rfl
      · dsimp only at h
        split at h
        · exact keeps_trans _ _ _ (hset { p with w4_info_rsp := false } rfl)
            (keeps_dispatch_live env i _ _ _ cb1 h)
        · cases h
          exact hset _ rfl
    · cases h
      exact keeps_refl _

theorem pin_code_request_keeps (cb : tL2C_CB) (bd_addr : Nat) :
    keeps_states cb (l2c_pin_code_request cb bd_addr) := by
  unfold l2c_pin_code_request
  split
  · exact keeps_refl cb
  · split
    · exact keeps_refl cb
    · rename_i p hp
      split
      · refine keeps_set cb _ _ ?_
        intro q hq
        rw [hp] at hq
        cases hq
        rfl
      · exact keeps_refl cb

theorem role_changed_keeps (cb : tL2C_CB) (bd_addr : Option Nat) (new_role : tHCI_ROLE)
    (st : tHCI_STATUS) : keeps_states cb (l2c_link_role_changed cb bd_addr new_role st) := by
  have key : ∀ cb1 : tL2C_CB, keeps_states cb cb1 →
      keeps_states cb (role_changed_loop (List.range cb1.lcb_pool.length) cb1) := by
    intro cb1 h1
    exact keeps_trans _ _ _ h1 (keeps_of_pool _ _ (role_changed_loop_spec _ cb1).1)
  unfold l2c_link_role_changed
  cases bd_addr with
  | none => exact key cb (keeps_refl cb)
  | some a =>
    cases hfind : l2cu_find_lcb_by_bd_addr cb a .BT_TRANSPORT_BR_EDR with
    | none =>
      simp only [hfind]
      exact key cb (keeps_refl cb)
    | some i =>
      cases hp : cb.lcb_pool[i]? with
      | none =>
        simp only [hfind, hp]
        exact key cb (keeps_refl cb)
      | some p =>
        simp only [hfind, hp]
        have hset : keeps_states cb (set_lcb cb i { p with link_role := new_role }) := by
          refine keeps_set cb i _ ?_
          intro q hq
          rw [hp] at hq
          cases hq
          rfl
        split
        · exact key _ (keeps_trans _ _ _ hset (keeps_of_pool _ _ rfl))
        · exact key _ hset

theorem timeout_drop_keeps (env : Env) (cb : tL2C_CB) (i : Nat) (p : tL2C_LCB)
    (hp : cb.lcb_pool[i]? = some p) : keeps_states cb (timeout_drop env cb i p) := by
  unfold timeout_drop
  dsimp only
  refine keeps_trans _ _ _ ?_ (keeps_release_lcb _ i)
  have h2 : keeps_states cb (csm_dispatch_saved env i .L2CEVT_LP_DISCONNECT_IND none p.ccb_queue
      (set_lcb cb i { p with p_pending_ccb := none })) := by
    refine keeps_trans _ _ _ (keeps_set cb i _ ?_) (keeps_dispatch_saved env i _ _ _ _)
    intro q hq
    rw [hp] at hq
    cases hq
    rfl
  split
  · exact h2
  · split
    · exact keeps_trans _ _ _ h2 (keeps_ext_call _ _)
    · exact h2

theorem timeout_no_channels_writes (env : Env) (cb : tL2C_CB) (i : Nat) (p : tL2C_LCB)
    (hp : cb.lcb_pool[i]? = some p) :
    writes_at i (fun _ s1 => s1 = .LST_DISCONNECTING) cb (timeout_no_channels env cb i p) := by
  unfold timeout_no_channels
  dsimp only
  have hk : ∀ (cbx : tL2C_CB) (p1 : tL2C_LCB), cbx.lcb_pool = cb.lcb_pool →
      p1.link_state = p.link_state →
      writes_at i (fun _ s1 => s1 = .LST_DISCONNECTING) cb (set_lcb cbx i p1) := by
    intro cbx p1 hx h1
    refine writes_of_keeps _ _ _ _ (keeps_trans _ _ _ (keeps_of_pool cb cbx hx)
      (keeps_set cbx i p1 ?_))
    intro q hq
    rw [hx, hp] at hq
    cases hq
    exact h1
  have hw : ∀ (cbx : tL2C_CB) (p1 : tL2C_LCB), cbx.lcb_pool = cb.lcb_pool →
      p1.link_state = .LST_DISCONNECTING →
      writes_at i (fun _ s1 => s1 = .LST_DISCONNECTING) cb (set_lcb cbx i p1) := by
    intro cbx p1 hx h1
    exact keeps_writes _ _ _ _ _ (keeps_of_pool cb cbx hx)
      (writes_set i _ cbx p1 (fun _ _ => h1))
  split
  · exact writes_of_keeps _ _ _ _ (keeps_ext_call _ _)
  · exact hw _ _ rfl rfl
  · exact hw _ _ rfl rfl
  · exact writes_of_keeps _ _ _ _ (keeps_ext_call _ _)
  · split
    · split
      · exact hw _ _ rfl rfl
      · exact hk _ _ rfl rfl
    · exact hk _ _ rfl rfl

theorem timeout_writes (env : Env) (fuel : Nat) (cb cb1 : tL2C_CB) (i : Nat)
    (h : l2c_link_timeout env fuel cb i = some cb1) :
    writes_at i (fun _ s1 => s1 = .LST_DISCONNECTING) cb cb1 := by
  unfold l2c_link_timeout at h
  split at h
  · exact absurd h (by simp)
  · rename_i p hp
    dsimp only at h
    have h1 : keeps_states cb (if p.link_state = .LST_CONNECTING_WAIT_SWITCH ∨
        p.link_state = .LST_CONNECTING ∨ p.link_state = .LST_CONNECT_HOLDING ∨
        p.link_state = .LST_DISCONNECTING then timeout_drop env cb i p else cb) := by
      split
      · exact timeout_drop_keeps env cb i p hp
      · exact keeps_refl cb
    split at h
    · exact absurd h (by simp)
    · rename_i p1 hp1
      split at h
      · have h2 : keeps_states cb (if p1.p_echo_rsp_cb = true then
            csm_dispatch_saved env i .L2CEVT_LP_DISCONNECT_IND none p1.ccb_queue
              (ext_call (set_lcb (if p.link_state = .LST_CONNECTING_WAIT_SWITCH ∨
                p.link_state = .LST_CONNECTING ∨ p.link_state = .LST_CONNECT_HOLDING ∨
                p.link_state = .LST_DISCONNECTING then timeout_drop env cb i p else cb) i
                { p1 with p_echo_rsp_cb := false }) (.p_echo_rsp_cb i))
          else (if p.link_state = .LST_CONNECTING_WAIT_SWITCH ∨
            p.link_state = .LST_CONNECTING ∨ p.link_state = .LST_CONNECT_HOLDING ∨
            p.link_state = .LST_DISCONNECTING then timeout_drop env cb i p else cb)) := by
          split
          · refine keeps_trans _ _ _ h1 (keeps_trans _ _ _ ?_ (keeps_dispatch_saved env i _ _ _ _))
            refine keeps_trans _ _ _ (keeps_set _ i _ ?_) (keeps_ext_call _ _)
            intro q hq
            rw [hp1] at hq
            cases hq
            rfl
          · exact h1
        split at h
        · exact absurd h (by simp)
        · rename_i p2 hp2
          split at h
          · cases h
            exact keeps_writes _ _ _ _ _ h2 (timeout_no_channels_writes env _ i p2 hp2)
          · exact writes_of_keeps _ _ _ _ (keeps_trans _ _ _ h2
              (keeps_of_step _ _ (check_send_pkts_step env fuel _ cb1 _ _ _ h)))
      · cases h
        exact writes_of_keeps _ _ _ _ h1

theorem create_conn_keeps (env : Env) (cb : tL2C_CB) (i : Nat) (t : tBT_TRANSPORT) :
    keeps_states cb (l2cu_create_conn env cb i t).2 :=
  keeps_ext_call _ _

theorem disc_comp_writes (env : Env) (cb : tL2C_CB) (handle : Nat) (reason : tHCI_STATUS) :
    ∃ i, writes_at i (fun _ s1 => s1 = .LST_DISCONNECTING) cb
      (l2c_link_hci_disc_comp env cb handle reason).2 := by
  have promo : ∀ c : tL2C_CB, keeps_states c
      (match l2cu_find_lcb_by_state c .LST_CONNECT_HOLDING with
        | some j => (l2cu_create_conn env c j .BT_TRANSPORT_BR_EDR).2
        | none => c) := by
    intro c
    split
    · exact create_conn_keeps env c _ _
    · exact keeps_refl c
  cases hfind : l2cu_find_lcb_by_handle cb handle with
  | none =>
    unfold l2c_link_hci_disc_comp
    simp only [hfind, if_true]
    exact ⟨0, writes_of_keeps _ _ _ _ (promo cb)⟩
  | some i =>
    cases hp : cb.lcb_pool[i]? with
    | none =>
      unfold l2c_link_hci_disc_comp
      simp only [hfind, hp, if_true]
      exact ⟨0, writes_of_keeps _ _ _ _ (promo cb)⟩
    | some p =>
      obtain ⟨pf, _, _, _, _, _, _, _, hpool, hst, _⟩ := disc_comp_known_spec env cb i p reason hp
      have hw : writes_at i (fun _ s1 => s1 = .LST_DISCONNECTING) cb
          (disc_comp_known env cb i p reason).2 := by
        have e : keeps_states (set_lcb cb i pf) (disc_comp_known env cb i p reason).2 :=
          keeps_of_pool _ _ hpool
        exact writes_keeps _ _ _ _ _ (writes_set i _ cb pf (fun _ _ => hst)) e
      unfold l2c_link_hci_disc_comp
      simp only [hfind, hp]
      refine ⟨i, writes_keeps _ _ _ _ _ hw ?_⟩
      split
      · exact promo _
      · exact keeps_refl _

theorem conn_req_writes (env : Env) (ha : allocate_frame env) (cb : tL2C_CB) (bd_addr : Nat)
    (r : Bool × tL2C_CB) (h : l2c_link_hci_conn_req env cb bd_addr = some r) :
    ∃ i, writes_at i (fun _ s1 => s1 = .LST_CONNECTING) cb r.2 := by
  unfold l2c_link_hci_conn_req at h
  split at h
  · split at h
    · cases h
      exact ⟨0, writes_of_keeps _ _ _ _ (keeps_ext_call cb _)⟩
    · rename_i i cb1 hal
      split at h
      · exact absurd h (by simp)
      · rename_i p hp
        cases h
        obtain ⟨hlen, hoth⟩ := ha cb cb1 bd_addr i false .BT_TRANSPORT_BR_EDR hal
        refine ⟨i, ?_, ?_⟩
        · simp [set_lcb, ext_call, hlen]
        · intro j q q1 hq hq1
          dsimp only at hq1
          by_cases hj : j = i
          · subst hj
            have hp' : (ext_call cb1 (.btsnd_hcic_accept_conn bd_addr
                (conn_req_new_role env cb1 j bd_addr p))).lcb_pool[j]? = some p := hp
            rw [set_lcb_get _ j _ p hp'] at hq1
            cases hq1
            exact Or.inr ⟨rfl, rfl⟩
          · rw [set_lcb_other _ i j _ hj] at hq1
            have hq2 : cb1.lcb_pool[j]? = some q1 := hq1
            rw [hoth j hj, hq] at hq2
            cases hq2
            exact Or.inl rfl
  · rename_i i hfind
    split at h
    · exact absurd h (by simp)
    · rename_i p hp
      split at h
      · cases h
        exact ⟨i, keeps_writes _ _ _ _ _ (keeps_ext_call cb _)
          (writes_set i _ _ _ (fun _ _ => rfl))⟩
      · split at h
        · cases h
          exact ⟨0, writes_of_keeps _ _ _ _ (keeps_ext_call cb _)⟩
        · cases h
          exact ⟨0, writes_of_keeps _ _ _ _ (keeps_ext_call cb _)⟩

theorem conn_comp_success_writes (env : Env) (cb cb1 : tL2C_CB) (i : Nat) (p : tL2C_LCB)
    (handle p_bda : Nat) (h : conn_comp_success env cb i p handle p_bda = some cb1) :
    writes_at i (fun _ s1 => s1 = .LST_CONNECTED) cb cb1 := by
  unfold conn_comp_success at h
  dsimp only at h
  have hA : writes_at i (fun _ s1 => s1 = .LST_CONNECTED) cb
      (set_lcb cb i { p with link_state := .LST_CONNECTED }) :=
    writes_set i _ cb _ (fun _ _ => rfl)
  have sA : ∀ q, (set_lcb cb i { p with link_state := .LST_CONNECTED }).lcb_pool[i]? = some q →
      q.link_state = .LST_CONNECTED := by
    intro q hq
    have e := getElem?_set_some _ _ _ _ hq
    rw [e]
  have kB : keeps_states (set_lcb cb i { p with link_state := .LST_CONNECTED })
      (if p.is_bonding = true then
      ext_call (ext_call (ext_call (ext_call (set_lcb cb i { p with link_state := .LST_CONNECTED })
        (.l2cu_send_peer_info_req i)) (.btm_acl_created p_bda handle p.link_role))
        (.BTM_SetLinkSuperTout p_bda)) (.l2cu_start_post_bond_timer handle)
    else ext_call (ext_call (ext_call (set_lcb cb i { p with link_state := .LST_CONNECTED })
        (.l2cu_send_peer_info_req i)) (.btm_acl_created p_bda handle p.link_role))
        (.BTM_SetLinkSuperTout p_bda)) := by
    split
    · exact keeps_of_pool _ _ rfl
    · exact keeps_of_pool _ _ rfl
  have sB := keeps_slot _ _ kB i _ sA
  split at h
  · cases h
    exact writes_keeps _ _ _ _ _ hA kB
  · split at h
    · exact absurd h (by simp)
    · rename_i cb4 hl
      have k3 := keeps_dispatch_live env i _ _ _ cb4 hl
      have k2 : keeps_states (set_lcb cb i { p with link_state := .LST_CONNECTED }) cb4 := by
        refine keeps_trans _ _ _ (keeps_trans _ _ _ kB ?_) k3
        refine keeps_trans _ _ _ (keeps_ext_call _ .l2c_process_held_packets) (keeps_set _ i _ ?_)
        intro q hq
        exact (sB q hq).symm
      have w4 := writes_keeps _ _ _ _ _ hA k2
      split at h
      · exact absurd h (by simp)
      · rename_i p4 hp4
        have hset : ∀ (cbx : tL2C_CB) (p1 : tL2C_LCB), cbx.lcb_pool = cb4.lcb_pool →
            p1.link_state = p4.link_state → keeps_states cb4 (set_lcb cbx i p1) := by
          intro cbx p1 hx h1
          refine keeps_trans _ _ _ (keeps_of_pool cb4 cbx hx) (keeps_set cbx i p1 ?_)
          intro q hq
          rw [hx, hp4] at hq
          cases hq
          exact h1
        split at h
        · cases h
          exact writes_keeps _ _ _ _ _ w4 (hset _ _ rfl rfl)
        · split at h
          · cases h
            exact writes_keeps _ _ _ _ _ w4 (hset _ _ rfl rfl)
          · cases h
            exact w4

theorem conn_comp_failed_writes (env : Env) (cb : tL2C_CB) (i : Nat) (p : tL2C_LCB)
    (status : tHCI_STATUS) (hp : cb.lcb_pool[i]? = some p) :
    writes_at i (fun _ s1 => s1 = .LST_DISCONNECTING ∨ s1 = .LST_CONNECTING) cb
      (conn_comp_failed env cb i p status) := by
  rw [conn_comp_failed_eq env cb i p p status hp]
  have e : ∀ pf : tL2C_LCB, (pf.link_state = .LST_DISCONNECTING ∨ pf.link_state = .LST_CONNECTING) →
      ∀ cbx : tL2C_CB, cbx.lcb_pool = cb.lcb_pool.set i pf →
      writes_at i (fun _ s1 => s1 = .LST_DISCONNECTING ∨ s1 = .LST_CONNECTING) cb cbx := by
    intro pf hpf cbx hx
    exact writes_keeps _ _ _ _ _ (writes_set i _ cb pf (fun _ _ => hpf))
      (keeps_of_pool (set_lcb cb i pf) cbx hx)
  refine e _ ?_ _ rfl
  dsimp only
  split
  · exact Or.inl rfl
  · split
    · exact Or.inr rfl
    · exact Or.inl rfl

theorem conn_comp_states (env : Env) (cb : tL2C_CB) (status : tHCI_STATUS) (handle p_bda : Nat)
    (r : Bool × tL2C_CB) (h : l2c_link_hci_conn_comp env cb status handle p_bda = some r) :
    ∃ i, writes_at i (conn_comp_writes status) cb r.2 := by
  unfold l2c_link_hci_conn_comp at h
  dsimp only at h
  have k0 : keeps_states cb (ext_call cb .btm_acl_update_busy_level) := keeps_ext_call _ _
  split at h
  · cases h
    exact ⟨0, writes_of_keeps _ _ _ _ k0⟩
  · rename_i i hfind
    split at h
    · exact absurd h (by simp)
    · rename_i p hp
      split at h
      · split at h
        · cases h
          obtain ⟨j, hj⟩ := disc_comp_writes env (ext_call cb .btm_acl_update_busy_level)
            p.handle status
          exact ⟨j, keeps_writes _ _ _ _ _ k0
            (writes_mono _ _ _ _ _ hj (fun _ _ hs => Or.inl hs))⟩
        · cases h
          exact ⟨0, writes_of_keeps _ _ _ _ k0⟩
      · rename_i hst
        have hst1 : p.link_state = .LST_CONNECTING := by
          by_contra hne
          exact hst hne
        refine ⟨i, ?_⟩
        have k1 : keeps_states cb
            (set_lcb (ext_call cb .btm_acl_update_busy_level) i { p with handle := handle }) := by
          refine keeps_trans _ _ _ k0 (keeps_set _ i _ ?_)
          intro q hq
          rw [hp] at hq
          cases hq
          rfl
        have hp1 : (set_lcb (ext_call cb .btm_acl_update_busy_level) i
            { p with handle := handle }).lcb_pool[i]? = some { p with handle := handle } :=
          set_lcb_get _ i _ p hp
        have s1 : ∀ q, (set_lcb (ext_call cb .btm_acl_update_busy_level) i
            { p with handle := handle }).lcb_pool[i]? = some q →
            q.link_state = .LST_CONNECTING := by
          intro q hq
          rw [hp1] at hq
          cases hq
          exact hst1
        refine keeps_writes _ _ _ _ _ k1 ?_
        split at h
        · rename_i hs
          simp only [Option.map_eq_some'] at h
          rcases h with ⟨c, hc, rfl⟩
          refine writes_from i _ _ _ _ .LST_CONNECTING
            (conn_comp_success_writes env _ c i _ handle p_bda hc) s1 ?_
          intro s1 h1
          exact Or.inr (Or.inr ⟨rfl, Or.inl ⟨hs, h1⟩⟩)
        · split at h
          · cases h
            refine writes_from i (fun _ s1 => s1 = .LST_CONNECT_HOLDING) _ _ _ .LST_CONNECTING
              (writes_set i _ _ _ (fun _ _ => rfl)) s1 ?_
            intro s1 h1
            exact Or.inr (Or.inr ⟨rfl, Or.inr (Or.inl h1)⟩)
          · cases h
            refine writes_from i _ _ _ _ .LST_CONNECTING
              (conn_comp_failed_writes env _ i _ status hp1) s1 ?_
            intro s1 h1
            rcases h1 with h1 | h1
            · exact Or.inr (Or.inl h1)
            · exact Or.inl h1

theorem is_conn_comp_success_iff (status : tHCI_STATUS) (handle p_bda : Nat) :
    is_conn_comp_success (.hci_conn_comp status handle p_bda) = true ↔ status = .HCI_SUCCESS := by
  cases status <;> simp [is_conn_comp_success]

/-- What each event writes to the link states: one slot at most, and into that
slot only what `event_writes` lists. -/
theorem link_event_writes (env : Env) (ha : allocate_frame env) (fuel : Nat)
    (cb cb1 : tL2C_CB) (ev : tLINK_EVENT) (h : l2c_link_event env fuel cb ev = some cb1) :
    ∃ i, writes_at i (event_writes ev) cb cb1 := by
  cases ev with
  | hci_conn_req a =>
    simp only [l2c_link_event, Option.map_eq_some'] at h
    obtain ⟨r, hr, rfl⟩ := h
    obtain ⟨i, hw⟩ := conn_req_writes env ha cb a r hr
    exact ⟨i, writes_mono _ _ _ _ _ hw (fun _ _ hs => hs)⟩
  | hci_conn_comp status handle p_bda =>
    simp only [l2c_link_event, Option.map_eq_some'] at h
    obtain ⟨r, hr, rfl⟩ := h
    obtain ⟨i, hw⟩ := conn_comp_states env cb status handle p_bda r hr
    exact ⟨i, writes_mono _ _ _ _ _ hw (fun _ _ hs => hs)⟩
  | sec_comp a t r st =>
    simp only [l2c_link_event, Option.some.injEq] at h
    subst h
    exact ⟨0, writes_of_keeps _ _ _ _ (sec_comp_keeps env cb a t r st)⟩
  | hci_disc_comp handle reason =>
    simp only [l2c_link_event, Option.some.injEq] at h
    subst h
    obtain ⟨i, hw⟩ := disc_comp_writes env cb handle reason
    exact ⟨i, writes_mono _ _ _ _ _ hw (fun _ _ hs => hs)⟩
  | hci_qos_violation handle =>
    simp only [l2c_link_event, Option.map_eq_some'] at h
    obtain ⟨r, hr, rfl⟩ := h
    exact ⟨0, writes_of_keeps _ _ _ _ (qos_violation_keeps env cb handle r hr)⟩
  | timeout lcb =>
    simp only [l2c_link_event] at h
    exact ⟨lcb, writes_mono _ _ _ _ _ (timeout_writes env fuel cb cb1 lcb h) (fun _ _ hs => hs)⟩
  | info_resp_timer_timeout lcb =>
    simp only [l2c_link_event] at h
    exact ⟨0, writes_of_keeps _ _ _ _ (info_resp_timer_timeout_keeps env cb cb1 lcb h)⟩
  | role_changed a r st =>
    simp only [l2c_link_event, Option.some.injEq] at h
    subst h
    exact ⟨0, writes_of_keeps _ _ _ _ (role_changed_keeps cb a r st)⟩
  | pin_code_request a =>
    simp only [l2c_link_event, Option.some.injEq] at h
    subst h
    exact ⟨0, writes_of_keeps _ _ _ _ (pin_code_request_keeps cb a)⟩
  | processs_num_bufs n =>
    simp only [l2c_link_event, Option.some.injEq] at h
    subst h
    exact ⟨0, writes_of_keeps _ _ _ _ (keeps_of_pool _ _ rfl)⟩
  | process_num_completed_pkts es =>
    simp only [l2c_link_event] at h
    exact ⟨0, writes_of_keeps _ _ _ _
      (keeps_of_step _ _ (process_num_completed_pkts_step env fuel es cb cb1 h))⟩
  | segments_xmitted handle m =>
    simp only [l2c_link_event] at h
    refine ⟨0, writes_of_keeps _ _ _ _ ?_⟩
    unfold l2c_link_segments_xmitted at h
    split at h
    · cases h
      exact keeps_refl _
    · split at h
      · exact absurd h (by simp)
      · rename_i p hp
        split at h
        · dsimp only at h
          refine keeps_trans _ _ _ ?_
            (keeps_of_step _ _ (check_send_pkts_step env fuel _ cb1 _ _ _ h))
          refine keeps_set cb _ _ ?_
          intro q hq
          rw [hp] at hq
          cases hq
          rfl
        · cases h
          exact keeps_refl _
  | check_send_pkts a b c =>
    simp only [l2c_link_event] at h
    exact ⟨0, writes_of_keeps _ _ _ _
      (keeps_of_step _ _ (check_send_pkts_step env fuel cb cb1 _ _ _ h))⟩

/-- Every write that `event_writes` lists is a transition that `transition_ok`
admits. -/
theorem transition_of_writes (ev : tLINK_EVENT) (s s1 : tL2C_LINK_STATE)
    (h : s1 = s ∨ event_writes ev s s1) : transition_ok ev s s1 := by
  rcases h with h | h
  · subst h
    exact ⟨fun a b => absurd a b, fun a b => absurd a b, fun _ b => absurd rfl b, fun _ => rfl⟩
  · cases ev with
    | hci_conn_req a =>
      have e : s1 = .LST_CONNECTING := h
      subst e
      exact ⟨fun a => by simp [is_conn_req, is_notification] at a, fun a => by simp [is_conn_req, is_notification] at a, fun _ _ => rfl,
        fun a => by simp [is_conn_req, is_notification] at a⟩
    | hci_conn_comp status handle p_bda =>
      have e : conn_comp_writes status s s1 := h
      unfold conn_comp_writes at e
      refine ⟨?_, ?_, fun a => by simp [is_conn_req, is_notification] at a, fun a => by simp [is_conn_req, is_notification] at a⟩
      · intro h1 _
        rcases e with e | ⟨e0, e | e | e⟩
        · rw [h1] at e
          exact absurd e (by decide)
        · exact ⟨e0, (is_conn_comp_success_iff status handle p_bda).mpr e.1⟩
        · rw [h1] at e
          exact absurd e (by decide)
        · rw [h1] at e
          exact absurd e (by decide)
      · intro h1 _
        rcases e with e | ⟨e0, _⟩
        · rw [h1] at e
          exact absurd e (by decide)
        · exact e0
    | hci_disc_comp handle reason =>
      have e : s1 = .LST_DISCONNECTING := h
      subst e
      exact ⟨fun a => by simp [is_conn_req, is_notification] at a, fun a => by simp [is_conn_req, is_notification] at a,
        fun a => by simp [is_conn_req, is_notification] at a, fun a => by simp [is_conn_req, is_notification] at a⟩
    | timeout lcb =>
      have e : s1 = .LST_DISCONNECTING := h
      subst e
      exact ⟨fun a => by simp [is_conn_req, is_notification] at a, fun a => by simp [is_conn_req, is_notification] at a,
        fun a => by simp [is_conn_req, is_notification] at a, fun a => by simp [is_conn_req, is_notification] at a⟩
    | sec_comp a t r st => exact absurd h id
    | hci_qos_violation handle => exact absurd h id
    | info_resp_timer_timeout lcb => exact absurd h id
    | role_changed a r st => exact absurd h id
    | pin_code_request a => exact absurd h id
    | processs_num_bufs n => exact absurd h id
    | process_num_completed_pkts es => exact absurd h id
    | segments_xmitted handle m => exact absurd h id
    | check_send_pkts a b c => exact absurd h id

theorem link_event_step_ok (env : Env) (ha : allocate_frame env) (fuel : Nat)
    (cb cb1 : tL2C_CB) (ev : tLINK_EVENT) (h : l2c_link_event env fuel cb ev = some cb1) :
    step_ok ev cb cb1 := by
  obtain ⟨i, hw⟩ := link_event_writes env ha fuel cb cb1 ev h
  exact ⟨hw.1, fun j p p1 hp hp1 =>
    transition_of_writes ev _ _ ((hw.2 j p p1 hp hp1).imp id (fun x => x.2))⟩

theorem link_run_cons (env : Env) (fuel : Nat) (cb cb1 : tL2C_CB) (ev : tLINK_EVENT)
    (rest : List tLINK_EVENT) (h : l2c_link_event env fuel cb ev = some cb1) :
    link_run env fuel cb (ev :: rest) = link_run env fuel cb1 rest := by
  rw [link_run]
  simp only [h]

theorem link_run_length (env : Env) (ha : allocate_frame env) (fuel : Nat)
    (evs : List tLINK_EVENT) (cb cbN : tL2C_CB) (h : link_run env fuel cb evs = some cbN) :
    cbN.lcb_pool.length = cb.lcb_pool.length := by
  induction evs generalizing cb with
  | nil =>
    rw [link_run] at h
    cases h
    rfl
  | cons ev rest ih =>
    rw [link_run] at h
    split at h
    · exact absurd h (by simp)
    · rename_i cb1 h1
      exact (ih cb1 h).trans (link_event_step_ok env ha fuel cb cb1 ev h1).1

/-- A run of notifications changes no link state. -/
theorem link_run_notifications (env : Env) (ha : allocate_frame env) (fuel : Nat)
    (evs : List tLINK_EVENT) (cb cbN : tL2C_CB) (h : link_run env fuel cb evs = some cbN)
    (hn : evs.all is_notification = true) (j : Nat) (p pN : tL2C_LCB)
    (hp : cb.lcb_pool[j]? = some p) (hpN : cbN.lcb_pool[j]? = some pN) :
    pN.link_state = p.link_state := by
  induction evs generalizing cb p with
  | nil =>
    rw [link_run] at h
    cases h
    rw [hp] at hpN
    cases hpN
    rfl
  | cons ev rest ih =>
    rw [link_run] at h
    split at h
    · exact absurd h (by simp)
    · rename_i cb1 h1
      simp only [List.all_cons, Bool.and_eq_true] at hn
      have hs := link_event_step_ok env ha fuel cb cb1 ev h1
      have hj : j < cb1.lcb_pool.length := by
        rw [hs.1]
        exact (List.getElem?_eq_some.mp hp).1
      have hp1 := List.getElem?_eq_getElem hj
      rw [ih cb1 h hn.2 _ hp1]
      exact (hs.2 j p _ hp hp1).2.2.2 hn.1

/-- A link that a run brings into the state `t`, one of `LST_CONNECTED` and
`LST_CONNECT_HOLDING`, enters it at some event of the run, and is in
`LST_CONNECTING` when that event arrives. -/
theorem link_run_enters (env : Env) (ha : allocate_frame env) (fuel : Nat)
    (t : tL2C_LINK_STATE) (ht : t = .LST_CONNECTED ∨ t = .LST_CONNECT_HOLDING)
    (evs : List tLINK_EVENT) (cb cbN : tL2C_CB) (h : link_run env fuel cb evs = some cbN)
    (j : Nat) (p pN : tL2C_LCB)
    (hp : cb.lcb_pool[j]? = some p) (hpN : cbN.lcb_pool[j]? = some pN)
    (h1 : pN.link_state = t) (h0 : p.link_state ≠ t) :
    ∃ (evs1 evs2 : List tLINK_EVENT) (ev : tLINK_EVENT) (cbk : tL2C_CB) (pk : tL2C_LCB),
      evs = evs1 ++ ev :: evs2 ∧ link_run env fuel cb evs1 = some cbk ∧
      cbk.lcb_pool[j]? = some pk ∧ pk.link_state = .LST_CONNECTING ∧
      (t = .LST_CONNECTED → is_conn_comp_success ev = true) := by
  induction evs generalizing cb p with
  | nil =>
    rw [link_run] at h
    cases h
    rw [hp] at hpN
    cases hpN
    exact absurd h1 h0
  | cons ev rest ih =>
    rw [link_run] at h
    split at h
    · exact absurd h (by simp)
    · rename_i cb1 hev
      have hs := link_event_step_ok env ha fuel cb cb1 ev hev
      have hj : j < cb1.lcb_pool.length := by
        rw [hs.1]
        exact (List.getElem?_eq_some.mp hp).1
      have hp1 := List.getElem?_eq_getElem hj
      have htr := hs.2 j p _ hp hp1
      by_cases hc : (cb1.lcb_pool[j]).link_state = t
      · refine ⟨[], rest, ev, cb, p, rfl, rfl, hp, ?_, ?_⟩
        · rcases ht with ht | ht
          · subst ht
            exact (htr.1 hc h0).1
          · subst ht
            exact htr.2.1 hc h0
        · intro e
          subst e
          exact (htr.1 hc h0).2
      · obtain ⟨evs1, evs2, ev2, cbk, pk, e1, e2, e3, e4, e5⟩ := ih cb1 h _ hp1 hc
        refine ⟨ev :: evs1, evs2, ev2, cbk, pk, ?_, ?_, e3, e4, e5⟩
        · rw [e1]
          rfl
        · rw [link_run_cons env fuel cb cb1 ev evs1 hev]
          exact e2

theorem allocate_frame_alloc : allocate_frame env_alloc := by
  intro cb cb1 bd_addr i is_bonding transport h
  have e : alloc_slot0 cb bd_addr is_bonding transport = some (i, cb1) := h
  unfold alloc_slot0 at e
  simp only [Option.some.injEq, Prod.mk.injEq] at e
  obtain ⟨rfl, rfl⟩ := e
  refine ⟨by simp [set_lcb], ?_⟩
  intro j hj
  exact set_lcb_other cb 0 j _ hj

/-- C35: the link states over the events that `l2c_link.c` handles, for an
allocator `l2cu_allocate_lcb` that writes no slot but the one it returns.
Every event keeps the length of the pool and takes every slot through a
transition of `transition_ok`: a link enters `LST_CONNECTED` only from
`LST_CONNECTING` and by a connect-complete with `HCI_SUCCESS`, it enters
`LST_CONNECT_HOLDING` only from `LST_CONNECTING`, a connect request writes no
state but `LST_CONNECTING`, and a QoS violation, a security-complete, an
acknowledgement report and a segment-transmitted notification write no state.
Over a sequence of events: every step of the run is such a step; a link that
the run brings into `LST_CONNECTED` or `LST_CONNECT_HOLDING` is in
`LST_CONNECTING` when the event arrives that does it, a successful
connect-complete in the first case; and a run of notifications changes no
link state. -/
theorem link_state_transitions (env : Env) (ha : allocate_frame env) (fuel : Nat) :
    (∀ (cb cb1 : tL2C_CB) (ev : tLINK_EVENT),
      l2c_link_event env fuel cb ev = some cb1 → step_ok ev cb cb1) ∧
    (∀ (cb cbN : tL2C_CB) (evs : List tLINK_EVENT), link_run env fuel cb evs = some cbN →
      cbN.lcb_pool.length = cb.lcb_pool.length ∧
      (∀ (evs1 evs2 : List tLINK_EVENT) (ev : tLINK_EVENT) (cbk cbk1 : tL2C_CB),
        evs = evs1 ++ ev :: evs2 → link_run env fuel cb evs1 = some cbk →
        l2c_link_event env fuel cbk ev = some cbk1 → step_ok ev cbk cbk1) ∧
      (∀ (j : Nat) (p pN : tL2C_LCB) (t : tL2C_LINK_STATE),
        t = .LST_CONNECTED ∨ t = .LST_CONNECT_HOLDING →
        cb.lcb_pool[j]? = some p → cbN.lcb_pool[j]? = some pN →
        pN.link_state = t → p.link_state ≠ t →
        ∃ (evs1 evs2 : List tLINK_EVENT) (ev : tLINK_EVENT) (cbk : tL2C_CB) (pk : tL2C_LCB),
          evs = evs1 ++ ev :: evs2 ∧ link_run env fuel cb evs1 = some cbk ∧
          cbk.lcb_pool[j]? = some pk ∧ pk.link_state = .LST_CONNECTING ∧
          (t = .LST_CONNECTED → is_conn_comp_success ev = true)) ∧
      (evs.all is_notification = true →
        ∀ (j : Nat) (p pN : tL2C_LCB), cb.lcb_pool[j]? = some p →
          cbN.lcb_pool[j]? = some pN → pN.link_state = p.link_state)) := by
  refine ⟨fun cb cb1 ev h => link_event_step_ok env ha fuel cb cb1 ev h, ?_⟩
  intro cb cbN evs hrun
  refine ⟨link_run_length env ha fuel evs cb cbN hrun, ?_, ?_, ?_⟩
  · intro evs1 evs2 ev cbk cbk1 _ _ h
    exact link_event_step_ok env ha fuel cbk cbk1 ev h
  · intro j p pN t ht hp hpN h1 h0
    exact link_run_enters env ha fuel t ht evs cb cbN hrun j p pN hp hpN h1 h0
  · intro hn j p pN hp hpN
    exact link_run_notifications env ha fuel evs cb cbN hrun hn j p pN hp hpN

/-- Witness of C35 on `cb_connecting`: the connect-complete with `HCI_SUCCESS`
for the address 7 takes the link from `LST_CONNECTING` to `LST_CONNECTED`. -/
theorem link_state_transitions_witness :
    step_ok (.hci_conn_comp .HCI_SUCCESS 9 7) cb_connecting
      { lcb_pool :=
          [ { in_use := true, remote_bd_addr := 7, link_state := .LST_CONNECTED, handle := 9,
              ccb_queue :=
                [ { local_cid := 64, ccb_id := 1 }, { local_cid := 65, ccb_id := 2 } ] },
            {} ],
        num_links_active := 1,
        calls :=
          [.btm_acl_update_busy_level, .l2cu_send_peer_info_req 0,
            .btm_acl_created 7 9 .HCI_ROLE_MASTER, .BTM_SetLinkSuperTout 7,
            .l2c_process_held_packets,
            .l2c_csm_execute 1 .L2CEVT_LP_CONNECT_CFM,
            .l2c_csm_execute 2 .L2CEVT_LP_CONNECT_CFM] } :=
  (link_state_transitions env_alloc allocate_frame_alloc 0).1 cb_connecting _
    (.hci_conn_comp .HCI_SUCCESS 9 7) rfl

/-- With the LE code compiled in, only a buffer of a BR/EDR or an LE link fits
an ACL packet. -/
theorem fits_acl_packet_transport (env : Env) (p : tL2C_LCB) (b : BT_HDR)
    (h : fits_acl_packet env p b = true) (hb : env.BLE_INCLUDED = true) :
    p.transport = .BT_TRANSPORT_BR_EDR ∨ p.transport = .BT_TRANSPORT_LE := by
  unfold fits_acl_packet at h
  simp only [hb, if_true, Bool.or_eq_true, Bool.and_eq_true, decide_eq_true_eq] at h
  rcases h with h | h
  · exact Or.inl h.2
  · exact Or.inr h.1

theorem fits_acl_packet_cong (env : Env) (p q : tL2C_LCB) (b : BT_HDR)
    (h : q.transport = p.transport) : fits_acl_packet env q b = fits_acl_packet env p b := by
  unfold fits_acl_packet
  rw [h]

/-- For a BR/EDR or an LE link, the loop condition of the private-quota branch
says that the controller window of the transport of the link is not 0 and that
the link has less than its quota outstanding. -/
theorem private_may_send_window (env : Env) (cb : tL2C_CB) (p : tL2C_LCB)
    (htr : env.BLE_INCLUDED = true →
      p.transport = .BT_TRANSPORT_BR_EDR ∨ p.transport = .BT_TRANSPORT_LE) :
    private_may_send env cb p
      = (decide (xmit_window_of env cb p ≠ 0)
          && decide (p.sent_not_acked < p.link_xmit_quota)) := by
  unfold private_may_send xmit_window_of is_le
  cases hb : env.BLE_INCLUDED with
  | false => simp
  | true =>
    rcases htr hb with h | h
    · simp [h]
    · simp [h]

theorem send_segs_fits (env : Env) (cb : tL2C_CB) (p : tL2C_LCB) (b : BT_HDR)
    (h : fits_acl_packet env p b = true) : send_segs env cb p b = (1, false) := by
  unfold send_segs
  rw [if_pos h]

/-- A pass of the link-queue loop of the private-quota branch: the front buffer
is taken off the queue and sent.  For a buffer that fits one ACL packet the
link has one more outstanding and the window of its transport is one lower. -/
theorem send_after_set_count (env : Env) (cb : tL2C_CB) (i : Nat) (p : tL2C_LCB)
    (rest : List BT_HDR) (b : BT_HDR) (hp : cb.lcb_pool[i]? = some p) :
    ∃ p2 x, (l2c_link_send_to_lower env
          { cb with lcb_pool := cb.lcb_pool.set i { p with link_xmit_data_q := rest } } i
          b).lcb_pool[i]? = some p2 ∧
      p2.link_xmit_data_q = rest ∧ p2.ccb_queue = p.ccb_queue ∧
      p2.transport = p.transport ∧ p2.link_xmit_quota = p.link_xmit_quota ∧
      (l2c_link_send_to_lower env
          { cb with lcb_pool := cb.lcb_pool.set i { p with link_xmit_data_q := rest } } i
          b).hci_sent
        = cb.hci_sent ++ [⟨p.handle, { b with layer_specific := x }, is_le env p⟩] ∧
      (fits_acl_packet env p b = true →
        p2.sent_not_acked = u16_add p.sent_not_acked 1 ∧
        xmit_window_of env (l2c_link_send_to_lower env
            { cb with lcb_pool := cb.lcb_pool.set i { p with link_xmit_data_q := rest } } i
            b) p2 = u16_sub (xmit_window_of env cb p) 1) := by
  have hp1 : ({ cb with lcb_pool := cb.lcb_pool.set i { p with link_xmit_data_q := rest } }
      : tL2C_CB).lcb_pool[i]? = some { p with link_xmit_data_q := rest } :=
    getElem?_set_same _ i _ _ hp
  have hw := send_to_lower_window env _ i { p with link_xmit_data_q := rest }
    { p with
      link_xmit_data_q := rest,
      sent_not_acked := u16_add p.sent_not_acked
        (send_segs env { cb with lcb_pool := cb.lcb_pool.set i { p with link_xmit_data_q := rest } }
          { p with link_xmit_data_q := rest } b).1,
      partial_segment_being_sent := p.partial_segment_being_sent ||
        (send_segs env { cb with lcb_pool := cb.lcb_pool.set i { p with link_xmit_data_q := rest } }
          { p with link_xmit_data_q := rest } b).2 } b hp1 rfl
  have hslot := send_to_lower_slot env _ i { p with link_xmit_data_q := rest } b hp1
  have hsent : ∃ x, (l2c_link_send_to_lower env
      { cb with lcb_pool := cb.lcb_pool.set i { p with link_xmit_data_q := rest } } i b).hci_sent
      = cb.hci_sent ++ [⟨p.handle, { b with layer_specific := x }, is_le env p⟩] := by
    rw [send_to_lower_eq env _ i _ b hp1]
    exact ⟨_, rfl⟩
  obtain ⟨x, hx⟩ := hsent
  refine ⟨_, x, hslot, rfl, rfl, rfl, rfl, hx, ?_⟩
  intro hf
  have hs : send_segs env
      { cb with lcb_pool := cb.lcb_pool.set i { p with link_xmit_data_q := rest } }
      { p with link_xmit_data_q := rest } b = (1, false) :=
    send_segs_fits env _ _ b
      ((fits_acl_packet_cong env p { p with link_xmit_data_q := rest } b rfl).trans hf)
  rw [hs] at hw
  refine ⟨?_, hw⟩
  dsimp only
  rw [hs]

/-- The link-queue loop of the private-quota branch hands the first `k` buffers
of the queue to the lower layer, in order, and leaves the rest on the queue.
It ends only with the queue empty or its loop condition false; when every
buffer fits one ACL packet, `k` is the least of the queue length, the window of
the transport of the link and what is left of the quota of the link. -/
theorem drain_link_q_count (env : Env) (i : Nat) (q : List BT_HDR) (cb : tL2C_CB)
    (p : tL2C_LCB) (hp : cb.lcb_pool[i]? = some p) (hq : p.link_xmit_data_q = q) :
    ∃ k p1 more, (drain_link_q env i q cb).lcb_pool[i]? = some p1 ∧
      p1.link_xmit_data_q = q.drop k ∧ p1.ccb_queue = p.ccb_queue ∧
      (drain_link_q env i q cb).hci_sent = cb.hci_sent ++ more ∧
      more.map (fun s => clear_layer_specific s.buf) = (q.take k).map clear_layer_specific ∧
      k ≤ q.length ∧
      (k = q.length ∨ private_may_send env (drain_link_q env i q cb) p1 = false) ∧
      ((∀ x ∈ q, fits_acl_packet env p x = true) → xmit_window_of env cb p < U16 →
        p.link_xmit_quota < U16 →
        k = min q.length
          (min (xmit_window_of env cb p) (p.link_xmit_quota - p.sent_not_acked))) := by
  induction q generalizing cb p with
  | nil =>
    refine ⟨0, p, [], hp, ?_, rfl, ?_, rfl, le_refl _, Or.inl rfl, ?_⟩
    · rw [hq]; rfl
    · simp [drain_link_q]
    · intro _ _ _
      simp
  | cons b rest ih =>
    unfold drain_link_q
    rw [hp]
    dsimp only
    by_cases hm : private_may_send env cb p = true
    · rw [if_pos hm]
      obtain ⟨p2, x, hp2, hq2, hc2, ht2, hquota2, hs2, hfit2⟩ :=
        send_after_set_count env cb i p rest b hp
      obtain ⟨k, p1, more, h1, h2, h3, h4, h5, h6, h7, h8⟩ := ih _ p2 hp2 hq2
      refine ⟨k + 1, p1, ⟨p.handle, { b with layer_specific := x }, is_le env p⟩ :: more,
        h1, h2, h3.trans hc2, ?_, ?_, ?_, ?_, ?_⟩
      · rw [h4, hs2, List.append_assoc]
        rfl
      · simp only [List.map_cons, List.take_succ_cons, h5]
        rfl
      · simp only [List.length_cons]
        omega
      · rcases h7 with h7 | h7
        · left
          simp only [List.length_cons]
          omega
        · right
          exact h7
      · intro hfits hw16 hq16
        have hfb := hfits b (List.mem_cons_self _ _)
        obtain ⟨hsna, hwin⟩ := hfit2 hfb
        have hmw := private_may_send_window env cb p (fits_acl_packet_transport env p b hfb)
        rw [hmw] at hm
        simp only [Bool.and_eq_true, decide_eq_true_eq] at hm
        obtain ⟨hw0, hlt⟩ := hm
        rw [u16_add_lt _ _ (by omega)] at hsna
        rw [u16_sub_le _ _ (by omega) hw16] at hwin
        have hk := h8
          (fun y hy => by
            rw [fits_acl_packet_cong env p p2 y ht2]
            exact hfits y (List.mem_cons_of_mem _ hy))
          (by rw [hwin]; omega) (by rw [hquota2]; exact hq16)
        rw [hwin, hsna, hquota2] at hk
        simp only [List.length_cons]
        omega
    · rw [if_neg hm]
      simp only [Bool.not_eq_true] at hm
      refine ⟨0, p, [], hp, ?_, rfl, ?_, rfl, Nat.zero_le _, Or.inr hm, ?_⟩
      · rw [hq]; rfl
      · simp
      · intro hfits _ _
        have hfb := hfits b (List.mem_cons_self _ _)
        rw [private_may_send_window env cb p (fits_acl_packet_transport env p b hfb)] at hm
        simp only [Bool.and_eq_false_iff, decide_eq_false_iff_not, not_not, not_lt] at hm
        rcases hm with hm | hm
        · rw [hm]; simp
        · rw [Nat.sub_eq_zero_of_le hm]; simp

/-- The flow-control timer of lines 1352-1360 leaves the queue, the channel
records and the loop condition of the link as they are. -/
theorem private_timer_may_send (env : Env) (cb : tL2C_CB) (i : Nat) (p : tL2C_LCB)
    (hp : cb.lcb_pool[i]? = some p) :
    ∃ p1, (private_timer cb i).lcb_pool[i]? = some p1 ∧
      p1.link_xmit_data_q = p.link_xmit_data_q ∧ p1.ccb_queue = p.ccb_queue ∧
      (private_timer cb i).hci_sent = cb.hci_sent ∧
      private_may_send env (private_timer cb i) p1 = private_may_send env cb p := by
  unfold private_timer
  rw [hp]
  dsimp only
  split
  · exact ⟨_, getElem?_set_same _ i _ _ hp, rfl, rfl, rfl, rfl⟩
  · exact ⟨p, hp, rfl, rfl, rfl, rfl⟩

/-- C15 (amended): for a link `p` with a private quota, `l2c_link_check_send_pkts`
called with a channel and a buffer appends the buffer to the link queue and then
sends from the link queue only.  The call returns whatever the fuel of the
channel loop; the buffers it hands to the lower layer are the first `k` buffers
of the link queue (the passed buffer at its end), in order, and the rest stays
queued; the channel records of the link and the other links are left as they
are.  The number `k` is 0 when the call returns before the loops
(`private_held`).  Otherwise as many buffers are sent as window and quota
allow: the call ends with the link queue empty or with the loop condition of
lines 1297-1303 false, and when every buffer on the queue fits one ACL packet
and window and quota are 16-bit values, `k` is the least of the queue length,
the controller window of the transport of the link and
`link_xmit_quota - sent_not_acked`, which is two or more when a buffer was
waiting and window and quota have room for two. -/
theorem check_send_pkts_single_write_private (env : Env) (fuel : Nat) (cb : tL2C_CB)
    (i : Nat) (p : tL2C_LCB) (c : tL2C_CCB) (b : BT_HDR) (hp : cb.lcb_pool[i]? = some p)
    (hq : p.link_xmit_quota ≠ 0) :
    ∃ cb1, l2c_link_check_send_pkts env fuel cb (some i) (some c) (some b) = some cb1 ∧
      (∀ j, j ≠ i → cb1.lcb_pool[j]? = cb.lcb_pool[j]?) ∧
      ∃ k p1 more, cb1.lcb_pool[i]? = some p1 ∧
        p1.link_xmit_data_q = (p.link_xmit_data_q ++ [tagged_buf (some c) b]).drop k ∧
        p1.ccb_queue = p.ccb_queue ∧
        cb1.hci_sent = cb.hci_sent ++ more ∧
        more.map (fun s => clear_layer_specific s.buf)
          = ((p.link_xmit_data_q ++ [tagged_buf (some c) b]).take k).map
              clear_layer_specific ∧
        k ≤ (p.link_xmit_data_q ++ [tagged_buf (some c) b]).length ∧
        (private_held env cb
            { p with link_xmit_data_q := p.link_xmit_data_q ++ [tagged_buf (some c) b] } = true →
          k = 0) ∧
        (private_held env cb
            { p with link_xmit_data_q := p.link_xmit_data_q ++ [tagged_buf (some c) b] } = false →
          (p1.link_xmit_data_q = [] ∨ private_may_send env cb1 p1 = false) ∧
          ((∀ x ∈ p.link_xmit_data_q ++ [tagged_buf (some c) b], fits_acl_packet env p x = true) →
            xmit_window_of env cb p < U16 → p.link_xmit_quota < U16 →
            k = min (p.link_xmit_data_q ++ [tagged_buf (some c) b]).length
                (min (xmit_window_of env cb p) (p.link_xmit_quota - p.sent_not_acked)) ∧
            (p.link_xmit_data_q ≠ [] → 2 ≤ xmit_window_of env cb p →
              p.sent_not_acked + 2 ≤ p.link_xmit_quota → 2 ≤ k))) := by
  have hpe : (enqueue_buf env cb i p (some c) b).lcb_pool[i]? = some
      { p with link_xmit_data_q := p.link_xmit_data_q ++ [tagged_buf (some c) b] } := by
    rw [enqueue_buf_pool]
    exact getElem?_set_same _ i _ _ hp
  have hother : ∀ j, j ≠ i →
      (enqueue_buf env cb i p (some c) b).lcb_pool[j]? = cb.lcb_pool[j]? := by
    intro j hj
    rw [enqueue_buf_pool]
    exact List.getElem?_set_ne (Ne.symm hj)
  obtain ⟨hce, hse⟩ := enqueue_buf_cong env cb i p (some c) b
  have hwe : xmit_window_of env (enqueue_buf env cb i p (some c) b)
      { p with link_xmit_data_q := p.link_xmit_data_q ++ [tagged_buf (some c) b] }
      = xmit_window_of env cb p := by
    rw [enqueue_buf_eq]
    rfl
  unfold l2c_link_check_send_pkts
  simp only [hp, Option.isSome_some]
  unfold sched_link
  rw [hce]
  generalize enqueue_buf env cb i p (some c) b = cbe at hpe hother hse hwe ⊢
  unfold private_held
  cases hcong : cb.is_cong_cback_context with
  | true =>
    simp only [if_true, Bool.true_or]
    refine ⟨cbe, rfl, hother, 0, _, [], hpe, rfl, rfl, ?_, rfl, Nat.zero_le _, fun _ => rfl,
      fun h => absurd h (by simp)⟩
    rw [hse]; simp
  | false =>
    simp only [Bool.false_eq_true, if_false, hq, hpe, Bool.false_or]
    unfold sched_private
    dsimp only
    by_cases hg : (p.partial_segment_being_sent || decide (p.link_state ≠ .LST_CONNECTED)
        || L2C_LINK_CHECK_POWER_MODE env
          { p with link_xmit_data_q := p.link_xmit_data_q ++ [tagged_buf (some c) b] }) = true
    · rw [if_pos hg]
      refine ⟨cbe, rfl, hother, 0, _, [], hpe, rfl, rfl, ?_, rfl, Nat.zero_le _, fun _ => rfl, ?_⟩
      · rw [hse]; simp
      · intro h
        rw [hg] at h
        exact absurd h (by simp)
    · rw [if_neg hg]
      simp only [if_true, Option.map_some']
      refine ⟨_, rfl, ?_, ?_⟩
      · intro j hj
        rw [private_timer_other _ i j hj, drain_link_q_other env i j _ cbe hj]
        exact hother j hj
      · obtain ⟨k, p1, more, h1, h2, h3, h4, h5, h6, h7, h8⟩ := drain_link_q_count env i
          (p.link_xmit_data_q ++ [tagged_buf (some c) b]) cbe _ hpe rfl
        obtain ⟨p2, g1, g2, g3, g4, g5⟩ := private_timer_may_send env _ i p1 h1
        refine ⟨k, p2, more, g1, g2.trans h2, g3.trans h3, ?_, h5, h6, ?_, ?_⟩
        · rw [g4, h4, hse]
        · intro h
          exact absurd h hg
        · intro _
          refine ⟨?_, ?_⟩
          · rcases h7 with h7 | h7
            · left
              rw [g2, h2, h7]
              exact List.drop_length _
            · right
              rw [g5]
              exact h7
          · intro hfits hw16 hq16
            have hk := h8
              (fun y hy => (fits_acl_packet_cong env p
                { p with link_xmit_data_q := p.link_xmit_data_q ++ [tagged_buf (some c) b] }
                y rfl).trans (hfits y hy))
              (by rw [hwe]; exact hw16) hq16
            rw [hwe] at hk
            dsimp only at hk
            refine ⟨hk, ?_⟩
            intro hne h2w h2q
            have hlen : 2 ≤ (p.link_xmit_data_q ++ [tagged_buf (some c) b]).length := by
              rw [List.length_append, List.length_singleton]
              have := List.length_pos.mpr hne
              omega
            omega

/-- C15, counterexample: the private-quota link of `cb_private_queued` (quota
3, nothing outstanding, window 3) has one frame waiting on its link queue; the
call with a channel and a second frame hands both frames to the lower layer. -/
theorem single_write_sends_two :
    cb_private_queued.lcb_pool.map
        (fun p => (p.link_xmit_quota, p.sent_not_acked, p.link_xmit_data_q))
      = [(3, 0, [{ len := 10, data := 1 }])] ∧
    (l2c_link_check_send_pkts env0 65536 cb_private_queued (some 0) (some { local_cid := 64 })
        (some { len := 20, data := 2 })).map
      (fun c => (c.hci_sent.map (fun s => s.buf), c.controller_xmit_window,
        c.lcb_pool.map (fun p => (p.sent_not_acked, p.link_xmit_data_q))))
      = some ([{ len := 10, data := 1 }, { event := 64, len := 20, data := 2 }], 1,
          [(2, [])]) := by
  refine ⟨rfl, rfl⟩

/-- Witness of C15 (amended) on the link of `cb_private_queued` (quota 3,
nothing outstanding, window 3, one frame waiting): the call with a second frame
sends both, `k = 2`. -/
theorem check_send_pkts_single_write_private_witness :
    (∃ cb1, l2c_link_check_send_pkts env0 0 cb_private_queued (some 0)
        (some { local_cid := 64 }) (some { len := 20, data := 2 }) = some cb1 ∧
      (∀ j, j ≠ 0 → cb1.lcb_pool[j]? = cb_private_queued.lcb_pool[j]?) ∧
      ∃ k p1 more, cb1.lcb_pool[0]? = some p1 ∧
        p1.link_xmit_data_q
          = (([{ len := 10, data := 1 }] : List BT_HDR)
              ++ [tagged_buf (some { local_cid := 64 }) { len := 20, data := 2 }]).drop k ∧
        p1.ccb_queue = [] ∧
        cb1.hci_sent = cb_private_queued.hci_sent ++ more ∧
        more.map (fun s => clear_layer_specific s.buf)
          = ((([{ len := 10, data := 1 }] : List BT_HDR)
              ++ [tagged_buf (some { local_cid := 64 }) { len := 20, data := 2 }]).take k).map
              clear_layer_specific ∧
        k ≤ 2 ∧ k = 2) ∧
    (l2c_link_check_send_pkts env0 0 cb_private_queued (some 0) (some { local_cid := 64 })
        (some { len := 20, data := 2 })).map
      (fun c => (c.hci_sent.length, c.controller_xmit_window,
        c.lcb_pool.map (fun p => (p.sent_not_acked, p.link_xmit_data_q))))
      = some (2, 1, [(2, [])]) := by
  obtain ⟨cb1, h1, h2, k, p1, more, h3, h4, h5, h6, h7, h8, _, h10⟩ :=
    check_send_pkts_single_write_private env0 0 cb_private_queued 0
      { in_use := true, link_state := .LST_CONNECTED, handle := 6, link_xmit_quota := 3,
        link_xmit_data_q := [ { len := 10, data := 1 } ] }
      { local_cid := 64 } { len := 20, data := 2 } rfl (by decide)
  exact ⟨⟨cb1, h1, h2, k, p1, more, h3, h4, h5, h6, h7, h8,
    ((h10 rfl).2 (by decide) (by decide) (by decide)).1⟩, rfl⟩

end L2c
